import Mathlib

/-!
# scautoloc: the decision engine of `Autoloc3` (autoloc.cpp)

A shallow embedding of the pick intake (`feed`, `_store`, `valid`,
`_tooLowSNR`, `_tooManyRecentPicks`, `_process`), of the blacklist, of the
publication scheduler (`report`, `_flush`, `_publishable`), of `cleanup`, of
the association and merging of origins (`_associate`, `_tryAssociate`,
`merge`), of the handling of manual and imported origins, of the
preliminary origins from XXL picks and of the refinement of an origin
(`_removeOutliers`, `_trimResiduals`, `_enhanceScore`,
`_excludeDistantStations`, `_store(Origin*)`) of
`src/apps/processing/scautoloc/autoloc.cpp`.

Conventions of the embedding

* `double` and `Time` values are rationals: finite values with the usual
  order (no NaN, no infinity). Arithmetic is exact, except where a result
  goes into a comparison whose outcome the rounding decides; there the
  rounded result is taken (`roundDouble`).
* A `const Pick*` is identified with the id of the pick: the pick pool holds
  one record per id and `_process` is always run on the pool record.
* `std::map` is an association list kept in key order; `operator[]` inserts a
  value-initialised entry when the key is absent (`mapTouch`).
* Functions that are declared in headers outside the translated file
  (`Origin::rms`, `Origin::phaseCount`, `hasAmplitude`), the host callback
  `_report` and the association / nucleation stage of `_process` are taken as
  parameters, bundled in `Collaborators`.
* A loop whose end is not evident carries a bound on the number of passes;
  the result is `none` when the loop has not ended within the bound.
* Where pointers to the same origin object matter (`_store(Origin*)`), the
  objects are kept by address (`OriginStore`); the control flow of `_process`
  behind the intake is given over the called functions (`Stages`).
-/

namespace Autoloc

/-! ## Data model -/

abbrev Time := ℚ

abbrev OriginID := Int

abbrev PickID := String

/-- The processing mode of a pick (`Pick::Mode`). -/
inductive PickMode where
  | Automatic
  | Manual
  | IgnoredAutomatic
deriving DecidableEq, Repr

/-- The exclusion state of an arrival (`Arrival::ExcludeReason`). -/
inductive ExcludeReason where
  | NotExcluded
  | LargeResidual
  | StationDistance
  | TemporarilyExcluded
  | ManuallyExcluded
  | UnusedPhase
  | DeterioratesSolution
deriving DecidableEq, Repr

/-- The way the depth of an origin was obtained (`Origin::DepthType`). -/
inductive DepthType where
  | DepthFree
  | DepthDefault
  | DepthManuallyFixed
  | DepthPhases
deriving DecidableEq, Repr

structure Station where
  net : String
  code : String
  lat : ℚ
  lon : ℚ
  elev : ℚ
  used : Bool
  maxNucDist : ℚ
  maxLocDist : ℚ
deriving DecidableEq

structure Pick where
  id : PickID
  time : Time
  amp : ℚ
  per : ℚ
  snr : ℚ
  normamp : ℚ
  mode : PickMode
  xxl : Bool
  /-- The resolved station, `none` for a null `station()`. -/
  station : Option Station
  /-- The weak back reference `origin()` to the owning origin. -/
  origin : Option OriginID
deriving DecidableEq

structure Arrival where
  pick : PickID
  phase : String
  residual : ℚ
  distance : ℚ
  azimuth : ℚ
  affinity : ℚ
  score : ℚ
  excluded : ExcludeReason
deriving DecidableEq

structure Hypocenter where
  lat : ℚ
  lon : ℚ
  dep : ℚ
deriving DecidableEq

structure OriginQuality where
  aziGapSecondary : ℚ
deriving DecidableEq

structure Origin where
  id : OriginID
  hypocenter : Hypocenter
  time : Time
  timestamp : Time
  arrivals : List Arrival
  quality : OriginQuality
  score : ℚ
  depthType : DepthType
  preliminary : Bool
  imported : Bool
deriving DecidableEq

/-- The part of `Autoloc3::Config` that the embedded functions read. -/
structure Config where
  maxAziGapSecondary : ℚ
  minScore : ℚ
  maxRMS : ℚ
  maxDepth : ℚ
  publicationIntervalPickCount : Int
  publicationIntervalTimeSlope : ℚ
  publicationIntervalTimeIntercept : ℚ
  playback : Bool
  minPickSNR : ℚ
  dynamicPickThresholdInterval : ℚ
  xxlEnabled : Bool
  xxlMinAmplitude : ℚ
  xxlMinSNR : ℚ
  xxlDeadTime : ℚ
  useManualPicks : Bool
  useManualOrigins : Bool
  maxResidualUse : ℚ
  aggressivePKP : Bool
  minStaCountIgnorePKP : Int
  defaultDepthStickiness : ℚ
  defaultDepth : ℚ
  minPhaseCount : Int
  maxAge : ℚ
  cleanupInterval : ℚ
  minPickAffinity : ℚ
  xxlMaxDepth : ℚ
  xxlMaxStaDist : ℚ
  xxlMinPhaseCount : Int
  goodRMS : ℚ
  maxResidualKeep : ℚ
  minScoreBypassNucleator : ℚ

/-- The state of an `Autoloc3` instance. `reportLog` is a ghost field: the
origins handed to the `_report` callback so far, oldest first. -/
structure State where
  _now : Time
  _nextCleanup : Time
  pickPool : List Pick
  _origins : List Origin
  _newOrigins : List Origin
  _outgoing : List (OriginID × Origin)
  _nextDue : List (OriginID × Time)
  _lastSent : List (OriginID × Origin)
  _blacklist : List PickID
  reportLog : List Origin

/-- The result of `_process`: the returned status, the pick record as the
intake stage left it (`xxl`, `normamp`, `mode`) and the engine state. -/
structure ProcessResult where
  status : Bool
  pick : Pick
  state : State

/-- What the translated file uses but does not define. -/
structure Collaborators where
  /-- `Origin::rms()` of the data model. -/
  rms : Origin → ℚ
  /-- `Origin::phaseCount()` of the data model. -/
  phaseCount : Origin → Int
  /-- `hasAmplitude(pick)` of util.h. -/
  hasAmplitude : Pick → Bool
  /-- The host callback `_report`. -/
  _report : Origin → Bool
  /-- `_perhapsPdiff`, which consults the travel-time tables. -/
  _perhapsPdiff : State → Pick → Bool
  /-- The association / nucleation stage of `_process`, from `_tryAssociate`
  to the end of the function. -/
  locate : Pick → State → Bool × State
  /-- `delazi(hypocenter, station, delta, az, baz)`: distance in degrees,
  azimuth and back azimuth. -/
  delazi : Hypocenter → Station → ℚ × ℚ × ℚ
  /-- `travelTimeP(...)` for a source, a station and their distance: the
  travel time, `none` when the function returns false. -/
  travelTimeP : Hypocenter → Station → ℚ → Option ℚ
  /-- `originScore(origin)` of util.h, the value of `_score`. -/
  originScore : Origin → ℚ
  /-- `_relocator.relocate(origin)`; the first argument is the depth set by
  `setFixedDepth` when `useFixedDepth(true)` is in force, `none` for a free
  depth. The result is `none` when the relocation fails. -/
  relocate : Option ℚ → Origin → Option Origin
  /-- `sqrt` of the C library. -/
  sqrt : ℚ → ℚ
  /-- `exp` of the C library. -/
  exp : ℚ → ℚ
  /-- `_trimResiduals(origin)`: the origin as the function leaves it. -/
  trimResiduals : Origin → Origin
  /-- The part of `_testFake` after its two entry checks: the returned
  probability and the origin with the arrivals it has marked. -/
  testFakeBody : List Origin → Origin → ℚ × Origin
  /-- The station registry `_stations`, filled by `setStation` before picks
  are fed: the entry found under the key `net.sta` of a pick, if any. -/
  stationOf : Pick → Option Station
  /-- `distance(station1, station2)` of util.h, in degrees. -/
  distance : Station → Station → ℚ
  /-- `ArrivalVector::sort()` of the data model. -/
  sortArrivals : List Arrival → List Arrival
  /-- The formal depth error `error.sdepth` that the relocator attaches to an
  origin. -/
  sdepth : Origin → ℚ
  /-- The formal time error `error.stime` that the relocator attaches to an
  origin. -/
  stime : Origin → ℚ

/-! ## `std::map` as an association list -/

/-- `m.find(k)`: the value stored under `k`, if any. -/
def mapFind {α : Type} : List (OriginID × α) → OriginID → Option α
  | [], _ => none
  | (k, v) :: m, j => if k = j then some v else mapFind m j

/-- `m[k] = v`: replaces the entry of `k` or inserts it at its place in key
order. -/
def mapInsert {α : Type} : List (OriginID × α) → OriginID → α → List (OriginID × α)
  | [], k, v => [(k, v)]
  | (k', v') :: m, k, v =>
    if k < k' then (k, v) :: (k', v') :: m
    else if k = k' then (k, v) :: m
    else (k', v') :: mapInsert m k v

/-- `m.erase(k)`. -/
def mapErase {α : Type} (m : List (OriginID × α)) (k : OriginID) : List (OriginID × α) :=
  m.filter (fun e => decide (e.1 ≠ k))

/-- The side effect of reading `m[k]`: an absent key receives the
value-initialised entry `d`. -/
def mapTouch {α : Type} (m : List (OriginID × α)) (k : OriginID) (d : α) :
    List (OriginID × α) :=
  if (mapFind m k).isSome then m else mapInsert m k d

/-- The value read by `m[k]`. -/
def mapGet {α : Type} (m : List (OriginID × α)) (k : OriginID) (d : α) : α :=
  (mapFind m k).getD d

/-! ## Helpers of the data model and of util.h -/

/-- Modelled from the spec: `Origin::definingPhaseCount()` (datamodel, not in
the translated file) is the number of arrivals with
`excluded == NotExcluded`. -/
def definingPhaseCount (origin : Origin) : Int :=
  ((origin.arrivals.filter (fun a => decide (a.excluded = ExcludeReason.NotExcluded))).length : Int)

/-- Modelled from the spec: `automatic(pick)` (util.h, not in the translated
file) tests the pick mode. -/
def automatic (pick : Pick) : Bool :=
  decide (pick.mode = PickMode.Automatic)

/-- Modelled from the spec: `manual(pick)` (util.h, not in the translated
file) tests the pick mode. -/
def manual (pick : Pick) : Bool :=
  decide (pick.mode = PickMode.Manual)

/-! ## Rounding to a double -/

/-- The integer nearest to `x`, a tie going to the even neighbour. -/
def roundHalfEven (x : ℚ) : Int :=
  if x - (⌊x⌋ : ℚ) < 1 / 2 then ⌊x⌋
  else if x - (⌊x⌋ : ℚ) > 1 / 2 then ⌊x⌋ + 1
  else if ⌊x⌋ % 2 = 0 then ⌊x⌋ else ⌊x⌋ + 1

/-- The exponent of the spacing of the doubles at `x`: 52 below the binary
exponent of `x`, and -1074 in the subnormal range. -/
def ulpExponent (x : ℚ) : Int :=
  max (Int.log 2 |x|) (-1022) - 52

/-- The double nearest to the real `x` (IEEE 754 binary64, round to nearest,
ties to even): the result of an arithmetic operation on doubles whose exact
result is `x`. Overflow is left aside: a result beyond the largest double is
not turned into an infinity. -/
def roundDouble (x : ℚ) : ℚ :=
  (roundHalfEven (x / (2 : ℚ) ^ ulpExponent x) : ℚ) * (2 : ℚ) ^ ulpExponent x

/-- The value of the literal `0.2`: the double nearest to 1/5. -/
def double_0_2 : ℚ := 3602879701896397 / 18014398509481984

/-- The value of the literal `0.8`: the double nearest to 4/5. -/
def double_0_8 : ℚ := 3602879701896397 / 4503599627370496

/-- The value of the literal `1.1`: the double nearest to 11/10. -/
def double_1_1 : ℚ := 2476979795053773 / 2251799813685248

/-! ## Publication scheduler -/

/-- `Autoloc3::now()`: the logical clock in playback mode, the wall clock
`utc` otherwise. A call of `report` or `_flush` reads one wall clock value. -/
def now (cfg : Config) (utc : Time) (s : State) : Time :=
  if cfg.playback then s._now else utc

/-- `Autoloc3::_publishable`. -/
def _publishable (cfg : Config) (ext : Collaborators) (origin : Origin) : Bool :=
  if origin.quality.aziGapSecondary > cfg.maxAziGapSecondary then false
  else if origin.score < cfg.minScore then false
  else if ext.rms origin > cfg.maxRMS then false
  else if origin.hypocenter.dep > cfg.maxDepth then false
  else true

/-- The test of the first loop of `_flush` for one outgoing origin, given the
value `due` read from `_nextDue[origin->id]`: `dt >= 0 || dn >= dnmax`. -/
def isDue (cfg : Config) (ext : Collaborators) (t : Time) (lastSent : List (OriginID × Origin))
    (due : Time) (origin : Origin) : Bool :=
  let dnmax := cfg.publicationIntervalPickCount
  let dt := t - due
  let dn :=
    match mapFind lastSent origin.id with
    | some previous => ext.phaseCount origin - ext.phaseCount previous
    | none => dnmax
  decide (dt ≥ 0) || decide (dn ≥ dnmax)

/-- One iteration of the first loop of `_flush`. The accumulator is `_nextDue`
(reading `_nextDue[origin->id]` may insert an entry) and the vector `ids`. -/
def selectStep (cfg : Config) (ext : Collaborators) (t : Time)
    (lastSent : List (OriginID × Origin))
    (acc : List (OriginID × Time) × List OriginID) (item : OriginID × Origin) :
    List (OriginID × Time) × List OriginID :=
  let origin := item.2
  let nextDue := mapTouch acc.1 origin.id 0
  if isDue cfg ext t lastSent (mapGet nextDue origin.id 0) origin then
    (nextDue, acc.2 ++ [origin.id])
  else
    (nextDue, acc.2)

/-- The first loop of `_flush`: the ids of the outgoing origins that are due. -/
def selectDue (cfg : Config) (ext : Collaborators) (t : Time) (s : State) :
    List (OriginID × Time) × List OriginID :=
  s._outgoing.foldl (selectStep cfg ext t s._lastSent) (s._nextDue, [])

/-- The no-improvement test of `_flush` against the last sent version
`previous` (`none` when `_lastSent` has no entry for the id). -/
def noImprovement (t : Time) (origin : Origin) (previous : Option Origin) : Bool :=
  match previous with
  | some previous =>
    decide (definingPhaseCount origin ≤ definingPhaseCount previous) &&
      (decide (origin.arrivals.length ≤ previous.arrivals.length) ||
        decide (t - previous.timestamp < 150))
  | none => false

/-- The value stored in `_nextDue` after a successful send at time `t`. -/
def nextDueAfter (cfg : Config) (t : Time) (origin : Origin) : Time :=
  let N := definingPhaseCount origin
  let A := cfg.publicationIntervalTimeSlope
  let B := cfg.publicationIntervalTimeIntercept
  let dt := A * (N : ℚ) + B
  if dt < 0 then 0 else t + dt

/-- The state after a successful `_report(origin)` in `_flush`. -/
def markSent (cfg : Config) (t : Time) (s : State) (id : OriginID) (origin : Origin) : State :=
  { s with
    _nextDue := mapInsert s._nextDue id (nextDueAfter cfg t origin)
    _lastSent := mapInsert s._lastSent id { origin with timestamp := t }
    _outgoing := mapErase s._outgoing id }

/-- One iteration of the second loop of `_flush`, for the due id `id`. The ids
of the loop are keys of `_outgoing`; for an id without entry the step does
nothing. -/
def flushStep (cfg : Config) (ext : Collaborators) (t : Time) (s : State) (id : OriginID) :
    State :=
  match mapFind s._outgoing id with
  | none => s
  | some origin =>
    if !_publishable cfg ext origin then
      { s with _outgoing := mapErase s._outgoing id }
    else if noImprovement t origin (mapFind s._lastSent id) then
      { s with _outgoing := mapErase s._outgoing id }
    else
      let s1 := { s with reportLog := s.reportLog ++ [origin] }
      if ext._report origin then markSent cfg t s1 id origin else s1

/-- `Autoloc3::_flush`. -/
def _flush (cfg : Config) (ext : Collaborators) (utc : Time) (s : State) : State :=
  let t := now cfg utc s
  let sel := selectDue cfg ext t s
  sel.2.foldl (flushStep cfg ext t) { s with _nextDue := sel.1 }

/-- One iteration of the loop of `report` over `_newOrigins`. -/
def enqueue (s : State) (origin : Origin) : State :=
  { s with
    _nextDue := if (mapFind s._nextDue origin.id).isNone then mapInsert s._nextDue origin.id 0
                else s._nextDue
    _outgoing := mapInsert s._outgoing origin.id origin }

/-- `Autoloc3::report`. -/
def report (cfg : Config) (ext : Collaborators) (utc : Time) (s : State) : State :=
  _flush cfg ext utc { s._newOrigins.foldl enqueue s with _newOrigins := [] }

/-- The origins handed to `_report` during one call of `_flush`. -/
def reportedBy (cfg : Config) (ext : Collaborators) (utc : Time) (s : State) : List Origin :=
  (_flush cfg ext utc s).reportLog.drop s.reportLog.length

/-! ## The scheduler seen from one origin id -/

/-- The entries of one origin id in the three scheduler maps. -/
structure Slot where
  outgoing : Option Origin
  nextDue : Option Time
  lastSent : Option Origin

/-- The entries of `id` in `_outgoing`, `_nextDue` and `_lastSent`. -/
def slot (s : State) (id : OriginID) : Slot :=
  ⟨mapFind s._outgoing id, mapFind s._nextDue id, mapFind s._lastSent id⟩

/-- Whether the second loop of `_flush` hands the outgoing origin of a slot
to `_report`. -/
def slotReports (cfg : Config) (ext : Collaborators) (t : Time) (v : Slot) : List Origin :=
  match v.outgoing with
  | none => []
  | some origin =>
    if !_publishable cfg ext origin then []
    else if noImprovement t origin v.lastSent then []
    else [origin]

/-- The effect of one iteration of the second loop of `_flush` on the slot
of its own id. -/
def slotStep (cfg : Config) (ext : Collaborators) (t : Time) (v : Slot) : Slot :=
  match v.outgoing with
  | none => v
  | some origin =>
    if !_publishable cfg ext origin then { v with outgoing := none }
    else if noImprovement t origin v.lastSent then { v with outgoing := none }
    else if ext._report origin then
      ⟨none, some (nextDueAfter cfg t origin), some { origin with timestamp := t }⟩
    else v

/-- The keys of `_outgoing` are the ids of the stored origins, one entry per
key: what `report` and `std::map` maintain. -/
def WellKeyed (m : List (OriginID × Origin)) : Prop :=
  (∀ e ∈ m, e.2.id = e.1) ∧ (m.map Prod.fst).Nodup

instance (m : List (OriginID × Origin)) : Decidable (WellKeyed m) :=
  inferInstanceAs (Decidable ((∀ e ∈ m, e.2.id = e.1) ∧ (m.map Prod.fst).Nodup))

/-- The outgoing origin `origin` is selected by the first loop of `_flush`
at time `t`. -/
def selected (cfg : Config) (ext : Collaborators) (t : Time) (s : State) (origin : Origin) :
    Bool :=
  isDue cfg ext t s._lastSent (mapGet s._nextDue origin.id 0) origin

/-! ## Pick intake -/

/-- `valid(pick)`. -/
def valid (ext : Collaborators) (pick : Pick) : Bool :=
  if pick.station.isNone then false
  else if !automatic pick then true
  else if decide (pick.snr ≤ 0) || decide (pick.snr > 10000000) then false
  else if !ext.hasAmplitude pick then false
  else true

/-- `Autoloc3::_tooLowSNR`. -/
def _tooLowSNR (cfg : Config) (pick : Pick) : Bool :=
  if !automatic pick then false
  else if pick.snr < cfg.minPickSNR then true
  else false

/-- The two assignments `if (snr > 15) snr = 15; if (snr < 3) snr = 3;`. -/
def clampSNR (snr : ℚ) : ℚ :=
  let snr1 := if snr > 15 then 15 else snr
  if snr1 < 3 then 3 else snr1

/-- One iteration of the loop of `_tooManyRecentPicks` over the pick pool. The
accumulator is `(weightedSum, prevThreshold)`. With `xxlDeadTime = 0` the
quotient `dt/xxlDeadTime` is infinite or undefined in the source and the
comparison `x > prevThreshold` is false. -/
def recentPickStep (cfg : Config) (newPick : Pick) (acc : ℚ × ℚ) (oldPick : Pick) : ℚ × ℚ :=
  let timeSpan := cfg.dynamicPickThresholdInterval
  if oldPick.station ≠ newPick.station then acc
  else if !cfg.useManualPicks && manual oldPick && !cfg.useManualOrigins then acc
  else
    let dt := newPick.time - oldPick.time
    if dt < 0 ∨ dt > timeSpan then acc
    else if newPick.origin.isSome then acc
    else
      let snr := clampSNR oldPick.snr
      let x := snr * (1 - dt / cfg.xxlDeadTime)
      (acc.1 + snr * (1 - dt / timeSpan),
        if cfg.xxlDeadTime ≠ 0 ∧ x > acc.2 then x else acc.2)

/-- The value of `weightedSum` in `_tooManyRecentPicks` after
`weightedSum *= 2*0.07`. -/
def recentPickWeight (cfg : Config) (pickPool : List Pick) (newPick : Pick) : ℚ :=
  (pickPool.foldl (recentPickStep cfg newPick) (0, 0)).1 * (2 * (7 / 100))

/-- `Autoloc3::_tooManyRecentPicks`. -/
def _tooManyRecentPicks (cfg : Config) (pickPool : List Pick) (newPick : Pick) : Bool :=
  if !automatic newPick then false
  else if cfg.dynamicPickThresholdInterval ≤ 0 then false
  else if newPick.snr ≤ 0 then true
  else if newPick.snr < recentPickWeight cfg pickPool newPick then true
  else if newPick.snr < (pickPool.foldl (recentPickStep cfg newPick) (0, 0)).2 then true
  else false

/-- `Autoloc3::_blacklisted`. -/
def _blacklisted (s : State) (pick : Pick) : Bool :=
  if pick.id ∉ s._blacklist then false else true

/-- `Autoloc3::_setBlacklisted`. -/
def _setBlacklisted (s : State) (pick : Pick) (yes : Bool) : State :=
  if yes then
    { s with _blacklist := if pick.id ∈ s._blacklist then s._blacklist
                           else pick.id :: s._blacklist }
  else
    { s with _blacklist := s._blacklist.filter (fun id => decide (id ≠ pick.id)) }

/-- `Autoloc3::_followsBiggerPick`. -/
def _followsBiggerPick (cfg : Config) (pickPool : List Pick) (newPick : Pick) : Bool :=
  pickPool.any fun pick =>
    if pick.id = newPick.id then false
    else if !pick.xxl then false
    else if pick.station ≠ newPick.station then false
    else if newPick.time - pick.time < 0 ∨ newPick.time - pick.time > cfg.xxlDeadTime then false
    else true

/-- A write through the `const_cast<Pick*>(pick)` pointer: the pool record of
the pick takes the new field values. -/
def writePick (s : State) (pick : Pick) : State :=
  { s with pickPool := s.pickPool.map (fun q => if q.id = pick.id then pick else q) }

/-- The pick after the XXL tagging of `_process`. -/
def tagXXL (cfg : Config) (pick : Pick) : Pick :=
  if cfg.xxlEnabled && decide (pick.amp ≥ cfg.xxlMinAmplitude) &&
      decide (pick.snr > cfg.xxlMinSNR) then
    { pick with xxl := true }
  else pick

/-- The pick after the amplitude normalisation of `_process`. -/
def normalize (cfg : Config) (pick : Pick) : Pick :=
  let normalizationAmplitude : ℚ := if cfg.xxlEnabled then cfg.xxlMinAmplitude else 2000
  { pick with normamp := pick.amp / normalizationAmplitude }

/-- `Autoloc3::_process`. The call `_log(pick)` only writes the pick log and is
left out; `_setBlacklisted(pick)` is the call with `yes = true`. -/
def _process (cfg : Config) (ext : Collaborators) (pick : Pick) (s : State) : ProcessResult :=
  if !valid ext pick then ⟨false, pick, s⟩
  else if automatic pick && _tooLowSNR cfg pick then ⟨false, pick, s⟩
  else
    let pick1 := normalize cfg (tagXXL cfg pick)
    let s1 := writePick s pick1
    if automatic pick1 && _tooManyRecentPicks cfg s1.pickPool pick1 then
      ⟨false, { pick1 with mode := PickMode.IgnoredAutomatic },
        writePick s1 { pick1 with mode := PickMode.IgnoredAutomatic }⟩
    else if _blacklisted s1 pick1 then ⟨false, pick1, s1⟩
    else if manual pick1 && !cfg.useManualPicks then
      if cfg.useManualOrigins then ⟨true, pick1, s1⟩
      else ⟨false, pick1, _setBlacklisted s1 pick1 true⟩
    else if _followsBiggerPick cfg s1.pickPool pick1 then ⟨false, pick1, s1⟩
    else if ext._perhapsPdiff s1 pick1 then ⟨false, pick1, s1⟩
    else ⟨(ext.locate pick1 s1).1, pick1, (ext.locate pick1 s1).2⟩

/-- The state after `_process` has been run on each pick of a list in turn. -/
def processAll (cfg : Config) (ext : Collaborators) (picks : List Pick) (s : State) : State :=
  picks.foldl (fun st q => (_process cfg ext q st).state) s

/-! ## The recent-pick weight in closed form -/

/-- The old pick is on the station of the new pick and `0 <= dt <= D`, with
`dt = new.time - old.time` and `D = dynamicPickThresholdInterval`. -/
def inWindow (cfg : Config) (newPick oldPick : Pick) : Bool :=
  decide (oldPick.station = newPick.station) &&
    decide (0 ≤ newPick.time - oldPick.time) &&
    decide (newPick.time - oldPick.time ≤ cfg.dynamicPickThresholdInterval)

/-- The contribution `clamp(old.snr, 3, 15) * (1 - dt/D)` of one old pick. -/
def pickWeight (cfg : Config) (newPick oldPick : Pick) : ℚ :=
  max 3 (min oldPick.snr 15) *
    (1 - (newPick.time - oldPick.time) / cfg.dynamicPickThresholdInterval)

/-- The sum of the contributions of the pool picks in the window that satisfy
`keep`. -/
def windowSum (cfg : Config) (keep : Pick → Bool) (pickPool : List Pick) (newPick : Pick) : ℚ :=
  ((pickPool.filter (fun old => inWindow cfg newPick old && keep old)).map
    (pickWeight cfg newPick)).sum

/-- The weight `W` in the words of the specification: `2*0.07` times the sum
of `clamp(old.snr, 3, 15) * (1 - dt/D)` over the pool picks on the same
station with `0 <= dt <= D` that are not yet associated to an origin. -/
def specRecentPickWeight (cfg : Config) (pickPool : List Pick) (newPick : Pick) : ℚ :=
  2 * (7 / 100) * windowSum cfg (fun old => old.origin.isNone) pickPool newPick

/-- The guard of `_tooManyRecentPicks` that skips a manual pick when neither
manual picks nor manual origins are used. -/
def manualIgnored (cfg : Config) (oldPick : Pick) : Bool :=
  !cfg.useManualPicks && manual oldPick && !cfg.useManualOrigins

/-- The weight `W` of the specification without the manual picks that the
engine ignores. -/
def usedRecentPickWeight (cfg : Config) (pickPool : List Pick) (newPick : Pick) : ℚ :=
  2 * (7 / 100) *
    windowSum cfg (fun old => old.origin.isNone && !manualIgnored cfg old) pickPool newPick

/-- The ids of the pool picks that carry the XXL flag. -/
def xxlIds (pickPool : List Pick) : List PickID :=
  (pickPool.filter (fun q => q.xxl)).map (fun q => q.id)

/-! ## Arrivals of an origin -/

/-- Modelled from the spec: `Origin::findArrival(pick)` (datamodel, not in the
translated file) is the index of the arrival that references the pick, `none`
for the result `-1`. -/
def findArrival (origin : Origin) (pick : PickID) : Option Nat :=
  let i := origin.arrivals.findIdx (fun a => decide (a.pick = pick))
  if i < origin.arrivals.length then some i else none

/-- Modelled from the spec: `Origin::add(arr)` (datamodel, not in the
translated file) appends the arrival; an origin holds at most one arrival per
pick, so an arrival whose pick is already referenced is not added. -/
def Origin.add (origin : Origin) (arr : Arrival) : Origin :=
  if (findArrival origin arr.pick).isSome then origin
  else { origin with arrivals := origin.arrivals ++ [arr] }

/-- Modelled from the spec: `Origin::updateFrom(other)` (datamodel, not in the
translated file) takes over every attribute of `other` and keeps the id. -/
def Origin.updateFrom (origin other : Origin) : Origin :=
  { other with id := origin.id }

/-- Modelled from the spec: the constructor `Arrival(pick, phase, residual)`
(datamodel, not in the translated file) yields a not excluded arrival whose
remaining attributes are zero. -/
def Arrival.new (pick : Pick) (phase : String) (residual : ℚ) : Arrival :=
  ⟨pick.id, phase, residual, 0, 0, 0, 0, ExcludeReason.NotExcluded⟩

/-- The assignment `origin->arrivals[index].excluded = reason`. -/
def setExcluded : List Arrival → Nat → ExcludeReason → List Arrival
  | [], _, _ => []
  | a :: rest, 0, reason => { a with excluded := reason } :: rest
  | a :: rest, i + 1, reason => a :: setExcluded rest i reason

/-- Modelled from the spec: `Origin::definingPhaseCount(dmin, dmax)`
(datamodel, not in the translated file) counts the arrivals with
`excluded == NotExcluded` at a distance between `dmin` and `dmax`. -/
def definingPhaseCountIn (origin : Origin) (dmin dmax : ℚ) : Int :=
  ((origin.arrivals.filter (fun a =>
    decide (a.excluded = ExcludeReason.NotExcluded) && decide (dmin ≤ a.distance) &&
      decide (a.distance ≤ dmax))).length : Int)

/-- `Autoloc3::_score`. -/
def _score (ext : Collaborators) (origin : Origin) : ℚ :=
  ext.originScore origin

/-! ## The residual gate -/

/-- `is_P_arrival`. -/
def is_P_arrival (arr : Arrival) : Bool :=
  arr.phase == "P" || arr.phase == "Pn" || arr.phase == "Pg" || arr.phase == "Pb"

/-- `is_PKP_arrival`. -/
def is_PKP_arrival (arr : Arrival) : Bool :=
  arr.phase == "PKP" || arr.phase == "PKPab" || arr.phase == "PKPdf" || arr.phase == "PKiKP"

/-- `Autoloc3::_residualOK`. -/
def _residualOK (cfg : Config) (ext : Collaborators) (arr : Arrival) (minFactor maxFactor : ℚ) :
    Bool :=
  let minResidual0 := -minFactor * cfg.maxResidualUse
  let maxResidual0 := maxFactor * cfg.maxResidualUse
  let minResidual1 := if cfg.aggressivePKP && is_PKP_arrival arr then minResidual0 * 2
                      else minResidual0
  let maxResidual1 := if cfg.aggressivePKP && is_PKP_arrival arr then maxResidual0 * 2
                      else maxResidual0
  let maxResidual2 :=
    if is_P_arrival arr then
      maxResidual1 * (1 + (7 / 10) * ext.exp (-arr.distance * arr.distance / 50))
    else maxResidual1
  if arr.residual < minResidual1 ∨ arr.residual > maxResidual2 then false else true

/-- The factor `k` of the residual gate in the words of the specification. -/
def specFactorPKP (cfg : Config) (arr : Arrival) : ℚ :=
  if cfg.aggressivePKP = true ∧ arr.phase ∈ ["PKP", "PKPab", "PKPdf", "PKiKP"] then 2 else 1

/-- The regional weight `w` of the residual gate in the words of the
specification. -/
def specRegionalWeight (ext : Collaborators) (arr : Arrival) : ℚ :=
  if arr.phase ∈ ["P", "Pn", "Pg", "Pb"] then
    1 + (7 / 10) * ext.exp (-(arr.distance ^ 2) / 50)
  else 1

/-! ## Association of a pick with an origin -/

/-- `mightBeAssociated`. -/
def mightBeAssociated (pick : Pick) (origin : Origin) : Bool :=
  let dt := pick.time - origin.time
  if dt < -10 ∨ dt > 1300 then false else true

/-- The exclusion state that `_associate` gives the new arrival before the
trial relocation: `UnusedPhase` for an imported origin and for the distance
ranges in which a P or PKP pick is not used. -/
def initialExclusion (cfg : Config) (origin : Origin) (phase : String) (delta : ℚ) :
    ExcludeReason :=
  let excluded0 := if origin.imported then ExcludeReason.UnusedPhase
                   else ExcludeReason.NotExcluded
  if phase = "P" ∨ phase = "PKP" then
    if delta > 105 ∧ definingPhaseCountIn origin 0 105 > cfg.minStaCountIgnorePKP then
      ExcludeReason.UnusedPhase
    else if delta > 105 ∧ delta < 125 then ExcludeReason.UnusedPhase
    else excluded0
  else ExcludeReason.UnusedPhase

/-- The end of `_associate` for an origin that is not imported, when no
relocated solution is adopted: the arrival is added to the unchanged origin as
`UnusedPhase` or `DeterioratesSolution`. -/
def attachLoosely (origin : Origin) (arr : Arrival) : Bool × Origin :=
  let arr1 := if arr.excluded ≠ ExcludeReason.UnusedPhase then
                { arr with excluded := ExcludeReason.DeterioratesSolution }
              else arr
  (true, origin.updateFrom (origin.add arr1))

/-- The test of `_associate` on a relocated solution `relo`, followed by the
end of the function: when the residual of the new arrival exceeds
`maxResidualUse`, the arrival is added to the unchanged origin as
`LargeResidual`; otherwise the origin is updated from `relo`. -/
def adoptRelocated (cfg : Config) (origin : Origin) (pick : Pick) (relo : Origin) :
    Bool × Origin :=
  match findArrival relo pick.id with
  | none => (false, origin)
  | some index =>
    match relo.arrivals.get? index with
    | none => (false, origin)
    | some arr =>
      if |arr.residual| > cfg.maxResidualUse then
        (true, origin.add { arr with excluded := ExcludeReason.LargeResidual })
      else (true, origin.updateFrom relo)

/-- The part of `_associate` that follows a successful trial relocation
`relo` of `copy` (the origin with the new arrival `arr`). -/
def judgeRelocated (cfg : Config) (ext : Collaborators) (origin : Origin) (pick : Pick)
    (arr : Arrival) (copy relo : Origin) : Bool × Origin :=
  let original_score := _score ext origin
  let original_rms := ext.rms origin
  let score_after_relocation := _score ext relo
  let rms_after_relocation := ext.rms relo
  if score_after_relocation < original_score ∨
      rms_after_relocation > original_rms + 3 / ext.sqrt (10 + (copy.arrivals.length : ℚ)) then
    match findArrival copy pick.id with
    | none => (false, origin)
    | some index =>
      let copy1 := { copy with
        arrivals := setExcluded copy.arrivals index ExcludeReason.LargeResidual }
      match ext.relocate (some origin.hypocenter.dep) copy1 with
      | none => attachLoosely origin arr
      | some relo2 =>
        if _score ext relo2 < original_score then attachLoosely origin arr
        else adoptRelocated cfg origin pick relo2
  else adoptRelocated cfg origin pick relo

/-- The new arrival of `_associate` as it is added to the copy of the origin:
residual from the travel time `tt`, distance and azimuth from `delazi`. -/
def newArrival (cfg : Config) (ext : Collaborators) (origin : Origin) (pick : Pick)
    (phase : String) (station : Station) (tt : ℚ) : Arrival :=
  { Arrival.new pick phase (pick.time - origin.time - tt) with
    excluded := initialExclusion cfg origin phase (ext.delazi origin.hypocenter station).1
    distance := (ext.delazi origin.hypocenter station).1
    azimuth := (ext.delazi origin.hypocenter station).2.1 }

/-- The depth that `_associate` fixes for the trial relocation, `none` for a
free depth. -/
def trialDepth (cfg : Config) (origin : Origin) : Option ℚ :=
  if cfg.defaultDepthStickiness > 9 / 10 then some cfg.defaultDepth
  else if origin.depthType = DepthType.DepthManuallyFixed then some origin.hypocenter.dep
  else none

/-- The trial relocation of `_associate` for an origin that is not imported
and a new arrival `arr` that is not `UnusedPhase`: relocate the copy with the
arrival, with a second attempt at fixed depth when a free-depth relocation
fails. -/
def relocateTrial (cfg : Config) (ext : Collaborators) (origin : Origin) (pick : Pick)
    (arr : Arrival) : Bool × Origin :=
  match ext.relocate (trialDepth cfg origin) (origin.add arr) with
  | some relo => judgeRelocated cfg ext origin pick arr (origin.add arr) relo
  | none =>
    if (trialDepth cfg origin).isSome then (false, origin)
    else
      match ext.relocate (some origin.hypocenter.dep) (origin.add arr) with
      | none => (false, origin)
      | some relo => judgeRelocated cfg ext origin pick arr (origin.add arr) relo

/-- `Autoloc3::_associate`: the returned status and the origin as the call
leaves it. A pick without station does not reach this function. -/
def _associate (cfg : Config) (ext : Collaborators) (origin : Origin) (pick : Pick)
    (phase : String) : Bool × Origin :=
  if !mightBeAssociated pick origin then (false, origin)
  else if phase = "PKP" ∧ pick.time - origin.time < 1000 then (false, origin)
  else
    match pick.station with
    | none => (false, origin)
    | some station =>
      if (findArrival origin pick.id).isSome then (false, origin)
      else if ¬ (phase = "P" ∨ phase = "PKP") then (false, origin)
      else
        match ext.travelTimeP origin.hypocenter station
            (ext.delazi origin.hypocenter station).1 with
        | none => (false, origin)
        | some tt =>
          if !_residualOK cfg ext (Arrival.new pick phase (pick.time - origin.time - tt))
              (9 / 10) (13 / 10) then
            (false, origin)
          else if origin.imported then
            (true, origin.updateFrom (origin.add (newArrival cfg ext origin pick phase station tt)))
          else if (newArrival cfg ext origin pick phase station tt).excluded
              = ExcludeReason.UnusedPhase then
            attachLoosely origin (newArrival cfg ext origin pick phase station tt)
          else relocateTrial cfg ext origin pick (newArrival cfg ext origin pick phase station tt)

/-! ## Merging two origins -/

/-- The origin that `merge` takes as the base: the second one if its score is
strictly higher, the first one otherwise. -/
def mergeBase (ext : Collaborators) (origin1 origin2 : Origin) : Origin :=
  if _score ext origin2 > _score ext origin1 then origin2 else origin1

/-- The origin whose arrivals `merge` adds to the base. -/
def mergeOther (ext : Collaborators) (origin1 origin2 : Origin) : Origin :=
  if _score ext origin2 > _score ext origin1 then origin1 else origin2

/-- The inner loop of `merge`: the base origin has an arrival of the same
phase whose pick is on the station of the pick of `arr2`. An arrival holds a
reference to its pick; `pickOf` follows it. -/
def sameStationPhase (pickOf : PickID → Pick) (base : Origin) (arr2 : Arrival) : Bool :=
  base.arrivals.any (fun arr1 =>
    decide ((pickOf arr1.pick).station = (pickOf arr2.pick).station) &&
      decide (arr1.phase = arr2.phase))

/-- One iteration of the loop of `merge` over the arrivals of the other
origin. -/
def mergeStep (pickOf : PickID → Pick) (base : Origin) (combined : Origin) (arr2 : Arrival) :
    Origin :=
  if (findArrival combined arr2.pick).isSome then combined
  else if sameStationPhase pickOf base arr2 then combined
  else combined.add { arr2 with excluded := ExcludeReason.TemporarilyExcluded }

/-- The origin that `merge` hands to the relocator. -/
def mergeCombined (ext : Collaborators) (pickOf : PickID → Pick) (origin1 origin2 : Origin) :
    Origin :=
  (mergeOther ext origin1 origin2).arrivals.foldl
    (mergeStep pickOf (mergeBase ext origin1 origin2))
    { mergeBase ext origin1 origin2 with id := origin1.id }

/-- The reclassification of a temporarily excluded arrival in `merge`. -/
def classifyMerged (cfg : Config) (ext : Collaborators) (arr : Arrival) : Arrival :=
  if arr.excluded = ExcludeReason.TemporarilyExcluded then
    { arr with excluded := if _residualOK cfg ext arr (13 / 10) (18 / 10)
                           then ExcludeReason.NotExcluded else ExcludeReason.LargeResidual }
  else arr

/-- `Autoloc3::merge` up to the call of `_trimResiduals`; `none` is the null
result of a failed relocation. -/
def mergeRelocated (cfg : Config) (ext : Collaborators) (pickOf : PickID → Pick)
    (origin1 origin2 : Origin) : Option Origin :=
  match ext.relocate none (mergeCombined ext pickOf origin1 origin2) with
  | none => none
  | some relo =>
    let combined := (mergeCombined ext pickOf origin1 origin2).updateFrom relo
    some { combined with arrivals := combined.arrivals.map (classifyMerged cfg ext) }

/-- `Autoloc3::merge`. -/
def merge (cfg : Config) (ext : Collaborators) (pickOf : PickID → Pick)
    (origin1 origin2 : Origin) : Option Origin :=
  (mergeRelocated cfg ext pickOf origin1 origin2).map ext.trimResiduals

/-- An origin without its id. -/
def eraseId (origin : Origin) : Origin :=
  { origin with id := 0 }

/-- The arrivals that `merge` adds to the base origin, in the words of the
specification: going through the arrivals of the other origin, an arrival is
added, temporarily excluded, unless its pick is already referenced (`seen`
holds the picks of the combined origin so far) or the base origin has an
arrival of the same station and phase. -/
def specMergeAdded (pickOf : PickID → Pick) (base : Origin) :
    List PickID → List Arrival → List Arrival
  | _, [] => []
  | seen, arr2 :: rest =>
    if arr2.pick ∈ seen ∨ sameStationPhase pickOf base arr2 = true then
      specMergeAdded pickOf base seen rest
    else
      { arr2 with excluded := ExcludeReason.TemporarilyExcluded } ::
        specMergeAdded pickOf base (seen ++ [arr2.pick]) rest

/-! ## Fake-origin test -/

/-- `Autoloc3::_testFake`: the returned probability and the origin as the call
leaves it. -/
def _testFake (ext : Collaborators) (s : State) (origin : Origin) : ℚ × Origin :=
  if origin.imported then (0, origin)
  else if origin.score > 80 then (0, origin)
  else ext.testFakeBody s._origins origin

/-! ## Imported origins -/

/-- Modelled from the spec: `ignored(pick)` (util.h, not in the translated
file) tests the pick mode. -/
def ignored (pick : Pick) : Bool :=
  decide (pick.mode = PickMode.IgnoredAutomatic)

/-- The loop body of `_rename_P_PKP` for one arrival. -/
def renameArrival (pickOf : PickID → Pick) (origin : Origin) (arr : Arrival) : Arrival :=
  let dt := (pickOf arr.pick).time - origin.time
  let arr1 := if arr.distance > 105 ∧ dt > 1000 ∧ arr.phase = "P" then
                { arr with phase := "PKP" } else arr
  if arr1.distance < 125 ∧ dt < 1000 ∧ arr1.phase = "PKP" then { arr1 with phase := "P" }
  else arr1

/-- `Autoloc3::_rename_P_PKP`. -/
def _rename_P_PKP (pickOf : PickID → Pick) (origin : Origin) : Origin :=
  { origin with arrivals := origin.arrivals.map (renameArrival pickOf origin) }

/-- The key `net.code:phase` that `_addMorePicks` builds for a station and a
phase. -/
def stationPhaseKey (station : Station) (phase : String) : String :=
  station.net ++ "." ++ station.code ++ ":" ++ phase

/-- The set `have` of `_addMorePicks`: the keys of the not excluded arrivals
whose pick has a station. -/
def haveKeys (pickOf : PickID → Pick) (origin : Origin) : List String :=
  origin.arrivals.filterMap (fun arr =>
    if arr.excluded ≠ ExcludeReason.NotExcluded then none
    else
      match (pickOf arr.pick).station with
      | none => none
      | some station => some (stationPhaseKey station arr.phase))

/-- One iteration of the loop of `_addMorePicks` over the pick pool. The
accumulator is the origin and the counter `picksAdded`. -/
def addMorePicksStep (cfg : Config) (ext : Collaborators) (s : State) (have_ : List String)
    (acc : Origin × Nat) (pick : Pick) : Origin × Nat :=
  match pick.station with
  | none => acc
  | some station =>
    if !cfg.useManualPicks && manual pick then acc
    else if ignored pick then acc
    else if stationPhaseKey station "P" ∈ have_ ∨ stationPhaseKey station "PKP" ∈ have_ then acc
    else if pick.amp ≤ 0 ∨ pick.snr ≤ 0 then acc
    else if _tooLowSNR cfg pick then acc
    else if _blacklisted s pick then acc
    else if (_associate cfg ext acc.1 pick "P").1 then
      ((_associate cfg ext acc.1 pick "P").2, acc.2 + 1)
    else if (_associate cfg ext (_associate cfg ext acc.1 pick "P").2 pick "PKP").1 then
      ((_associate cfg ext (_associate cfg ext acc.1 pick "P").2 pick "PKP").2, acc.2 + 1)
    else ((_associate cfg ext (_associate cfg ext acc.1 pick "P").2 pick "PKP").2, acc.2)

/-- `Autoloc3::_addMorePicks`: the returned status and the origin as the call
leaves it. -/
def _addMorePicks (cfg : Config) (ext : Collaborators) (pickOf : PickID → Pick) (s : State)
    (origin : Origin) : Bool × Origin :=
  let r := s.pickPool.foldl (addMorePicksStep cfg ext s (haveKeys pickOf origin)) (origin, 0)
  if r.2 = 0 then (false, r.1) else (true, _rename_P_PKP pickOf r.1)

/-- `depthPhaseCount`. -/
def depthPhaseCount (origin : Origin) : Nat :=
  (origin.arrivals.filter (fun arr =>
    decide (arr.excluded = ExcludeReason.NotExcluded) &&
      (decide (arr.phase = "pP") || decide (arr.phase = "sP")))).length

/-- The origin object that is in `_origins` after `_store(origin)`: the
object itself when it is pushed, and otherwise the existing object of the
same id after `existing->updateFrom(origin)`. -/
def storedObject (cfg : Config) (ext : Collaborators) (pickOf : PickID → Pick) (s : State)
    (origin : Origin) : Origin :=
  let o1 := _rename_P_PKP pickOf origin
  let o2 := if o1.imported then (_addMorePicks cfg ext pickOf s o1).2
            else { o1 with score := _score ext o1 }
  let o3 := if depthPhaseCount o2 ≠ 0 then { o2 with depthType := DepthType.DepthPhases } else o2
  let o4 := if !o3.imported ∧ definingPhaseCount o3 ≥ cfg.minPhaseCount then
              { o3 with preliminary := false } else o3
  if o4.depthType = DepthType.DepthDefault ∧ o4.hypocenter.dep ≠ cfg.defaultDepth then
    { o4 with depthType := DepthType.DepthFree }
  else o4

/-- An association produced by the associator: the candidate origin, the
pick, the phase under which the pick may belong to the origin, and the
residual, affinity, distance and azimuth of that pairing. -/
structure Association where
  origin : Origin
  pick : PickID
  phase : String
  residual : ℚ
  affinity : ℚ
  distance : ℚ
  azimuth : ℚ

/-- The first loop of `_tryAssociate`, over the associations with an imported
origin. The accumulator is the variable `origin`; the result is `none` when
the loop leaves it null or returns `nullptr`. -/
def tryAssociateImported (cfg : Config) (ext : Collaborators) (pick : Pick) :
    List Association → Option Origin → Option Origin
  | [], acc => acc
  | asso :: rest, acc =>
    if !asso.origin.imported then tryAssociateImported cfg ext pick rest acc
    else if !(_associate cfg ext asso.origin pick asso.phase).1 then
      tryAssociateImported cfg ext pick rest acc
    else if (findArrival (_associate cfg ext asso.origin pick asso.phase).2 pick.id).isNone then
      none
    else
      tryAssociateImported cfg ext pick rest
        (some (_associate cfg ext asso.origin pick asso.phase).2)

/-! ## Storing and feeding a pick, cleanup -/

/-- `Autoloc3::pick(id)`: the pool record of an id, `none` for a null
result. -/
def pick (s : State) (id : PickID) : Option Pick :=
  s.pickPool.find? (fun q => decide (q.id = id))

/-- The insertion `pickPool[pick->id] = pick` of a new key into the pool, a
`std::map` that is iterated in the order of the ids. -/
def poolInsert : List Pick → Pick → List Pick
  | [], p => [p]
  | q :: rest, p => if p.id < q.id then p :: q :: rest else q :: poolInsert rest p

/-- `Autoloc3::_addStationInfo`: the returned status and the pick, on which
`setStation` may have been called. The set `_missingStations` only serves
the log and is left out. -/
def _addStationInfo (ext : Collaborators) (pick : Pick) : Bool × Pick :=
  if pick.station.isSome then (true, pick)
  else
    match ext.stationOf pick with
    | none => (false, pick)
    | some station => (true, { pick with station := some station })

/-- The end of `_store(const Pick*)` for a pick that has passed the checks:
the clock update of the playback mode and the insertion into the pool. -/
def storeAccepted (cfg : Config) (s : State) (pick : Pick) : State :=
  let s1 := if cfg.playback ∧ pick.time > s._now then { s with _now := pick.time } else s
  if (Autoloc.pick s1 pick.id).isNone then { s1 with pickPool := poolInsert s1.pickPool pick }
  else s1

/-- `Autoloc3::_store(const Pick*)`: the returned status, the pick as
`_addStationInfo` left it, and the engine state. -/
def _store (cfg : Config) (ext : Collaborators) (utc : Time) (s : State) (pick : Pick) :
    Bool × Pick × State :=
  if !(_addStationInfo ext pick).1 then (false, (_addStationInfo ext pick).2, s)
  else
    match (_addStationInfo ext pick).2.station with
    | none => (false, (_addStationInfo ext pick).2, s)
    | some station =>
      if automatic (_addStationInfo ext pick).2 && !station.used then
        (false, (_addStationInfo ext pick).2, s)
      else if (_addStationInfo ext pick).2.time < now cfg utc s - cfg.maxAge then
        (false, (_addStationInfo ext pick).2, s)
      else (true, (_addStationInfo ext pick).2, storeAccepted cfg s (_addStationInfo ext pick).2)

/-- The body of `Autoloc3::cleanup` after its entry checks, for the given
`minTime`. The nucleator is outside the embedding. -/
def cleanupBody (cfg : Config) (utc : Time) (minTime : Time) (s : State) : State :=
  { s with
    pickPool := s.pickPool.filter (fun p => !decide (p.time < minTime))
    _origins := s._origins.filter (fun o => !decide (o.time < minTime))
    _lastSent :=
      ((s._lastSent.filter (fun e => decide (e.2.time < minTime))).map (fun e => e.2.id)).foldl
        mapErase s._lastSent
    _nextCleanup := now cfg utc s + cfg.cleanupInterval }

/-- `Autoloc3::cleanup(Time minTime)`. A call reads one clock value; the
default argument is the zero time, which the test `!minTime` recognises. -/
def cleanup (cfg : Config) (utc : Time) (minTime : Time) (s : State) : State :=
  if minTime = 0 then
    if now cfg utc s < s._nextCleanup then s
    else if cfg.maxAge ≤ 0 then s
    else cleanupBody cfg utc (now cfg utc s - (cfg.maxAge + 1800)) s
  else cleanupBody cfg utc minTime s

/-- `Autoloc3::feed(const Pick*)`: the returned status and the engine state.
`_process` runs on the pool record of the id; after a successful `_store` the
pool has such a record, so the null case does not occur. -/
def feed (cfg : Config) (ext : Collaborators) (utc : Time) (pick : Pick) (s : State) :
    Bool × State :=
  let stored := _store cfg ext utc { s with _newOrigins := [] } pick
  if !stored.1 then (false, stored.2.2)
  else if automatic stored.2.1 && !ext.hasAmplitude stored.2.1 then (false, stored.2.2)
  else
    match Autoloc.pick stored.2.2 pick.id with
    | none => (false, stored.2.2)
    | some record =>
      let status := (_process cfg ext record stored.2.2).status
      let s1 := cleanup cfg utc 0 (_process cfg ext record stored.2.2).state
      if !status then (false, s1) else (true, report cfg ext utc s1)

/-- The engine state after a sequence of `feed(pick)` calls. -/
def feedAll (cfg : Config) (ext : Collaborators) (utc : Time) (picks : List Pick) (s : State) :
    State :=
  picks.foldl (fun st q => (feed cfg ext utc q st).2) s

/-- Whether `_store` lets a pick reach the clock update when the pick is
not too old: the pick has station information, its own or from the
registry, and an automatic pick is on a station that is in use. -/
def advancesClock (ext : Collaborators) (pick : Pick) : Bool :=
  match (_addStationInfo ext pick).2.station with
  | none => false
  | some station => !(automatic pick && !station.used)

/-! ## The second loop of `_tryAssociate` -/

/-- Modelled from the spec: the conversion `Arrival arr = asso` of an
association into an arrival (associator.h is not in the translated file)
takes over pick, phase, residual, distance, azimuth and affinity. -/
def Association.toArrival (asso : Association) : Arrival :=
  ⟨asso.pick, asso.phase, asso.residual, asso.distance, asso.azimuth, asso.affinity, 0,
    ExcludeReason.NotExcluded⟩

/-- The attachment step of the second loop of `_tryAssociate`: the copy of
the candidate origin with the pick attached, `none` when `_associate` fails
(the loop goes on with the next association). -/
def attachOwn (cfg : Config) (ext : Collaborators) (pick : Pick) (asso : Association) :
    Option Origin :=
  if asso.phase = "P" ∨ asso.phase = "PKP" then
    if (_associate cfg ext asso.origin pick asso.phase).1 then
      some (_associate cfg ext asso.origin pick asso.phase).2
    else none
  else some (asso.origin.add { asso.toArrival with excluded := ExcludeReason.UnusedPhase })

/-- The second loop of `_tryAssociate`, over the candidate origins of the
engine. The accumulator is `(origin, associatedOriginLargestScore)`.
`passedFilter` stands for `_passedFilter`: the origin as the filter leaves
it when it passes, `none` when it fails. -/
def tryAssociateOwn (cfg : Config) (ext : Collaborators) (passedFilter : Origin → Option Origin)
    (pick : Pick) : List Association → Option Origin × ℚ → Option Origin
  | [], acc => acc.1
  | asso :: rest, acc =>
    if asso.affinity < cfg.minPickAffinity then
      tryAssociateOwn cfg ext passedFilter pick rest acc
    else if asso.origin.imported then acc.1
    else
      match attachOwn cfg ext pick asso with
      | none => tryAssociateOwn cfg ext passedFilter pick rest acc
      | some associatedOrigin =>
        if (findArrival associatedOrigin pick.id).isNone then none
        else
          match passedFilter associatedOrigin with
          | none => tryAssociateOwn cfg ext passedFilter pick rest acc
          | some filtered =>
            if ((definingPhaseCount filtered : Int) : ℚ) > acc.2 then
              tryAssociateOwn cfg ext passedFilter pick rest
                (some filtered, ((definingPhaseCount filtered : Int) : ℚ))
            else tryAssociateOwn cfg ext passedFilter pick rest acc

/-- `Autoloc3::_tryAssociate` for the associations that the associator has
produced for the pick, `none` when `_associator.feed(pick)` fails. The
`return nullptr` of the first loop is never reached, because a successful
`_associate` on an imported origin leaves an arrival of the pick; a null
result of the first loop therefore means that no imported origin took the
pick. -/
def _tryAssociate (cfg : Config) (ext : Collaborators) (passedFilter : Origin → Option Origin)
    (pick : Pick) (associations : Option (List Association)) : Option Origin :=
  match associations with
  | none => none
  | some associations =>
    match tryAssociateImported cfg ext pick associations none with
    | some origin => some origin
    | none => tryAssociateOwn cfg ext passedFilter pick associations (none, 0)

/-! ## Nucleation: the choice among the candidates -/

/-- One iteration of the loop of `_tryNucleate` over the candidate origins.
The accumulator is `(newOrigin, bestScore)`. -/
def nucleateStep (cfg : Config) (ext : Collaborators) (acc : Option Origin × ℚ)
    (candidate : Origin) : Option Origin × ℚ :=
  if ext.rms candidate > 3 * cfg.maxRMS then acc
  else
    match acc.1 with
    | none => (some candidate, acc.2)
    | some _ =>
      if _score ext candidate > acc.2 then (some candidate, _score ext candidate) else acc

/-- The candidate that the loop of `_tryNucleate` leaves in `newOrigin`. -/
def selectCandidate (cfg : Config) (ext : Collaborators) (candidates : List Origin) :
    Option Origin :=
  (candidates.foldl (nucleateStep cfg ext) (none, 0)).1

/-! ## Manual origins -/

/-- The inner loop of `_findMatchingOrigin` for the arrival `arr1` of an
existing origin: `some true` when the loop ends at an identical pick of the
fed origin, `some false` when it ends at a similar pick (same station, at
most 20 s apart), `none` when it runs through. -/
def findMatch (pickOf : PickID → Pick) (arr1 : Arrival) : List Arrival → Option Bool
  | [] => none
  | arr2 :: rest =>
    if arr2.pick = arr1.pick then some true
    else if (pickOf arr2.pick).station = (pickOf arr1.pick).station ∧
        (pickOf arr2.pick).time - (pickOf arr1.pick).time ≥ -20 ∧
        (pickOf arr2.pick).time - (pickOf arr1.pick).time ≤ 20 then some false
    else findMatch pickOf arr1 rest

/-- One iteration of the loop of `_findMatchingOrigin` over the arrivals of
an existing origin. The accumulator is `(identical, similar)`. -/
def matchStep (pickOf : PickID → Pick) (origin : Origin) (acc : Nat × Nat) (arr1 : Arrival) :
    Nat × Nat :=
  if (pickOf arr1.pick).station.isNone then acc
  else
    match findMatch pickOf arr1 origin.arrivals with
    | none => acc
    | some true => (acc.1 + 1, acc.2)
    | some false => (acc.1, acc.2 + 1)

/-- The counters `(identical, similar)` of `_findMatchingOrigin` for one
existing origin. -/
def matchCounts (pickOf : PickID → Pick) (origin existing : Origin) : Nat × Nat :=
  existing.arrivals.foldl (matchStep pickOf origin) (0, 0)

/-- The loop of `_findMatchingOrigin` over the origin set. An `Origin*` into
the set is its position; the accumulator is `(found, bestmatch)` and `i` is
the position of the head of the list. -/
def findMatchingLoop (pickOf : PickID → Pick) (origin : Origin) :
    List Origin → Nat → Option Nat × Nat → Option Nat × Nat
  | [], _, acc => acc
  | existing :: rest, i, acc =>
    if |origin.time - existing.time| > 20 * 60 then
      findMatchingLoop pickOf origin rest (i + 1) acc
    else if (matchCounts pickOf origin existing).1 + (matchCounts pickOf origin existing).2 > 0
    then
      if (matchCounts pickOf origin existing).1 + (matchCounts pickOf origin existing).2 > acc.2
      then
        findMatchingLoop pickOf origin rest (i + 1)
          (some i, (matchCounts pickOf origin existing).1 + (matchCounts pickOf origin existing).2)
      else findMatchingLoop pickOf origin rest (i + 1) acc
    else findMatchingLoop pickOf origin rest (i + 1) acc

/-- `Autoloc3::_findMatchingOrigin`: the position of the returned origin in
the origin set, `none` for a null result. -/
def _findMatchingOrigin (pickOf : PickID → Pick) (s : State) (origin : Origin) : Option Nat :=
  (findMatchingLoop pickOf origin s._origins 0 (none, 0)).1

/-- The match count of an existing origin `e` for a fed origin `o` in the
words of the specification: the number of arrivals of `e` with station
information whose pick is a pick of `o` or lies on the station of a pick of
`o` at most 20 s apart. -/
def specMatchCount (pickOf : PickID → Pick) (o e : Origin) : Nat :=
  (e.arrivals.filter (fun arr1 =>
    (pickOf arr1.pick).station.isSome &&
      o.arrivals.any (fun arr2 =>
        decide (arr2.pick = arr1.pick) ||
          (decide ((pickOf arr2.pick).station = (pickOf arr1.pick).station) &&
            decide (|(pickOf arr2.pick).time - (pickOf arr1.pick).time| ≤ 20))))).length

/-- One iteration of the loop `merge origin` of `feed(Origin*)`, which runs
over the arrivals of the manual origin: `arr` is appended to `arrivals`
unless its pick has no station or `arrivals` has an arrival of the same pick
or of the same station and phase. -/
def manualMergeStep (pickOf : PickID → Pick) (arrivals : List Arrival) (arr : Arrival) :
    List Arrival :=
  if (pickOf arr.pick).station.isNone then arrivals
  else if arrivals.any (fun _arr =>
      decide (_arr.pick = arr.pick) ||
        (decide ((pickOf _arr.pick).station = (pickOf arr.pick).station) &&
          decide (_arr.phase = arr.phase))) then arrivals
  else arrivals ++ [arr]

/-- The vector `arrivals` of `feed(Origin*)` after its two loops and the
call of `sort`. -/
def manualArrivals (ext : Collaborators) (pickOf : PickID → Pick) (manualOrigin : Origin) :
    List Arrival :=
  ext.sortArrivals
    (manualOrigin.arrivals.foldl (manualMergeStep pickOf)
      (manualOrigin.arrivals.filter (fun arr => (pickOf arr.pick).station.isSome)))

/-- The existing origin `found` of `feed(Origin*)` after the three
assignments `*found = *manualOrigin; found->arrivals = arrivals;
found->id = id`. -/
def adoptManual (ext : Collaborators) (pickOf : PickID → Pick) (found manualOrigin : Origin) :
    Origin :=
  { manualOrigin with arrivals := manualArrivals ext pickOf manualOrigin, id := found.id }

/-- The existing origin `found` of `feed(Origin*)` after the relocation, as
it is handed to `_store`; without a relocated solution it stays as
`adoptManual` left it. `fixedDepth` is the depth last given to
`setFixedDepth`, which `useFixedDepth(true)` brings into force. -/
def manualUpdated (ext : Collaborators) (pickOf : PickID → Pick) (fixedDepth : ℚ)
    (found manualOrigin : Origin) : Origin :=
  match ext.relocate
      (if manualOrigin.depthType = DepthType.DepthManuallyFixed then some fixedDepth else none)
      (adoptManual ext pickOf found manualOrigin) with
  | some relo => (adoptManual ext pickOf found manualOrigin).updateFrom relo
  | none => adoptManual ext pickOf found manualOrigin

/-- The origin set after the manual branch of `feed(Origin*)` has updated
the matching origin in place, before the call of `_store`; unchanged when
the manual origin has no arrivals or no origin matches. -/
def feedManualOrigins (ext : Collaborators) (pickOf : PickID → Pick) (fixedDepth : ℚ)
    (s : State) (manualOrigin : Origin) : List Origin :=
  if manualOrigin.arrivals.length = 0 then s._origins
  else
    match _findMatchingOrigin pickOf s manualOrigin with
    | none => s._origins
    | some i =>
      match s._origins.get? i with
      | none => s._origins
      | some found => s._origins.set i (manualUpdated ext pickOf fixedDepth found manualOrigin)

/-! ## Preliminary origins from XXL picks -/

/-- The loop of `_xxlPreliminaryOrigin` that generates the trial depths; `i`
is the loop counter and `dep` the depth of the previous round. The result is
`none` when the loop has not ended after `fuel` rounds. -/
def trialDepthsLoop (cfg : Config) : Nat → Nat → ℚ → Option (List ℚ)
  | 0, _, _ => none
  | fuel + 1, i, dep =>
    if dep ≤ cfg.xxlMaxDepth then
      if cfg.defaultDepthStickiness > 9 / 10 then some [cfg.defaultDepth * (1 + (i : ℚ))]
      else
        (trialDepthsLoop cfg fuel (i + 1) (cfg.defaultDepth * (1 + (i : ℚ)))).map
          (fun l => cfg.defaultDepth * (1 + (i : ℚ)) :: l)
    else some []

/-- The vector `trialDepths` of `_xxlPreliminaryOrigin`. -/
def trialDepths (cfg : Config) (fuel : Nat) : Option (List ℚ) :=
  trialDepthsLoop cfg fuel 0 0

/-- The ways in which the loop over the trial depths goes on the machine: it
is left, by its condition or by the `break`, with the vector `trialDepths`;
or it evaluates `1+i` with `i = INT_MAX`, a signed overflow, from where on
the behaviour is undefined; or it has not ended within the given number of
rounds. -/
inductive TrialDepthsRun where
  | ended (depths : List ℚ)
  | overflow
  | unfinished
deriving DecidableEq

/-- The depth `_config.defaultDepth*(1+i)` that round `i` of the loop
pushes: the rounded product of the double `defaultDepth` and the integer. -/
def depthAt (cfg : Config) (i : Nat) : ℚ :=
  roundDouble (cfg.defaultDepth * (1 + (i : ℚ)))

/-- The loop of `_xxlPreliminaryOrigin` that generates the trial depths,
with the counter `int i` of the source and the rounding of the products;
`trialDepthsLoop` is the same loop over the reals with an unbounded
counter. -/
def trialDepthsRun (cfg : Config) : Nat → Nat → ℚ → TrialDepthsRun
  | 0, _, _ => TrialDepthsRun.unfinished
  | fuel + 1, i, dep =>
    if dep ≤ cfg.xxlMaxDepth then
      if 2 ^ 31 - 1 ≤ i then TrialDepthsRun.overflow
      else if cfg.defaultDepthStickiness > 9 / 10 then TrialDepthsRun.ended [depthAt cfg i]
      else
        match trialDepthsRun cfg fuel (i + 1) (depthAt cfg i) with
        | TrialDepthsRun.ended l => TrialDepthsRun.ended (depthAt cfg i :: l)
        | TrialDepthsRun.overflow => TrialDepthsRun.overflow
        | TrialDepthsRun.unfinished => TrialDepthsRun.unfinished
    else TrialDepthsRun.ended []

/-- One iteration of the loop of `_xxlPreliminaryOrigin` over the pick pool.
The accumulator is `(xxlpicks, earliest)`. The source dereferences the
stations of both picks; a pool pick without station is passed over here. -/
def xxlPicksStep (cfg : Config) (ext : Collaborators) (newPick : Pick) (acc : List Pick × Pick)
    (oldPick : Pick) : List Pick × Pick :=
  if !oldPick.xxl then acc
  else if ignored oldPick then acc
  else if newPick.station = oldPick.station then acc
  else
    match oldPick.station, newPick.station with
    | some oldStation, some newStation =>
      if |newPick.time - oldPick.time| > 10 + (137 / 10) * cfg.xxlMaxStaDist then acc
      else if ext.distance oldStation newStation > cfg.xxlMaxStaDist then acc
      else if !cfg.useManualPicks && manual oldPick && !cfg.useManualOrigins then acc
      else if acc.1.any (fun pick => decide (pick.station = oldPick.station)) then acc
      else (acc.1 ++ [oldPick], if oldPick.time < acc.2.time then oldPick else acc.2)
    | _, _ => acc

/-- The vector `xxlpicks` and the pick `earliest` of `_xxlPreliminaryOrigin`. -/
def xxlPicks (cfg : Config) (ext : Collaborators) (s : State) (newPick : Pick) :
    List Pick × Pick :=
  s.pickPool.foldl (xxlPicksStep cfg ext newPick) ([newPick], newPick)

/-- Modelled from the spec: the constructor `Origin(lat, lon, dep, time)` of
the data model gives an origin without arrivals, with id 0, score 0, a free
depth, not preliminary and not imported. -/
def Origin.new (lat lon dep : ℚ) (time : Time) : Origin :=
  ⟨0, ⟨lat, lon, dep⟩, time, 0, [], ⟨0⟩, 0, DepthType.DepthFree, false, false⟩

/-- The arrival that `_xxlPreliminaryOrigin` builds for one XXL pick. For a
pick without station the source has no distance and azimuth; they stay 0. -/
def xxlArrival (ext : Collaborators) (hypocenter : Hypocenter) (pick : Pick) : Arrival :=
  match pick.station with
  | some station =>
    { Arrival.new pick "P" 0 with
      distance := (ext.delazi hypocenter station).1
      azimuth := (ext.delazi hypocenter station).2.1
      excluded := ExcludeReason.NotExcluded }
  | none => { Arrival.new pick "P" 0 with excluded := ExcludeReason.NotExcluded }

/-- The first statement of `_depthIsResolvable`: a default depth that differs
from `defaultDepth` is marked as free. -/
def unmarkDefaultDepth (cfg : Config) (origin : Origin) : Origin :=
  if origin.depthType = DepthType.DepthDefault ∧ origin.hypocenter.dep ≠ cfg.defaultDepth then
    { origin with depthType := DepthType.DepthFree }
  else origin

/-- The first test of `_depthIsResolvable`: a relocation with free depth
succeeds and its formal depth error is small. -/
def depthErrorSmall (ext : Collaborators) (origin : Origin) : Bool :=
  match ext.relocate none { origin with depthType := DepthType.DepthFree } with
  | some relo =>
    decide (ext.sdepth relo > 0) &&
      (decide (ext.sdepth relo < 15 * ext.stime relo) ||
        decide (ext.sdepth relo < (7 / 10) * relo.hypocenter.dep))
  | none => false

/-- `Autoloc3::_depthIsResolvable`: the returned status and the origin as the
call leaves it. `fixedDepth` is the depth last given to `setFixedDepth`. -/
def _depthIsResolvable (cfg : Config) (ext : Collaborators) (fixedDepth : ℚ) (origin : Origin) :
    Bool × Origin :=
  if depthErrorSmall ext (unmarkDefaultDepth cfg origin) then (true, unmarkDefaultDepth cfg origin)
  else
    match ext.relocate (some fixedDepth)
        { unmarkDefaultDepth cfg origin with
          hypocenter := { (unmarkDefaultDepth cfg origin).hypocenter with
            dep := cfg.defaultDepth } } with
    | none => (true, unmarkDefaultDepth cfg origin)
    | some relo =>
      if _score ext relo < (8 / 10) * _score ext (unmarkDefaultDepth cfg origin) then
        (true, unmarkDefaultDepth cfg origin)
      else
        (false,
          { { (unmarkDefaultDepth cfg origin).updateFrom relo with
              depthType := DepthType.DepthDefault } with
            score := _score ext
              { (unmarkDefaultDepth cfg origin).updateFrom relo with
                depthType := DepthType.DepthDefault } })

/-- The origin that a round of `_xxlPreliminaryOrigin` builds for the trial
depth `dep`, with one arrival per XXL pick. -/
def xxlTrialOrigin (ext : Collaborators) (xxlpicks : List Pick) (lat lon : ℚ) (tim : Time)
    (dep : ℚ) : Origin :=
  { Origin.new lat lon dep tim with arrivals := xxlpicks.map (xxlArrival ext ⟨lat, lon, dep⟩) }

/-- The trial origin after `origin->updateFrom(relo)` and the assignments of
`preliminary` and `depthType`. -/
def xxlAdopt (cfg : Config) (origin relo : Origin) : Origin :=
  { origin.updateFrom relo with
    preliminary := true
    depthType := if cfg.defaultDepthStickiness > 9 / 10 then DepthType.DepthDefault
                 else DepthType.DepthManuallyFixed }

/-- The end of a successful round of `_xxlPreliminaryOrigin`: with a
stickiness below 0.9 and a resolvable depth the origin is relocated once
more with free depth. -/
def xxlResolveDepth (cfg : Config) (ext : Collaborators) (dep : ℚ) (origin : Origin) : Origin :=
  if cfg.defaultDepthStickiness < 9 / 10 then
    if (_depthIsResolvable cfg ext dep origin).1 then
      match ext.relocate none (_depthIsResolvable cfg ext dep origin).2 with
      | some relo => (_depthIsResolvable cfg ext dep origin).2.updateFrom relo
      | none => (_depthIsResolvable cfg ext dep origin).2
    else (_depthIsResolvable cfg ext dep origin).2
  else origin

/-- One round of the loop of `_xxlPreliminaryOrigin` over the trial depths:
the origin that the round assigns to `newOrigin`, `none` when the round ends
with `continue`. -/
def xxlTrial (cfg : Config) (ext : Collaborators) (xxlpicks : List Pick) (lat lon : ℚ)
    (tim : Time) (dep : ℚ) : Option Origin :=
  match ext.relocate (some dep) (xxlTrialOrigin ext xxlpicks lat lon tim dep) with
  | none => none
  | some relo =>
    if relo.arrivals.any (fun arr => decide (arr.distance > cfg.xxlMaxStaDist)) ∨
        ext.rms relo > cfg.maxRMS then none
    else
      some (xxlResolveDepth cfg ext dep
        (xxlAdopt cfg (xxlTrialOrigin ext xxlpicks lat lon tim dep) relo))

/-- The loop of `_xxlPreliminaryOrigin` over the trial depths: the first
round that yields an origin ends the loop. -/
def xxlTrials (cfg : Config) (ext : Collaborators) (xxlpicks : List Pick) (lat lon : ℚ)
    (tim : Time) : List ℚ → Option Origin
  | [] => none
  | dep :: rest =>
    match xxlTrial cfg ext xxlpicks lat lon tim dep with
    | some origin => some origin
    | none => xxlTrials cfg ext xxlpicks lat lon tim rest

/-- `Autoloc3::_xxlPreliminaryOrigin`. `newId` is the value of
`_newOriginID()`; the result is `none` for a null result and when the loop
over the trial depths has not ended after `fuel` rounds. An `earliest` pick
without station, which the source dereferences, gives `none`. -/
def _xxlPreliminaryOrigin (cfg : Config) (ext : Collaborators) (fuel : Nat) (newId : OriginID)
    (s : State) (newPick : Pick) : Option Origin :=
  if !newPick.xxl then none
  else if ((xxlPicks cfg ext s newPick).1.length : Int) < cfg.xxlMinPhaseCount then none
  else
    match (xxlPicks cfg ext s newPick).2.station, trialDepths cfg fuel with
    | some station, some depths =>
      match xxlTrials cfg ext (xxlPicks cfg ext s newPick).1 (station.lat + 3 / 100)
          (station.lon + 3 / 100) ((xxlPicks cfg ext s newPick).2.time - 5 / 100) depths with
      | some newOrigin =>
        some { newOrigin with id := newId, arrivals := ext.sortArrivals newOrigin.arrivals }
      | none => none
    | _, _ => none

/-- No two arrivals of the origin reference the same pick. -/
def DistinctPicks (origin : Origin) : Prop :=
  (origin.arrivals.map (fun arr => arr.pick)).Nodup

instance (origin : Origin) : Decidable (DistinctPicks origin) :=
  inferInstanceAs (Decidable ((origin.arrivals.map (fun arr : Arrival => arr.pick)).Nodup))

/-! ## Removal of outliers -/

/-- The test of `_removeOutliers` on one arrival:
`arr.excluded && std::abs(arr.residual) > _config.maxResidualKeep`. -/
def isOutlier (cfg : Config) (arr : Arrival) : Bool :=
  decide (arr.excluded ≠ ExcludeReason.NotExcluded) && decide (|arr.residual| > cfg.maxResidualKeep)

/-- One iteration of the loop of `_removeOutliers`. The accumulator is the
counter `count`, the arrivals that were passed over by `++it`, and the picks
that were released by `arr.pick->setOrigin(0)`. -/
def removeOutliersStep (cfg : Config) (acc : Nat × List Arrival × List PickID) (arr : Arrival) :
    Nat × List Arrival × List PickID :=
  if isOutlier cfg arr then (acc.1 + 1, acc.2.1, acc.2.2 ++ [arr.pick])
  else (acc.1, acc.2.1 ++ [arr], acc.2.2)

/-- `Autoloc3::_removeOutliers`: the returned count, the origin as the call
leaves it, and the picks whose back reference to an origin was cleared. -/
def _removeOutliers (cfg : Config) (origin : Origin) : Nat × Origin × List PickID :=
  let r := origin.arrivals.foldl (removeOutliersStep cfg) (0, [], [])
  (r.1, { origin with arrivals := r.2.1 }, r.2.2)

/-! ## Exclusion of distant stations -/

/-- The filter of the first loop of `_excludeDistantStations`: the arrival is
not skipped by either `continue`. -/
def distanceEligible (arr : Arrival) : Bool :=
  !(decide (arr.excluded ≠ ExcludeReason.NotExcluded) &&
      decide (arr.excluded ≠ ExcludeReason.StationDistance)) &&
    !decide (arr.distance > 110)

/-- The vector `distance` of `_excludeDistantStations` before it is sorted. -/
def eligibleDistances (origin : Origin) : List ℚ :=
  (origin.arrivals.filter distanceEligible).map (fun arr => arr.distance)

/-- The vector `distance` after `sort(distance.begin(), distance.end())`. -/
def sortedDistances (origin : Origin) : List ℚ :=
  (eligibleDistances origin).insertionSort (fun a b => a ≤ b)

/-- The number `nx` of `_excludeDistantStations`:
`0.1*distanceCount > 2 ? int(0.1*distanceCount) : 2`. -/
def distantCount (distanceCount : Nat) : Nat :=
  if (1 / 10 : ℚ) * (distanceCount : ℚ) > 2 then ⌊(1 / 10 : ℚ) * (distanceCount : ℚ)⌋₊ else 2

/-- The loop of `_excludeDistantStations` that moves `maxDistance` outwards
over the remaining sorted distances until one is more than `q` times the
current value. -/
def extendCutoff (q : ℚ) : ℚ → List ℚ → ℚ
  | maxDistance, [] => maxDistance
  | maxDistance, d :: rest => if d > q * maxDistance then maxDistance else extendCutoff q d rest

/-- The value of `maxDistance` of `_excludeDistantStations` when the marking
loop is entered. -/
def maxDistance (origin : Origin) : ℚ :=
  extendCutoff 4
    ((sortedDistances origin).getD
      ((sortedDistances origin).length - distantCount (sortedDistances origin).length) 0)
    ((sortedDistances origin).drop
      ((sortedDistances origin).length - distantCount (sortedDistances origin).length + 1))

/-- The body of the marking loop of `_excludeDistantStations` for one
arrival. -/
def markDistant (maxDistance : ℚ) (arr : Arrival) : Arrival :=
  if arr.excluded ≠ ExcludeReason.NotExcluded then arr
  else if arr.distance > maxDistance then { arr with excluded := ExcludeReason.StationDistance }
  else arr

/-- The counter `excludedCount` of `_excludeDistantStations` after the
marking loop. -/
def excludedCount (maxDistance : ℚ) (origin : Origin) : Nat :=
  (origin.arrivals.filter (fun arr =>
    decide (arr.excluded = ExcludeReason.NotExcluded) && decide (arr.distance > maxDistance))).length

/-- The origin after the marking loop of `_excludeDistantStations`. -/
def markedOrigin (origin : Origin) : Origin :=
  { origin with arrivals := origin.arrivals.map (markDistant (maxDistance origin)) }

/-- `Autoloc3::_excludeDistantStations`: the returned status and the origin
as the call leaves it. The function does not set the depth mode of the
relocator; `depthMode` is the mode that is in force when it is called. -/
def _excludeDistantStations (ext : Collaborators) (depthMode : Option ℚ) (origin : Origin) :
    Bool × Origin :=
  if (eligibleDistances origin).length < 4 then (false, origin)
  else if excludedCount (maxDistance origin) origin ≠ 0 then
    match ext.relocate depthMode (markedOrigin origin) with
    | some relo => (true, (markedOrigin origin).updateFrom relo)
    | none => (false, markedOrigin origin)
  else (false, markedOrigin origin)

/-! ## Trimming of residuals -/

/-- The threshold `residualThreshold` of `_trimResiduals` after
`residualThreshold *= 0.8`, with the rounding of the product `0.5*...`, of
the sum and of the product with the literal `0.8`. -/
def residualThreshold (cfg : Config) : ℚ :=
  roundDouble (roundDouble (cfg.goodRMS + roundDouble (1 / 2 * cfg.maxResidualUse)) * double_0_8)

/-- The value `normalizedResidual = arr.residual/residualThreshold` of both
scans of `_trimResiduals`, a rounded quotient. With a threshold of 0 the
quotient of the source is infinite or not a number; the model has 0
there. -/
def normalizedResidual (cfg : Config) (arr : Arrival) : ℚ :=
  roundDouble (arr.residual / residualThreshold cfg)

/-- The body of the scan in the first loop of `_trimResiduals` for the
arrival at index `i`. The accumulator is `maxNormalizedResidual` and `index`;
the index is `none` as long as `found` is false. -/
def largestResidualStep (cfg : Config) (acc : ℚ × Option Nat) (i : Nat) (arr : Arrival) :
    ℚ × Option Nat :=
  if arr.excluded ≠ ExcludeReason.NotExcluded then acc
  else if |normalizedResidual cfg arr| > acc.1 then
    (|normalizedResidual cfg arr|, some i)
  else acc

/-- The scan of the first loop of `_trimResiduals` over the arrivals from
index `i` on. -/
def largestResidualScan (cfg : Config) : List Arrival → Nat → ℚ × Option Nat → ℚ × Option Nat
  | [], _, acc => acc
  | arr :: rest, i, acc => largestResidualScan cfg rest (i + 1) (largestResidualStep cfg acc i arr)

/-- The scan of the first loop of `_trimResiduals` over the arrivals with
index below `arrivalCount`. -/
def largestResidual (cfg : Config) (arrivalCount : Nat) (origin : Origin) : ℚ × Option Nat :=
  largestResidualScan cfg (origin.arrivals.take arrivalCount) 0 (0, none)

/-- One pass through the first loop of `_trimResiduals`: `none` when the loop
is left, by its condition or by one of the three `break`s, else the origin
after `updateFrom`. The function does not set the depth mode of the
relocator; `depthMode` is the mode in force. -/
def excludeStep (cfg : Config) (ext : Collaborators) (depthMode : Option ℚ) (arrivalCount : Nat)
    (origin : Origin) : Option Origin :=
  if definingPhaseCount origin ≥ cfg.minPhaseCount then
    (largestResidual cfg arrivalCount origin).2.bind (fun index =>
      if (largestResidual cfg arrivalCount origin).1 < 1 then none
      else
        (ext.relocate depthMode
          { origin with
            arrivals := setExcluded origin.arrivals index ExcludeReason.LargeResidual }).map
          (fun relo => origin.updateFrom relo))
  else none

/-- The first loop of `_trimResiduals`: the origin and the counter `count`
when the loop is left, `none` when it has not ended after `fuel` passes. -/
def excludeLoop (cfg : Config) (ext : Collaborators) (depthMode : Option ℚ) (arrivalCount : Nat) :
    Nat → Origin → Nat → Option (Origin × Nat)
  | 0, _, _ => none
  | fuel + 1, origin, count =>
    match excludeStep cfg ext depthMode arrivalCount origin with
    | none => some (origin, count)
    | some next => excludeLoop cfg ext depthMode arrivalCount fuel next (count + 1)

/-- The body of the scan in the second loop of `_trimResiduals` for the
arrival at index `i`. The accumulator is `minNormalizedLargeResidual` and
`index`; the index is `none` as long as `found` is false. -/
def smallestResidualStep (cfg : Config) (acc : ℚ × Option Nat) (i : Nat) (arr : Arrival) :
    ℚ × Option Nat :=
  if arr.excluded = ExcludeReason.LargeResidual then
    if |normalizedResidual cfg arr| < acc.1 then
      (|normalizedResidual cfg arr|, some i)
    else acc
  else acc

/-- The scan of the second loop of `_trimResiduals` over the arrivals from
index `i` on. -/
def smallestResidualScan (cfg : Config) : List Arrival → Nat → ℚ × Option Nat → ℚ × Option Nat
  | [], _, acc => acc
  | arr :: rest, i, acc =>
    smallestResidualScan cfg rest (i + 1) (smallestResidualStep cfg acc i arr)

/-- The scan of the second loop of `_trimResiduals` over the arrivals with
index below `arrivalCount`. -/
def smallestResidual (cfg : Config) (arrivalCount : Nat) (origin : Origin) : ℚ × Option Nat :=
  smallestResidualScan cfg (origin.arrivals.take arrivalCount) 0 (1000, none)

/-- One pass through the second loop of `_trimResiduals`: `none` when the
loop is left by one of its three `break`s, else the origin after
`updateFrom`. -/
def includeStep (cfg : Config) (ext : Collaborators) (depthMode : Option ℚ) (arrivalCount : Nat)
    (origin : Origin) : Option Origin :=
  (smallestResidual cfg arrivalCount origin).2.bind (fun index =>
    if (smallestResidual cfg arrivalCount origin).1 > 1 then none
    else
      (ext.relocate depthMode
        { origin with
          arrivals := setExcluded origin.arrivals index ExcludeReason.NotExcluded }).map
        (fun relo => origin.updateFrom relo))

/-- The second loop of `_trimResiduals`: the origin and the counter `count`
when the loop is left, `none` when it has not ended after `fuel` passes. -/
def includeLoop (cfg : Config) (ext : Collaborators) (depthMode : Option ℚ) (arrivalCount : Nat) :
    Nat → Origin → Nat → Option (Origin × Nat)
  | 0, _, _ => none
  | fuel + 1, origin, count =>
    match includeStep cfg ext depthMode arrivalCount origin with
    | none => some (origin, count)
    | some next => includeLoop cfg ext depthMode arrivalCount fuel next (count + 1)

/-- `Autoloc3::_trimResiduals`: the returned status and the origin as the
call leaves it, `none` when one of the two loops has not ended after `fuel`
passes. `arrivalCount` is the size of the arrival list at the start of the
call; the source reads `arrivals[i]` for every index below it also after a
relocation, and the scans of the model stop at the end of the list. -/
def _trimResiduals (cfg : Config) (ext : Collaborators) (depthMode : Option ℚ) (fuel : Nat)
    (origin : Origin) : Option (Bool × Origin) :=
  (excludeLoop cfg ext depthMode origin.arrivals.length fuel origin 0).bind (fun r1 =>
    (includeLoop cfg ext depthMode origin.arrivals.length fuel r1.1 r1.2).map (fun r2 =>
      (decide (r2.2 > 0), r2.1)))

/-- The number of arrivals of an origin that are excluded as
`LargeResidual`. -/
def largeResidualCount (origin : Origin) : Nat :=
  (origin.arrivals.filter (fun a => decide (a.excluded = ExcludeReason.LargeResidual))).length

/-- The assumption on the relocator under which the loops of
`_trimResiduals` are studied: a relocated origin has as many arrivals as the
origin it was given, with the same exclusion state at every position. -/
def KeepsExclusions (ext : Collaborators) : Prop :=
  ∀ (depthMode : Option ℚ) (origin relo : Origin), ext.relocate depthMode origin = some relo →
    relo.arrivals.map (fun a => a.excluded) = origin.arrivals.map (fun a => a.excluded)

/-! ## Enhancing the score by excluding outliers -/

/-- The two relocation attempts of `_enhanceScore`: with a free depth and,
when that fails, with a fixed depth. The source switches the fixed-depth mode
on without setting the depth; `fixedDepth` is the depth that the relocator
holds from an earlier `setFixedDepth`. -/
def relocateFreeOrFixed (ext : Collaborators) (fixedDepth : ℚ) (copy : Origin) : Option Origin :=
  match ext.relocate none copy with
  | some relo => some relo
  | none => ext.relocate (some fixedDepth) copy

/-- The score of the origin relocated without the arrival at index `i`, as
the inner loop of `_enhanceScore` computes it; `none` when both relocation
attempts fail. -/
def trialScore (ext : Collaborators) (fixedDepth : ℚ) (origin : Origin) (i : Nat) : Option ℚ :=
  (relocateFreeOrFixed ext fixedDepth
    { origin with
      arrivals := setExcluded origin.arrivals i ExcludeReason.ManuallyExcluded }).map (_score ext)

/-- The body of the inner loop of `_enhanceScore` for the arrival at index
`i`. The accumulator is `bestScore` and `bestExcluded`, with `none` for
`-1`. -/
def bestExclusionStep (ext : Collaborators) (fixedDepth : ℚ) (origin : Origin)
    (acc : ℚ × Option Nat) (i : Nat) (arr : Arrival) : ℚ × Option Nat :=
  if arr.excluded ≠ ExcludeReason.NotExcluded then acc
  else
    match trialScore ext fixedDepth origin i with
    | none => acc
    | some score => if score > acc.1 then (score, some i) else acc

/-- The inner loop of `_enhanceScore` over the arrivals from index `i` on. -/
def bestExclusionScan (ext : Collaborators) (fixedDepth : ℚ) (origin : Origin) :
    List Arrival → Nat → ℚ × Option Nat → ℚ × Option Nat
  | [], _, acc => acc
  | arr :: rest, i, acc =>
    bestExclusionScan ext fixedDepth origin rest (i + 1)
      (bestExclusionStep ext fixedDepth origin acc i arr)

/-- The inner loop of `_enhanceScore`: `bestScore` and `bestExcluded` after
every arrival has been tried. -/
def bestExclusion (ext : Collaborators) (fixedDepth : ℚ) (origin : Origin) : ℚ × Option Nat :=
  bestExclusionScan ext fixedDepth origin origin.arrivals 0 (_score ext origin, none)

/-- The ways in which one pass of the outer loop of `_enhanceScore` ends:
with a `break`, with the `continue` after the failed relocation, or with
`origin->updateFrom(relo)` and `count++`. -/
inductive EnhanceOutcome where
  | stop
  | skip
  | commit (origin : Origin)
deriving DecidableEq

/-- One pass of the outer loop of `_enhanceScore` behind the test of
`loops`. The sum `currentScore+0.2` is the rounded sum of the score and the
double of the literal. -/
def enhancePass (ext : Collaborators) (fixedDepth : ℚ) (origin : Origin) : EnhanceOutcome :=
  match (bestExclusion ext fixedDepth origin).2 with
  | none => EnhanceOutcome.stop
  | some bestExcluded =>
    if (bestExclusion ext fixedDepth origin).1 < roundDouble (_score ext origin + double_0_2) then
      EnhanceOutcome.stop
    else
      match relocateFreeOrFixed ext fixedDepth
        { origin with
          arrivals := setExcluded origin.arrivals bestExcluded ExcludeReason.LargeResidual } with
      | none => EnhanceOutcome.skip
      | some relo => EnhanceOutcome.commit (origin.updateFrom relo)

/-- The outer loop of `_enhanceScore`. The first argument is the number of
passes that `loop < maxloops` still admits, `loops` is the second counter of
the source; the result is the origin and the counter `count`. -/
def enhanceLoop (ext : Collaborators) (fixedDepth : ℚ) (maxloops : Nat) :
    Nat → Nat → Origin → Nat → Origin × Nat
  | 0, _, origin, count => (origin, count)
  | remaining + 1, loops, origin, count =>
    if maxloops > 0 ∧ loops + 1 > maxloops then (origin, count)
    else
      match enhancePass ext fixedDepth origin with
      | EnhanceOutcome.stop => (origin, count)
      | EnhanceOutcome.skip =>
        enhanceLoop ext fixedDepth maxloops remaining (loops + 1) origin count
      | EnhanceOutcome.commit next =>
        enhanceLoop ext fixedDepth maxloops remaining (loops + 1) next (count + 1)

/-- The loop of `_enhanceScore` over the arrivals that counts the XXL picks
and finds the earliest one. -/
def earliestXXLStep (pickOf : PickID → Pick) (acc : Nat × Option Pick) (arr : Arrival) :
    Nat × Option Pick :=
  if (pickOf arr.pick).xxl then
    (acc.1 + 1,
      match acc.2 with
      | none => some (pickOf arr.pick)
      | some earliestxxl =>
        if (pickOf arr.pick).time < earliestxxl.time then some (pickOf arr.pick)
        else some earliestxxl)
  else acc

/-- The test of `_enhanceScore` for an arrival that is left out in favour of
the XXL picks: its pick is not an XXL pick and is earlier than the earliest
XXL pick. -/
def beforeXXL (pickOf : PickID → Pick) (earliestxxl : Pick) (arr : Arrival) : Bool :=
  !(pickOf arr.pick).xxl && decide ((pickOf arr.pick).time < earliestxxl.time)

/-- The origin that the XXL branch of `_enhanceScore` relocates. -/
def xxlCopy (pickOf : PickID → Pick) (earliestxxl : Pick) (station : Station) (origin : Origin) :
    Origin :=
  { origin with
    arrivals := origin.arrivals.map (fun arr =>
      if beforeXXL pickOf earliestxxl arr then
        { arr with excluded := ExcludeReason.ManuallyExcluded }
      else arr)
    depthType := DepthType.DepthFree
    hypocenter := { origin.hypocenter with lat := station.lat, lon := station.lon } }

/-- The branch of `_enhanceScore` for a very early origin: the origin after
`updateFrom` when the branch returns true, `none` when control reaches the
outer loop. The source reads the station of the earliest XXL pick without a
test, and it reads the earliest XXL pick without a test when the threshold
`xxlMinPhaseCount` admits an origin without XXL picks; the model goes on to
the outer loop in both cases. -/
def enhanceXXL (cfg : Config) (ext : Collaborators) (pickOf : PickID → Pick) (fixedDepth : ℚ)
    (origin : Origin) : Option Origin :=
  if definingPhaseCount origin < cfg.minPhaseCount then
    if ((origin.arrivals.foldl (earliestXXLStep pickOf) (0, none)).1 : Int)
        ≥ cfg.xxlMinPhaseCount then
      match (origin.arrivals.foldl (earliestXXLStep pickOf) (0, none)).2 with
      | none => none
      | some earliestxxl =>
        if origin.arrivals.any (beforeXXL pickOf earliestxxl) then
          match earliestxxl.station with
          | none => none
          | some station =>
            (ext.relocate
              (if cfg.defaultDepthStickiness > 9 / 10 then some fixedDepth else none)
              (xxlCopy pickOf earliestxxl station origin)).map
              (fun relo => origin.updateFrom relo)
        else none
    else none
  else none

/-- `Autoloc3::_enhanceScore`: the returned status and the origin as the call
leaves it. -/
def _enhanceScore (cfg : Config) (ext : Collaborators) (pickOf : PickID → Pick) (fixedDepth : ℚ)
    (origin : Origin) (maxloops : Nat) : Bool × Origin :=
  match enhanceXXL cfg ext pickOf fixedDepth origin with
  | some updated => (true, updated)
  | none =>
    (decide ((enhanceLoop ext fixedDepth maxloops maxloops 0 origin 0).2 > 0),
      (enhanceLoop ext fixedDepth maxloops maxloops 0 origin 0).1)

/-! ## Storing an origin -/

/-- The part of `_store(Origin*)` before the look-up of an existing origin:
`_rename_P_PKP`, then `_addMorePicks` for an imported origin and
`_updateScore` otherwise, then the mark `DepthPhases`. -/
def prepareStored (cfg : Config) (ext : Collaborators) (pickOf : PickID → Pick) (s : State)
    (origin : Origin) : Origin :=
  let o1 := _rename_P_PKP pickOf origin
  let o2 := if o1.imported then (_addMorePicks cfg ext pickOf s o1).2
            else { o1 with score := _score ext o1 }
  if depthPhaseCount o2 ≠ 0 then { o2 with depthType := DepthType.DepthPhases } else o2

/-- The part of `_store(Origin*)` behind the look-up of an existing origin:
the two assignments to `preliminary` and `depthType`. -/
def finishStored (cfg : Config) (origin : Origin) : Origin :=
  let o4 := if !origin.imported ∧ definingPhaseCount origin ≥ cfg.minPhaseCount then
              { origin with preliminary := false } else origin
  if o4.depthType = DepthType.DepthDefault ∧ o4.hypocenter.dep ≠ cfg.defaultDepth then
    { o4 with depthType := DepthType.DepthFree }
  else o4

/-- The origin objects of the engine as `_store(Origin*)` sees them: the
content of the object at every address, and the addresses that the pointers
in `_origins` and in `_newOrigins` hold, in the order of the vectors. -/
structure OriginStore where
  content : Nat → Origin
  _origins : List Nat
  _newOrigins : List Nat

/-- Modelled from the spec: `OriginVector::find(id)` (datamodel, not in the
translated file) is the first origin of the vector with the given id. -/
def findById (content : Nat → Origin) (origins : List Nat) (id : OriginID) : Option Nat :=
  origins.find? (fun a => decide ((content a).id = id))

/-- The pointer `existing` of `_store(Origin*)`. -/
def existingOrigin (h : OriginStore) (id : OriginID) : Option Nat :=
  if id ≠ 0 then findById h.content h._origins id else none

/-- Modelled from the spec: `OriginVector::find(origin)` (datamodel, not in
the translated file) tells whether the vector holds a pointer to the object;
the two last statements of `_store(Origin*)` add the pointer to `_newOrigins`
unless it is found there. -/
def noteNew (h : OriginStore) (address : Nat) : OriginStore :=
  if address ∈ h._newOrigins then h else { h with _newOrigins := h._newOrigins ++ [address] }

/-- `Autoloc3::_store(Origin*)` for the origin object at the address `p`.
The writes through the pointer are seen through every pointer to the same
object. The state `s` gives the pick pool and the blacklist that
`_addMorePicks` reads. -/
def _storeOrigin (cfg : Config) (ext : Collaborators) (pickOf : PickID → Pick) (s : State)
    (h : OriginStore) (p : Nat) : OriginStore :=
  let prepared := prepareStored cfg ext pickOf s (h.content p)
  let h1 : OriginStore := { h with content := Function.update h.content p prepared }
  match existingOrigin h1 prepared.id with
  | some existing =>
    noteNew
      { h1 with
        content := Function.update h1.content existing
          (finishStored cfg ((h1.content existing).updateFrom prepared)) }
      existing
  | none =>
    noteNew
      { h1 with
        _origins := h1._origins ++ [p]
        content := Function.update h1.content p (finishStored cfg prepared) }
      p

/-! ## The association and nucleation stage of `_process` -/

/-- The functions that `_process` calls from `_tryAssociate` on, as
transformers of the engine state `σ`; `ρ` is the type of a pointer to an
origin object, and the objects are part of the state. Each function stands
for the member function of that name with the configuration it reads;
`minScoreBypassNucleator` is read by none of them, its only occurrence in the
translated file is the test in `_process`. -/
structure Stages (σ ρ : Type) where
  /-- `_tryAssociate(pick)`: the returned pointer and the state. -/
  _tryAssociate : Pick → σ → Option ρ × σ
  /-- `_tryNucleate(pick)`: the returned pointer and the state. -/
  _tryNucleate : Pick → σ → Option ρ × σ
  /-- `_xxlPreliminaryOrigin(pick)`: the returned pointer and the state. -/
  _xxlPreliminaryOrigin : Pick → σ → Option ρ × σ
  /-- `_findEquivalent(origin)`. -/
  _findEquivalent : ρ → σ → Option ρ
  /-- `equivalent->updateFrom(origin)`, with the target first. -/
  updateFrom : ρ → ρ → σ → σ
  /-- `_rework(origin)`. -/
  _rework : ρ → σ → σ
  /-- `_passedFilter(origin)`: the returned status and the state. -/
  _passedFilter : ρ → σ → Bool × σ
  /-- `_store(origin)`. -/
  _store : ρ → σ → σ
  /-- The member `origin->imported`. -/
  imported : ρ → σ → Bool
  /-- The member `origin->score`. -/
  score : ρ → σ → ℚ

/-- The block of `_process` around `_tryAssociate`: whether the block has
returned true, the pointer `origin` behind the block, and the state. -/
def associateBlock {σ ρ : Type} (st : Stages σ ρ) (pick : Pick) (s : σ) : Bool × Option ρ × σ :=
  match st._tryAssociate pick s with
  | (some origin, s1) =>
    if st.imported origin s1 then (true, some origin, st._store origin s1)
    else if (st._passedFilter origin (st._rework origin s1)).1 then
      (false, some origin, st._store origin (st._passedFilter origin (st._rework origin s1)).2)
    else (false, none, (st._passedFilter origin (st._rework origin s1)).2)
  | (none, s1) => (false, none, s1)

/-- The statements `_rework(origin); if (_passedFilter(origin)) { _store(origin);
return true; }` that follow a nucleated and a preliminary origin: whether
the function has returned true, and the state. -/
def reworkAndStore {σ ρ : Type} (st : Stages σ ρ) (origin : ρ) (s : σ) : Bool × σ :=
  if (st._passedFilter origin (st._rework origin s)).1 then
    (true, st._store origin (st._passedFilter origin (st._rework origin s)).2)
  else (false, (st._passedFilter origin (st._rework origin s)).2)

/-- The block of `_process` under `if (_config.xxlEnabled)`, up to the final
`return false`. -/
def xxlBlock {σ ρ : Type} (st : Stages σ ρ) (pick : Pick) (s : σ) : Bool × σ :=
  match st._xxlPreliminaryOrigin pick s with
  | (some origin, s1) =>
    match st._findEquivalent origin s1 with
    | some equivalent => reworkAndStore st equivalent (st.updateFrom equivalent origin s1)
    | none => reworkAndStore st origin s1
  | (none, s1) => (false, s1)

/-- The part of `_process` from `_tryNucleate` to the end. -/
def nucleateBlock {σ ρ : Type} (st : Stages σ ρ) (cfg : Config) (pick : Pick) (s : σ) :
    Bool × σ :=
  match st._tryNucleate pick s with
  | (some origin, s1) =>
    if (reworkAndStore st origin s1).1 then reworkAndStore st origin s1
    else if cfg.xxlEnabled then xxlBlock st pick (reworkAndStore st origin s1).2
    else (false, (reworkAndStore st origin s1).2)
  | (none, s1) => if cfg.xxlEnabled then xxlBlock st pick s1 else (false, s1)

/-- The test `origin && origin->score >= _config.minScoreBypassNucleator` of
`_process`. -/
def bypassNucleator {σ ρ : Type} (st : Stages σ ρ) (cfg : Config) (origin : Option ρ) (s : σ) :
    Bool :=
  match origin with
  | some o => decide (st.score o s ≥ cfg.minScoreBypassNucleator)
  | none => false

/-- The part of `_process` from `_tryAssociate` to the end: the returned
status and the state. -/
def processTail {σ ρ : Type} (st : Stages σ ρ) (cfg : Config) (pick : Pick) (s : σ) : Bool × σ :=
  if (associateBlock st pick s).1 then (true, (associateBlock st pick s).2.2)
  else if bypassNucleator st cfg (associateBlock st pick s).2.1 (associateBlock st pick s).2.2
    then (true, (associateBlock st pick s).2.2)
  else if (associateBlock st pick s).2.1.isSome then (true, (associateBlock st pick s).2.2)
  else nucleateBlock st cfg pick (associateBlock st pick s).2.2

/-! ## The pick pool behind the intake -/

/-- The association and nucleation stage of `_process` as the pick pool sees
it. The functions of this stage take their picks as `const Pick*` and walk
the pool without inserting or erasing a record; the three
`const_cast<Pick*>` of the translated file stand in the intake of
`_process`. A pool record is therefore written through `setOrigin` only,
which sets the back reference `origin()`. `run` gives the returned status
and the state from which everything but the pool is taken; `owner` gives the
back reference of each pool record behind the stage. -/
structure ConstTail where
  run : Pick → State → Bool × State
  owner : Pick → State → Pick → Option OriginID

/-- The stage of `_process` behind the intake that a `ConstTail` stands
for. -/
def ConstTail.locate (tail : ConstTail) (pick : Pick) (s : State) : Bool × State :=
  ((tail.run pick s).1,
    { (tail.run pick s).2 with
      pickPool := s.pickPool.map (fun q => { q with origin := tail.owner pick s q }) })

/-! ## Example data -/

/-- A configuration for the worked examples: publication interval
`2 * N + 10` seconds, 20 picks, playback clock. -/
def exConfig : Config :=
  { maxAziGapSecondary := 360
    minScore := 10
    maxRMS := 4
    maxDepth := 700
    publicationIntervalPickCount := 20
    publicationIntervalTimeSlope := 2
    publicationIntervalTimeIntercept := 10
    playback := true
    minPickSNR := 3
    dynamicPickThresholdInterval := 60
    xxlEnabled := true
    xxlMinAmplitude := 1000
    xxlMinSNR := 8
    xxlDeadTime := 120
    useManualPicks := false
    useManualOrigins := false
    maxResidualUse := 3
    aggressivePKP := true
    minStaCountIgnorePKP := 15
    defaultDepthStickiness := 1 / 2
    defaultDepth := 10
    minPhaseCount := 6
    maxAge := 3600
    cleanupInterval := 600
    minPickAffinity := 1 / 20
    xxlMaxDepth := 100
    xxlMaxStaDist := 15
    xxlMinPhaseCount := 2
    goodRMS := 3 / 2
    maxResidualKeep := 7
    minScoreBypassNucleator := 40 }

/-- Collaborators for the worked examples: every origin has rms 1 and is
accepted by the host, the phase count is the number of arrivals, a pick has
an amplitude when `amp > 0`, and the association stage accepts every pick.
Every station is at 30 degrees with a travel time of 100 s, the score of an
origin is its defining phase count, the relocator returns its input, and
`sqrt` and `exp` are rational stand-ins. The station registry is empty, two
stations are 5 degrees apart, arrival lists are taken as sorted and the
formal errors are 0. -/
def exCollab : Collaborators :=
  { rms := fun _ => 1
    phaseCount := fun o => (o.arrivals.length : Int)
    hasAmplitude := fun p => decide (0 < p.amp)
    _report := fun _ => true
    _perhapsPdiff := fun _ _ => false
    locate := fun _ s => (true, s)
    delazi := fun _ _ => (30, 0, 0)
    travelTimeP := fun _ _ _ => some 100
    originScore := fun o => (definingPhaseCount o : ℚ)
    relocate := fun _ o => some o
    sqrt := fun x => (x + 1) / 2
    exp := fun x => 1 / (1 - x)
    trimResiduals := fun o => o
    testFakeBody := fun _ o => (0, o)
    stationOf := fun _ => none
    distance := fun _ _ => 5
    sortArrivals := fun l => l
    sdepth := fun _ => 0
    stime := fun _ => 0 }

def exArrival (pick : PickID) (excluded : ExcludeReason) : Arrival :=
  ⟨pick, "P", 0, 10, 0, 1, 1, excluded⟩

/-- An origin with score 50, depth 10 km and secondary azimuthal gap 90. -/
def exOrigin (id : OriginID) (arrivals : List Arrival) : Origin :=
  ⟨id, ⟨0, 0, 10⟩, 0, 0, arrivals, ⟨90⟩, 50, DepthType.DepthFree, false, false⟩

/-- The state of a fresh engine whose logical clock shows `t`. -/
def exState (t : Time) : State :=
  ⟨t, 0, [], [], [], [], [], [], [], []⟩

/-- Origin 7 with two defining arrivals. -/
def exOriginA : Origin :=
  exOrigin 7 [exArrival "p1" ExcludeReason.NotExcluded, exArrival "p2" ExcludeReason.NotExcluded]

/-- A later version of origin 7: three arrivals, one of them defining. -/
def exOriginB : Origin :=
  exOrigin 7 [exArrival "p1" ExcludeReason.NotExcluded,
    exArrival "p2" ExcludeReason.LargeResidual, exArrival "p3" ExcludeReason.UnusedPhase]

/-- Origin 7 with a depth beyond `maxDepth`. -/
def exOriginDeep : Origin :=
  { exOriginA with hypocenter := ⟨0, 0, 800⟩ }

/-- A scheduler state at time `t` in which `origin` is outgoing, with the
given `_nextDue` and `_lastSent` maps. -/
def exScheduled (t : Time) (origin : Origin) (nextDue : List (OriginID × Time))
    (lastSent : List (OriginID × Origin)) : State :=
  { exState t with _outgoing := [(origin.id, origin)], _nextDue := nextDue, _lastSent := lastSent }

def exStation : Station :=
  ⟨"GE", "UGM", 0, 0, 0, true, 180, 180⟩

/-- An unassociated pick on `exStation` with `xxl = false`. -/
def exPick (id : PickID) (time amp snr : ℚ) (mode : PickMode) : Pick :=
  ⟨id, time, amp, 1, snr, 0, mode, false, some exStation, none⟩

/-- A fresh engine whose pick pool holds the given picks. -/
def exPool (picks : List Pick) : State :=
  { exState 0 with pickPool := picks }

/-- The pick that an arrival of the worked examples references: a pick of
snr 5 whose station carries the id of the pick as its code, so that different
picks are on different stations. -/
def exPickOf (id : PickID) : Pick :=
  { exPick id 0 10 5 PickMode.Automatic with station := some { exStation with code := id } }

/-- An arrival of the given phase and residual at 10 degrees. -/
def exPhaseArrival (phase : String) (residual : ℚ) : Arrival :=
  ⟨"p1", phase, residual, 10, 0, 1, 1, ExcludeReason.NotExcluded⟩

/-- Collaborators of the worked examples with every station at 150 degrees
and a travel time of 1000 s. -/
def exCollabPKP : Collaborators :=
  { exCollab with delazi := fun _ _ => (150, 0, 0), travelTimeP := fun _ _ _ => some 1000 }

/-- Origin 8 with one defining arrival, at another place than origin 7. -/
def exOriginC : Origin :=
  { exOrigin 8 [exArrival "p3" ExcludeReason.NotExcluded] with hypocenter := ⟨5, 5, 10⟩ }

/-- Origin 9 with the same score as `exOriginC`: one defining arrival. -/
def exOriginD : Origin :=
  exOrigin 9 [exArrival "p4" ExcludeReason.NotExcluded]

/-- Collaborators of the worked examples with a relocator that moves every
origin to latitude 1, where the rms is 9 instead of 1, and a constant score. -/
def exCollabWorse : Collaborators :=
  { exCollab with
    relocate := fun _ o => some { o with hypocenter := ⟨1, o.hypocenter.lon, o.hypocenter.dep⟩ }
    rms := fun o => if o.hypocenter.lat = 1 then 9 else 1
    originScore := fun _ => 10 }

/-- Origin `exOriginA` with one more defining P arrival for pick `k`. -/
def exAssociated : Origin :=
  { exOriginA with
    arrivals := exOriginA.arrivals ++ [⟨"k", "P", 0, 30, 0, 0, 0, ExcludeReason.NotExcluded⟩] }

/-- An imported origin: `exOriginA` with id 0 and the imported mark. -/
def exImported : Origin :=
  { exOriginA with id := 0, imported := true }

/-- A pick without station information, 100 s after the start. -/
def exPickUnknown : Pick :=
  { exPick "q" 100 10 5 PickMode.Automatic with station := none }

/-- An engine at clock 6000 with an old and a young pick, an old and a young
origin and the snapshot of the old origin. -/
def exAged : State :=
  { exState 6000 with
    pickPool := [exPick "new" 5000 10 5 PickMode.Automatic, exPick "old" 0 10 5 PickMode.Automatic]
    _origins := [exOriginA, { exOriginC with time := 5500 }]
    _lastSent := [(7, exOriginA)] }

/-- A manual origin with arrivals for the picks `p1` and `p9`. -/
def exManual : Origin :=
  { exOrigin 0 [exArrival "p1" ExcludeReason.NotExcluded, exArrival "p9" ExcludeReason.NotExcluded]
    with hypocenter := ⟨1, 1, 20⟩, depthType := DepthType.DepthManuallyFixed }

/-- An engine whose origin set holds origin 8 and origin 7. -/
def exOriginSet : State :=
  { exState 0 with _origins := [exOriginC, exOriginA] }

/-- An association of pick `k` with the imported origin `exImported`, with
affinity 0. -/
def exWeakAssociation : Association :=
  { origin := exImported, pick := "k", phase := "P", residual := 0, affinity := 0,
    distance := 30, azimuth := 0 }

/-- An association of pick `k` with origin 7, with affinity 1. -/
def exStrongAssociation : Association :=
  { origin := exOriginA, pick := "k", phase := "P", residual := 0, affinity := 1,
    distance := 30, azimuth := 0 }

/-- An arrival of pick `k` with the given residual and exclusion state. -/
def exResidualArrival (pick : PickID) (residual : ℚ) (excluded : ExcludeReason) : Arrival :=
  { exArrival pick excluded with residual := residual }

/-- An arrival of pick `k` at the given distance with the given exclusion
state. -/
def exDistantArrival (pick : PickID) (distance : ℚ) (excluded : ExcludeReason) : Arrival :=
  { exArrival pick excluded with distance := distance }

/-- An origin with four arrivals within 110 degrees and one beyond. -/
def exOriginFar : Origin :=
  exOrigin 1 [exDistantArrival "a" 10 ExcludeReason.NotExcluded,
    exDistantArrival "b" 20 ExcludeReason.NotExcluded,
    exDistantArrival "c" 30 ExcludeReason.NotExcluded,
    exDistantArrival "d" 40 ExcludeReason.NotExcluded,
    exDistantArrival "e" 120 ExcludeReason.NotExcluded]

/-- The configuration of the worked examples with `goodRMS` = 1: with
`maxResidualUse` = 3 the threshold of `_trimResiduals` is 2, and every step
of its computation is exact in doubles. -/
def exConfigTrim : Config :=
  { exConfig with goodRMS := 1 }

/-- An origin whose only arrival is excluded as `LargeResidual` with a
residual of 2 s, the value of `residualThreshold` for `exConfigTrim`. -/
def exOriginTrimmed : Origin :=
  exOrigin 1 [exResidualArrival "a" 2 ExcludeReason.LargeResidual]

/-- Collaborators of the worked examples with a score of 0 for an origin
that has not exactly one defining arrival and of `0.2` for an origin that has
exactly one. -/
def exCollabGain : Collaborators :=
  { exCollab with originScore := fun o => if definingPhaseCount o = 1 then double_0_2 else 0 }

/-- The configuration of the worked examples with `defaultDepth` = 1.1 and
`xxlMaxDepth` = 5.5. -/
def exConfigDepths : Config :=
  { exConfig with defaultDepth := double_1_1, xxlMaxDepth := 11 / 2 }

/-- The copy of `exImported` to which `_tryAssociate` has attached the pick
`k`. -/
def exImportedCopy : Origin :=
  { exImported with
    arrivals := exImported.arrivals ++ [exArrival "k" ExcludeReason.UnusedPhase] }

/-- An engine that holds the imported origin at address 0 in `_origins`; the
copy with the new pick is the object at address 1. -/
def exStore : OriginStore :=
  { content := fun a => if a = 0 then exImported else exImportedCopy
    _origins := [0]
    _newOrigins := [] }

/-- Stages for the worked examples over the engine state, with an origin id
as the pointer: every pick is associated with the origin 7, which is not
imported, passes the filter and has a score of 50; `_store` moves the clock
to 1. -/
def exStages : Stages State OriginID :=
  { _tryAssociate := fun _ s => (some 7, s)
    _tryNucleate := fun _ s => (none, s)
    _xxlPreliminaryOrigin := fun _ s => (none, s)
    _findEquivalent := fun _ _ => none
    updateFrom := fun _ _ s => s
    _rework := fun _ s => s
    _passedFilter := fun _ s => (true, s)
    _store := fun _ s => { s with _now := 1 }
    imported := fun _ _ => false
    score := fun _ _ => 50 }

/-! ## Lemmas on the association lists -/

theorem mapFind_insert_self {α : Type} (m : List (OriginID × α)) (k : OriginID) (v : α) :
    mapFind (mapInsert m k v) k = some v := by
  induction m with
  | nil => simp [mapInsert, mapFind]
  | cons e m ih =>
    obtain ⟨k', v'⟩ := e
    unfold mapInsert
    by_cases h1 : k < k'
    · simp [h1, mapFind]
    · by_cases h2 : k = k'
      · simp [h2, mapFind]
      · have h3 : ¬ k' = k := fun h => h2 h.symm
        simp [h1, h2, h3, mapFind, ih]

theorem mapFind_insert_ne {α : Type} (m : List (OriginID × α)) (k j : OriginID) (v : α)
    (h : j ≠ k) : mapFind (mapInsert m k v) j = mapFind m j := by
  have hkj : ¬ k = j := fun e => h e.symm
  induction m with
  | nil => simp [mapInsert, mapFind, hkj]
  | cons e m ih =>
    obtain ⟨k', v'⟩ := e
    unfold mapInsert
    by_cases h1 : k < k'
    · simp [h1, mapFind, hkj]
    · by_cases h2 : k = k'
      · subst h2
        simp [mapFind, hkj]
      · simp only [h1, h2, if_false, mapFind, ih]

theorem mapFind_erase_self {α : Type} (m : List (OriginID × α)) (k : OriginID) :
    mapFind (mapErase m k) k = none := by
  induction m with
  | nil => simp [mapErase, mapFind]
  | cons e m ih =>
    obtain ⟨k', v'⟩ := e
    by_cases h : k' = k
    · simpa [mapErase, h] using ih
    · simpa [mapErase, h, mapFind] using ih

theorem mapFind_erase_ne {α : Type} (m : List (OriginID × α)) (k j : OriginID)
    (h : j ≠ k) : mapFind (mapErase m k) j = mapFind m j := by
  induction m with
  | nil => simp [mapErase, mapFind]
  | cons e m ih =>
    obtain ⟨k', v'⟩ := e
    by_cases h1 : k' = k
    · subst h1
      have h2 : ¬ k' = j := fun e => h e.symm
      have h3 : mapErase ((k', v') :: m) k' = mapErase m k' := by simp [mapErase]
      rw [h3, ih]
      simp [mapFind, h2]
    · have h3 : mapErase ((k', v') :: m) k = (k', v') :: mapErase m k := by
        simp [mapErase, h1]
      rw [h3]
      simp only [mapFind]
      rw [ih]

theorem mapFind_mem {α : Type} (m : List (OriginID × α)) (k : OriginID) (v : α)
    (h : mapFind m k = some v) : (k, v) ∈ m := by
  induction m with
  | nil => simp [mapFind] at h
  | cons e m ih =>
    obtain ⟨k', v'⟩ := e
    by_cases h1 : k' = k
    · simp [mapFind, h1] at h
      simp [h1, h]
    · simp [mapFind, h1] at h
      exact List.mem_cons_of_mem _ (ih h)

theorem mapFind_of_mem {α : Type} (m : List (OriginID × α)) (k : OriginID) (v : α)
    (hn : (m.map Prod.fst).Nodup) (h : (k, v) ∈ m) : mapFind m k = some v := by
  induction m with
  | nil => simp at h
  | cons e m ih =>
    obtain ⟨k', v'⟩ := e
    simp only [List.map_cons, List.nodup_cons] at hn
    rcases List.mem_cons.mp h with h1 | h1
    · cases h1
      simp [mapFind]
    · have hk : k ∈ m.map Prod.fst := List.mem_map.mpr ⟨(k, v), h1, rfl⟩
      have h2 : ¬ k' = k := fun e => hn.1 (e ▸ hk)
      simp [mapFind, h2, ih hn.2 h1]

theorem mapGet_touch {α : Type} (m : List (OriginID × α)) (k j : OriginID) (d : α) :
    mapGet (mapTouch m k d) j d = mapGet m j d := by
  unfold mapTouch
  by_cases h : (mapFind m k).isSome
  · simp [h]
  · simp only [h]
    by_cases hj : j = k
    · subst hj
      have hn : mapFind m j = none := by simpa using h
      simp [mapGet, mapFind_insert_self, hn]
    · simp [mapGet, mapFind_insert_ne _ _ _ _ hj]

theorem mapFind_touch_of_some {α : Type} (m : List (OriginID × α)) (k j : OriginID) (d v : α)
    (h : mapFind m j = some v) : mapFind (mapTouch m k d) j = some v := by
  unfold mapTouch
  by_cases hk : (mapFind m k).isSome
  · simp [hk, h]
  · simp only [hk]
    by_cases hj : j = k
    · subst hj
      simp [h] at hk
    · simp [mapFind_insert_ne _ _ _ _ hj, h]

/-! ## Lemmas on the second loop of `_flush` -/

theorem slot_flushStep_self (cfg : Config) (ext : Collaborators) (t : Time) (s : State)
    (id : OriginID) :
    slot (flushStep cfg ext t s id) id = slotStep cfg ext t (slot s id) := by
  unfold flushStep slotStep slot
  cases h : mapFind s._outgoing id with
  | none => simp [h]
  | some origin =>
    simp only []
    by_cases hp : _publishable cfg ext origin = true
    · by_cases hn : noImprovement t origin (mapFind s._lastSent id) = true
      · simp [hp, hn, mapFind_erase_self]
      · by_cases hr : ext._report origin = true
        · simp [hp, hn, hr, markSent, mapFind_erase_self, mapFind_insert_self]
        · simp [hp, hn, hr, h]
    · simp [hp, mapFind_erase_self]

theorem slot_flushStep_ne (cfg : Config) (ext : Collaborators) (t : Time) (s : State)
    (id j : OriginID) (hj : j ≠ id) :
    slot (flushStep cfg ext t s id) j = slot s j := by
  unfold flushStep slot
  cases h : mapFind s._outgoing id with
  | none => simp
  | some origin =>
    simp only []
    by_cases hp : _publishable cfg ext origin = true
    · by_cases hn : noImprovement t origin (mapFind s._lastSent id) = true
      · simp [hp, hn, mapFind_erase_ne _ _ _ hj]
      · by_cases hr : ext._report origin = true
        · simp [hp, hn, hr, markSent, mapFind_erase_ne _ _ _ hj, mapFind_insert_ne _ _ _ _ hj]
        · simp [hp, hn, hr]
    · simp [hp, mapFind_erase_ne _ _ _ hj]

theorem log_flushStep (cfg : Config) (ext : Collaborators) (t : Time) (s : State)
    (id : OriginID) :
    (flushStep cfg ext t s id).reportLog = s.reportLog ++ slotReports cfg ext t (slot s id) := by
  unfold flushStep slotReports slot
  cases h : mapFind s._outgoing id with
  | none => simp
  | some origin =>
    simp only []
    by_cases hp : _publishable cfg ext origin = true
    · by_cases hn : noImprovement t origin (mapFind s._lastSent id) = true
      · simp [hp, hn]
      · by_cases hr : ext._report origin = true
        · simp [hp, hn, hr, markSent]
        · simp [hp, hn, hr]
    · simp [hp]

theorem flushLoop_slot_not_mem (cfg : Config) (ext : Collaborators) (t : Time) :
    ∀ (ids : List OriginID) (s : State) (j : OriginID), j ∉ ids →
      slot (ids.foldl (flushStep cfg ext t) s) j = slot s j := by
  intro ids
  induction ids with
  | nil => intro s j _; rfl
  | cons a rest ih =>
    intro s j hj
    have h1 : j ≠ a := fun e => hj (e ▸ List.mem_cons_self _ _)
    have h2 : j ∉ rest := fun e => hj (List.mem_cons_of_mem _ e)
    rw [List.foldl_cons, ih _ _ h2, slot_flushStep_ne _ _ _ _ _ _ h1]

theorem flushLoop_slot_mem (cfg : Config) (ext : Collaborators) (t : Time) :
    ∀ (ids : List OriginID) (s : State) (j : OriginID), ids.Nodup → j ∈ ids →
      slot (ids.foldl (flushStep cfg ext t) s) j = slotStep cfg ext t (slot s j) := by
  intro ids
  induction ids with
  | nil => intro s j _ hj; simp at hj
  | cons a rest ih =>
    intro s j hn hj
    rw [List.nodup_cons] at hn
    rw [List.foldl_cons]
    by_cases h1 : j = a
    · subst h1
      rw [flushLoop_slot_not_mem _ _ _ _ _ _ hn.1, slot_flushStep_self]
    · have h2 : j ∈ rest := by
        rcases List.mem_cons.mp hj with h | h
        · exact absurd h h1
        · exact h
      rw [ih _ _ hn.2 h2, slot_flushStep_ne _ _ _ _ _ _ h1]

theorem flushLoop_log (cfg : Config) (ext : Collaborators) (t : Time) :
    ∀ (ids : List OriginID) (s : State), ids.Nodup →
      (ids.foldl (flushStep cfg ext t) s).reportLog =
        s.reportLog ++ ids.flatMap (fun a => slotReports cfg ext t (slot s a)) := by
  intro ids
  induction ids with
  | nil => intro s _; simp
  | cons a rest ih =>
    intro s hn
    rw [List.nodup_cons] at hn
    rw [List.foldl_cons, ih _ hn.2, log_flushStep, List.flatMap_cons, List.append_assoc]
    congr 2
    apply List.flatMap_congr
    intro b hb
    have h1 : b ≠ a := fun e => hn.1 (e ▸ hb)
    rw [slot_flushStep_ne _ _ _ _ _ _ h1]

theorem flushLoop_log_publishable (cfg : Config) (ext : Collaborators) (t : Time) :
    ∀ (ids : List OriginID) (s : State),
      ∃ L, (ids.foldl (flushStep cfg ext t) s).reportLog = s.reportLog ++ L ∧
        ∀ o ∈ L, _publishable cfg ext o = true := by
  intro ids
  induction ids with
  | nil => intro s; exact ⟨[], by simp, by simp⟩
  | cons a rest ih =>
    intro s
    obtain ⟨L, hL, hP⟩ := ih (flushStep cfg ext t s a)
    refine ⟨slotReports cfg ext t (slot s a) ++ L, ?_, ?_⟩
    · rw [List.foldl_cons, hL, log_flushStep, List.append_assoc]
    · intro o ho
      rcases List.mem_append.mp ho with h | h
      · unfold slotReports at h
        cases hv : (slot s a).outgoing with
        | none => simp [hv] at h
        | some origin =>
          simp only [hv] at h
          by_cases hp : _publishable cfg ext origin = true
          · by_cases hn : noImprovement t origin (slot s a).lastSent = true
            · simp [hp, hn] at h
            · simp [hp, hn] at h
              rw [h]; exact hp
          · simp [hp] at h
      · exact hP o h

/-! ## Lemmas on the first loop of `_flush` -/

theorem selectLoop_spec (cfg : Config) (ext : Collaborators) (t : Time)
    (lastSent : List (OriginID × Origin)) :
    ∀ (l : List (OriginID × Origin)) (nd : List (OriginID × Time)) (ids : List OriginID),
      (l.foldl (selectStep cfg ext t lastSent) (nd, ids)).2 =
          ids ++ (l.filter
            (fun item => isDue cfg ext t lastSent (mapGet nd item.2.id 0) item.2)).map
              (fun item => item.2.id) ∧
        (∀ j, mapGet (l.foldl (selectStep cfg ext t lastSent) (nd, ids)).1 j 0 = mapGet nd j 0) ∧
        (∀ j v, mapFind nd j = some v →
          mapFind (l.foldl (selectStep cfg ext t lastSent) (nd, ids)).1 j = some v) := by
  intro l
  induction l with
  | nil => intro nd ids; simp
  | cons item rest ih =>
    intro nd ids
    have hfilter : rest.filter (fun it =>
          isDue cfg ext t lastSent (mapGet (mapTouch nd item.2.id 0) it.2.id 0) it.2) =
        rest.filter (fun it => isDue cfg ext t lastSent (mapGet nd it.2.id 0) it.2) := by
      congr 1
      funext it
      rw [mapGet_touch]
    rw [List.foldl_cons]
    by_cases hd : isDue cfg ext t lastSent (mapGet nd item.2.id 0) item.2 = true
    · have hstep : selectStep cfg ext t lastSent (nd, ids) item =
          (mapTouch nd item.2.id 0, ids ++ [item.2.id]) := by
        simp [selectStep, mapGet_touch, hd]
      rw [hstep]
      obtain ⟨h1, h2, h3⟩ := ih (mapTouch nd item.2.id 0) (ids ++ [item.2.id])
      refine ⟨?_, ?_, ?_⟩
      · rw [h1, hfilter]
        simp [List.filter_cons, hd]
      · intro j
        rw [h2, mapGet_touch]
      · intro j v hv
        exact h3 j v (mapFind_touch_of_some _ _ _ _ _ hv)
    · have hstep : selectStep cfg ext t lastSent (nd, ids) item =
          (mapTouch nd item.2.id 0, ids) := by
        simp [selectStep, mapGet_touch, hd]
      rw [hstep]
      obtain ⟨h1, h2, h3⟩ := ih (mapTouch nd item.2.id 0) ids
      refine ⟨?_, ?_, ?_⟩
      · rw [h1, hfilter]
        simp [List.filter_cons, hd]
      · intro j
        rw [h2, mapGet_touch]
      · intro j v hv
        exact h3 j v (mapFind_touch_of_some _ _ _ _ _ hv)

theorem selectDue_ids (cfg : Config) (ext : Collaborators) (t : Time) (s : State) :
    (selectDue cfg ext t s).2 =
      (s._outgoing.filter (fun item => selected cfg ext t s item.2)).map
        (fun item => item.2.id) := by
  have h := (selectLoop_spec cfg ext t s._lastSent s._outgoing s._nextDue []).1
  simpa [selectDue, selected] using h

theorem selectDue_get (cfg : Config) (ext : Collaborators) (t : Time) (s : State)
    (j : OriginID) : mapGet (selectDue cfg ext t s).1 j 0 = mapGet s._nextDue j 0 :=
  (selectLoop_spec cfg ext t s._lastSent s._outgoing s._nextDue []).2.1 j

theorem selectDue_ids_wellKeyed (cfg : Config) (ext : Collaborators) (t : Time) (s : State)
    (hk : WellKeyed s._outgoing) :
    (selectDue cfg ext t s).2.Nodup ∧
      ∀ id, id ∈ (selectDue cfg ext t s).2 ↔
        ∃ o, mapFind s._outgoing id = some o ∧ selected cfg ext t s o = true := by
  have hmap : (s._outgoing.filter (fun item => selected cfg ext t s item.2)).map
        (fun item => item.2.id) =
      (s._outgoing.filter (fun item => selected cfg ext t s item.2)).map Prod.fst := by
    apply List.map_congr_left
    intro e he
    exact hk.1 e (List.mem_of_mem_filter he)
  rw [selectDue_ids, hmap]
  constructor
  · exact List.Nodup.sublist ((List.filter_sublist _).map _) hk.2
  · intro id
    constructor
    · intro h
      obtain ⟨e, he, hid⟩ := List.mem_map.mp h
      obtain ⟨he1, he2⟩ := List.mem_filter.mp he
      refine ⟨e.2, ?_, he2⟩
      apply mapFind_of_mem _ _ _ hk.2
      rw [← hid]
      exact he1
    · rintro ⟨o, ho, hs⟩
      exact List.mem_map.mpr ⟨(id, o), List.mem_filter.mpr ⟨mapFind_mem _ _ _ ho, hs⟩, rfl⟩

/-! ## `_flush` as a whole -/

theorem flush_unfold (cfg : Config) (ext : Collaborators) (utc : Time) (s : State) :
    _flush cfg ext utc s =
      (selectDue cfg ext (now cfg utc s) s).2.foldl (flushStep cfg ext (now cfg utc s))
        { s with _nextDue := (selectDue cfg ext (now cfg utc s) s).1 } := rfl

theorem slotReports_iff (cfg : Config) (ext : Collaborators) (t : Time) (v : Slot)
    (o : Origin) :
    o ∈ slotReports cfg ext t v ↔
      v.outgoing = some o ∧ _publishable cfg ext o = true ∧
        noImprovement t o v.lastSent = false := by
  unfold slotReports
  cases hv : v.outgoing with
  | none => simp
  | some origin =>
    simp only []
    by_cases hp : _publishable cfg ext origin = true
    · by_cases hn : noImprovement t origin v.lastSent = true
      · simp only [hp, hn, Bool.not_true, if_true, Bool.false_eq_true, if_false,
          List.not_mem_nil, false_iff]
        rintro ⟨h1, _, h3⟩
        cases h1
        rw [hn] at h3
        cases h3
      · simp only [hp, hn, Bool.not_true, Bool.false_eq_true, if_false,
          List.mem_singleton]
        constructor
        · intro h
          subst h
          exact ⟨rfl, hp, by simpa using hn⟩
        · rintro ⟨h1, _, _⟩
          cases h1
          rfl
    · simp only [hp, Bool.not_false, if_true, List.not_mem_nil, false_iff]
      rintro ⟨h1, h2, _⟩
      cases h1
      exact hp h2

theorem mem_reportedBy (cfg : Config) (ext : Collaborators) (utc : Time) (s : State)
    (hk : WellKeyed s._outgoing) (o : Origin) :
    o ∈ reportedBy cfg ext utc s ↔
      mapFind s._outgoing o.id = some o ∧ selected cfg ext (now cfg utc s) s o = true ∧
        _publishable cfg ext o = true ∧
        noImprovement (now cfg utc s) o (mapFind s._lastSent o.id) = false := by
  obtain ⟨hnd, hmem⟩ := selectDue_ids_wellKeyed cfg ext (now cfg utc s) s hk
  unfold reportedBy
  rw [flush_unfold, flushLoop_log _ _ _ _ _ hnd]
  simp only [List.drop_left, List.mem_flatMap, slotReports_iff, slot]
  constructor
  · rintro ⟨a, ha, h1, h2, h3⟩
    have hid : o.id = a := hk.1 (a, o) (mapFind_mem _ _ _ h1)
    subst hid
    obtain ⟨o', ho', hs'⟩ := (hmem o.id).mp ha
    rw [h1] at ho'
    cases ho'
    exact ⟨h1, hs', h2, h3⟩
  · rintro ⟨h1, h2, h3, h4⟩
    exact ⟨o.id, (hmem o.id).mpr ⟨o, h1, h2⟩, h1, h3, h4⟩

theorem flush_slot_selected (cfg : Config) (ext : Collaborators) (utc : Time) (s : State)
    (hk : WellKeyed s._outgoing) (id : OriginID) (o : Origin)
    (ho : mapFind s._outgoing id = some o)
    (hs : selected cfg ext (now cfg utc s) s o = true) :
    slot (_flush cfg ext utc s) id =
      slotStep cfg ext (now cfg utc s)
        ⟨some o, mapFind (selectDue cfg ext (now cfg utc s) s).1 id, mapFind s._lastSent id⟩ := by
  obtain ⟨hnd, hmem⟩ := selectDue_ids_wellKeyed cfg ext (now cfg utc s) s hk
  rw [flush_unfold, flushLoop_slot_mem _ _ _ _ _ _ hnd ((hmem id).mpr ⟨o, ho, hs⟩)]
  simp [slot, ho]

theorem flush_slot_not_selected (cfg : Config) (ext : Collaborators) (utc : Time) (s : State)
    (hk : WellKeyed s._outgoing) (id : OriginID)
    (hs : ∀ o, mapFind s._outgoing id = some o → selected cfg ext (now cfg utc s) s o = false) :
    slot (_flush cfg ext utc s) id =
      ⟨mapFind s._outgoing id, mapFind (selectDue cfg ext (now cfg utc s) s).1 id,
        mapFind s._lastSent id⟩ := by
  obtain ⟨_, hmem⟩ := selectDue_ids_wellKeyed cfg ext (now cfg utc s) s hk
  have hnot : id ∉ (selectDue cfg ext (now cfg utc s) s).2 := by
    intro h
    obtain ⟨o, ho, hso⟩ := (hmem id).mp h
    rw [hs o ho] at hso
    cases hso
  rw [flush_unfold, flushLoop_slot_not_mem _ _ _ _ _ _ hnot]
  rfl

theorem wellKeyed_id (m : List (OriginID × Origin)) (hk : WellKeyed m) (id : OriginID)
    (o : Origin) (ho : mapFind m id = some o) : o.id = id :=
  hk.1 (id, o) (mapFind_mem _ _ _ ho)

/-! ## Claims on the publication scheduler -/

/-- C1, as stated, fails: origin 7 was sent in the version `exOriginA` and is
due again at time 100; at time 5 its new version, too deep to be publishable
and with no further phase, is not selected by the first loop of `_flush`, so
the gate is not applied to it and it stays in `_outgoing`. -/
theorem unpublishable_origin_stays_outgoing :
    _publishable exConfig exCollab exOriginDeep = false ∧
      mapFind (exScheduled 5 exOriginDeep [(7, 100)] [(7, exOriginA)])._outgoing 7
        = some exOriginDeep ∧
      selected exConfig exCollab 5 (exScheduled 5 exOriginDeep [(7, 100)] [(7, exOriginA)])
        exOriginDeep = false ∧
      mapFind (_flush exConfig exCollab 0
        (exScheduled 5 exOriginDeep [(7, 100)] [(7, exOriginA)]))._outgoing 7
        = some exOriginDeep := by
  refine ⟨?_, ?_, ?_, ?_⟩
  · norm_num [_publishable, exConfig, exCollab, exOriginDeep, exOriginA, exOrigin]
  · simp [mapFind, exScheduled, exState, exOriginDeep, exOriginA, exOrigin]
  · norm_num [selected, isDue, mapGet, mapFind, exScheduled, exState, exConfig, exCollab,
      exOriginDeep, exOriginA, exOrigin]
  · norm_num [_flush, selectDue, selectStep, isDue, flushStep, now, mapFind, mapInsert,
      mapErase, mapTouch, mapGet, exScheduled, exState, exConfig, exCollab, exOriginDeep,
      exOriginA, exOrigin]

/-- C1, amended: `_publishable` holds exactly when the four quality
conditions hold; every origin that `_flush` hands to `_report` satisfies
them; an outgoing origin that the first loop of `_flush` selects and that
fails the test is erased from `_outgoing` without being reported; an outgoing
origin that is not selected is not tested: it stays in `_outgoing`,
publishable or not, and is not reported. -/
theorem flush_reports_only_publishable (cfg : Config) (ext : Collaborators) (utc : Time)
    (s : State) :
    (∀ o, _publishable cfg ext o = true ↔
      (o.quality.aziGapSecondary ≤ cfg.maxAziGapSecondary ∧ cfg.minScore ≤ o.score ∧
        ext.rms o ≤ cfg.maxRMS ∧ o.hypocenter.dep ≤ cfg.maxDepth)) ∧
    (∀ o ∈ reportedBy cfg ext utc s,
      o.quality.aziGapSecondary ≤ cfg.maxAziGapSecondary ∧ cfg.minScore ≤ o.score ∧
        ext.rms o ≤ cfg.maxRMS ∧ o.hypocenter.dep ≤ cfg.maxDepth) ∧
    (∀ id o, WellKeyed s._outgoing → mapFind s._outgoing id = some o →
      selected cfg ext (now cfg utc s) s o = true → _publishable cfg ext o = false →
      mapFind (_flush cfg ext utc s)._outgoing id = none ∧ o ∉ reportedBy cfg ext utc s) ∧
    (∀ id o, WellKeyed s._outgoing → mapFind s._outgoing id = some o →
      selected cfg ext (now cfg utc s) s o = false →
      mapFind (_flush cfg ext utc s)._outgoing id = some o ∧ o ∉ reportedBy cfg ext utc s) := by
  have hiff : ∀ o, _publishable cfg ext o = true ↔
      (o.quality.aziGapSecondary ≤ cfg.maxAziGapSecondary ∧ cfg.minScore ≤ o.score ∧
        ext.rms o ≤ cfg.maxRMS ∧ o.hypocenter.dep ≤ cfg.maxDepth) := by
    intro o
    unfold _publishable
    by_cases h1 : o.quality.aziGapSecondary > cfg.maxAziGapSecondary
    · simp [h1]
    · by_cases h2 : o.score < cfg.minScore
      · simp [h1, h2]
      · by_cases h3 : ext.rms o > cfg.maxRMS
        · simp [h1, h2, h3]
        · by_cases h4 : o.hypocenter.dep > cfg.maxDepth
          · simp [h1, h2, h3, h4]
          · simp only [h1, h2, h3, h4, if_false, true_iff]
            exact ⟨not_lt.mp h1, not_lt.mp h2, not_lt.mp h3, not_lt.mp h4⟩
  have hrep : ∀ o ∈ reportedBy cfg ext utc s, _publishable cfg ext o = true := by
    intro o ho
    obtain ⟨L, hL, hP⟩ := flushLoop_log_publishable cfg ext (now cfg utc s)
      (selectDue cfg ext (now cfg utc s) s).2
      { s with _nextDue := (selectDue cfg ext (now cfg utc s) s).1 }
    unfold reportedBy at ho
    rw [flush_unfold, hL] at ho
    simp only [List.drop_left] at ho
    exact hP o ho
  refine ⟨hiff, fun o ho => (hiff o).mp (hrep o ho), ?_, ?_⟩
  · intro id o hk ho hs hp
    constructor
    · have h := congrArg Slot.outgoing (flush_slot_selected cfg ext utc s hk id o ho hs)
      simpa [slot, slotStep, hp] using h
    · intro hmem
      rw [hrep o hmem] at hp
      cases hp
  · intro id o hk ho hs
    constructor
    · have h := congrArg Slot.outgoing (flush_slot_not_selected cfg ext utc s hk id
        (fun o' ho' => by
          rw [ho] at ho'
          cases ho'
          exact hs))
      simp only [slot] at h
      rw [h, ho]
    · intro hmem
      have h := ((mem_reportedBy cfg ext utc s hk o).mp hmem).2.1
      rw [hs] at h
      cases h

/-- C1, at a concrete state: origin 7 is due and too deep, so `_flush` erases
it from `_outgoing` and does not report it. -/
theorem flush_reports_only_publishable_witness :
    mapFind (_flush exConfig exCollab 0 (exScheduled 5 exOriginDeep [(7, 0)] []))._outgoing 7
        = none ∧
      exOriginDeep ∉ reportedBy exConfig exCollab 0 (exScheduled 5 exOriginDeep [(7, 0)] []) :=
  (flush_reports_only_publishable exConfig exCollab 0
    (exScheduled 5 exOriginDeep [(7, 0)] [])).2.2.1 7 exOriginDeep
    (by simp [WellKeyed, exScheduled, exState, exOriginDeep, exOriginA, exOrigin])
    (by simp [mapFind, exScheduled, exState, exOriginDeep, exOriginA, exOrigin])
    (by simp [selected, isDue, mapGet, mapFind, now, exScheduled, exState, exConfig,
          exOriginDeep, exOriginA, exOrigin])
    (by norm_num [_publishable, exConfig, exCollab, exOriginDeep, exOriginA, exOrigin])

/-- C2: for a selected, publishable outgoing origin whose id has a `_lastSent`
snapshot `previous`, `_flush` drops the update (erases it from `_outgoing`,
does not report it, leaves the values of `_nextDue` and `_lastSent` of the id
as they were) when the defining phase count has not grown and the arrival
count has not grown or less than 150 s have passed since the last send; in
every other case the origin is handed to `_report`. -/
theorem flush_drops_unimproved (cfg : Config) (ext : Collaborators) (utc : Time) (s : State)
    (id : OriginID) (o previous : Origin)
    (hk : WellKeyed s._outgoing)
    (ho : mapFind s._outgoing id = some o)
    (hsel : selected cfg ext (now cfg utc s) s o = true)
    (hpub : _publishable cfg ext o = true)
    (hprev : mapFind s._lastSent id = some previous) :
    ((definingPhaseCount o ≤ definingPhaseCount previous ∧
        (o.arrivals.length ≤ previous.arrivals.length ∨
          now cfg utc s - previous.timestamp < 150)) →
      mapFind (_flush cfg ext utc s)._outgoing id = none ∧
        o ∉ reportedBy cfg ext utc s ∧
        mapGet (_flush cfg ext utc s)._nextDue id 0 = mapGet s._nextDue id 0 ∧
        mapFind (_flush cfg ext utc s)._lastSent id = some previous) ∧
    (¬ (definingPhaseCount o ≤ definingPhaseCount previous ∧
        (o.arrivals.length ≤ previous.arrivals.length ∨
          now cfg utc s - previous.timestamp < 150)) →
      o ∈ reportedBy cfg ext utc s) := by
  have hid : o.id = id := wellKeyed_id _ hk id o ho
  have hslot := flush_slot_selected cfg ext utc s hk id o ho hsel
  constructor
  · intro hdrop
    have hn : noImprovement (now cfg utc s) o (some previous) = true := by
      rcases hdrop with ⟨h1, h2 | h2⟩
      · simp [noImprovement, h1, h2]
      · simp [noImprovement, h1, h2]
    rw [hprev] at hslot
    have hstep : slotStep cfg ext (now cfg utc s)
        ⟨some o, mapFind (selectDue cfg ext (now cfg utc s) s).1 id, some previous⟩ =
        ⟨none, mapFind (selectDue cfg ext (now cfg utc s) s).1 id, some previous⟩ := by
      simp [slotStep, hpub, hn]
    rw [hstep] at hslot
    refine ⟨congrArg Slot.outgoing hslot, ?_, ?_, congrArg Slot.lastSent hslot⟩
    · intro hmem
      have h := ((mem_reportedBy cfg ext utc s hk o).mp hmem).2.2.2
      rw [hid, hprev, hn] at h
      cases h
    · have h := congrArg Slot.nextDue hslot
      have h2 := selectDue_get cfg ext (now cfg utc s) s id
      simp only [slot] at h
      unfold mapGet at h2 ⊢
      rw [h, h2]
  · intro hkeep
    apply (mem_reportedBy cfg ext utc s hk o).mpr
    rw [hid]
    refine ⟨ho, hsel, hpub, ?_⟩
    rw [hprev]
    by_cases h1 : definingPhaseCount o ≤ definingPhaseCount previous
    · have h2 : ¬ (o.arrivals.length ≤ previous.arrivals.length ∨
          now cfg utc s - previous.timestamp < 150) := fun h => hkeep ⟨h1, h⟩
      rw [not_or] at h2
      simp [noImprovement, h1, h2.1, h2.2]
    · simp [noImprovement, h1]

/-- C2, at a concrete state: the last sent version of origin 7 has two
defining arrivals, the outgoing version has one, three arrivals and is due
100 s after the last send. -/
theorem flush_drops_unimproved_witness :
    ((definingPhaseCount exOriginB ≤ definingPhaseCount exOriginA ∧
        (exOriginB.arrivals.length ≤ exOriginA.arrivals.length ∨
          now exConfig 0 (exScheduled 100 exOriginB [(7, 14)] [(7, exOriginA)])
            - exOriginA.timestamp < 150)) →
      mapFind (_flush exConfig exCollab 0
          (exScheduled 100 exOriginB [(7, 14)] [(7, exOriginA)]))._outgoing 7 = none ∧
        exOriginB ∉ reportedBy exConfig exCollab 0
          (exScheduled 100 exOriginB [(7, 14)] [(7, exOriginA)]) ∧
        mapGet (_flush exConfig exCollab 0
          (exScheduled 100 exOriginB [(7, 14)] [(7, exOriginA)]))._nextDue 7 0 =
          mapGet (exScheduled 100 exOriginB [(7, 14)] [(7, exOriginA)])._nextDue 7 0 ∧
        mapFind (_flush exConfig exCollab 0
          (exScheduled 100 exOriginB [(7, 14)] [(7, exOriginA)]))._lastSent 7 =
          some exOriginA) ∧
    (¬ (definingPhaseCount exOriginB ≤ definingPhaseCount exOriginA ∧
        (exOriginB.arrivals.length ≤ exOriginA.arrivals.length ∨
          now exConfig 0 (exScheduled 100 exOriginB [(7, 14)] [(7, exOriginA)])
            - exOriginA.timestamp < 150)) →
      exOriginB ∈ reportedBy exConfig exCollab 0
        (exScheduled 100 exOriginB [(7, 14)] [(7, exOriginA)])) :=
  flush_drops_unimproved exConfig exCollab 0
    (exScheduled 100 exOriginB [(7, 14)] [(7, exOriginA)]) 7 exOriginB exOriginA
    (by simp [WellKeyed, exScheduled, exState, exOriginB, exOrigin])
    (by simp [mapFind, exScheduled, exState, exOriginB, exOrigin])
    (by norm_num [selected, isDue, mapGet, mapFind, now, exScheduled, exState, exConfig,
          exOriginB, exOrigin])
    (by norm_num [_publishable, exConfig, exCollab, exOriginB, exOrigin])
    (by simp [mapFind, exScheduled, exState])

/-- C3, as stated, fails: origin 7 is published at time 0 with two defining
arrivals and again at time 200 with one defining arrival (and a third,
unused arrival). Both publications are made by `report` from a fresh engine. -/
theorem publication_can_lower_defining_count :
    (report exConfig exCollab 0 { exState 0 with _newOrigins := [exOriginA] }).reportLog
        = [exOriginA] ∧
      (report exConfig exCollab 0
        { report exConfig exCollab 0 { exState 0 with _newOrigins := [exOriginA] } with
          _now := 200, _newOrigins := [exOriginB] }).reportLog = [exOriginA, exOriginB] ∧
      exOriginB.id = exOriginA.id ∧
      definingPhaseCount exOriginB < definingPhaseCount exOriginA := by
  have h1 : report exConfig exCollab 0 { exState 0 with _newOrigins := [exOriginA] } =
      { exState 0 with
        _nextDue := [(7, 14)]
        _lastSent := [(7, exOriginA)]
        reportLog := [exOriginA] } := by
    norm_num [report, enqueue, _flush, selectDue, selectStep, isDue, flushStep, markSent,
      nextDueAfter, noImprovement, _publishable, now, mapFind, mapInsert, mapErase, mapTouch,
      mapGet, definingPhaseCount, exState, exConfig, exCollab, exOriginA, exOrigin, exArrival]
  refine ⟨by rw [h1], ?_, rfl, by decide⟩
  rw [h1]
  norm_num [report, enqueue, _flush, selectDue, selectStep, isDue, flushStep, markSent,
    nextDueAfter, noImprovement, _publishable, now, mapFind, mapInsert, mapErase, mapTouch,
    mapGet, definingPhaseCount, exState, exConfig, exCollab, exOriginA, exOriginB, exOrigin,
    exArrival]

/-- C3, amended: when `_flush` publishes an origin whose id has a `_lastSent`
snapshot, either the defining phase count has grown, or the origin has more
arrivals than the snapshot and at least 150 s have passed since the last
send. -/
theorem flush_publication_improves (cfg : Config) (ext : Collaborators) (utc : Time)
    (s : State) (o previous : Origin)
    (hk : WellKeyed s._outgoing)
    (hrep : o ∈ reportedBy cfg ext utc s)
    (hprev : mapFind s._lastSent o.id = some previous) :
    definingPhaseCount previous < definingPhaseCount o ∨
      (previous.arrivals.length < o.arrivals.length ∧
        150 ≤ now cfg utc s - previous.timestamp) := by
  have h := ((mem_reportedBy cfg ext utc s hk o).mp hrep).2.2.2
  rw [hprev] at h
  by_cases h1 : definingPhaseCount o ≤ definingPhaseCount previous
  · right
    simp only [noImprovement, h1, decide_True, Bool.true_and, Bool.or_eq_false_iff,
      decide_eq_false_iff_not, not_le, not_lt] at h
    exact h
  · left
    exact not_le.mp h1

/-- C3 amended, at a concrete state: origin 7 is published 200 s after the
last send with more arrivals but fewer defining ones. -/
theorem flush_publication_improves_witness :
    definingPhaseCount exOriginA < definingPhaseCount exOriginB ∨
      (exOriginA.arrivals.length < exOriginB.arrivals.length ∧
        150 ≤ now exConfig 0 (exScheduled 200 exOriginB [(7, 14)] [(7, exOriginA)])
          - exOriginA.timestamp) :=
  flush_publication_improves exConfig exCollab 0
    (exScheduled 200 exOriginB [(7, 14)] [(7, exOriginA)]) exOriginB exOriginA
    (by simp [WellKeyed, exScheduled, exState, exOriginB, exOrigin])
    ((mem_reportedBy exConfig exCollab 0 (exScheduled 200 exOriginB [(7, 14)] [(7, exOriginA)])
        (by simp [WellKeyed, exScheduled, exState, exOriginB, exOrigin]) exOriginB).mpr
      (by norm_num [selected, isDue, mapGet, mapFind, now, exScheduled, exState, exConfig,
            exCollab, _publishable, noImprovement, definingPhaseCount, exOriginA, exOriginB,
            exOrigin, exArrival]))
    (by simp [mapFind, exScheduled, exState, exOriginB, exOrigin])

/-- C4, as stated, fails: origin 7 has never been sent (no `_lastSent` entry)
and its `_nextDue` is 100; at time 50 the first loop of `_flush` selects it
all the same, and it is reported. -/
theorem never_sent_origin_selected_before_due :
    selected exConfig exCollab 50 (exScheduled 50 exOriginA [(7, 100)] []) exOriginA = true ∧
      ¬ (mapGet (exScheduled 50 exOriginA [(7, 100)] [])._nextDue 7 0 ≤ 50 ∨
          ∃ previous, mapFind (exScheduled 50 exOriginA [(7, 100)] [])._lastSent 7
              = some previous ∧
            exConfig.publicationIntervalPickCount ≤
              exCollab.phaseCount exOriginA - exCollab.phaseCount previous) ∧
      (_flush exConfig exCollab 0 (exScheduled 50 exOriginA [(7, 100)] [])).reportLog
        = [exOriginA] := by
  refine ⟨?_, ?_, ?_⟩
  · norm_num [selected, isDue, mapGet, mapFind, exScheduled, exState, exConfig, exOriginA,
      exOrigin]
  · norm_num [mapGet, mapFind, exScheduled, exState]
    intro x h
    cases h
  · norm_num [_flush, selectDue, selectStep, isDue, flushStep, markSent,
      nextDueAfter, noImprovement, _publishable, now, mapFind, mapInsert, mapErase, mapTouch,
      mapGet, definingPhaseCount, exScheduled, exState, exConfig, exCollab, exOriginA,
      exOrigin, exArrival]

/-- C4, amended: an outgoing origin is selected by `_flush` iff it is due
(`now >= nextDue[id]`), or its id has no `_lastSent` snapshot, or its phase
count exceeds that of the snapshot by `publicationIntervalPickCount` or more.
An origin that is not selected stays in `_outgoing`, is not reported and keeps
its `_nextDue` value and `_lastSent` entry. After a send at time 0 with 20
defining phases and interval `2 * N + 10`, an update at a time before 50 is
selected iff the pick-count condition holds. -/
theorem flush_selection (cfg : Config) (ext : Collaborators) (utc : Time) (s : State)
    (id : OriginID) (o : Origin)
    (hk : WellKeyed s._outgoing)
    (ho : mapFind s._outgoing id = some o) :
    (selected cfg ext (now cfg utc s) s o = true ↔
      (mapGet s._nextDue id 0 ≤ now cfg utc s ∨ mapFind s._lastSent id = none ∨
        ∃ previous, mapFind s._lastSent id = some previous ∧
          cfg.publicationIntervalPickCount ≤ ext.phaseCount o - ext.phaseCount previous)) ∧
    (id ∈ (selectDue cfg ext (now cfg utc s) s).2 ↔
      selected cfg ext (now cfg utc s) s o = true) ∧
    (selected cfg ext (now cfg utc s) s o = false →
      mapFind (_flush cfg ext utc s)._outgoing id = some o ∧
        o ∉ reportedBy cfg ext utc s ∧
        mapGet (_flush cfg ext utc s)._nextDue id 0 = mapGet s._nextDue id 0 ∧
        mapFind (_flush cfg ext utc s)._lastSent id = mapFind s._lastSent id) ∧
    (∀ sent : Origin, cfg.publicationIntervalTimeSlope = 2 →
      cfg.publicationIntervalTimeIntercept = 10 → definingPhaseCount sent = 20 →
      mapFind s._nextDue id = some (nextDueAfter cfg 0 sent) →
      mapFind s._lastSent id = some { sent with timestamp := 0 } →
      now cfg utc s < 50 →
      (selected cfg ext (now cfg utc s) s o = true ↔
        cfg.publicationIntervalPickCount ≤
          ext.phaseCount o - ext.phaseCount { sent with timestamp := 0 })) := by
  have hid : o.id = id := wellKeyed_id _ hk id o ho
  have hsel : selected cfg ext (now cfg utc s) s o = true ↔
      (mapGet s._nextDue id 0 ≤ now cfg utc s ∨ mapFind s._lastSent id = none ∨
        ∃ previous, mapFind s._lastSent id = some previous ∧
          cfg.publicationIntervalPickCount ≤ ext.phaseCount o - ext.phaseCount previous) := by
    unfold selected isDue
    rw [hid]
    cases hl : mapFind s._lastSent id with
    | none => simp
    | some previous => simp
  refine ⟨hsel, ?_, ?_, ?_⟩
  · rw [(selectDue_ids_wellKeyed cfg ext (now cfg utc s) s hk).2 id]
    constructor
    · rintro ⟨o', ho', hs'⟩
      rw [ho] at ho'
      cases ho'
      exact hs'
    · intro h
      exact ⟨o, ho, h⟩
  · intro hns
    have hslot := flush_slot_not_selected cfg ext utc s hk id (by
      intro o' ho'
      rw [ho] at ho'
      cases ho'
      exact hns)
    refine ⟨?_, ?_, ?_, congrArg Slot.lastSent hslot⟩
    · have h := congrArg Slot.outgoing hslot
      simp only [slot] at h
      rw [h, ho]
    · intro hmem
      have h := ((mem_reportedBy cfg ext utc s hk o).mp hmem).2.1
      rw [hns] at h
      cases h
    · have h := congrArg Slot.nextDue hslot
      have h2 := selectDue_get cfg ext (now cfg utc s) s id
      simp only [slot] at h
      unfold mapGet at h2 ⊢
      rw [h, h2]
  · intro sent hA hB hN hdue hlast ht
    rw [hsel]
    have hval : mapGet s._nextDue id 0 = 50 := by
      simp only [mapGet, hdue, nextDueAfter, hA, hB, hN, Option.getD_some]
      norm_num
    rw [hval, hlast]
    constructor
    · rintro (h | h | ⟨previous, hp, hc⟩)
      · exact absurd h (not_le.mpr ht)
      · cases h
      · cases hp
        exact hc
    · intro h
      exact Or.inr (Or.inr ⟨_, rfl, h⟩)

/-- C4 amended, at a concrete state: origin 7 was sent at time 0 with two
defining arrivals (next due at 14); at time 5 the update is not selected. -/
theorem flush_selection_witness :
    mapFind (_flush exConfig exCollab 0
        (exScheduled 5 exOriginB [(7, 14)] [(7, exOriginA)]))._outgoing 7 = some exOriginB ∧
      exOriginB ∉ reportedBy exConfig exCollab 0
        (exScheduled 5 exOriginB [(7, 14)] [(7, exOriginA)]) ∧
      mapGet (_flush exConfig exCollab 0
        (exScheduled 5 exOriginB [(7, 14)] [(7, exOriginA)]))._nextDue 7 0 =
        mapGet (exScheduled 5 exOriginB [(7, 14)] [(7, exOriginA)])._nextDue 7 0 ∧
      mapFind (_flush exConfig exCollab 0
        (exScheduled 5 exOriginB [(7, 14)] [(7, exOriginA)]))._lastSent 7 =
        mapFind (exScheduled 5 exOriginB [(7, 14)] [(7, exOriginA)])._lastSent 7 :=
  (flush_selection exConfig exCollab 0 (exScheduled 5 exOriginB [(7, 14)] [(7, exOriginA)])
    7 exOriginB
    (by simp [WellKeyed, exScheduled, exState, exOriginB, exOrigin])
    (by simp [mapFind, exScheduled, exState, exOriginB, exOrigin])).2.2.1
    (by norm_num [selected, isDue, mapGet, mapFind, now, exScheduled, exState, exConfig,
          exCollab, exOriginA, exOriginB, exOrigin])

/-- C5: when `_flush` hands a selected, publishable, improved origin `o` with
id `id` to `_report` at time `t` and `_report` succeeds, then afterwards
`_nextDue[id]` is `t + A*N + B` if `A*N + B >= 0` and `0` otherwise (with `N`
the defining phase count), `_lastSent[id]` is the origin with timestamp `t`,
and the origin is no longer in `_outgoing`; the iteration for `id` leaves the
entries of every other id in the three maps unchanged. -/
theorem flush_successful_send (cfg : Config) (ext : Collaborators) (utc : Time) (s : State)
    (id : OriginID) (o : Origin)
    (hk : WellKeyed s._outgoing)
    (ho : mapFind s._outgoing id = some o)
    (hsel : selected cfg ext (now cfg utc s) s o = true)
    (hpub : _publishable cfg ext o = true)
    (himp : noImprovement (now cfg utc s) o (mapFind s._lastSent id) = false)
    (hrep : ext._report o = true) :
    (0 ≤ cfg.publicationIntervalTimeSlope * (definingPhaseCount o : ℚ)
          + cfg.publicationIntervalTimeIntercept →
      mapFind (_flush cfg ext utc s)._nextDue id =
        some (now cfg utc s + (cfg.publicationIntervalTimeSlope * (definingPhaseCount o : ℚ)
          + cfg.publicationIntervalTimeIntercept))) ∧
    (cfg.publicationIntervalTimeSlope * (definingPhaseCount o : ℚ)
          + cfg.publicationIntervalTimeIntercept < 0 →
      mapFind (_flush cfg ext utc s)._nextDue id = some 0) ∧
    mapFind (_flush cfg ext utc s)._lastSent id = some { o with timestamp := now cfg utc s } ∧
    mapFind (_flush cfg ext utc s)._outgoing id = none ∧
    o ∈ reportedBy cfg ext utc s ∧
    (∀ (st : State) (j : OriginID), j ≠ id →
      mapFind (flushStep cfg ext (now cfg utc s) st id)._outgoing j = mapFind st._outgoing j ∧
      mapFind (flushStep cfg ext (now cfg utc s) st id)._nextDue j = mapFind st._nextDue j ∧
      mapFind (flushStep cfg ext (now cfg utc s) st id)._lastSent j = mapFind st._lastSent j) := by
  have hid : o.id = id := wellKeyed_id _ hk id o ho
  have hslot := flush_slot_selected cfg ext utc s hk id o ho hsel
  have hstep : slotStep cfg ext (now cfg utc s)
      ⟨some o, mapFind (selectDue cfg ext (now cfg utc s) s).1 id, mapFind s._lastSent id⟩ =
      ⟨none, some (nextDueAfter cfg (now cfg utc s) o),
        some { o with timestamp := now cfg utc s }⟩ := by
    simp [slotStep, hpub, himp, hrep]
  rw [hstep] at hslot
  have hdue : mapFind (_flush cfg ext utc s)._nextDue id =
      some (nextDueAfter cfg (now cfg utc s) o) := congrArg Slot.nextDue hslot
  refine ⟨?_, ?_, congrArg Slot.lastSent hslot, congrArg Slot.outgoing hslot, ?_, ?_⟩
  · intro h
    rw [hdue]
    simp [nextDueAfter, not_lt.mpr h]
  · intro h
    rw [hdue]
    simp [nextDueAfter, h]
  · apply (mem_reportedBy cfg ext utc s hk o).mpr
    rw [hid]
    exact ⟨ho, hsel, hpub, himp⟩
  · intro st j hj
    have h := slot_flushStep_ne cfg ext (now cfg utc s) st id j hj
    exact ⟨congrArg Slot.outgoing h, congrArg Slot.nextDue h, congrArg Slot.lastSent h⟩

/-- C5, at a concrete state: origin 7 with two defining arrivals is sent at
time 5 for the first time; it is next due at `5 + (2 * 2 + 10)`. -/
theorem flush_successful_send_witness :
    mapFind (_flush exConfig exCollab 0 (exScheduled 5 exOriginA [(7, 0)] []))._nextDue 7 =
      some (now exConfig 0 (exScheduled 5 exOriginA [(7, 0)] []) +
        (exConfig.publicationIntervalTimeSlope * (definingPhaseCount exOriginA : ℚ)
          + exConfig.publicationIntervalTimeIntercept)) :=
  (flush_successful_send exConfig exCollab 0 (exScheduled 5 exOriginA [(7, 0)] []) 7 exOriginA
    (by simp [WellKeyed, exScheduled, exState, exOriginA, exOrigin])
    (by simp [mapFind, exScheduled, exState, exOriginA, exOrigin])
    (by norm_num [selected, isDue, mapGet, mapFind, now, exScheduled, exState, exConfig,
          exOriginA, exOrigin])
    (by norm_num [_publishable, exConfig, exCollab, exOriginA, exOrigin])
    (by simp [noImprovement, mapFind, exScheduled, exState])
    (by simp [exCollab])).1
    (by norm_num [exConfig, definingPhaseCount, exOriginA, exOrigin, exArrival])

/-! ## Claims on the pick intake -/

theorem process_of_invalid (cfg : Config) (ext : Collaborators) (pick : Pick) (s : State)
    (h : valid ext pick = false) : _process cfg ext pick s = ⟨false, pick, s⟩ := by
  simp [_process, h]

theorem tagXXL_xxl (cfg : Config) (pick : Pick) :
    (tagXXL cfg pick).xxl = true ↔
      pick.xxl = true ∨ (cfg.xxlEnabled = true ∧ cfg.xxlMinAmplitude ≤ pick.amp ∧
        cfg.xxlMinSNR < pick.snr) := by
  unfold tagXXL
  by_cases h : (cfg.xxlEnabled && decide (pick.amp ≥ cfg.xxlMinAmplitude) &&
      decide (pick.snr > cfg.xxlMinSNR)) = true
  · have h' := h
    simp only [Bool.and_eq_true, decide_eq_true_eq, ge_iff_le, gt_iff_lt] at h'
    simp only [h, if_true]
    constructor
    · intro _
      exact Or.inr ⟨h'.1.1, h'.1.2, h'.2⟩
    · intro _
      trivial
  · have h' := h
    simp only [Bool.and_eq_true, decide_eq_true_eq, ge_iff_le, gt_iff_lt] at h'
    simp only [h, if_false]
    constructor
    · intro hx
      exact Or.inl hx
    · rintro (hx | ⟨h1, h2, h3⟩)
      · exact hx
      · exact absurd ⟨⟨h1, h2⟩, h3⟩ h'

/-- After the two entry checks the returned pick record carries the flag set
by the XXL tagging. -/
theorem process_pick_xxl (cfg : Config) (ext : Collaborators) (pick : Pick) (s : State)
    (hv : valid ext pick = true) (hs : (automatic pick && _tooLowSNR cfg pick) = false) :
    (_process cfg ext pick s).pick.xxl = (tagXXL cfg pick).xxl := by
  unfold _process
  simp only [hv, hs, Bool.not_true, Bool.false_eq_true, if_false]
  split
  · rfl
  · split
    · rfl
    · split
      · split <;> rfl
      · split
        · rfl
        · split <;> rfl

/-- C6: `valid(pick)` holds iff the pick has a station and is either not
automatic or has `0 < snr <= 1e7` and an amplitude; an automatic pick with
`snr <= 0` or `snr > 1e7` is rejected by `_process` with the state (and the
pick) unchanged. -/
theorem valid_iff_and_rejects_bad_snr (cfg : Config) (ext : Collaborators) (pick : Pick)
    (s : State) :
    (valid ext pick = true ↔
      (pick.station.isSome = true ∧
        (automatic pick = false ∨
          (0 < pick.snr ∧ pick.snr ≤ 10000000 ∧ ext.hasAmplitude pick = true)))) ∧
    (automatic pick = true → (pick.snr ≤ 0 ∨ pick.snr > 10000000) →
      _process cfg ext pick s = ⟨false, pick, s⟩) := by
  have hiff : valid ext pick = true ↔
      (pick.station.isSome = true ∧
        (automatic pick = false ∨
          (0 < pick.snr ∧ pick.snr ≤ 10000000 ∧ ext.hasAmplitude pick = true))) := by
    unfold valid
    cases hst : pick.station with
    | none => simp
    | some st =>
      cases ha : automatic pick with
      | false => simp
      | true =>
        by_cases h1 : pick.snr ≤ 0
        · simp [h1, not_lt.mpr h1]
        · by_cases h2 : pick.snr > 10000000
          · simp [h1, h2, not_le.mpr h2]
          · cases hamp : ext.hasAmplitude pick with
            | false => simp [h1, h2]
            | true =>
              have h1' : 0 < pick.snr := not_le.mp h1
              have h2' : pick.snr ≤ 10000000 := not_lt.mp h2
              simp [h1, h2, h1', h2']
  refine ⟨hiff, ?_⟩
  intro ha hsnr
  apply process_of_invalid
  cases hv : valid ext pick with
  | false => rfl
  | true =>
    rcases (hiff.mp hv).2 with h | ⟨h1, h2, _⟩
    · rw [ha] at h
      cases h
    · rcases hsnr with h3 | h3
      · exact absurd h1 (not_lt.mpr h3)
      · exact absurd h2 (not_le.mpr h3)

/-- C6, at a concrete pick: an automatic pick with snr `2e7` is rejected. -/
theorem valid_iff_and_rejects_bad_snr_witness :
    _process exConfig exCollab (exPick "p1" 0 10 20000000 PickMode.Automatic) (exState 0) =
      ⟨false, exPick "p1" 0 10 20000000 PickMode.Automatic, exState 0⟩ :=
  (valid_iff_and_rejects_bad_snr exConfig exCollab
    (exPick "p1" 0 10 20000000 PickMode.Automatic) (exState 0)).2
    (by simp [automatic, exPick])
    (Or.inr (by norm_num [exPick]))

/-- C7, as stated, fails: a valid automatic pick with `amp` above
`xxlMinAmplitude` and `snr` equal to `xxlMinSNR` passes the minimum-SNR check
and leaves `_process` with `xxl = false`, although XXL mode is enabled. -/
theorem xxl_not_set_at_min_snr :
    valid exCollab (exPick "p1" 0 5000 8 PickMode.Automatic) = true ∧
      _tooLowSNR exConfig (exPick "p1" 0 5000 8 PickMode.Automatic) = false ∧
      (exPick "p1" 0 5000 8 PickMode.Automatic).xxl = false ∧
      (exConfig.xxlEnabled = true ∧
        exConfig.xxlMinAmplitude ≤ (exPick "p1" 0 5000 8 PickMode.Automatic).amp ∧
        exConfig.xxlMinSNR ≤ (exPick "p1" 0 5000 8 PickMode.Automatic).snr) ∧
      (_process exConfig exCollab (exPick "p1" 0 5000 8 PickMode.Automatic)
        (exState 0)).pick.xxl = false := by
  have hv : valid exCollab (exPick "p1" 0 5000 8 PickMode.Automatic) = true := by
    norm_num [valid, automatic, exCollab, exPick]
  have hs : _tooLowSNR exConfig (exPick "p1" 0 5000 8 PickMode.Automatic) = false := by
    norm_num [_tooLowSNR, automatic, exConfig, exPick]
  refine ⟨hv, hs, rfl, ⟨rfl, ?_, ?_⟩, ?_⟩
  · norm_num [exConfig, exPick]
  · norm_num [exConfig, exPick]
  · rw [process_pick_xxl _ _ _ _ hv (by simp [hs])]
    norm_num [tagXXL, exConfig, exPick]

/-- C7, amended: for a valid pick that passes the minimum-SNR check and enters
`_process` with `xxl = false`, the flag is set afterwards iff XXL mode is
enabled, `amp >= xxlMinAmplitude` and `snr > xxlMinSNR` (the SNR threshold is
exclusive). -/
theorem xxl_flag_iff (cfg : Config) (ext : Collaborators) (pick : Pick) (s : State)
    (hv : valid ext pick = true)
    (hs : (automatic pick && _tooLowSNR cfg pick) = false)
    (hx : pick.xxl = false) :
    (_process cfg ext pick s).pick.xxl = true ↔
      (cfg.xxlEnabled = true ∧ cfg.xxlMinAmplitude ≤ pick.amp ∧ cfg.xxlMinSNR < pick.snr) := by
  rw [process_pick_xxl _ _ _ _ hv hs, tagXXL_xxl, hx]
  simp

/-- C7 amended, at a concrete pick: amplitude 5000 and snr 9 against the
thresholds 1000 and 8. -/
theorem xxl_flag_iff_witness :
    (_process exConfig exCollab (exPick "p1" 0 5000 9 PickMode.Automatic)
        (exState 0)).pick.xxl = true ↔
      (exConfig.xxlEnabled = true ∧
        exConfig.xxlMinAmplitude ≤ (exPick "p1" 0 5000 9 PickMode.Automatic).amp ∧
        exConfig.xxlMinSNR < (exPick "p1" 0 5000 9 PickMode.Automatic).snr) :=
  xxl_flag_iff exConfig exCollab (exPick "p1" 0 5000 9 PickMode.Automatic) (exState 0)
    (by norm_num [valid, automatic, exCollab, exPick])
    (by norm_num [_tooLowSNR, automatic, exConfig, exPick])
    rfl

theorem flushStep_pickPool (cfg : Config) (ext : Collaborators) (t : Time) (s : State)
    (id : OriginID) : (flushStep cfg ext t s id).pickPool = s.pickPool := by
  unfold flushStep
  split
  · rfl
  · split
    · rfl
    · split
      · rfl
      · split <;> rfl

theorem flush_pickPool (cfg : Config) (ext : Collaborators) (utc : Time) (s : State) :
    (_flush cfg ext utc s).pickPool = s.pickPool := by
  have h : ∀ (ids : List OriginID) (st : State),
      (ids.foldl (flushStep cfg ext (now cfg utc s)) st).pickPool = st.pickPool := by
    intro ids
    induction ids with
    | nil => intro st; rfl
    | cons a rest ih =>
      intro st
      rw [List.foldl_cons, ih, flushStep_pickPool]
  rw [flush_unfold, h]

theorem report_pickPool (cfg : Config) (ext : Collaborators) (utc : Time) (s : State) :
    (report cfg ext utc s).pickPool = s.pickPool := by
  have h : ∀ (l : List Origin) (st : State), (l.foldl enqueue st).pickPool = st.pickPool := by
    intro l
    induction l with
    | nil => intro st; rfl
    | cons a rest ih =>
      intro st
      rw [List.foldl_cons, ih]
      rfl
  unfold report
  rw [flush_pickPool]
  exact h _ _

theorem xxlIds_writePick (s : State) (pick : Pick) (id : PickID)
    (h : id ∈ xxlIds (writePick s pick).pickPool) : id = pick.id ∨ id ∈ xxlIds s.pickPool := by
  unfold xxlIds writePick at h
  simp only [List.mem_map, List.mem_filter] at h
  obtain ⟨q', ⟨⟨q, hq, hq'⟩, hx⟩, hid⟩ := h
  by_cases hc : q.id = pick.id
  · left
    rw [← hid, ← hq']
    simp [hc]
  · right
    simp only [hc, if_false] at hq'
    subst hq'
    exact List.mem_map.mpr ⟨q, List.mem_filter.mpr ⟨hq, hx⟩, hid⟩

theorem intake_pick_id (cfg : Config) (pick : Pick) :
    (normalize cfg (tagXXL cfg pick)).id = pick.id := by
  show (tagXXL cfg pick).id = pick.id
  unfold tagXXL
  split <;> rfl

theorem process_xxlIds (cfg : Config) (ext : Collaborators) (pick : Pick) (s : State)
    (hloc : ∀ p st id, id ∈ xxlIds (ext.locate p st).2.pickPool → id ∈ xxlIds st.pickPool)
    (id : PickID) (h : id ∈ xxlIds (_process cfg ext pick s).state.pickPool) :
    id = pick.id ∨ id ∈ xxlIds s.pickPool := by
  have hw : ∀ id, id ∈ xxlIds (writePick s (normalize cfg (tagXXL cfg pick))).pickPool →
      id = pick.id ∨ id ∈ xxlIds s.pickPool := by
    intro id h
    have h2 := xxlIds_writePick _ _ _ h
    rwa [intake_pick_id] at h2
  unfold _process at h
  split at h
  · exact Or.inr h
  · split at h
    · exact Or.inr h
    · simp only at h
      split at h
      · rcases xxlIds_writePick _ _ _ h with h1 | h1
        · left
          rw [h1]
          exact intake_pick_id cfg pick
        · exact hw _ h1
      · split at h
        · exact hw _ h
        · split at h
          · split at h
            · exact hw _ h
            · exact hw _ h
          · split at h
            · exact hw _ h
            · split at h
              · exact hw _ h
              · exact hw _ (hloc _ _ _ h)

/-! ## The recent-pick-rate gate -/

theorem clampSNR_eq (x : ℚ) : clampSNR x = max 3 (min x 15) := by
  unfold clampSNR
  by_cases h1 : x > 15
  · have h2 : ¬ ((15 : ℚ) < 3) := by norm_num
    simp only [h1, if_true, h2, if_false]
    rw [min_eq_right (le_of_lt h1), max_eq_right (by norm_num)]
  · have h1' : x ≤ 15 := not_lt.mp h1
    simp only [h1, if_false]
    rw [min_eq_left h1']
    by_cases h3 : x < 3
    · simp only [h3, if_true]
      rw [max_eq_left (le_of_lt h3)]
    · simp only [h3, if_false]
      rw [max_eq_right (not_lt.mp h3)]

theorem pickWeight_nonneg (cfg : Config) (newPick oldPick : Pick)
    (hD : 0 < cfg.dynamicPickThresholdInterval)
    (hw : inWindow cfg newPick oldPick = true) : 0 ≤ pickWeight cfg newPick oldPick := by
  unfold inWindow at hw
  simp only [Bool.and_eq_true, decide_eq_true_eq] at hw
  unfold pickWeight
  apply mul_nonneg
  · exact le_trans (by norm_num) (le_max_left _ _)
  · have h : (newPick.time - oldPick.time) / cfg.dynamicPickThresholdInterval ≤ 1 := by
      rw [div_le_one hD]
      exact hw.2
    linarith

theorem windowSum_cons (cfg : Config) (keep : Pick → Bool) (old : Pick) (pool : List Pick)
    (newPick : Pick) :
    windowSum cfg keep (old :: pool) newPick =
      (if (inWindow cfg newPick old && keep old) = true then pickWeight cfg newPick old else 0)
        + windowSum cfg keep pool newPick := by
  unfold windowSum
  by_cases h : (inWindow cfg newPick old && keep old) = true
  · simp [List.filter_cons, h]
  · simp [List.filter_cons, h]

theorem windowSum_mono (cfg : Config) (keep1 keep2 : Pick → Bool) (newPick : Pick)
    (hD : 0 < cfg.dynamicPickThresholdInterval)
    (hk : ∀ old, keep1 old = true → keep2 old = true) :
    ∀ pool : List Pick, windowSum cfg keep1 pool newPick ≤ windowSum cfg keep2 pool newPick := by
  intro pool
  induction pool with
  | nil => simp [windowSum]
  | cons old pool ih =>
    rw [windowSum_cons, windowSum_cons]
    apply add_le_add _ ih
    by_cases hw : inWindow cfg newPick old = true
    · by_cases h1 : keep1 old = true
      · simp [hw, h1, hk old h1]
      · by_cases h2 : keep2 old = true
        · simp [hw, h1, h2, pickWeight_nonneg cfg newPick old hD hw]
        · simp [hw, h1, h2]
    · simp [hw]

theorem windowSum_congr (cfg : Config) (keep1 keep2 : Pick → Bool) (newPick : Pick) :
    ∀ pool : List Pick,
      (∀ old ∈ pool, inWindow cfg newPick old = true → keep1 old = keep2 old) →
      windowSum cfg keep1 pool newPick = windowSum cfg keep2 pool newPick := by
  intro pool
  induction pool with
  | nil => intro _; rfl
  | cons old pool ih =>
    intro h
    rw [windowSum_cons, windowSum_cons,
      ih (fun q hq => h q (List.mem_cons_of_mem _ hq))]
    by_cases hw : inWindow cfg newPick old = true
    · rw [h old (List.mem_cons_self _ _) hw]
    · simp [hw]

/-- The first component of one loop iteration of `_tooManyRecentPicks` for a
new pick that is not associated to an origin. -/
theorem recentPickStep_fst (cfg : Config) (newPick old : Pick) (acc : ℚ × ℚ)
    (hfree : newPick.origin = none) :
    (recentPickStep cfg newPick acc old).1 =
      acc.1 + (if (inWindow cfg newPick old && !manualIgnored cfg old) = true
        then pickWeight cfg newPick old else 0) := by
  unfold recentPickStep inWindow manualIgnored pickWeight
  by_cases h1 : old.station = newPick.station
  · by_cases h2 : (!cfg.useManualPicks && manual old && !cfg.useManualOrigins) = true
    · simp [h1, h2]
    · by_cases h3 : newPick.time - old.time < 0
      · simp [h1, h2, h3, not_le.mpr h3]
      · by_cases h4 : newPick.time - old.time > cfg.dynamicPickThresholdInterval
        · simp [h1, h2, h3, h4, not_le.mpr h4]
        · have h3' : 0 ≤ newPick.time - old.time := not_lt.mp h3
          have h4' : newPick.time - old.time ≤ cfg.dynamicPickThresholdInterval :=
            not_lt.mp h4
          simp only [ne_eq, h1, not_true_eq_false, if_false, h2, Bool.false_eq_true, h3, h4,
            or_self, hfree, Option.isSome_none, clampSNR_eq, decide_True, Bool.true_and,
            h3', h4', Bool.not_false, Bool.and_self, if_true]
  · simp [h1]

theorem recentPickLoop_fst (cfg : Config) (newPick : Pick) (hfree : newPick.origin = none) :
    ∀ (pool : List Pick) (acc : ℚ × ℚ),
      (pool.foldl (recentPickStep cfg newPick) acc).1 =
        acc.1 + windowSum cfg (fun old => !manualIgnored cfg old) pool newPick := by
  intro pool
  induction pool with
  | nil => intro acc; simp [windowSum]
  | cons old pool ih =>
    intro acc
    rw [List.foldl_cons, ih, recentPickStep_fst _ _ _ _ hfree, windowSum_cons, add_assoc]

theorem recentPickWeight_eq (cfg : Config) (pool : List Pick) (newPick : Pick)
    (hfree : newPick.origin = none) :
    recentPickWeight cfg pool newPick =
      2 * (7 / 100) * windowSum cfg (fun old => !manualIgnored cfg old) pool newPick := by
  unfold recentPickWeight
  rw [recentPickLoop_fst cfg newPick hfree]
  simp only [zero_add]
  ring

theorem intake_pick_fields (cfg : Config) (pick : Pick) :
    (normalize cfg (tagXXL cfg pick)).station = pick.station ∧
      (normalize cfg (tagXXL cfg pick)).time = pick.time ∧
      (normalize cfg (tagXXL cfg pick)).origin = pick.origin ∧
      (normalize cfg (tagXXL cfg pick)).mode = pick.mode ∧
      (normalize cfg (tagXXL cfg pick)).snr = pick.snr := by
  show (tagXXL cfg pick).station = pick.station ∧ (tagXXL cfg pick).time = pick.time ∧
    (tagXXL cfg pick).origin = pick.origin ∧ (tagXXL cfg pick).mode = pick.mode ∧
    (tagXXL cfg pick).snr = pick.snr
  unfold tagXXL
  split <;> simp

theorem recentPickStep_congr (cfg : Config) (p p' q q' : Pick) (acc : ℚ × ℚ)
    (h1 : p'.station = p.station) (h2 : p'.time = p.time) (h3 : p'.origin = p.origin)
    (h4 : q'.station = q.station) (h5 : q'.time = q.time) (h6 : q'.mode = q.mode)
    (h7 : q'.snr = q.snr) :
    recentPickStep cfg p' acc q' = recentPickStep cfg p acc q := by
  unfold recentPickStep manual
  rw [h1, h2, h3, h4, h5, h6, h7]

theorem recentPickLoop_writePick (cfg : Config) (newPick : Pick) :
    ∀ (pool : List Pick), (∀ q ∈ pool, q.id = newPick.id → q = newPick) →
      ∀ acc : ℚ × ℚ,
        (pool.map (fun q => if q.id = (normalize cfg (tagXXL cfg newPick)).id
            then normalize cfg (tagXXL cfg newPick) else q)).foldl
            (recentPickStep cfg (normalize cfg (tagXXL cfg newPick))) acc =
          pool.foldl (recentPickStep cfg newPick) acc := by
  obtain ⟨f1, f2, f3, f4, f5⟩ := intake_pick_fields cfg newPick
  intro pool
  induction pool with
  | nil => intro _ acc; rfl
  | cons q rest ih =>
    intro hrec acc
    have hstep : recentPickStep cfg (normalize cfg (tagXXL cfg newPick)) acc
        (if q.id = (normalize cfg (tagXXL cfg newPick)).id
          then normalize cfg (tagXXL cfg newPick) else q) =
        recentPickStep cfg newPick acc q := by
      by_cases hq : q.id = (normalize cfg (tagXXL cfg newPick)).id
      · have hqn : q = newPick := hrec q (List.mem_cons_self _ _)
          (hq.trans (intake_pick_id cfg newPick))
        simp only [hq, if_true]
        rw [hqn]
        exact recentPickStep_congr cfg _ _ _ _ acc f1 f2 f3 f1 f2 f4 f5
      · simp only [hq, if_false]
        exact recentPickStep_congr cfg _ _ _ _ acc f1 f2 f3 rfl rfl rfl rfl
    rw [List.map_cons, List.foldl_cons, List.foldl_cons, hstep]
    exact ih (fun q' hq' => hrec q' (List.mem_cons_of_mem _ hq')) _

/-! ## Manual picks and the blacklist -/

theorem blacklisted_intake (cfg : Config) (pick : Pick) (s : State) :
    _blacklisted (writePick s (normalize cfg (tagXXL cfg pick))) (normalize cfg (tagXXL cfg pick))
      = _blacklisted s pick := by
  unfold _blacklisted
  rw [intake_pick_id]
  rfl

theorem blacklisted_iff (s : State) (pick : Pick) :
    _blacklisted s pick = true ↔ pick.id ∈ s._blacklist := by
  unfold _blacklisted
  by_cases h : pick.id ∈ s._blacklist
  · simp [h]
  · simp [h]

/-- A pick whose id is in the blacklist gets no further than the blacklist
check of `_process`. -/
theorem process_of_blacklisted (cfg : Config) (ext : Collaborators) (pick : Pick) (s : State)
    (h : pick.id ∈ s._blacklist) :
    (_process cfg ext pick s).status = false ∧
      (_process cfg ext pick s).state._origins = s._origins ∧
      (_process cfg ext pick s).state._newOrigins = s._newOrigins ∧
      (_process cfg ext pick s).state._blacklist = s._blacklist := by
  have hb : _blacklisted (writePick s (normalize cfg (tagXXL cfg pick)))
      (normalize cfg (tagXXL cfg pick)) = true := by
    rw [blacklisted_intake, blacklisted_iff]
    exact h
  unfold _process
  split
  · exact ⟨rfl, rfl, rfl, rfl⟩
  · split
    · exact ⟨rfl, rfl, rfl, rfl⟩
    · simp only [hb, if_true]
      split
      · exact ⟨rfl, rfl, rfl, rfl⟩
      · exact ⟨rfl, rfl, rfl, rfl⟩

theorem process_blacklist_mono (cfg : Config) (ext : Collaborators)
    (hloc : ∀ p st, (ext.locate p st).2._blacklist = st._blacklist)
    (pick : Pick) (s : State) (id : PickID) (h : id ∈ s._blacklist) :
    id ∈ (_process cfg ext pick s).state._blacklist := by
  unfold _process
  split
  · exact h
  · split
    · exact h
    · simp only []
      split
      · exact h
      · split
        · exact h
        · split
          · split
            · exact h
            · unfold _setBlacklisted
              simp only [if_true]
              split
              · exact h
              · exact List.mem_cons_of_mem _ h
          · split
            · exact h
            · split
              · exact h
              · rw [hloc]
                exact h

theorem processAll_blacklist_mono (cfg : Config) (ext : Collaborators)
    (hloc : ∀ p st, (ext.locate p st).2._blacklist = st._blacklist) (id : PickID) :
    ∀ (picks : List Pick) (s : State), id ∈ s._blacklist →
      id ∈ (processAll cfg ext picks s)._blacklist := by
  intro picks
  induction picks with
  | nil => intro s h; exact h
  | cons q rest ih =>
    intro s h
    unfold processAll
    rw [List.foldl_cons]
    exact ih _ (process_blacklist_mono cfg ext hloc q s id h)

theorem process_manual_unused (cfg : Config) (ext : Collaborators) (pick : Pick) (s : State)
    (hv : valid ext pick = true) (hm : manual pick = true)
    (hnb : _blacklisted s pick = false) (hump : cfg.useManualPicks = false) :
    _process cfg ext pick s =
      if cfg.useManualOrigins then
        ⟨true, normalize cfg (tagXXL cfg pick), writePick s (normalize cfg (tagXXL cfg pick))⟩
      else
        ⟨false, normalize cfg (tagXXL cfg pick),
          _setBlacklisted (writePick s (normalize cfg (tagXXL cfg pick)))
            (normalize cfg (tagXXL cfg pick)) true⟩ := by
  obtain ⟨_, _, _, f4, _⟩ := intake_pick_fields cfg pick
  have hmode : pick.mode = PickMode.Manual := by
    simpa [manual] using hm
  have ha : automatic pick = false := by
    simp [automatic, hmode]
  have ha1 : automatic (normalize cfg (tagXXL cfg pick)) = false := by
    simp [automatic, f4, hmode]
  have hm1 : manual (normalize cfg (tagXXL cfg pick)) = true := by
    simp [manual, f4, hmode]
  have hb := blacklisted_intake cfg pick s
  rw [hnb] at hb
  unfold _process
  simp only [hv, ha, ha1, hm1, hb, hump, Bool.not_true, Bool.not_false, Bool.false_and,
    Bool.true_and, Bool.and_self, Bool.false_eq_true, if_false, if_true]

theorem valid_of_manual (ext ext' : Collaborators) (pick : Pick) (hm : manual pick = true)
    (hv : valid ext pick = true) : valid ext' pick = true := by
  have hmode : pick.mode = PickMode.Manual := by
    simpa [manual] using hm
  have ha : automatic pick = false := by
    simp [automatic, hmode]
  unfold valid at hv ⊢
  cases hst : pick.station with
  | none => simp [hst] at hv
  | some st => simp [ha]

/-- C10: for a valid manual pick that is not blacklisted, with
`useManualPicks = false`. If `useManualOrigins = true`, `_process` returns
true, leaves the origin set, the new origins and the blacklist unchanged, and
its result does not depend on the collaborators (neither the associator nor
the nucleator is run). If `useManualOrigins = false`, `_process` returns
false and the pick is in the blacklist afterwards; every `_process` of a pick
with that id in a state whose blacklist holds the id returns false with the
origin set and the blacklist unchanged; and, as the association stage does
not modify the blacklist, this is the case for every later `_process` of the
pick, whatever picks are processed in between. -/
theorem manual_pick_stored_or_blacklisted (cfg : Config) (ext : Collaborators) (pick : Pick)
    (s : State)
    (hv : valid ext pick = true) (hm : manual pick = true)
    (hnb : _blacklisted s pick = false) (hump : cfg.useManualPicks = false) :
    (cfg.useManualOrigins = true →
      (_process cfg ext pick s).status = true ∧
        (_process cfg ext pick s).state._origins = s._origins ∧
        (_process cfg ext pick s).state._newOrigins = s._newOrigins ∧
        (_process cfg ext pick s).state._blacklist = s._blacklist ∧
        (∀ ext' : Collaborators, _process cfg ext' pick s = _process cfg ext pick s)) ∧
    (cfg.useManualOrigins = false →
      (_process cfg ext pick s).status = false ∧
        pick.id ∈ (_process cfg ext pick s).state._blacklist ∧
        (_process cfg ext pick s).state._origins = s._origins ∧
        (∀ (p' : Pick) (s' : State), p'.id = pick.id → pick.id ∈ s'._blacklist →
          (_process cfg ext p' s').status = false ∧
            (_process cfg ext p' s').state._origins = s'._origins ∧
            (_process cfg ext p' s').state._blacklist = s'._blacklist) ∧
        ((∀ p st, (ext.locate p st).2._blacklist = st._blacklist) →
          ∀ (later : List Pick) (p' : Pick), p'.id = pick.id →
            (_process cfg ext p'
              (processAll cfg ext later (_process cfg ext pick s).state)).status = false)) := by
  have hp := process_manual_unused cfg ext pick s hv hm hnb hump
  constructor
  · intro huo
    rw [huo] at hp
    simp only [if_true] at hp
    refine ⟨by rw [hp], by rw [hp]; rfl, by rw [hp]; rfl, by rw [hp]; rfl, ?_⟩
    intro ext'
    have hp' := process_manual_unused cfg ext' pick s (valid_of_manual ext ext' pick hm hv) hm
      hnb hump
    rw [huo] at hp'
    simp only [if_true] at hp'
    rw [hp, hp']
  · intro huo
    rw [huo] at hp
    simp only [Bool.false_eq_true, if_false] at hp
    have hin : pick.id ∈ (_process cfg ext pick s).state._blacklist := by
      rw [hp]
      unfold _setBlacklisted
      simp only [if_true]
      rw [intake_pick_id]
      split
      · assumption
      · exact List.mem_cons_self _ _
    refine ⟨by rw [hp], hin, ?_, ?_, ?_⟩
    · rw [hp]
      unfold _setBlacklisted
      rfl
    · intro p' s' hid hmem
      have h := process_of_blacklisted cfg ext p' s' (by rw [hid]; exact hmem)
      exact ⟨h.1, h.2.1, h.2.2.2⟩
    · intro hloc later p' hid
      have hmem := processAll_blacklist_mono cfg ext hloc pick.id later _ hin
      exact (process_of_blacklisted cfg ext p' _ (by rw [hid]; exact hmem)).1

/-- C10, at a concrete pick: with `useManualPicks` and `useManualOrigins` both
false a valid manual pick is rejected and blacklisted, and rejected again
after another pick has been processed. -/
theorem manual_pick_stored_or_blacklisted_witness :
    (_process exConfig exCollab (exPick "m" 0 10 5 PickMode.Manual) (exState 0)).status = false ∧
      (exPick "m" 0 10 5 PickMode.Manual).id ∈
        (_process exConfig exCollab (exPick "m" 0 10 5 PickMode.Manual)
          (exState 0)).state._blacklist ∧
      (_process exConfig exCollab (exPick "m" 0 10 5 PickMode.Manual)
        (processAll exConfig exCollab [exPick "n" 0 10 5 PickMode.Automatic]
          (_process exConfig exCollab (exPick "m" 0 10 5 PickMode.Manual)
            (exState 0)).state)).status = false :=
  have h := (manual_pick_stored_or_blacklisted exConfig exCollab
    (exPick "m" 0 10 5 PickMode.Manual) (exState 0)
    (by simp [valid, automatic, exPick])
    (by simp [manual, exPick])
    (by simp [_blacklisted, exState])
    rfl).2 rfl
  ⟨h.1, h.2.1,
    h.2.2.2.2 (fun _ _ => rfl) [exPick "n" 0 10 5 PickMode.Automatic]
      (exPick "m" 0 10 5 PickMode.Manual) rfl⟩

/-! ## Claims on the time gates of the association -/

theorem associate_of_not_mightBe (cfg : Config) (ext : Collaborators) (origin : Origin)
    (pick : Pick) (phase : String) (h : mightBeAssociated pick origin = false) :
    _associate cfg ext origin pick phase = (false, origin) := by
  simp [_associate, h]

/-- C13: `mightBeAssociated` accepts exactly the picks with
`-10 <= pick.time - origin.time <= 1300`, both bounds included, and
`_associate` returns false (leaving the origin as it is) whenever the
difference is below -10 s or above 1300 s. -/
theorem associate_crude_time_gate (cfg : Config) (ext : Collaborators) (origin : Origin)
    (pick : Pick) (phase : String) :
    (mightBeAssociated pick origin = true ↔
      (-10 ≤ pick.time - origin.time ∧ pick.time - origin.time ≤ 1300)) ∧
    ((pick.time - origin.time < -10 ∨ pick.time - origin.time > 1300) →
      _associate cfg ext origin pick phase = (false, origin)) := by
  have hiff : mightBeAssociated pick origin = true ↔
      (-10 ≤ pick.time - origin.time ∧ pick.time - origin.time ≤ 1300) := by
    unfold mightBeAssociated
    by_cases h : pick.time - origin.time < -10 ∨ pick.time - origin.time > 1300
    · simp only [h, if_true, Bool.false_eq_true, false_iff, not_and, not_le]
      intro h1
      rcases h with h | h
      · exact absurd h1 (not_le.mpr h)
      · exact h
    · simp only [h, if_false, true_iff]
      rw [not_or] at h
      exact ⟨not_lt.mp h.1, not_lt.mp h.2⟩
  refine ⟨hiff, ?_⟩
  intro h
  apply associate_of_not_mightBe
  cases hm : mightBeAssociated pick origin with
  | false => rfl
  | true =>
    obtain ⟨h1, h2⟩ := hiff.mp hm
    rcases h with h | h
    · exact absurd h1 (not_le.mpr h)
    · exact absurd h2 (not_le.mpr h)

/-- C13, at a concrete pick: 1301 s after the origin time the pick is
rejected. -/
theorem associate_crude_time_gate_witness :
    _associate exConfig exCollab exOriginA (exPick "p9" 1301 10 5 PickMode.Automatic) "P" =
      (false, exOriginA) :=
  (associate_crude_time_gate exConfig exCollab exOriginA
    (exPick "p9" 1301 10 5 PickMode.Automatic) "P").2
    (Or.inr (by norm_num [exPick, exOriginA, exOrigin]))

/-! ## Claims on the residual gate -/

theorem specFactorPKP_eq (cfg : Config) (arr : Arrival) :
    specFactorPKP cfg arr = if (cfg.aggressivePKP && is_PKP_arrival arr) = true then 2 else 1 := by
  unfold specFactorPKP is_PKP_arrival
  cases cfg.aggressivePKP <;> simp [or_assoc]

theorem specRegionalWeight_eq (ext : Collaborators) (arr : Arrival) :
    specRegionalWeight ext arr =
      if is_P_arrival arr = true then
        1 + (7 / 10) * ext.exp (-arr.distance * arr.distance / 50)
      else 1 := by
  have hsq : -(arr.distance ^ 2) / 50 = -arr.distance * arr.distance / 50 := by ring
  unfold specRegionalWeight is_P_arrival
  rw [hsq]
  simp [or_assoc]

/-- The interval of the residual gate. -/
theorem residualOK_bounds (cfg : Config) (ext : Collaborators) (arr : Arrival)
    (minF maxF : ℚ) :
    _residualOK cfg ext arr minF maxF = true ↔
      (-minF * cfg.maxResidualUse * specFactorPKP cfg arr ≤ arr.residual ∧
        arr.residual ≤
          maxF * cfg.maxResidualUse * specFactorPKP cfg arr * specRegionalWeight ext arr) := by
  rw [specFactorPKP_eq, specRegionalWeight_eq]
  unfold _residualOK
  by_cases hk : (cfg.aggressivePKP && is_PKP_arrival arr) = true
  · by_cases hp : is_P_arrival arr = true
    · simp only [hk, hp, if_true]
      split
      · rename_i h
        simp only [Bool.false_eq_true, false_iff, not_and, not_le]
        intro h1
        rcases h with h | h
        · exact absurd h1 (not_le.mpr h)
        · exact h
      · rename_i h
        rw [not_or] at h
        simp only [true_iff]
        exact ⟨not_lt.mp h.1, not_lt.mp h.2⟩
    · simp only [hk, hp, if_true, Bool.false_eq_true, if_false, mul_one]
      split
      · rename_i h
        simp only [Bool.false_eq_true, false_iff, not_and, not_le]
        intro h1
        rcases h with h | h
        · exact absurd h1 (not_le.mpr h)
        · exact h
      · rename_i h
        rw [not_or] at h
        simp only [true_iff]
        exact ⟨not_lt.mp h.1, not_lt.mp h.2⟩
  · by_cases hp : is_P_arrival arr = true
    · simp only [hk, hp, if_true, Bool.false_eq_true, if_false, mul_one]
      split
      · rename_i h
        simp only [Bool.false_eq_true, false_iff, not_and, not_le]
        intro h1
        rcases h with h | h
        · exact absurd h1 (not_le.mpr h)
        · exact h
      · rename_i h
        rw [not_or] at h
        simp only [true_iff]
        exact ⟨not_lt.mp h.1, not_lt.mp h.2⟩
    · simp only [hk, hp, Bool.false_eq_true, if_false, mul_one]
      split
      · rename_i h
        simp only [Bool.false_eq_true, false_iff, not_and, not_le]
        intro h1
        rcases h with h | h
        · exact absurd h1 (not_le.mpr h)
        · exact h
      · rename_i h
        rw [not_or] at h
        simp only [true_iff]
        exact ⟨not_lt.mp h.1, not_lt.mp h.2⟩

/-- C15: `_residualOK(arr, minF, maxF)` is true iff `lo <= arr.residual <= hi`
with `lo = -minF*R*k` and `hi = maxF*R*k*w`, where `R = maxResidualUse`, `k` is
2 for a PKP-family phase under `aggressivePKP` and 1 otherwise, and `w` is
`1 + 0.7*exp(-distance^2/50)` for a P-family phase and 1 otherwise. -/
theorem residualOK_iff_interval (cfg : Config) (ext : Collaborators) (arr : Arrival)
    (minF maxF : ℚ) :
    _residualOK cfg ext arr minF maxF = true ↔
      (-minF * cfg.maxResidualUse * specFactorPKP cfg arr ≤ arr.residual ∧
        arr.residual ≤
          maxF * cfg.maxResidualUse * specFactorPKP cfg arr * specRegionalWeight ext arr) :=
  residualOK_bounds cfg ext arr minF maxF

/-- C16, as stated, fails: with `maxResidualUse = 3` and `aggressivePKP`, a PKP
arrival with residual 6 passes the gate of `_associate` (factors 0.9 and 1.3)
and the same arrival with residual -6 does not; a PKP arrival with residual 9
passes the gate of `merge` (factors 1.3 and 1.8) and with residual -9 it does
not. -/
theorem residual_gate_not_symmetric :
    _residualOK exConfig exCollab (exPhaseArrival "PKP" 6) (9 / 10) (13 / 10) = true ∧
      _residualOK exConfig exCollab (exPhaseArrival "PKP" (-6)) (9 / 10) (13 / 10) = false ∧
      _residualOK exConfig exCollab (exPhaseArrival "PKP" 9) (13 / 10) (18 / 10) = true ∧
      _residualOK exConfig exCollab (exPhaseArrival "PKP" (-9)) (13 / 10) (18 / 10) = false ∧
      exPhaseArrival "PKP" (-6) = { exPhaseArrival "PKP" 6 with residual := -6 } ∧
      exPhaseArrival "PKP" (-9) = { exPhaseArrival "PKP" 9 with residual := -9 } := by
  refine ⟨?_, ?_, ?_, ?_, rfl, rfl⟩
  · simp [_residualOK, is_PKP_arrival, is_P_arrival, exConfig, exPhaseArrival]
    norm_num
  · simp [_residualOK, is_PKP_arrival, is_P_arrival, exConfig, exPhaseArrival]
    norm_num
  · simp [_residualOK, is_PKP_arrival, is_P_arrival, exConfig, exPhaseArrival]
    norm_num
  · simp [_residualOK, is_PKP_arrival, is_P_arrival, exConfig, exPhaseArrival]
    norm_num

/-- C16, amended: with `R = maxResidualUse >= 0`, factors `0 <= minF <= maxF`
(as in the pairs (0.9, 1.3) and (1.3, 1.8)) and a non-negative value of `exp`,
`_residualOK` gives the same answer for an arrival with residual `r` and the
otherwise identical arrival with residual `-r` iff `|r| <= minF*R*k` (both
pass) or `|r| > maxF*R*k*w` (both fail); for `|r|` between the two bounds
the positive residual passes and the negative one fails. -/
theorem residual_gate_sign_flip (cfg : Config) (ext : Collaborators) (arr : Arrival)
    (minF maxF : ℚ)
    (hR : 0 ≤ cfg.maxResidualUse) (hmin : 0 ≤ minF) (hle : minF ≤ maxF)
    (hexp : 0 ≤ ext.exp (-(arr.distance ^ 2) / 50)) :
    (_residualOK cfg ext arr minF maxF =
        _residualOK cfg ext { arr with residual := -arr.residual } minF maxF ↔
      (|arr.residual| ≤ minF * cfg.maxResidualUse * specFactorPKP cfg arr ∨
        |arr.residual| >
          maxF * cfg.maxResidualUse * specFactorPKP cfg arr * specRegionalWeight ext arr)) ∧
    (minF * cfg.maxResidualUse * specFactorPKP cfg arr < arr.residual →
      arr.residual ≤
        maxF * cfg.maxResidualUse * specFactorPKP cfg arr * specRegionalWeight ext arr →
      _residualOK cfg ext arr minF maxF = true ∧
        _residualOK cfg ext { arr with residual := -arr.residual } minF maxF = false) := by
  have hk : (1 : ℚ) ≤ specFactorPKP cfg arr := by
    unfold specFactorPKP
    split <;> norm_num
  have hw : (1 : ℚ) ≤ specRegionalWeight ext arr := by
    unfold specRegionalWeight
    split
    · linarith [mul_nonneg (by norm_num : (0 : ℚ) ≤ 7 / 10) hexp]
    · exact le_refl 1
  have hk' : specFactorPKP cfg { arr with residual := -arr.residual } = specFactorPKP cfg arr :=
    rfl
  have hw' : specRegionalWeight ext { arr with residual := -arr.residual } =
      specRegionalWeight ext arr := rfl
  have ha : 0 ≤ minF * cfg.maxResidualUse * specFactorPKP cfg arr :=
    mul_nonneg (mul_nonneg hmin hR) (by linarith)
  have hRk : 0 ≤ cfg.maxResidualUse * specFactorPKP cfg arr := mul_nonneg hR (by linarith)
  have hab : minF * cfg.maxResidualUse * specFactorPKP cfg arr ≤
      maxF * cfg.maxResidualUse * specFactorPKP cfg arr * specRegionalWeight ext arr := by
    have h1 : minF * (cfg.maxResidualUse * specFactorPKP cfg arr) ≤
        maxF * (cfg.maxResidualUse * specFactorPKP cfg arr) :=
      mul_le_mul_of_nonneg_right hle hRk
    have h2 : 0 ≤ maxF * (cfg.maxResidualUse * specFactorPKP cfg arr) :=
      mul_nonneg (le_trans hmin hle) hRk
    have h3 : maxF * (cfg.maxResidualUse * specFactorPKP cfg arr) ≤
        maxF * (cfg.maxResidualUse * specFactorPKP cfg arr) * specRegionalWeight ext arr :=
      le_mul_of_one_le_right h2 hw
    calc minF * cfg.maxResidualUse * specFactorPKP cfg arr
        = minF * (cfg.maxResidualUse * specFactorPKP cfg arr) := by ring
      _ ≤ maxF * (cfg.maxResidualUse * specFactorPKP cfg arr) * specRegionalWeight ext arr :=
          le_trans h1 h3
      _ = maxF * cfg.maxResidualUse * specFactorPKP cfg arr * specRegionalWeight ext arr := by
          ring
  have h1 := residualOK_bounds cfg ext arr minF maxF
  have h2 := residualOK_bounds cfg ext { arr with residual := -arr.residual } minF maxF
  rw [hk', hw'] at h2
  simp only [] at h2
  have hneg : -minF * cfg.maxResidualUse * specFactorPKP cfg arr =
      -(minF * cfg.maxResidualUse * specFactorPKP cfg arr) := by ring
  rw [hneg] at h1 h2
  generalize minF * cfg.maxResidualUse * specFactorPKP cfg arr = a at *
  generalize maxF * cfg.maxResidualUse * specFactorPKP cfg arr * specRegionalWeight ext arr = b
    at *
  have h1' : _residualOK cfg ext arr minF maxF = true ↔ (-a ≤ arr.residual ∧ arr.residual ≤ b) :=
    h1
  have h2' : _residualOK cfg ext { arr with residual := -arr.residual } minF maxF = true ↔
      (-b ≤ arr.residual ∧ arr.residual ≤ a) := by
    rw [h2]
    constructor
    · rintro ⟨x, y⟩
      exact ⟨by linarith, by linarith⟩
    · rintro ⟨x, y⟩
      exact ⟨by linarith, by linarith⟩
  constructor
  · rw [Bool.eq_iff_iff, h1', h2', abs_le, gt_iff_lt, lt_abs]
    constructor
    · intro h
      by_cases hin : -a ≤ arr.residual ∧ arr.residual ≤ b
      · exact Or.inl ⟨hin.1, (h.mp hin).2⟩
      · by_cases hin2 : -b ≤ arr.residual ∧ arr.residual ≤ a
        · exact absurd (h.mpr hin2) hin
        · right
          rw [not_and_or, not_le, not_le] at hin hin2
          rcases hin with x | x
          · rcases hin2 with y | y
            · right
              linarith
            · linarith
          · left
            exact x
    · rintro (⟨x, y⟩ | x | x)
      · exact ⟨fun _ => ⟨by linarith, y⟩, fun _ => ⟨x, by linarith⟩⟩
      · constructor
        · rintro ⟨_, y⟩
          linarith
        · rintro ⟨_, y⟩
          linarith
      · constructor
        · rintro ⟨y, _⟩
          linarith
        · rintro ⟨y, _⟩
          linarith
  · intro x y
    refine ⟨h1'.mpr ⟨by linarith, y⟩, ?_⟩
    cases hb : _residualOK cfg ext { arr with residual := -arr.residual } minF maxF with
    | false => rfl
    | true =>
      have hz := (h2'.mp hb).2
      linarith

/-- C16 amended, at a concrete arrival: a PKP arrival with residual 6 under
the factors of `_associate`. -/
theorem residual_gate_sign_flip_witness :
    _residualOK exConfig exCollab (exPhaseArrival "PKP" 6) (9 / 10) (13 / 10) = true ∧
      _residualOK exConfig exCollab
        { exPhaseArrival "PKP" 6 with residual := -(exPhaseArrival "PKP" 6).residual }
        (9 / 10) (13 / 10) = false :=
  (residual_gate_sign_flip exConfig exCollab (exPhaseArrival "PKP" 6) (9 / 10) (13 / 10)
    (by norm_num [exConfig]) (by norm_num) (by norm_num)
    (by norm_num [exCollab, exPhaseArrival])).2
    (by simp [specFactorPKP, exConfig, exPhaseArrival]; norm_num)
    (by simp [specFactorPKP, specRegionalWeight, exConfig, exPhaseArrival]; norm_num)

/-! ## Claims on the fake-origin test -/

/-- C17: `_testFake` returns 0 and leaves the origin (and so the exclusion
state of each of its arrivals) as it is for every origin with `score > 80`
and for every imported origin, whatever the engine state. -/
theorem testFake_short_circuit (ext : Collaborators) (s : State) (origin : Origin)
    (h : origin.score > 80 ∨ origin.imported = true) :
    _testFake ext s origin = (0, origin) := by
  unfold _testFake
  rcases h with h | h
  · by_cases hi : origin.imported = true
    · simp [hi]
    · simp [hi, h]
  · simp [h]

/-- C17, at a concrete origin of score 90. -/
theorem testFake_short_circuit_witness :
    _testFake exCollab (exState 0) { exOriginA with score := 90 } =
      (0, { exOriginA with score := 90 }) :=
  testFake_short_circuit exCollab (exState 0) { exOriginA with score := 90 }
    (Or.inl (by norm_num))

/-! ## The PKP time gate -/

/-- C14: at the boundary the code departs from the claim. A PKP pick exactly
1000 s after the origin time is not rejected by the time gate of `_associate`
(the test is `dt < 1000`): the call returns true and the origin gains the
arrival. -/
theorem associate_accepts_PKP_at_1000 :
    (exPick "k" 1000 10 5 PickMode.Automatic).time - exOriginA.time = 1000 ∧
      (_associate exConfig exCollabPKP exOriginA (exPick "k" 1000 10 5 PickMode.Automatic)
        "PKP").1 = true ∧
      (_associate exConfig exCollabPKP exOriginA (exPick "k" 1000 10 5 PickMode.Automatic)
        "PKP").2.arrivals.map (fun a => (a.pick, a.phase, a.excluded)) =
        [("p1", "P", ExcludeReason.NotExcluded), ("p2", "P", ExcludeReason.NotExcluded),
          ("k", "PKP", ExcludeReason.NotExcluded)] := by
  have hres : _associate exConfig exCollabPKP exOriginA
      (exPick "k" 1000 10 5 PickMode.Automatic) "PKP" =
      (true, exOriginA.add
        ⟨"k", "PKP", 0, 150, 0, 0, 0, ExcludeReason.NotExcluded⟩) := by
    simp [_associate, mightBeAssociated, findArrival, _residualOK, is_PKP_arrival, is_P_arrival,
      Arrival.new, initialExclusion, definingPhaseCountIn, judgeRelocated, adoptRelocated,
      newArrival, trialDepth, relocateTrial,
      attachLoosely, Origin.add, Origin.updateFrom, _score, definingPhaseCount, exConfig,
      exCollabPKP, exCollab, exOriginA, exOrigin, exArrival, exPick, exStation,
      List.findIdx_cons, List.findIdx_nil]
    norm_num
  refine ⟨by norm_num [exPick, exOriginA, exOrigin], by rw [hres], ?_⟩
  rw [hres]
  simp [Origin.add, findArrival, exOriginA, exOrigin, exArrival, List.findIdx_cons,
    List.findIdx_nil]

/-! ## Lemmas on the arrivals of an origin -/

theorem findArrival_isSome_iff (origin : Origin) (pick : PickID) :
    (findArrival origin pick).isSome = true ↔ pick ∈ origin.arrivals.map (fun a => a.pick) := by
  unfold findArrival
  simp only []
  by_cases h : List.findIdx (fun a => decide (a.pick = pick)) origin.arrivals
      < origin.arrivals.length
  · simp only [h, if_true, Option.isSome_some, true_iff]
    obtain ⟨x, hx, hp⟩ := List.findIdx_lt_length.mp h
    exact List.mem_map.mpr ⟨x, hx, by simpa using hp⟩
  · simp only [h, if_false, Option.isSome_none, Bool.false_eq_true, false_iff]
    intro hmem
    obtain ⟨x, hx, hp⟩ := List.mem_map.mp hmem
    exact h (List.findIdx_lt_length.mpr ⟨x, hx, by simpa using hp⟩)

theorem add_id (origin : Origin) (arr : Arrival) : (origin.add arr).id = origin.id := by
  unfold Origin.add
  split <;> rfl

theorem add_of_absent (origin : Origin) (arr : Arrival)
    (h : (findArrival origin arr.pick).isSome = false) :
    origin.add arr = { origin with arrivals := origin.arrivals ++ [arr] } := by
  unfold Origin.add
  simp [h]

theorem updateFrom_same_id (origin other : Origin) (h : other.id = origin.id) :
    origin.updateFrom other = other := by
  unfold Origin.updateFrom
  rw [← h]

/-! ## Lemmas on `merge` -/

theorem mergeStep_id (pickOf : PickID → Pick) (base combined : Origin) (arr2 : Arrival) :
    (mergeStep pickOf base combined arr2).id = combined.id := by
  unfold mergeStep
  split
  · rfl
  · split
    · rfl
    · exact add_id _ _

theorem mergeLoop_id (pickOf : PickID → Pick) (base : Origin) :
    ∀ (l : List Arrival) (combined : Origin),
      (l.foldl (mergeStep pickOf base) combined).id = combined.id := by
  intro l
  induction l with
  | nil => intro c; rfl
  | cons a rest ih =>
    intro c
    rw [List.foldl_cons, ih, mergeStep_id]

theorem mergeCombined_id (ext : Collaborators) (pickOf : PickID → Pick)
    (origin1 origin2 : Origin) : (mergeCombined ext pickOf origin1 origin2).id = origin1.id := by
  unfold mergeCombined
  rw [mergeLoop_id]

theorem mergeRelocated_id (cfg : Config) (ext : Collaborators) (pickOf : PickID → Pick)
    (origin1 origin2 m : Origin) (h : mergeRelocated cfg ext pickOf origin1 origin2 = some m) :
    m.id = origin1.id := by
  unfold mergeRelocated at h
  cases hr : ext.relocate none (mergeCombined ext pickOf origin1 origin2) with
  | none => simp [hr] at h
  | some relo =>
    simp only [hr, Option.some.injEq] at h
    rw [← h]
    exact mergeCombined_id ext pickOf origin1 origin2

/-- C18, as stated, fails: origin 8 (two defining arrivals, score 2) scores
higher than origin 7 (one defining arrival, score 1), the relocation succeeds,
and `merge(origin 7, origin 8)` returns an origin with id 7. -/
theorem merge_keeps_first_id :
    _score exCollab (exOrigin 7 [exArrival "p1" ExcludeReason.NotExcluded]) <
        _score exCollab (exOrigin 8 [exArrival "p2" ExcludeReason.NotExcluded,
          exArrival "p3" ExcludeReason.NotExcluded]) ∧
      (merge exConfig exCollab exPickOf (exOrigin 7 [exArrival "p1" ExcludeReason.NotExcluded])
        (exOrigin 8 [exArrival "p2" ExcludeReason.NotExcluded,
          exArrival "p3" ExcludeReason.NotExcluded])).map (fun m => m.id) = some 7 := by
  constructor
  · norm_num [_score, exCollab, definingPhaseCount, exOrigin, exArrival]
  · cases hm : mergeRelocated exConfig exCollab exPickOf
        (exOrigin 7 [exArrival "p1" ExcludeReason.NotExcluded])
        (exOrigin 8 [exArrival "p2" ExcludeReason.NotExcluded,
          exArrival "p3" ExcludeReason.NotExcluded]) with
    | none => simp [mergeRelocated, exCollab] at hm
    | some m =>
      have hid := mergeRelocated_id _ _ _ _ _ _ hm
      have htr : exCollab.trimResiduals m = m := rfl
      unfold merge
      rw [hm]
      simp only [Option.map_some', htr, hid]
      rfl

/-- C18, amended: whenever the combined relocation succeeds, `merge(a, b)`
returns an origin with the id of `a`, its first argument, whichever of the two
origins scores higher (`_trimResiduals` updates the origin in place and keeps
its id). -/
theorem merge_id_is_first (cfg : Config) (ext : Collaborators) (pickOf : PickID → Pick)
    (a b m : Origin)
    (htrim : ∀ o, (ext.trimResiduals o).id = o.id)
    (h : merge cfg ext pickOf a b = some m) :
    m.id = a.id := by
  unfold merge at h
  cases hm : mergeRelocated cfg ext pickOf a b with
  | none => simp [hm] at h
  | some m' =>
    simp only [hm, Option.map_some', Option.some.injEq] at h
    rw [← h, htrim]
    exact mergeRelocated_id cfg ext pickOf a b m' hm

/-- C18 amended, at concrete origins: origin 8 scores higher and the merged
origin has id 7. -/
theorem merge_id_is_first_witness :
    (exCollab.trimResiduals ((exOrigin 7 [exArrival "p1" ExcludeReason.NotExcluded,
        exArrival "p2" ExcludeReason.NotExcluded]))).id =
      (exOrigin 7 [exArrival "p1" ExcludeReason.NotExcluded]).id :=
  merge_id_is_first exConfig exCollab (fun id => exPick id 0 10 5 PickMode.Automatic)
    (exOrigin 7 [exArrival "p1" ExcludeReason.NotExcluded])
    (exOrigin 8 [exArrival "p1" ExcludeReason.NotExcluded,
      exArrival "p2" ExcludeReason.NotExcluded])
    (exCollab.trimResiduals ((exOrigin 7 [exArrival "p1" ExcludeReason.NotExcluded,
        exArrival "p2" ExcludeReason.NotExcluded])))
    (fun _ => rfl)
    (by
      simp [merge, mergeRelocated, mergeCombined, mergeBase, mergeOther, mergeStep,
        sameStationPhase, classifyMerged, Origin.updateFrom, Origin.add, findArrival, _score,
        definingPhaseCount, exCollab, exOrigin, exArrival, exPick, List.findIdx_cons,
        List.findIdx_nil])

theorem mergeStep_arrivals (pickOf : PickID → Pick) (base combined : Origin) (arr2 : Arrival) :
    (mergeStep pickOf base combined arr2).arrivals =
      if arr2.pick ∈ combined.arrivals.map (fun a => a.pick) ∨
          sameStationPhase pickOf base arr2 = true then combined.arrivals
      else combined.arrivals ++ [{ arr2 with excluded := ExcludeReason.TemporarilyExcluded }] := by
  unfold mergeStep
  by_cases h1 : (findArrival combined arr2.pick).isSome = true
  · have h1' := (findArrival_isSome_iff combined arr2.pick).mp h1
    simp [h1, h1']
  · have h1' : arr2.pick ∉ combined.arrivals.map (fun a => a.pick) :=
      fun hm => h1 ((findArrival_isSome_iff combined arr2.pick).mpr hm)
    by_cases h2 : sameStationPhase pickOf base arr2 = true
    · simp [h1, h2]
    · have h3 : (findArrival combined
          ({ arr2 with excluded := ExcludeReason.TemporarilyExcluded } : Arrival).pick).isSome
          = false := by simpa using h1
      simp only [h1, h2, h1', Bool.false_eq_true, if_false, or_self]
      rw [add_of_absent _ _ h3]

theorem mergeLoop_arrivals (pickOf : PickID → Pick) (base : Origin) :
    ∀ (l : List Arrival) (combined : Origin),
      (l.foldl (mergeStep pickOf base) combined).arrivals =
        combined.arrivals ++
          specMergeAdded pickOf base (combined.arrivals.map (fun a => a.pick)) l := by
  intro l
  induction l with
  | nil => intro c; simp [specMergeAdded]
  | cons arr2 rest ih =>
    intro c
    rw [List.foldl_cons, ih, mergeStep_arrivals]
    by_cases h : arr2.pick ∈ c.arrivals.map (fun a => a.pick) ∨
        sameStationPhase pickOf base arr2 = true
    · simp only [h, if_true, specMergeAdded]
    · simp only [h, if_false, specMergeAdded, List.map_append, List.map_cons, List.map_nil,
        List.append_assoc, List.singleton_append]

theorem specMergeAdded_of_nodup (pickOf : PickID → Pick) (base : Origin) :
    ∀ (l : List Arrival) (seen : List PickID), (l.map (fun a => a.pick)).Nodup →
      specMergeAdded pickOf base seen l =
        (l.filter (fun arr2 =>
          decide (arr2.pick ∉ seen) && !sameStationPhase pickOf base arr2)).map
          (fun arr2 => { arr2 with excluded := ExcludeReason.TemporarilyExcluded }) := by
  intro l
  induction l with
  | nil => intro seen _; rfl
  | cons arr2 rest ih =>
    intro seen hn
    simp only [List.map_cons, List.nodup_cons] at hn
    unfold specMergeAdded
    by_cases h : arr2.pick ∈ seen ∨ sameStationPhase pickOf base arr2 = true
    · have hf : (decide (arr2.pick ∉ seen) && !sameStationPhase pickOf base arr2) = false := by
        rcases h with h | h
        · simp [h]
        · simp [h]
      simp only [h, if_true, List.filter_cons, hf, Bool.false_eq_true, if_false]
      exact ih seen hn.2
    · rw [not_or] at h
      have hf : (decide (arr2.pick ∉ seen) && !sameStationPhase pickOf base arr2) = true := by
        simp [h.1, h.2]
      have hor : ¬ (arr2.pick ∈ seen ∨ sameStationPhase pickOf base arr2 = true) := by
        rw [not_or]
        exact h
      simp only [hor, if_false, List.filter_cons, hf, if_true, List.map_cons]
      rw [ih (seen ++ [arr2.pick]) hn.2]
      congr 2
      apply List.filter_congr
      intro x hx
      have hne : x.pick ≠ arr2.pick := by
        intro e
        exact hn.1 (List.mem_map.mpr ⟨x, hx, e⟩)
      simp [hne]

theorem classifyMerged_not_temporary (cfg : Config) (ext : Collaborators) (arr : Arrival) :
    (classifyMerged cfg ext arr).excluded ≠ ExcludeReason.TemporarilyExcluded := by
  unfold classifyMerged
  split
  · simp only []
    split <;> decide
  · assumption

/-- C20: the arrival list that `merge` hands to the relocator is the arrival
list of the base origin (the higher-scoring one, unchanged) followed by the
arrivals of the other origin whose pick is not yet referenced by the combined
origin and whose station and phase do not occur together in the base origin,
each with `excluded = TemporarilyExcluded`; when the other origin has one
arrival per pick, these are exactly its arrivals whose pick the base origin
does not reference and whose station and phase do not occur in it. After a
successful relocation, before `_trimResiduals`, no arrival is
`TemporarilyExcluded`: the arrivals are those of the relocated origin, each
temporarily excluded one turned into `NotExcluded` if `_residualOK(arr, 1.3,
1.8)` holds and into `LargeResidual` otherwise. -/
theorem merge_arrival_list (cfg : Config) (ext : Collaborators) (pickOf : PickID → Pick)
    (a b : Origin) :
    (mergeCombined ext pickOf a b).arrivals =
        (mergeBase ext a b).arrivals ++
          specMergeAdded pickOf (mergeBase ext a b)
            ((mergeBase ext a b).arrivals.map (fun x => x.pick)) (mergeOther ext a b).arrivals ∧
    (((mergeOther ext a b).arrivals.map (fun x => x.pick)).Nodup →
      (mergeCombined ext pickOf a b).arrivals =
        (mergeBase ext a b).arrivals ++
          ((mergeOther ext a b).arrivals.filter (fun arr2 =>
            decide (arr2.pick ∉ (mergeBase ext a b).arrivals.map (fun x => x.pick)) &&
              !sameStationPhase pickOf (mergeBase ext a b) arr2)).map
            (fun arr2 => { arr2 with excluded := ExcludeReason.TemporarilyExcluded })) ∧
    (∀ m, mergeRelocated cfg ext pickOf a b = some m →
      ∃ relo, ext.relocate none (mergeCombined ext pickOf a b) = some relo ∧
        m.arrivals = relo.arrivals.map (fun arr =>
          if arr.excluded = ExcludeReason.TemporarilyExcluded then
            { arr with excluded := if _residualOK cfg ext arr (13 / 10) (18 / 10) = true
                                   then ExcludeReason.NotExcluded
                                   else ExcludeReason.LargeResidual }
          else arr) ∧
        ∀ arr ∈ m.arrivals, arr.excluded ≠ ExcludeReason.TemporarilyExcluded) := by
  have h1 : (mergeCombined ext pickOf a b).arrivals =
      (mergeBase ext a b).arrivals ++
        specMergeAdded pickOf (mergeBase ext a b)
          ((mergeBase ext a b).arrivals.map (fun x => x.pick)) (mergeOther ext a b).arrivals := by
    unfold mergeCombined
    rw [mergeLoop_arrivals]
  refine ⟨h1, ?_, ?_⟩
  · intro hn
    rw [h1, specMergeAdded_of_nodup pickOf _ _ _ hn]
  · intro m hm
    unfold mergeRelocated at hm
    cases hr : ext.relocate none (mergeCombined ext pickOf a b) with
    | none => simp [hr] at hm
    | some relo =>
      simp only [hr, Option.some.injEq] at hm
      refine ⟨relo, rfl, ?_, ?_⟩
      · rw [← hm]
        rfl
      · intro arr harr
        rw [← hm] at harr
        obtain ⟨x, _, hx⟩ := List.mem_map.mp harr
        rw [← hx]
        exact classifyMerged_not_temporary cfg ext x

/-- C20, at concrete origins: origin 7 (picks p1, p2) is merged with origin 8
(pick p3), whose arrival is added temporarily excluded. -/
theorem merge_arrival_list_witness :
    (mergeCombined exCollab exPickOf exOriginA exOriginC).arrivals =
      (mergeBase exCollab exOriginA exOriginC).arrivals ++
        ((mergeOther exCollab exOriginA exOriginC).arrivals.filter (fun arr2 =>
          decide (arr2.pick ∉
            (mergeBase exCollab exOriginA exOriginC).arrivals.map (fun x => x.pick)) &&
            !sameStationPhase exPickOf (mergeBase exCollab exOriginA exOriginC) arr2)).map
          (fun arr2 => { arr2 with excluded := ExcludeReason.TemporarilyExcluded }) :=
  (merge_arrival_list exConfig exCollab exPickOf exOriginA exOriginC).2.1
    (by
      simp [mergeOther, _score, exCollab, definingPhaseCount, exOriginA, exOriginC, exOrigin,
        exArrival])

theorem mergeStep_with_id (pickOf : PickID → Pick) (base combined : Origin) (arr2 : Arrival)
    (i : OriginID) :
    mergeStep pickOf base { combined with id := i } arr2 =
      { mergeStep pickOf base combined arr2 with id := i } := by
  unfold mergeStep Origin.add findArrival
  simp only []
  split
  · rfl
  · split
    · rfl
    · split <;> rfl

theorem mergeLoop_with_id (pickOf : PickID → Pick) (base : Origin) (i : OriginID) :
    ∀ (l : List Arrival) (combined : Origin),
      l.foldl (mergeStep pickOf base) { combined with id := i } =
        { l.foldl (mergeStep pickOf base) combined with id := i } := by
  intro l
  induction l with
  | nil => intro c; rfl
  | cons a rest ih =>
    intro c
    rw [List.foldl_cons, List.foldl_cons, mergeStep_with_id, ih]

theorem mergeBase_comm (ext : Collaborators) (a b : Origin)
    (h : _score ext a ≠ _score ext b) :
    mergeBase ext b a = mergeBase ext a b ∧ mergeOther ext b a = mergeOther ext a b := by
  unfold mergeBase mergeOther
  rcases lt_or_gt_of_ne h with h1 | h1
  · have h2 : ¬ _score ext a > _score ext b := not_lt.mpr (le_of_lt h1)
    simp [h1, h2]
  · have h2 : ¬ _score ext b > _score ext a := not_lt.mpr (le_of_lt h1)
    simp [h1, h2]

theorem mergeCombined_eq (ext : Collaborators) (pickOf : PickID → Pick) (a b : Origin) :
    mergeCombined ext pickOf a b =
      { (mergeOther ext a b).arrivals.foldl (mergeStep pickOf (mergeBase ext a b))
          (mergeBase ext a b) with id := a.id } := by
  unfold mergeCombined
  exact mergeLoop_with_id pickOf (mergeBase ext a b) a.id (mergeOther ext a b).arrivals
    (mergeBase ext a b)

theorem mergeCombined_comm (ext : Collaborators) (pickOf : PickID → Pick) (a b : Origin)
    (h : _score ext a ≠ _score ext b) :
    eraseId (mergeCombined ext pickOf a b) = eraseId (mergeCombined ext pickOf b a) := by
  obtain ⟨hb, ho⟩ := mergeBase_comm ext a b h
  rw [mergeCombined_eq ext pickOf a b, mergeCombined_eq ext pickOf b a, hb, ho]
  rfl

theorem mergeLoop_hypocenter (pickOf : PickID → Pick) (base : Origin) :
    ∀ (l : List Arrival) (combined : Origin),
      (l.foldl (mergeStep pickOf base) combined).hypocenter = combined.hypocenter := by
  intro l
  induction l with
  | nil => intro c; rfl
  | cons a rest ih =>
    intro c
    rw [List.foldl_cons, ih]
    unfold mergeStep Origin.add
    split
    · rfl
    · split
      · rfl
      · simp only []

/-- C19, as stated, fails: origins 8 and 9 have the same score, so each call
keeps its first argument as the base; `merge(8, 9)` and `merge(9, 8)` both
succeed and differ in the hypocenter. -/
theorem merge_not_commutative_on_ties :
    _score exCollab exOriginC = _score exCollab exOriginD ∧
      (merge exConfig exCollab exPickOf exOriginC exOriginD).map (fun m => m.hypocenter) =
        some ⟨5, 5, 10⟩ ∧
      (merge exConfig exCollab exPickOf exOriginD exOriginC).map (fun m => m.hypocenter) =
        some ⟨0, 0, 10⟩ := by
  refine ⟨?_, ?_, ?_⟩
  · simp [_score, exCollab, definingPhaseCount, exOriginC, exOriginD, exOrigin, exArrival]
  · simp [merge, mergeRelocated, mergeCombined, mergeBase, mergeOther, Origin.updateFrom,
      _score, mergeLoop_hypocenter, definingPhaseCount, exCollab, exOriginC, exOriginD,
      exOrigin, exArrival, -List.foldl_cons, -List.foldl_nil]
  · simp [merge, mergeRelocated, mergeCombined, mergeBase, mergeOther, Origin.updateFrom,
      _score, mergeLoop_hypocenter, definingPhaseCount, exCollab, exOriginC, exOriginD,
      exOrigin, exArrival, -List.foldl_cons, -List.foldl_nil]

/-- C19, amended: for two origins with different scores and a relocator and a
`_trimResiduals` whose results do not depend on the id of the origin they are
given, `merge(a, b)` and `merge(b, a)` are both null or equal in every field
except the id. (With equal scores each call takes its first argument as the
base.) -/
theorem merge_commutes_up_to_id (cfg : Config) (ext : Collaborators) (pickOf : PickID → Pick)
    (a b : Origin)
    (hscore : _score ext a ≠ _score ext b)
    (hrelo : ∀ o o', eraseId o = eraseId o' →
      (ext.relocate none o).map eraseId = (ext.relocate none o').map eraseId)
    (htrim : ∀ o o', eraseId o = eraseId o' →
      eraseId (ext.trimResiduals o) = eraseId (ext.trimResiduals o')) :
    (merge cfg ext pickOf a b).map eraseId = (merge cfg ext pickOf b a).map eraseId := by
  have hc := mergeCombined_comm ext pickOf a b hscore
  have hr := hrelo _ _ hc
  unfold merge mergeRelocated
  cases h1 : ext.relocate none (mergeCombined ext pickOf a b) with
  | none =>
    cases h2 : ext.relocate none (mergeCombined ext pickOf b a) with
    | none => rfl
    | some r2 => simp [h1, h2] at hr
  | some r1 =>
    cases h2 : ext.relocate none (mergeCombined ext pickOf b a) with
    | none => simp [h1, h2] at hr
    | some r2 =>
      simp only [h1, h2, Option.map_some', Option.some.injEq] at hr
      simp only [Option.map_some', Option.some.injEq]
      apply htrim
      have hr' : r1.hypocenter = r2.hypocenter ∧ r1.time = r2.time ∧
          r1.timestamp = r2.timestamp ∧ r1.arrivals = r2.arrivals ∧ r1.quality = r2.quality ∧
          r1.score = r2.score ∧ r1.depthType = r2.depthType ∧
          r1.preliminary = r2.preliminary ∧ r1.imported = r2.imported := by
        simpa [eraseId] using hr
      obtain ⟨e1, e2, e3, e4, e5, e6, e7, e8, e9⟩ := hr'
      simp [eraseId, Origin.updateFrom, e1, e2, e3, e4, e5, e6, e7, e8, e9]

/-- C19 amended, at concrete origins: origin 7 (score 2) and origin 8
(score 1) with the relocator and `_trimResiduals` of the examples. -/
theorem merge_commutes_up_to_id_witness :
    (merge exConfig exCollab exPickOf exOriginA exOriginC).map eraseId =
      (merge exConfig exCollab exPickOf exOriginC exOriginA).map eraseId :=
  merge_commutes_up_to_id exConfig exCollab exPickOf exOriginA exOriginC
    (by
      simp [_score, exCollab, definingPhaseCount, exOriginA, exOriginC, exOrigin, exArrival])
    (fun o o' h => by simpa [exCollab] using h)
    (fun o o' h => by simpa [exCollab] using h)

/-! ## Lemmas on `_associate` -/

theorem findArrival_get (origin : Origin) (pick : PickID) (i : Nat) (arr : Arrival)
    (h : findArrival origin pick = some i) (hg : origin.arrivals.get? i = some arr) :
    arr.pick = pick := by
  unfold findArrival at h
  simp only [] at h
  by_cases hlt : List.findIdx (fun a => decide (a.pick = pick)) origin.arrivals
      < origin.arrivals.length
  · simp only [hlt, if_true, Option.some.injEq] at h
    have hp := List.findIdx_getElem (w := hlt)
    rw [List.get?_eq_getElem?, ← h, List.getElem?_eq_getElem hlt, Option.some.injEq] at hg
    rw [← hg]
    simpa using hp
  · simp [hlt] at h

theorem not_mem_of_findArrival_none (origin : Origin) (pick : PickID)
    (h : (findArrival origin pick).isSome = false) :
    ∀ x ∈ origin.arrivals, x.pick ≠ pick := by
  intro x hx e
  have h2 := (findArrival_isSome_iff origin pick).mpr (List.mem_map.mpr ⟨x, hx, e⟩)
  rw [h] at h2
  cases h2

theorem updateFrom_add (origin : Origin) (arr : Arrival) :
    origin.updateFrom (origin.add arr) = origin.add arr :=
  updateFrom_same_id origin _ (add_id origin arr)

theorem attachLoosely_cases (origin : Origin) (arr : Arrival) :
    ∃ a, a.pick = arr.pick ∧ a.excluded ≠ ExcludeReason.NotExcluded ∧
      attachLoosely origin arr = (true, origin.add a) := by
  unfold attachLoosely
  simp only [updateFrom_add]
  by_cases h : arr.excluded ≠ ExcludeReason.UnusedPhase
  · exact ⟨{ arr with excluded := ExcludeReason.DeterioratesSolution }, rfl, by simp,
      by simp [h]⟩
  · have h' : arr.excluded = ExcludeReason.UnusedPhase := not_not.mp h
    refine ⟨arr, rfl, ?_, by simp [h']⟩
    rw [h']
    decide

theorem adoptRelocated_cases (cfg : Config) (origin : Origin) (pick : Pick) (relo o' : Origin)
    (h : adoptRelocated cfg origin pick relo = (true, o')) :
    (∃ a, a.pick = pick.id ∧ a.excluded ≠ ExcludeReason.NotExcluded ∧ o' = origin.add a) ∨
      o' = origin.updateFrom relo := by
  unfold adoptRelocated at h
  cases hf : findArrival relo pick.id with
  | none => simp [hf] at h
  | some index =>
    cases hg : relo.arrivals.get? index with
    | none => simp only [hf, hg, Prod.mk.injEq, Bool.false_eq_true, false_and] at h
    | some arr =>
      simp only [hf, hg] at h
      by_cases hr : |arr.residual| > cfg.maxResidualUse
      · simp only [hr, if_true, Prod.mk.injEq, true_and] at h
        left
        exact ⟨{ arr with excluded := ExcludeReason.LargeResidual },
          findArrival_get relo pick.id index arr hf hg, by simp, h.symm⟩
      · simp only [hr, if_false, Prod.mk.injEq, true_and] at h
        right
        exact h.symm

/-- The ways in which the trial relocation of `_associate` can end with the
status true. -/
theorem judgeRelocated_cases (cfg : Config) (ext : Collaborators) (origin : Origin)
    (pick : Pick) (arr : Arrival) (copy relo o' : Origin) (harr : arr.pick = pick.id)
    (h : judgeRelocated cfg ext origin pick arr copy relo = (true, o')) :
    (∃ a, a.pick = pick.id ∧ a.excluded ≠ ExcludeReason.NotExcluded ∧ o' = origin.add a) ∨
    (_score ext origin ≤ _score ext relo ∧
      ext.rms relo ≤ ext.rms origin + 3 / ext.sqrt (10 + (copy.arrivals.length : ℚ)) ∧
      o' = origin.updateFrom relo) ∨
    (∃ index relo2, findArrival copy pick.id = some index ∧
      ext.relocate (some origin.hypocenter.dep)
        { copy with
          arrivals := setExcluded copy.arrivals index ExcludeReason.LargeResidual } = some relo2 ∧
      _score ext origin ≤ _score ext relo2 ∧ o' = origin.updateFrom relo2) := by
  unfold judgeRelocated at h
  simp only [] at h
  by_cases hbad : _score ext relo < _score ext origin ∨
      ext.rms relo > ext.rms origin + 3 / ext.sqrt (10 + (copy.arrivals.length : ℚ))
  · simp only [hbad, if_true] at h
    cases hf : findArrival copy pick.id with
    | none => simp [hf] at h
    | some index =>
      simp only [hf] at h
      cases hr : ext.relocate (some origin.hypocenter.dep)
          { copy with
            arrivals := setExcluded copy.arrivals index ExcludeReason.LargeResidual } with
      | none =>
        simp only [hr] at h
        obtain ⟨a, ha1, ha2, ha3⟩ := attachLoosely_cases origin arr
        rw [ha3] at h
        simp only [Prod.mk.injEq, true_and] at h
        exact Or.inl ⟨a, ha1.trans harr, ha2, h.symm⟩
      | some relo2 =>
        simp only [hr] at h
        by_cases hs : _score ext relo2 < _score ext origin
        · simp only [hs, if_true] at h
          obtain ⟨a, ha1, ha2, ha3⟩ := attachLoosely_cases origin arr
          rw [ha3] at h
          simp only [Prod.mk.injEq, true_and] at h
          exact Or.inl ⟨a, ha1.trans harr, ha2, h.symm⟩
        · simp only [hs, if_false] at h
          rcases adoptRelocated_cases cfg origin pick relo2 o' h with h1 | h1
          · exact Or.inl h1
          · exact Or.inr (Or.inr ⟨index, relo2, rfl, hr, not_lt.mp hs, h1⟩)
  · simp only [hbad, if_false] at h
    rw [not_or] at hbad
    rcases adoptRelocated_cases cfg origin pick relo o' h with h1 | h1
    · exact Or.inl h1
    · exact Or.inr (Or.inl ⟨not_lt.mp hbad.1, not_lt.mp hbad.2, h1⟩)

/-- The ways in which `_associate` can return true for an origin that is not
imported: the new arrival is added, excluded, to the unchanged origin; or the
origin is updated from the accepted trial relocation; or it is updated from
the fixed-depth relocation made after the new arrival was set to
`LargeResidual`. -/
theorem associate_cases (cfg : Config) (ext : Collaborators) (origin : Origin) (pick : Pick)
    (phase : String) (o' : Origin)
    (himp : origin.imported = false)
    (h : _associate cfg ext origin pick phase = (true, o')) :
    (findArrival origin pick.id).isSome = false ∧
    ∃ arr : Arrival, arr.pick = pick.id ∧
      ((∃ a, a.pick = pick.id ∧ a.excluded ≠ ExcludeReason.NotExcluded ∧ o' = origin.add a) ∨
      (∃ m relo, ext.relocate m (origin.add arr) = some relo ∧
        _score ext origin ≤ _score ext relo ∧
        ext.rms relo ≤
          ext.rms origin + 3 / ext.sqrt (10 + ((origin.add arr).arrivals.length : ℚ)) ∧
        o' = origin.updateFrom relo) ∨
      (∃ index relo2, findArrival (origin.add arr) pick.id = some index ∧
        ext.relocate (some origin.hypocenter.dep)
          { origin.add arr with
            arrivals := setExcluded (origin.add arr).arrivals index
              ExcludeReason.LargeResidual } = some relo2 ∧
        _score ext origin ≤ _score ext relo2 ∧ o' = origin.updateFrom relo2)) := by
  unfold _associate at h
  by_cases h1 : mightBeAssociated pick origin = true
  swap
  · simp [h1] at h
  by_cases h2 : phase = "PKP" ∧ pick.time - origin.time < 1000
  · simp [h1, h2] at h
  cases hst : pick.station with
  | none => simp [h1, h2, hst] at h
  | some station =>
    by_cases h3 : (findArrival origin pick.id).isSome = true
    · simp [h1, h2, hst, h3] at h
    by_cases h4 : phase = "P" ∨ phase = "PKP"
    swap
    · simp [h1, h2, hst, h3, h4] at h
    cases htt : ext.travelTimeP origin.hypocenter station
        (ext.delazi origin.hypocenter station).1 with
    | none => simp [h1, h2, hst, h3, h4, htt] at h
    | some tt =>
      by_cases h5 : _residualOK cfg ext (Arrival.new pick phase (pick.time - origin.time - tt))
          (9 / 10) (13 / 10) = true
      swap
      · simp [h1, h2, hst, h3, h4, htt, h5] at h
      simp only [h1, h2, hst, h3, h4, htt, h5, himp, Bool.not_true, Bool.false_eq_true,
        if_false, not_true_eq_false] at h
      refine ⟨by simpa using h3, newArrival cfg ext origin pick phase station tt, rfl, ?_⟩
      have hpick : (newArrival cfg ext origin pick phase station tt).pick = pick.id := rfl
      generalize newArrival cfg ext origin pick phase station tt = arr at h hpick ⊢
      by_cases hx : arr.excluded = ExcludeReason.UnusedPhase
      · simp only [hx, if_true] at h
        obtain ⟨a, ha1, ha2, ha3⟩ := attachLoosely_cases origin arr
        rw [ha3] at h
        simp only [Prod.mk.injEq, true_and] at h
        exact Or.inl ⟨a, by rw [ha1]; exact hpick, ha2, h.symm⟩
      · simp only [hx, if_false] at h
        unfold relocateTrial at h
        cases hr1 : ext.relocate (trialDepth cfg origin) (origin.add arr) with
        | some relo =>
          simp only [hr1] at h
          rcases judgeRelocated_cases cfg ext origin pick arr _ relo o' hpick h with c | c | c
          · exact Or.inl c
          · exact Or.inr (Or.inl ⟨_, relo, hr1, c⟩)
          · exact Or.inr (Or.inr c)
        | none =>
          simp only [hr1] at h
          by_cases hfx : (trialDepth cfg origin).isSome = true
          · simp [hfx] at h
          · simp only [hfx, Bool.false_eq_true, if_false] at h
            cases hr2 : ext.relocate (some origin.hypocenter.dep) (origin.add arr) with
            | none => simp [hr2] at h
            | some relo =>
              simp only [hr2] at h
              rcases judgeRelocated_cases cfg ext origin pick arr _ relo o' hpick h with c | c | c
              · exact Or.inl c
              · exact Or.inr (Or.inl ⟨_, relo, hr2, c⟩)
              · exact Or.inr (Or.inr c)

theorem setExcluded_append_length (l : List Arrival) (arr : Arrival) (reason : ExcludeReason) :
    setExcluded (l ++ [arr]) l.length reason = l ++ [{ arr with excluded := reason }] := by
  induction l with
  | nil => rfl
  | cons a rest ih =>
    simp only [List.cons_append, List.length_cons, setExcluded]
    exact congrArg (fun t => a :: t) ih

theorem findArrival_append_new (origin : Origin) (arr : Arrival) (pick : PickID) (i : Nat)
    (habs : ∀ x ∈ origin.arrivals, x.pick ≠ pick)
    (h : findArrival { origin with arrivals := origin.arrivals ++ [arr] } pick = some i) :
    i = origin.arrivals.length := by
  unfold findArrival at h
  simp only [] at h
  have hlen : List.findIdx (fun a => decide (a.pick = pick)) origin.arrivals
      = origin.arrivals.length := by
    rw [List.findIdx_eq_length]
    intro x hx
    simpa using habs x hx
  rw [List.findIdx_append, hlen] at h
  simp only [lt_self_iff_false, if_false, List.length_append, List.length_singleton] at h
  by_cases hp : arr.pick = pick
  · simp [List.findIdx_cons, hp] at h
    exact h.symm
  · simp [List.findIdx_cons, hp] at h
    omega

/-- C11, as stated, fails: the trial relocation raises the rms from 1 to 9, so
the new arrival is set to `LargeResidual` and the origin is relocated once
more at fixed depth; the score of that solution is not lower, its rms (9) is
not tested again, and `_associate` returns true with an origin whose rms
exceeds the rms before the call by more than `3/sqrt(10+N)`. -/
theorem associate_can_raise_rms :
    exOriginA.imported = false ∧
      (_associate exConfig exCollabWorse exOriginA (exPick "k" 100 10 5 PickMode.Automatic)
        "P").1 = true ∧
      exCollabWorse.rms exOriginA = 1 ∧
      exCollabWorse.rms (_associate exConfig exCollabWorse exOriginA
        (exPick "k" 100 10 5 PickMode.Automatic) "P").2 = 9 ∧
      (_associate exConfig exCollabWorse exOriginA (exPick "k" 100 10 5 PickMode.Automatic)
        "P").2.arrivals.length = 3 ∧
      (9 : ℚ) > 1 + 3 / exCollabWorse.sqrt (10 + 3) := by
  have hres : _associate exConfig exCollabWorse exOriginA
      (exPick "k" 100 10 5 PickMode.Automatic) "P" =
      (true, { exOriginA with
        hypocenter := ⟨1, 0, 10⟩
        arrivals := exOriginA.arrivals ++
          [⟨"k", "P", 0, 30, 0, 0, 0, ExcludeReason.LargeResidual⟩] }) := by
    simp [_associate, mightBeAssociated, findArrival, _residualOK, is_PKP_arrival, is_P_arrival,
      Arrival.new, initialExclusion, definingPhaseCountIn, judgeRelocated, adoptRelocated,
      newArrival, trialDepth, relocateTrial, setExcluded,
      attachLoosely, Origin.add, Origin.updateFrom, _score, definingPhaseCount, exConfig,
      exCollabWorse, exCollab, exOriginA, exOrigin, exArrival, exPick, exStation,
      List.findIdx_cons, List.findIdx_nil]
    norm_num
  refine ⟨rfl, by rw [hres], ?_, ?_, ?_, ?_⟩
  · simp [exCollabWorse, exOriginA, exOrigin]
  · rw [hres]
    simp [exCollabWorse]
  · rw [hres]
    simp [exOriginA, exOrigin]
  · norm_num [exCollabWorse, exCollab]

/-- C11, amended: let `_associate` return true for a non-imported origin, with
a relocator that keeps the id and the picks and excluded states of the
arrivals. If the pick's arrival is `NotExcluded` in the origin left behind,
the score is not lower than before and the rms is at most the rms before plus
`3/sqrt(10+N)`, `N` the number of arrivals of the origin left behind. In every
case either the origin left behind is the old origin plus one excluded arrival
for the pick (nothing is relocated, nothing is tested), or its score is not
lower than before; the rms bound is not guaranteed there. -/
theorem associate_defining_arrival_improves (cfg : Config) (ext : Collaborators)
    (origin : Origin) (pick : Pick) (phase : String) (o' : Origin)
    (himp : origin.imported = false)
    (h : _associate cfg ext origin pick phase = (true, o'))
    (hid : ∀ m o r, ext.relocate m o = some r → r.id = o.id)
    (hpres : ∀ m o r, ext.relocate m o = some r →
      r.arrivals.map (fun a => (a.pick, a.excluded))
        = o.arrivals.map (fun a => (a.pick, a.excluded))) :
    ((∃ x ∈ o'.arrivals, x.pick = pick.id ∧ x.excluded = ExcludeReason.NotExcluded) →
      _score ext origin ≤ _score ext o' ∧
      ext.rms o' ≤ ext.rms origin + 3 / ext.sqrt (10 + (o'.arrivals.length : ℚ))) ∧
    ((∃ a, a.pick = pick.id ∧ a.excluded ≠ ExcludeReason.NotExcluded ∧ o' = origin.add a) ∨
      _score ext origin ≤ _score ext o') := by
  obtain ⟨hnone, arr, hpick, hcase⟩ := associate_cases cfg ext origin pick phase o' himp h
  have habs := not_mem_of_findArrival_none origin pick.id hnone
  have hcopy : origin.add arr = { origin with arrivals := origin.arrivals ++ [arr] } :=
    add_of_absent origin arr (by rw [hpick]; exact hnone)
  rcases hcase with ⟨a, ha, hex, ho⟩ | ⟨m, relo, hr, hs, hrms, ho⟩ | ⟨index, relo2, hf, hr, hs, ho⟩
  · refine ⟨?_, Or.inl ⟨a, ha, hex, ho⟩⟩
    rintro ⟨x, hx, hxp, hxe⟩
    exfalso
    rw [ho, add_of_absent origin a (by rw [ha]; exact hnone)] at hx
    simp only [List.mem_append, List.mem_singleton] at hx
    rcases hx with hx | hx
    · exact habs x hx hxp
    · rw [hx] at hxe
      exact hex hxe
  · have hrid : relo.id = origin.id := by rw [hid m _ relo hr, add_id]
    have ho2 : o' = relo := by rw [ho]; exact updateFrom_same_id origin relo hrid
    have hlen : relo.arrivals.length = (origin.add arr).arrivals.length := by
      have := congrArg List.length (hpres m _ relo hr)
      simpa using this
    subst ho2
    refine ⟨fun _ => ⟨hs, ?_⟩, Or.inr hs⟩
    rw [hlen]
    exact hrms
  · have hrid : relo2.id = origin.id := by
      rw [hid _ _ relo2 hr]
      exact add_id origin arr
    have ho2 : o' = relo2 := by rw [ho]; exact updateFrom_same_id origin relo2 hrid
    subst ho2
    refine ⟨?_, Or.inr hs⟩
    rintro ⟨x, hx, hxp, hxe⟩
    exfalso
    have hidx : index = origin.arrivals.length := by
      rw [hcopy] at hf
      exact findArrival_append_new origin arr pick.id index habs hf
    have hmap := hpres _ _ o' hr
    rw [hidx] at hmap
    simp only [hcopy, setExcluded_append_length] at hmap
    have hmem : (x.pick, x.excluded) ∈ o'.arrivals.map (fun a => (a.pick, a.excluded)) :=
      List.mem_map.mpr ⟨x, hx, rfl⟩
    rw [hmap, hxp, hxe] at hmem
    simp only [List.map_append, List.map_cons, List.map_nil, List.mem_append, List.mem_map,
      List.mem_singleton, Prod.mk.injEq] at hmem
    rcases hmem with ⟨y, hy, hyp, _⟩ | ⟨_, he⟩
    · exact habs y hy hyp
    · cases he

theorem associate_defining_arrival_improves_witness :
    exOriginA.imported = false ∧
      _associate exConfig exCollab exOriginA (exPick "k" 100 10 5 PickMode.Automatic) "P"
        = (true, exAssociated) ∧
      (((∃ x ∈ exAssociated.arrivals,
          x.pick = "k" ∧ x.excluded = ExcludeReason.NotExcluded) →
        _score exCollab exOriginA ≤ _score exCollab exAssociated ∧
        exCollab.rms exAssociated
          ≤ exCollab.rms exOriginA
            + 3 / exCollab.sqrt (10 + (exAssociated.arrivals.length : ℚ))) ∧
      ((∃ a : Arrival, a.pick = "k" ∧ a.excluded ≠ ExcludeReason.NotExcluded ∧
          exAssociated = exOriginA.add a) ∨
        _score exCollab exOriginA ≤ _score exCollab exAssociated)) := by
  have hres : _associate exConfig exCollab exOriginA
      (exPick "k" 100 10 5 PickMode.Automatic) "P" = (true, exAssociated) := by
    simp [_associate, mightBeAssociated, findArrival, _residualOK, is_PKP_arrival, is_P_arrival,
      Arrival.new, initialExclusion, definingPhaseCountIn, judgeRelocated, adoptRelocated,
      newArrival, trialDepth, relocateTrial, setExcluded, exAssociated,
      attachLoosely, Origin.add, Origin.updateFrom, _score, definingPhaseCount, exConfig,
      exCollab, exOriginA, exOrigin, exArrival, exPick, exStation,
      List.findIdx_cons, List.findIdx_nil]
    norm_num
  exact ⟨rfl, hres,
    associate_defining_arrival_improves exConfig exCollab exOriginA
      (exPick "k" 100 10 5 PickMode.Automatic) "P" exAssociated rfl hres
      (fun _ _ _ hr => by
        simp only [exCollab, Option.some.injEq] at hr
        rw [← hr])
      (fun _ _ _ hr => by
        simp only [exCollab, Option.some.injEq] at hr
        rw [← hr])⟩

/-! ## Imported origins are never relocated -/

theorem initialExclusion_imported (cfg : Config) (origin : Origin) (phase : String) (delta : ℚ)
    (himp : origin.imported = true) :
    initialExclusion cfg origin phase delta = ExcludeReason.UnusedPhase := by
  unfold initialExclusion
  simp only [himp, if_true]
  split_ifs <;> rfl

theorem associate_imported (cfg : Config) (ext : Collaborators) (origin : Origin) (pick : Pick)
    (phase : String) (himp : origin.imported = true) :
    _associate cfg ext origin pick phase = (false, origin) ∨
    ∃ a : Arrival, a.pick = pick.id ∧ a.excluded = ExcludeReason.UnusedPhase ∧
      _associate cfg ext origin pick phase
        = (true, { origin with arrivals := origin.arrivals ++ [a] }) := by
  unfold _associate
  by_cases h1 : mightBeAssociated pick origin = true
  swap
  · simp [h1]
  by_cases h2 : phase = "PKP" ∧ pick.time - origin.time < 1000
  · simp [h1, h2]
  cases hst : pick.station with
  | none => simp [h1, h2]
  | some station =>
    by_cases h3 : (findArrival origin pick.id).isSome = true
    · simp [h1, h2, h3]
    by_cases h4 : phase = "P" ∨ phase = "PKP"
    swap
    · simp [h1, h2, h3, h4]
    cases htt : ext.travelTimeP origin.hypocenter station
        (ext.delazi origin.hypocenter station).1 with
    | none => simp [h1, h2, h3, h4, htt]
    | some tt =>
      by_cases h5 : _residualOK cfg ext (Arrival.new pick phase (pick.time - origin.time - tt))
          (9 / 10) (13 / 10) = true
      swap
      · simp [h1, h2, h3, h4, htt, h5]
      right
      refine ⟨newArrival cfg ext origin pick phase station tt, rfl, ?_, ?_⟩
      · exact initialExclusion_imported cfg origin phase _ himp
      · simp only [h1, h2, h3, h4, htt, h5, himp, Bool.not_true, Bool.false_eq_true,
          if_false, if_true, not_true_eq_false, updateFrom_add]
        have hn : (findArrival origin
            (newArrival cfg ext origin pick phase station tt).pick).isSome = false := by
          simpa using h3
        rw [add_of_absent origin _ hn]
        simp only [himp]

theorem associate_imported_frame (cfg : Config) (ext : Collaborators) (origin : Origin)
    (pick : Pick) (phase : String) (himp : origin.imported = true) :
    (_associate cfg ext origin pick phase).2.hypocenter = origin.hypocenter ∧
    (_associate cfg ext origin pick phase).2.time = origin.time ∧
    (_associate cfg ext origin pick phase).2.imported = true := by
  rcases associate_imported cfg ext origin pick phase himp with h | ⟨a, _, _, h⟩
  · rw [h]
    exact ⟨rfl, rfl, himp⟩
  · rw [h]
    exact ⟨rfl, rfl, himp⟩

theorem associate_relocate_indep (cfg : Config) (ext : Collaborators)
    (r : Option ℚ → Origin → Option Origin) (origin : Origin) (pick : Pick) (phase : String)
    (himp : origin.imported = true) :
    _associate cfg { ext with relocate := r } origin pick phase
      = _associate cfg ext origin pick phase := by
  have e1 : ∀ a minF maxF, _residualOK cfg { ext with relocate := r } a minF maxF
      = _residualOK cfg ext a minF maxF := fun _ _ _ => rfl
  have e2 : ∀ station tt, newArrival cfg { ext with relocate := r } origin pick phase station tt
      = newArrival cfg ext origin pick phase station tt := fun _ _ => rfl
  unfold _associate
  simp only [himp, if_true, e1, e2]

theorem addMorePicksStep_imported (cfg : Config) (ext : Collaborators) (s : State)
    (hv : List String) (acc : Origin × Nat) (pick : Pick) (himp : acc.1.imported = true) :
    (addMorePicksStep cfg ext s hv acc pick).1.hypocenter = acc.1.hypocenter ∧
    (addMorePicksStep cfg ext s hv acc pick).1.time = acc.1.time ∧
    (addMorePicksStep cfg ext s hv acc pick).1.imported = true := by
  have f1 := associate_imported_frame cfg ext acc.1 pick "P" himp
  have f2 := associate_imported_frame cfg ext (_associate cfg ext acc.1 pick "P").2 pick "PKP"
    f1.2.2
  have f3 : (_associate cfg ext (_associate cfg ext acc.1 pick "P").2 pick "PKP").2.hypocenter
      = acc.1.hypocenter := f2.1.trans f1.1
  have f4 : (_associate cfg ext (_associate cfg ext acc.1 pick "P").2 pick "PKP").2.time
      = acc.1.time := f2.2.1.trans f1.2.1
  unfold addMorePicksStep
  cases pick.station with
  | none => exact ⟨rfl, rfl, himp⟩
  | some station =>
    simp only []
    split_ifs
    all_goals first
      | exact ⟨rfl, rfl, himp⟩
      | exact f1
      | exact ⟨f3, f4, f2.2.2⟩

theorem addMorePicksStep_relocate_indep (cfg : Config) (ext : Collaborators)
    (r : Option ℚ → Origin → Option Origin) (s : State)
    (hv : List String) (acc : Origin × Nat) (pick : Pick) (himp : acc.1.imported = true) :
    addMorePicksStep cfg { ext with relocate := r } s hv acc pick
      = addMorePicksStep cfg ext s hv acc pick := by
  have e1 := associate_relocate_indep cfg ext r acc.1 pick "P" himp
  have e2 := associate_relocate_indep cfg ext r (_associate cfg ext acc.1 pick "P").2 pick "PKP"
    (associate_imported_frame cfg ext acc.1 pick "P" himp).2.2
  unfold addMorePicksStep
  simp only [e1, e2]

theorem addMorePicksLoop_imported (cfg : Config) (ext : Collaborators)
    (r : Option ℚ → Origin → Option Origin) (s : State)
    (hv : List String) (picks : List Pick) (acc : Origin × Nat) (himp : acc.1.imported = true) :
    (picks.foldl (addMorePicksStep cfg ext s hv) acc).1.hypocenter = acc.1.hypocenter ∧
    (picks.foldl (addMorePicksStep cfg ext s hv) acc).1.time = acc.1.time ∧
    (picks.foldl (addMorePicksStep cfg ext s hv) acc).1.imported = true ∧
    picks.foldl (addMorePicksStep cfg { ext with relocate := r } s hv) acc
      = picks.foldl (addMorePicksStep cfg ext s hv) acc := by
  induction picks generalizing acc with
  | nil => exact ⟨rfl, rfl, himp, rfl⟩
  | cons pick rest ih =>
    have f := addMorePicksStep_imported cfg ext s hv acc pick himp
    have g := ih (addMorePicksStep cfg ext s hv acc pick) f.2.2
    simp only [List.foldl_cons]
    rw [addMorePicksStep_relocate_indep cfg ext r s hv acc pick himp]
    exact ⟨g.1.trans f.1, g.2.1.trans f.2.1, g.2.2.1, g.2.2.2⟩

theorem addMorePicks_imported (cfg : Config) (ext : Collaborators)
    (r : Option ℚ → Origin → Option Origin) (pickOf : PickID → Pick) (s : State)
    (origin : Origin) (himp : origin.imported = true) :
    (_addMorePicks cfg ext pickOf s origin).2.hypocenter = origin.hypocenter ∧
    (_addMorePicks cfg ext pickOf s origin).2.time = origin.time ∧
    (_addMorePicks cfg ext pickOf s origin).2.imported = true ∧
    _addMorePicks cfg { ext with relocate := r } pickOf s origin
      = _addMorePicks cfg ext pickOf s origin := by
  have f := addMorePicksLoop_imported cfg ext r s (haveKeys pickOf origin) s.pickPool (origin, 0)
    himp
  unfold _addMorePicks
  simp only [f.2.2.2]
  refine ⟨?_, ?_, ?_, trivial⟩
  · split_ifs
    · exact f.1
    · exact f.1
  · split_ifs
    · exact f.2.1
    · exact f.2.1
  · split_ifs
    · exact f.2.2.1
    · exact f.2.2.1

theorem storedObject_imported (cfg : Config) (ext : Collaborators)
    (r : Option ℚ → Origin → Option Origin) (pickOf : PickID → Pick) (s : State)
    (origin : Origin) (himp : origin.imported = true) :
    (storedObject cfg ext pickOf s origin).hypocenter = origin.hypocenter ∧
    (storedObject cfg ext pickOf s origin).time = origin.time ∧
    storedObject cfg { ext with relocate := r } pickOf s origin
      = storedObject cfg ext pickOf s origin := by
  have hr : (_rename_P_PKP pickOf origin).imported = true := himp
  have f := addMorePicks_imported cfg ext r pickOf s (_rename_P_PKP pickOf origin) hr
  have f1 : (_addMorePicks cfg ext pickOf s (_rename_P_PKP pickOf origin)).2.hypocenter
      = origin.hypocenter := f.1
  have f2 : (_addMorePicks cfg ext pickOf s (_rename_P_PKP pickOf origin)).2.time
      = origin.time := f.2.1
  unfold storedObject
  simp only [hr, if_true, f.2.2.2]
  refine ⟨?_, ?_, trivial⟩
  · split_ifs <;> exact f1
  · split_ifs <;> exact f2

theorem tryAssociateImported_cases (cfg : Config) (ext : Collaborators) (pick : Pick)
    (assos : List Association) (acc : Option Origin) (o : Origin)
    (h : tryAssociateImported cfg ext pick assos acc = some o) :
    acc = some o ∨
    ∃ asso ∈ assos, asso.origin.imported = true ∧
      (_associate cfg ext asso.origin pick asso.phase).1 = true ∧
      o = (_associate cfg ext asso.origin pick asso.phase).2 := by
  induction assos generalizing acc with
  | nil => exact Or.inl h
  | cons asso rest ih =>
    unfold tryAssociateImported at h
    by_cases hi : asso.origin.imported = true
    swap
    · simp only [hi, Bool.not_false, if_true] at h
      rcases ih acc h with c | ⟨x, hx, c⟩
      · exact Or.inl c
      · exact Or.inr ⟨x, List.mem_cons_of_mem _ hx, c⟩
    by_cases hs : (_associate cfg ext asso.origin pick asso.phase).1 = true
    swap
    · simp only [hi, hs, Bool.not_true, Bool.not_false, Bool.false_eq_true, if_false,
        if_true] at h
      rcases ih acc h with c | ⟨x, hx, c⟩
      · exact Or.inl c
      · exact Or.inr ⟨x, List.mem_cons_of_mem _ hx, c⟩
    by_cases hf : (findArrival (_associate cfg ext asso.origin pick asso.phase).2
        pick.id).isNone = true
    · simp [hi, hs, hf] at h
    · simp only [hi, hs, hf, Bool.not_true, Bool.false_eq_true, if_false] at h
      rcases ih _ h with c | ⟨x, hx, c⟩
      · exact Or.inr ⟨asso, List.mem_cons_self _ _, hi, hs, (Option.some.inj c).symm⟩
      · exact Or.inr ⟨x, List.mem_cons_of_mem _ hx, c⟩

/-- C12: for an imported origin `_associate` never calls the relocator (its
result is the same with any other relocator); a call that fails leaves the
origin as it was, and a successful call leaves hypocenter, time and the
existing arrivals unchanged and appends exactly one arrival for the pick,
with `excluded = UnusedPhase`. The origin that `feed(Origin)` stores for an
imported origin has the hypocenter and time it was fed with, again with any
relocator, and an origin that the imported loop of `_tryAssociate` returns,
and that `_process` then stores, has the hypocenter and time of the imported
candidate origin it was copied from. -/
theorem imported_origin_never_relocated (cfg : Config) (ext : Collaborators)
    (r : Option ℚ → Origin → Option Origin) (pickOf : PickID → Pick) (s : State)
    (origin : Origin) (pick : Pick) (phase : String)
    (himp : origin.imported = true) :
    _associate cfg { ext with relocate := r } origin pick phase
        = _associate cfg ext origin pick phase ∧
    (_associate cfg ext origin pick phase = (false, origin) ∨
      ∃ a : Arrival, a.pick = pick.id ∧ a.excluded = ExcludeReason.UnusedPhase ∧
        _associate cfg ext origin pick phase
          = (true, { origin with arrivals := origin.arrivals ++ [a] })) ∧
    (storedObject cfg ext pickOf s origin).hypocenter = origin.hypocenter ∧
    (storedObject cfg ext pickOf s origin).time = origin.time ∧
    storedObject cfg { ext with relocate := r } pickOf s origin
        = storedObject cfg ext pickOf s origin ∧
    ∀ (assos : List Association) (o : Origin),
      tryAssociateImported cfg ext pick assos none = some o →
      ∃ asso ∈ assos, asso.origin.imported = true ∧
        o.hypocenter = asso.origin.hypocenter ∧ o.time = asso.origin.time ∧
        (storedObject cfg ext pickOf s o).hypocenter = asso.origin.hypocenter ∧
        (storedObject cfg ext pickOf s o).time = asso.origin.time := by
  have hs := storedObject_imported cfg ext r pickOf s origin himp
  refine ⟨associate_relocate_indep cfg ext r origin pick phase himp,
    associate_imported cfg ext origin pick phase himp, hs.1, hs.2.1, hs.2.2, ?_⟩
  intro assos o h
  rcases tryAssociateImported_cases cfg ext pick assos none o h with c | ⟨asso, hm, hi, _, ho⟩
  · cases c
  · have f := associate_imported_frame cfg ext asso.origin pick asso.phase hi
    rw [← ho] at f
    have g := storedObject_imported cfg ext r pickOf s o f.2.2
    exact ⟨asso, hm, hi, f.1, f.2.1, g.1.trans f.1, g.2.1.trans f.2.1⟩

theorem imported_origin_never_relocated_witness :
    exImported.imported = true ∧
    _associate exConfig exCollab exImported (exPick "k" 100 10 5 PickMode.Automatic) "P"
      = (true, { exImported with
          arrivals := exImported.arrivals ++
            [(⟨"k", "P", 0, 30, 0, 0, 0, ExcludeReason.UnusedPhase⟩ : Arrival)] }) ∧
    (_associate exConfig { exCollab with relocate := fun _ _ => none } exImported
        (exPick "k" 100 10 5 PickMode.Automatic) "P"
        = _associate exConfig exCollab exImported (exPick "k" 100 10 5 PickMode.Automatic) "P" ∧
    (_associate exConfig exCollab exImported (exPick "k" 100 10 5 PickMode.Automatic) "P"
        = (false, exImported) ∨
      ∃ a : Arrival, a.pick = "k" ∧ a.excluded = ExcludeReason.UnusedPhase ∧
        _associate exConfig exCollab exImported (exPick "k" 100 10 5 PickMode.Automatic) "P"
          = (true, { exImported with arrivals := exImported.arrivals ++ [a] })) ∧
    (storedObject exConfig exCollab exPickOf (exState 0) exImported).hypocenter
        = exImported.hypocenter ∧
    (storedObject exConfig exCollab exPickOf (exState 0) exImported).time = exImported.time ∧
    storedObject exConfig { exCollab with relocate := fun _ _ => none } exPickOf (exState 0)
        exImported
        = storedObject exConfig exCollab exPickOf (exState 0) exImported ∧
    ∀ (assos : List Association) (o : Origin),
      tryAssociateImported exConfig exCollab (exPick "k" 100 10 5 PickMode.Automatic) assos none
        = some o →
      ∃ asso ∈ assos, asso.origin.imported = true ∧
        o.hypocenter = asso.origin.hypocenter ∧ o.time = asso.origin.time ∧
        (storedObject exConfig exCollab exPickOf (exState 0) o).hypocenter
          = asso.origin.hypocenter ∧
        (storedObject exConfig exCollab exPickOf (exState 0) o).time = asso.origin.time) := by
  refine ⟨rfl, ?_, imported_origin_never_relocated exConfig exCollab (fun _ _ => none) exPickOf
    (exState 0) exImported (exPick "k" 100 10 5 PickMode.Automatic) "P" rfl⟩
  simp [_associate, mightBeAssociated, findArrival, _residualOK, is_PKP_arrival, is_P_arrival,
    Arrival.new, initialExclusion, definingPhaseCountIn, newArrival, exImported,
    Origin.add, Origin.updateFrom, exConfig,
    exCollab, exOriginA, exOrigin, exArrival, exPick, exStation,
    List.findIdx_cons, List.findIdx_nil]
  norm_num

/-! ## Storing and feeding a pick, the clock and cleanup -/

theorem flushStep_now (cfg : Config) (ext : Collaborators) (t : Time) (s : State)
    (id : OriginID) : (flushStep cfg ext t s id)._now = s._now := by
  unfold flushStep
  split
  · rfl
  · split
    · rfl
    · split
      · rfl
      · split <;> rfl

theorem flush_now (cfg : Config) (ext : Collaborators) (utc : Time) (s : State) :
    (_flush cfg ext utc s)._now = s._now := by
  have h : ∀ (ids : List OriginID) (st : State),
      (ids.foldl (flushStep cfg ext (now cfg utc s)) st)._now = st._now := by
    intro ids
    induction ids with
    | nil => intro st; rfl
    | cons a rest ih =>
      intro st
      rw [List.foldl_cons, ih, flushStep_now]
  rw [flush_unfold, h]

theorem report_now (cfg : Config) (ext : Collaborators) (utc : Time) (s : State) :
    (report cfg ext utc s)._now = s._now := by
  have h : ∀ (l : List Origin) (st : State), (l.foldl enqueue st)._now = st._now := by
    intro l
    induction l with
    | nil => intro st; rfl
    | cons a rest ih =>
      intro st
      rw [List.foldl_cons, ih]
      rfl
  unfold report
  rw [flush_now]
  exact h _ _

theorem cleanup_now (cfg : Config) (utc : Time) (minTime : Time) (s : State) :
    (cleanup cfg utc minTime s)._now = s._now := by
  unfold cleanup
  split_ifs <;> rfl

theorem process_now (cfg : Config) (ext : Collaborators)
    (hloc : ∀ p st, (ext.locate p st).2._now = st._now)
    (pick : Pick) (s : State) :
    (_process cfg ext pick s).state._now = s._now := by
  unfold _process
  split
  · rfl
  · split
    · rfl
    · simp only []
      split
      · rfl
      · split
        · rfl
        · split
          · split
            · rfl
            · unfold _setBlacklisted
              simp only [if_true]
              rfl
          · split
            · rfl
            · split
              · rfl
              · rw [hloc]
                rfl

theorem addStationInfo_time (ext : Collaborators) (pick : Pick) :
    (_addStationInfo ext pick).2.time = pick.time ∧
    (_addStationInfo ext pick).2.id = pick.id ∧
    (_addStationInfo ext pick).2.mode = pick.mode := by
  unfold _addStationInfo
  split_ifs
  · exact ⟨rfl, rfl, rfl⟩
  · split <;> exact ⟨rfl, rfl, rfl⟩

theorem addStationInfo_status (ext : Collaborators) (pick : Pick) :
    (_addStationInfo ext pick).1 = (_addStationInfo ext pick).2.station.isSome := by
  unfold _addStationInfo
  by_cases h : pick.station.isSome = true
  · simp [h]
  · simp only [h, Bool.false_eq_true, if_false]
    cases hs : ext.stationOf pick with
    | none =>
      simp only
      simpa using h
    | some st => simp

/-- The function `_store(const Pick*)` in closed form. -/
theorem store_eq (cfg : Config) (ext : Collaborators) (utc : Time) (s : State)
    (pick : Pick) :
    _store cfg ext utc s pick =
      if (advancesClock ext pick && !decide (pick.time < now cfg utc s - cfg.maxAge)) = true then
        (true, (_addStationInfo ext pick).2, storeAccepted cfg s (_addStationInfo ext pick).2)
      else (false, (_addStationInfo ext pick).2, s) := by
  have ht := (addStationInfo_time ext pick).1
  have hm : automatic (_addStationInfo ext pick).2 = automatic pick := by
    unfold automatic
    rw [(addStationInfo_time ext pick).2.2]
  have hst := addStationInfo_status ext pick
  unfold _store advancesClock
  cases hs : (_addStationInfo ext pick).2.station with
  | none =>
    rw [hs] at hst
    simp [hst]
  | some station =>
    rw [hs] at hst
    simp only [hst, Option.isSome_some, Bool.not_true, Bool.false_eq_true, if_false, hm, ht]
    by_cases h1 : (automatic pick && !station.used) = true
    · simp [h1]
    · by_cases h2 : pick.time < now cfg utc s - cfg.maxAge
      · simp [h1, h2]
      · simp [h1, h2]

theorem storeAccepted_now (cfg : Config) (s : State) (pick : Pick)
    (hplay : cfg.playback = true) :
    (storeAccepted cfg s pick)._now = max s._now pick.time := by
  unfold storeAccepted
  by_cases h : pick.time > s._now
  · have hc : cfg.playback = true ∧ pick.time > s._now := ⟨hplay, h⟩
    simp only [hc, and_self, if_true]
    rw [max_eq_right (le_of_lt h)]
    split_ifs <;> rfl
  · have hc : ¬ (cfg.playback = true ∧ pick.time > s._now) := fun c => h c.2
    simp only [hc, if_false]
    rw [max_eq_left (not_lt.mp h)]
    split_ifs <;> rfl

theorem store_now (cfg : Config) (ext : Collaborators) (utc : Time) (s : State)
    (pick : Pick) (hplay : cfg.playback = true) :
    (_store cfg ext utc s pick).2.2._now =
      if (_store cfg ext utc s pick).1 = true then max s._now pick.time else s._now := by
  rw [store_eq]
  by_cases h : (advancesClock ext pick && !decide (pick.time < now cfg utc s - cfg.maxAge)) = true
  · simp only [h, if_true]
    rw [storeAccepted_now cfg s _ hplay, (addStationInfo_time ext pick).1]
  · simp only [h, if_false, Bool.false_eq_true]

/-- The clock after one `feed(pick)` in playback mode. -/
theorem feed_now (cfg : Config) (ext : Collaborators) (utc : Time)
    (hplay : cfg.playback = true) (hage : 0 ≤ cfg.maxAge)
    (hloc : ∀ p st, (ext.locate p st).2._now = st._now) (pick : Pick) (s : State) :
    (feed cfg ext utc pick s).2._now =
      if advancesClock ext pick = true then max s._now pick.time else s._now := by
  have hfeed : (feed cfg ext utc pick s).2._now
      = (_store cfg ext utc { s with _newOrigins := [] } pick).2.2._now := by
    unfold feed
    simp only []
    split_ifs
    · rfl
    · rfl
    · split
      · rfl
      · split_ifs
        · rw [cleanup_now, process_now cfg ext hloc]
        · rw [report_now, cleanup_now, process_now cfg ext hloc]
  rw [hfeed, store_now cfg ext utc _ pick hplay, store_eq]
  have hn : now cfg utc { s with _newOrigins := [] } = s._now := by
    unfold now
    simp [hplay]
  rw [hn]
  by_cases ha : advancesClock ext pick = true
  · by_cases hold : pick.time < s._now - cfg.maxAge
    · have hle : pick.time ≤ s._now := by linarith
      simp [ha, hold, max_eq_left hle]
    · simp [ha, hold]
  · simp [ha]

theorem feedAll_now (cfg : Config) (ext : Collaborators) (utc : Time)
    (hplay : cfg.playback = true) (hage : 0 ≤ cfg.maxAge)
    (hloc : ∀ p st, (ext.locate p st).2._now = st._now) (picks : List Pick) (s : State) :
    (feedAll cfg ext utc picks s)._now =
      ((picks.filter (advancesClock ext)).map (fun p => p.time)).foldl max s._now := by
  unfold feedAll
  induction picks generalizing s with
  | nil => rfl
  | cons p rest ih =>
    rw [List.foldl_cons, ih, feed_now cfg ext utc hplay hage hloc]
    by_cases ha : advancesClock ext p = true
    · simp [ha, List.filter_cons]
    · simp [ha, List.filter_cons]

theorem le_foldl_max (l : List ℚ) (a : ℚ) : a ≤ l.foldl max a := by
  induction l generalizing a with
  | nil => exact le_refl a
  | cons x rest ih =>
    rw [List.foldl_cons]
    exact le_trans (le_max_left a x) (ih _)

/-- C25, amended: in playback mode, with `maxAge >= 0`, the logical clock
after a sequence of `feed(pick)` calls is the maximum of the clock before the
calls and the times of the fed picks that have station information (their
own or from the station registry) and, when automatic, a station in use;
such picks advance the clock also when `feed` rejects them later. A pick
without station information and an automatic pick on an unused station leave
the clock as it is. The clock never decreases. -/
theorem playback_clock (cfg : Config) (ext : Collaborators) (utc : Time)
    (hplay : cfg.playback = true) (hage : 0 ≤ cfg.maxAge)
    (hloc : ∀ p st, (ext.locate p st).2._now = st._now) (picks : List Pick) (s : State) :
    now cfg utc (feedAll cfg ext utc picks s) =
        ((picks.filter (advancesClock ext)).map (fun p => p.time)).foldl max (now cfg utc s) ∧
    now cfg utc s ≤ now cfg utc (feedAll cfg ext utc picks s) ∧
    (∀ p, advancesClock ext p = false →
      now cfg utc (feed cfg ext utc p s).2 = now cfg utc s) ∧
    (∀ p, advancesClock ext p = true →
      now cfg utc (feed cfg ext utc p s).2 = max (now cfg utc s) p.time) := by
  have hn : ∀ st, now cfg utc st = st._now := by
    intro st
    unfold now
    simp [hplay]
  simp only [hn]
  refine ⟨feedAll_now cfg ext utc hplay hage hloc picks s, ?_, ?_, ?_⟩
  · rw [feedAll_now cfg ext utc hplay hage hloc picks s]
    exact le_foldl_max _ _
  · intro p hp
    rw [feed_now cfg ext utc hplay hage hloc, hp]
    simp
  · intro p hp
    rw [feed_now cfg ext utc hplay hage hloc, hp]
    simp


theorem poolInsert_perm (l : List Pick) (p : Pick) : (poolInsert l p).Perm (p :: l) := by
  induction l with
  | nil => exact List.Perm.refl _
  | cons q rest ih =>
    unfold poolInsert
    split_ifs
    · exact List.Perm.refl _
    · exact (List.Perm.cons q ih).trans (List.Perm.swap p q rest)

theorem find_poolInsert_self (l : List Pick) (p : Pick)
    (h : l.find? (fun q => decide (q.id = p.id)) = none) :
    (poolInsert l p).find? (fun q => decide (q.id = p.id)) = some p := by
  induction l with
  | nil => simp [poolInsert]
  | cons q rest ih =>
    rw [List.find?_cons] at h
    by_cases hq : q.id = p.id
    · simp [hq] at h
    · simp only [hq, decide_False] at h
      unfold poolInsert
      split_ifs
      · simp
      · rw [List.find?_cons]
        simp only [hq, decide_False]
        exact ih h

theorem storeAccepted_pool (cfg : Config) (s : State) (p : Pick) :
    (storeAccepted cfg s p).pickPool =
      if (Autoloc.pick s p.id).isNone = true then poolInsert s.pickPool p else s.pickPool := by
  unfold storeAccepted Autoloc.pick
  by_cases hc : cfg.playback = true ∧ p.time > s._now
  · simp only [hc, and_self, if_true]
    split_ifs <;> rfl
  · simp only [hc, if_false]
    split_ifs <;> rfl

theorem store_pool (cfg : Config) (ext : Collaborators) (utc : Time) (s : State) (p : Pick)
    (h : (_store cfg ext utc s p).1 = true) :
    (_store cfg ext utc s p).2.2.pickPool =
      if (Autoloc.pick s p.id).isNone = true then
        poolInsert s.pickPool (_store cfg ext utc s p).2.1
      else s.pickPool := by
  rw [store_eq] at h ⊢
  by_cases hc : (advancesClock ext p && !decide (p.time < now cfg utc s - cfg.maxAge)) = true
  · simp only [hc, if_true]
    rw [storeAccepted_pool, (addStationInfo_time ext p).2.1]
  · simp [hc] at h

theorem store_pick_id (cfg : Config) (ext : Collaborators) (utc : Time) (s : State) (p : Pick) :
    (_store cfg ext utc s p).2.1.id = p.id := by
  rw [store_eq]
  split_ifs <;> exact (addStationInfo_time ext p).2.1

/-- The pool after a successful `_store(pick)`. -/
theorem store_record (cfg : Config) (ext : Collaborators) (utc : Time)
    (s : State) (p : Pick)
    (h : (_store cfg ext utc s p).1 = true) :
    (∀ old, Autoloc.pick s p.id = some old →
      (_store cfg ext utc s p).2.2.pickPool = s.pickPool ∧
      Autoloc.pick (_store cfg ext utc s p).2.2 p.id = some old) ∧
    (Autoloc.pick s p.id = none →
      Autoloc.pick (_store cfg ext utc s p).2.2 p.id = some (_store cfg ext utc s p).2.1 ∧
      (_store cfg ext utc s p).2.2.pickPool.Perm ((_store cfg ext utc s p).2.1 :: s.pickPool)) ∧
    ((s.pickPool.map (fun q => q.id)).Nodup →
      ((_store cfg ext utc s p).2.2.pickPool.map (fun q => q.id)).Nodup) := by
  have hp := store_pool cfg ext utc s p h
  have hid := store_pick_id cfg ext utc s p
  refine ⟨?_, ?_, ?_⟩
  · intro old ho
    have hpool : (_store cfg ext utc s p).2.2.pickPool = s.pickPool := by
      rw [hp, ho]
      simp
    refine ⟨hpool, ?_⟩
    unfold Autoloc.pick at ho ⊢
    rw [hpool]
    exact ho
  · intro hn
    have hpool : (_store cfg ext utc s p).2.2.pickPool
        = poolInsert s.pickPool (_store cfg ext utc s p).2.1 := by
      rw [hp, hn]
      simp
    refine ⟨?_, ?_⟩
    · unfold Autoloc.pick at hn ⊢
      rw [hpool, ← hid]
      apply find_poolInsert_self
      rw [hid]
      exact hn
    · rw [hpool]
      exact poolInsert_perm _ _
  · intro hnd
    cases hlook : Autoloc.pick s p.id with
    | some old =>
      rw [hp, hlook]
      simpa using hnd
    | none =>
      have hpool : (_store cfg ext utc s p).2.2.pickPool
          = poolInsert s.pickPool (_store cfg ext utc s p).2.1 := by
        rw [hp, hlook]
        simp
      rw [hpool]
      have hperm := (poolInsert_perm s.pickPool (_store cfg ext utc s p).2.1).map (fun q => q.id)
      rw [hperm.nodup_iff, List.map_cons, List.nodup_cons]
      refine ⟨?_, hnd⟩
      intro hmem
      obtain ⟨q, hq, hqid⟩ := List.mem_map.mp hmem
      unfold Autoloc.pick at hlook
      have := List.find?_eq_none.mp hlook q hq
      rw [hid] at hqid
      simp [hqid] at this

/-- C26: `_store(pick)` inserts the pick when the pool has no record of its
id, and then the lookup of the id gives the pick just fed. When the pool
already has a record of the id, a successful `_store` leaves the pool as it
is: the lookup still gives the old record, not the pick just fed. In both
cases the pool keeps one record per id. -/
theorem store_keeps_existing_record (cfg : Config) (ext : Collaborators) (utc : Time)
    (s : State) (p : Pick)
    (h : (_store cfg ext utc s p).1 = true) :
    (∀ old, Autoloc.pick s p.id = some old →
      (_store cfg ext utc s p).2.2.pickPool = s.pickPool ∧
      Autoloc.pick (_store cfg ext utc s p).2.2 p.id = some old) ∧
    (Autoloc.pick s p.id = none →
      Autoloc.pick (_store cfg ext utc s p).2.2 p.id = some (_store cfg ext utc s p).2.1 ∧
      (_store cfg ext utc s p).2.2.pickPool.Perm ((_store cfg ext utc s p).2.1 :: s.pickPool)) ∧
    ((s.pickPool.map (fun q => q.id)).Nodup →
      ((_store cfg ext utc s p).2.2.pickPool.map (fun q => q.id)).Nodup) :=
  store_record cfg ext utc s p h

/-- C27, amended: for a pick that `_store` accepts and that, if automatic,
has an amplitude, `feed` runs `_process` on the pool record of the id and
then `cleanup()`; it runs `report()` after that only when `_process` has
returned true, and otherwise returns false without a call of `report`. For
an automatic pick without amplitude `feed` returns false with the state that
`_store` left, without `_process`, `cleanup` or `report`. -/
theorem feed_runs_report_on_success (cfg : Config) (ext : Collaborators) (utc : Time)
    (p : Pick) (s : State)
    (h : (_store cfg ext utc { s with _newOrigins := [] } p).1 = true) :
    ((automatic (_store cfg ext utc { s with _newOrigins := [] } p).2.1 &&
        !ext.hasAmplitude (_store cfg ext utc { s with _newOrigins := [] } p).2.1) = false →
      ∃ record,
        Autoloc.pick (_store cfg ext utc { s with _newOrigins := [] } p).2.2 p.id = some record ∧
        feed cfg ext utc p s =
          if (_process cfg ext record
                (_store cfg ext utc { s with _newOrigins := [] } p).2.2).status = true then
            (true, report cfg ext utc (cleanup cfg utc 0
              (_process cfg ext record
                (_store cfg ext utc { s with _newOrigins := [] } p).2.2).state))
          else
            (false, cleanup cfg utc 0
              (_process cfg ext record
                (_store cfg ext utc { s with _newOrigins := [] } p).2.2).state)) ∧
    ((automatic (_store cfg ext utc { s with _newOrigins := [] } p).2.1 &&
        !ext.hasAmplitude (_store cfg ext utc { s with _newOrigins := [] } p).2.1) = true →
      feed cfg ext utc p s =
        (false, (_store cfg ext utc { s with _newOrigins := [] } p).2.2)) := by
  have hk := store_record cfg ext utc { s with _newOrigins := [] } p h
  constructor
  · intro ha
    have hrec : ∃ record,
        Autoloc.pick (_store cfg ext utc { s with _newOrigins := [] } p).2.2 p.id
          = some record := by
      cases hl : Autoloc.pick { s with _newOrigins := [] } p.id with
      | some old => exact ⟨old, (hk.1 old hl).2⟩
      | none => exact ⟨_, (hk.2.1 hl).1⟩
    obtain ⟨record, hr⟩ := hrec
    refine ⟨record, hr, ?_⟩
    unfold feed
    simp only [h, ha, hr, Bool.not_true, Bool.false_eq_true, if_false]
    by_cases hs : (_process cfg ext record
        (_store cfg ext utc { s with _newOrigins := [] } p).2.2).status = true
    · simp [hs]
    · simp [hs]
  · intro ha
    unfold feed
    simp only [h, ha, Bool.not_true, Bool.false_eq_true, if_false, if_true]


theorem foldl_mapErase {α : Type} (ids : List OriginID) (m : List (OriginID × α)) :
    ids.foldl mapErase m = m.filter (fun e => decide (e.1 ∉ ids)) := by
  induction ids generalizing m with
  | nil => simp
  | cons k rest ih =>
    rw [List.foldl_cons, ih]
    unfold mapErase
    rw [List.filter_filter]
    apply List.filter_congr
    intro e _
    simp only [List.mem_cons, not_or, Bool.decide_and, ne_eq, decide_not]
    rw [Bool.and_comm]

theorem eq_of_key_eq {α : Type} (m : List (OriginID × α)) (hnd : (m.map Prod.fst).Nodup)
    (e e' : OriginID × α) (he : e ∈ m) (he' : e' ∈ m) (h : e.1 = e'.1) : e = e' :=
  List.inj_on_of_nodup_map hnd he he' h

theorem cleanup_lastSent (m : List (OriginID × Origin)) (hkey : WellKeyed m) (minTime : Time) :
    ((m.filter (fun e => decide (e.2.time < minTime))).map (fun e => e.2.id)).foldl mapErase m
      = m.filter (fun e => !decide (e.2.time < minTime)) := by
  rw [foldl_mapErase]
  apply List.filter_congr
  intro e he
  by_cases hold : e.2.time < minTime
  · have hin : e.1 ∈ (m.filter (fun e => decide (e.2.time < minTime))).map (fun e => e.2.id) := by
      refine List.mem_map.mpr ⟨e, List.mem_filter.mpr ⟨he, by simpa using hold⟩, hkey.1 e he⟩
    simp [hold, hin]
  · have hnot : e.1 ∉ (m.filter (fun e => decide (e.2.time < minTime))).map (fun e => e.2.id) := by
      intro hin
      obtain ⟨e', he', hid⟩ := List.mem_map.mp hin
      have hm := (List.mem_filter.mp he').1
      have hold' : e'.2.time < minTime := by simpa using (List.mem_filter.mp he').2
      have hk : e'.1 = e.1 := by rw [← hkey.1 e' hm]; exact hid
      have := eq_of_key_eq m hkey.2 e' e hm he hk
      rw [this] at hold'
      exact hold hold'
    simp [hold, hnot]

/-- C24: a call `cleanup()` with the default argument changes nothing when
`now < nextCleanup` or `maxAge <= 0`. Otherwise, with
`minTime = now - (maxAge + 1800)`, the pick pool, the origin set and
`lastSent` (one snapshot per id, stored under its own id) keep exactly their
elements with `time >= minTime`, in their order, `nextCleanup` becomes
`now + cleanupInterval`, and no pick older than `minTime` is left in the
pool. -/
theorem cleanup_evicts_exactly_the_old (cfg : Config) (utc : Time) (s : State)
    (hkey : WellKeyed s._lastSent) :
    ((now cfg utc s < s._nextCleanup ∨ cfg.maxAge ≤ 0) → cleanup cfg utc 0 s = s) ∧
    (s._nextCleanup ≤ now cfg utc s → 0 < cfg.maxAge →
      (cleanup cfg utc 0 s).pickPool =
          s.pickPool.filter (fun p => decide (now cfg utc s - (cfg.maxAge + 1800) ≤ p.time)) ∧
      (cleanup cfg utc 0 s)._origins =
          s._origins.filter (fun o => decide (now cfg utc s - (cfg.maxAge + 1800) ≤ o.time)) ∧
      (cleanup cfg utc 0 s)._lastSent =
          s._lastSent.filter
            (fun e => decide (now cfg utc s - (cfg.maxAge + 1800) ≤ e.2.time)) ∧
      (cleanup cfg utc 0 s)._nextCleanup = now cfg utc s + cfg.cleanupInterval ∧
      ∀ p ∈ (cleanup cfg utc 0 s).pickPool,
        ¬ p.time < now cfg utc s - (cfg.maxAge + 1800)) := by
  constructor
  · intro h
    unfold cleanup
    simp only [if_true]
    rcases h with h | h
    · simp only [h, if_true]
    · by_cases h1 : now cfg utc s < s._nextCleanup
      · simp only [h1, if_true]
      · simp only [h1, if_false, h, if_true]
  · intro h1 h2
    have e1 : ¬ now cfg utc s < s._nextCleanup := not_lt.mpr h1
    have e2 : ¬ cfg.maxAge ≤ 0 := not_le.mpr h2
    have hc : cleanup cfg utc 0 s
        = cleanupBody cfg utc (now cfg utc s - (cfg.maxAge + 1800)) s := by
      unfold cleanup
      simp only [if_true, e1, e2, if_false]
    rw [hc]
    have hf : ∀ (t x : ℚ), (!decide (x < t)) = decide (t ≤ x) := by
      intro t x
      by_cases h : x < t
      · simp [h, not_le.mpr h]
      · simp [h, not_lt.mp h]
    refine ⟨?_, ?_, ?_, rfl, ?_⟩
    · simp only [cleanupBody, hf]
    · simp only [cleanupBody, hf]
    · simp only [cleanupBody]
      rw [cleanup_lastSent _ hkey]
      simp only [hf]
    · intro p hp
      simp only [cleanupBody] at hp
      have := (List.mem_filter.mp hp).2
      simpa using this


theorem cleanup_evicts_exactly_the_old_witness :
    (cleanup exConfig 0 0 exAged).pickPool = [exPick "new" 5000 10 5 PickMode.Automatic] ∧
      (cleanup exConfig 0 0 exAged)._origins = [{ exOriginC with time := 5500 }] ∧
      (cleanup exConfig 0 0 exAged)._lastSent = [] ∧
      (cleanup exConfig 0 0 exAged)._nextCleanup = 6600 := by
  have hk : WellKeyed exAged._lastSent := by
    simp [WellKeyed, exAged, exState, exOriginA, exOrigin]
  have h := (cleanup_evicts_exactly_the_old exConfig 0 exAged hk).2
    (by norm_num [now, exAged, exState, exConfig]) (by norm_num [exConfig])
  refine ⟨h.1.trans ?_, h.2.1.trans ?_, h.2.2.1.trans ?_, h.2.2.2.1.trans ?_⟩
  · simp [now, exAged, exState, exConfig, exPick, List.filter_cons]
    norm_num
  · simp [now, exAged, exState, exConfig, exOriginA, exOriginC, exOrigin, List.filter_cons]
    norm_num
  · simp [now, exAged, exState, exConfig, exOriginA, exOrigin, List.filter_cons]
    norm_num
  · norm_num [now, exAged, exState, exConfig]

/-- C25, as stated, fails: a pick without station information, 100 s after the
start, is fed to a fresh engine in playback mode; `_store` rejects it before
the clock update and the clock still shows 0. -/
theorem rejected_pick_leaves_clock :
    exConfig.playback = true ∧ exPickUnknown.time = 100 ∧
      (feed exConfig exCollab 0 exPickUnknown (exState 0)).1 = false ∧
      now exConfig 0 (feedAll exConfig exCollab 0 [exPickUnknown] (exState 0)) = 0 := by
  refine ⟨rfl, rfl, ?_, ?_⟩
  · simp [feed, store_eq, advancesClock, _addStationInfo, exPickUnknown, exCollab]
  · simp [feedAll, feed, store_eq, advancesClock, _addStationInfo, exPickUnknown, exCollab, now,
      exConfig, exState]

theorem playback_clock_witness :
    now exConfig 0 (feedAll exConfig exCollab 0
        [exPick "a" 50 10 5 PickMode.Automatic, exPickUnknown, exPick "b" 20 10 5 PickMode.Automatic]
        (exState 0)) = 50 := by
  have h := (playback_clock exConfig exCollab 0 rfl (by norm_num [exConfig]) (fun _ _ => rfl)
    [exPick "a" 50 10 5 PickMode.Automatic, exPickUnknown, exPick "b" 20 10 5 PickMode.Automatic]
    (exState 0)).1
  rw [h]
  simp [advancesClock, _addStationInfo, automatic, exPickUnknown, exPick, exStation, exCollab,
    now, exConfig, exState, List.filter_cons]
  norm_num

theorem store_keeps_existing_record_witness :
    Autoloc.pick (exPool [exPick "a" 10 0 5 PickMode.Automatic]) "a"
        = some (exPick "a" 10 0 5 PickMode.Automatic) ∧
      (_store exConfig exCollab 0 (exPool [exPick "a" 10 0 5 PickMode.Automatic])
        (exPick "a" 10 10 5 PickMode.Automatic)).1 = true ∧
      (_store exConfig exCollab 0 (exPool [exPick "a" 10 0 5 PickMode.Automatic])
        (exPick "a" 10 10 5 PickMode.Automatic)).2.2.pickPool
        = [exPick "a" 10 0 5 PickMode.Automatic] ∧
      Autoloc.pick (_store exConfig exCollab 0 (exPool [exPick "a" 10 0 5 PickMode.Automatic])
        (exPick "a" 10 10 5 PickMode.Automatic)).2.2 "a"
        = some (exPick "a" 10 0 5 PickMode.Automatic) ∧
      exPick "a" 10 0 5 PickMode.Automatic ≠ exPick "a" 10 10 5 PickMode.Automatic := by
  have hl : Autoloc.pick (exPool [exPick "a" 10 0 5 PickMode.Automatic]) "a"
      = some (exPick "a" 10 0 5 PickMode.Automatic) := by
    simp [Autoloc.pick, exPool, exState, exPick]
  have hs : (_store exConfig exCollab 0 (exPool [exPick "a" 10 0 5 PickMode.Automatic])
      (exPick "a" 10 10 5 PickMode.Automatic)).1 = true := by
    simp [store_eq, advancesClock, _addStationInfo, automatic, exPick, exStation, now, exConfig,
      exPool, exState]
    norm_num
  have h := (store_keeps_existing_record exConfig exCollab 0
    (exPool [exPick "a" 10 0 5 PickMode.Automatic]) (exPick "a" 10 10 5 PickMode.Automatic) hs).1
    _ hl
  refine ⟨hl, hs, h.1, h.2, ?_⟩
  simp [exPick]

/-- C27, as stated, fails: origin 7 is outgoing and due, and a pick with a
signal-to-noise ratio below `minPickSNR` is fed. `_process` rejects the
pick, `feed` returns false after `cleanup()` and nothing is reported; a call
of `report()` on the state that `feed` leaves would report origin 7. -/
theorem feed_skips_report_on_rejection :
    (feed exConfig exCollab 0 (exPick "a" 0 10 1 PickMode.Automatic)
        (exScheduled 0 exOriginA [] [])).1 = false ∧
      (feed exConfig exCollab 0 (exPick "a" 0 10 1 PickMode.Automatic)
        (exScheduled 0 exOriginA [] [])).2.reportLog = [] ∧
      (feed exConfig exCollab 0 (exPick "a" 0 10 1 PickMode.Automatic)
        (exScheduled 0 exOriginA [] [])).2._outgoing = [(7, exOriginA)] ∧
      (report exConfig exCollab 0
        (feed exConfig exCollab 0 (exPick "a" 0 10 1 PickMode.Automatic)
          (exScheduled 0 exOriginA [] [])).2).reportLog = [exOriginA] := by
  have hf : feed exConfig exCollab 0 (exPick "a" 0 10 1 PickMode.Automatic)
      (exScheduled 0 exOriginA [] [])
      = (false, { exScheduled 0 exOriginA [] [] with
          pickPool := [exPick "a" 0 10 1 PickMode.Automatic]
          _nextCleanup := 600 }) := by
    simp [feed, store_eq, storeAccepted, poolInsert, Autoloc.pick, advancesClock,
      _addStationInfo, automatic, _process, valid, _tooLowSNR, cleanup, cleanupBody, exPick,
      exStation, now,
      exConfig, exCollab, exScheduled, exState]
    norm_num
  rw [hf]
  refine ⟨rfl, rfl, rfl, ?_⟩
  norm_num [report, enqueue, _flush, selectDue, selectStep, isDue, flushStep, markSent,
    nextDueAfter, noImprovement, _publishable, now, mapFind, mapInsert, mapErase, mapTouch,
    mapGet, definingPhaseCount, exScheduled, exState, exConfig, exCollab, exOriginA,
    exOrigin, exArrival]

theorem feed_runs_report_on_success_witness :
    (feed exConfig exCollab 0 (exPick "a" 0 0 5 PickMode.Automatic) (exState 0)
      = (false, (_store exConfig exCollab 0 { exState 0 with _newOrigins := [] }
          (exPick "a" 0 0 5 PickMode.Automatic)).2.2)) ∧
      (_store exConfig exCollab 0 { exState 0 with _newOrigins := [] }
          (exPick "a" 0 0 5 PickMode.Automatic)).2.2.pickPool
        = [exPick "a" 0 0 5 PickMode.Automatic] := by
  have hs : (_store exConfig exCollab 0 { exState 0 with _newOrigins := [] }
      (exPick "a" 0 0 5 PickMode.Automatic)).1 = true := by
    simp [store_eq, advancesClock, _addStationInfo, automatic, exPick, exStation, now, exConfig,
      exState]
  refine ⟨(feed_runs_report_on_success exConfig exCollab 0 (exPick "a" 0 0 5 PickMode.Automatic)
    (exState 0) hs).2 ?_, ?_⟩
  · simp [store_eq, advancesClock, _addStationInfo, automatic, exPick, exStation, now, exConfig,
      exCollab, exState]
  · simp [store_eq, storeAccepted, poolInsert, Autoloc.pick, advancesClock, _addStationInfo,
      automatic, exPick, exStation, now, exConfig, exState]

/-! ## Matching a manual origin with the origin set -/

theorem findMatch_isSome (pickOf : PickID → Pick) (arr1 : Arrival) (l : List Arrival) :
    (findMatch pickOf arr1 l).isSome =
      l.any (fun arr2 =>
        decide (arr2.pick = arr1.pick) ||
          (decide ((pickOf arr2.pick).station = (pickOf arr1.pick).station) &&
            decide (|(pickOf arr2.pick).time - (pickOf arr1.pick).time| ≤ 20))) := by
  induction l with
  | nil => rfl
  | cons arr2 rest ih =>
    unfold findMatch
    rw [List.any_cons]
    by_cases h1 : arr2.pick = arr1.pick
    · simp [h1]
    · by_cases h2 : (pickOf arr2.pick).station = (pickOf arr1.pick).station ∧
          (pickOf arr2.pick).time - (pickOf arr1.pick).time ≥ -20 ∧
          (pickOf arr2.pick).time - (pickOf arr1.pick).time ≤ 20
      · have h3 : |(pickOf arr2.pick).time - (pickOf arr1.pick).time| ≤ 20 :=
          abs_le.mpr ⟨h2.2.1, h2.2.2⟩
        simp [h1, h2, h3]
      · have h3 : ¬ ((pickOf arr2.pick).station = (pickOf arr1.pick).station ∧
            |(pickOf arr2.pick).time - (pickOf arr1.pick).time| ≤ 20) := by
          rintro ⟨hs, ha⟩
          exact h2 ⟨hs, (abs_le.mp ha).1, (abs_le.mp ha).2⟩
        simp only [h1, if_false, h2, decide_False, Bool.false_or, ih]
        have h4 : (decide ((pickOf arr2.pick).station = (pickOf arr1.pick).station) &&
            decide (|(pickOf arr2.pick).time - (pickOf arr1.pick).time| ≤ 20)) = false := by
          simpa using h3
        rw [h4, Bool.false_or]

theorem matchStep_sum (pickOf : PickID → Pick) (o : Origin) (acc : Nat × Nat) (arr1 : Arrival) :
    (matchStep pickOf o acc arr1).1 + (matchStep pickOf o acc arr1).2 =
      acc.1 + acc.2 +
        (if ((pickOf arr1.pick).station.isSome &&
            (findMatch pickOf arr1 o.arrivals).isSome) = true then 1 else 0) := by
  unfold matchStep
  cases hs : (pickOf arr1.pick).station with
  | none => simp
  | some st =>
    simp only [Option.isNone_some, Bool.false_eq_true, if_false, Option.isSome_some,
      Bool.true_and]
    cases hf : findMatch pickOf arr1 o.arrivals with
    | none => simp
    | some b =>
      cases b
      · simp only [Option.isSome_some, if_true]
        omega
      · simp only [Option.isSome_some, if_true]
        omega

theorem matchLoop_sum (pickOf : PickID → Pick) (o : Origin) (l : List Arrival)
    (acc : Nat × Nat) :
    (l.foldl (matchStep pickOf o) acc).1 + (l.foldl (matchStep pickOf o) acc).2 =
      acc.1 + acc.2 +
        (l.filter (fun arr1 =>
          (pickOf arr1.pick).station.isSome && (findMatch pickOf arr1 o.arrivals).isSome)).length := by
  induction l generalizing acc with
  | nil => simp
  | cons arr1 rest ih =>
    rw [List.foldl_cons, ih, matchStep_sum, List.filter_cons]
    split_ifs
    · simp only [List.length_cons]
      omega
    · omega

theorem matchCounts_sum (pickOf : PickID → Pick) (o e : Origin) :
    (matchCounts pickOf o e).1 + (matchCounts pickOf o e).2 = specMatchCount pickOf o e := by
  unfold matchCounts specMatchCount
  rw [matchLoop_sum]
  simp only [findMatch_isSome, zero_add]

theorem findMatchingLoop_cons (pickOf : PickID → Pick) (o e : Origin) (rest : List Origin)
    (i : Nat) (acc : Option Nat × Nat) :
    findMatchingLoop pickOf o (e :: rest) i acc =
      findMatchingLoop pickOf o rest (i + 1)
        (if |o.time - e.time| ≤ 20 * 60 ∧ specMatchCount pickOf o e > acc.2 then
          (some i, specMatchCount pickOf o e) else acc) := by
  rw [findMatchingLoop]
  simp only [matchCounts_sum]
  by_cases hw : |o.time - e.time| > 20 * 60
  · simp [hw, not_le.mpr hw]
  · have hw' : |o.time - e.time| ≤ 20 * 60 := not_lt.mp hw
    simp only [hw, if_false, hw', true_and]
    by_cases hc : specMatchCount pickOf o e > acc.2
    · have hpos : specMatchCount pickOf o e > 0 := by omega
      simp [hc, hpos]
    · simp only [hc, if_false]
      split_ifs <;> rfl

theorem findMatchingLoop_spec (pickOf : PickID → Pick) (o : Origin) (l : List Origin) :
    ∀ (i : Nat) (acc : Option Nat × Nat),
      acc.2 ≤ (findMatchingLoop pickOf o l i acc).2 ∧
      (∀ e ∈ l, |o.time - e.time| ≤ 20 * 60 →
        specMatchCount pickOf o e ≤ (findMatchingLoop pickOf o l i acc).2) ∧
      (findMatchingLoop pickOf o l i acc = acc ∨
        ∃ k e, (findMatchingLoop pickOf o l i acc).1 = some (i + k) ∧ l.get? k = some e ∧
          |o.time - e.time| ≤ 20 * 60 ∧
          specMatchCount pickOf o e = (findMatchingLoop pickOf o l i acc).2 ∧
          acc.2 < (findMatchingLoop pickOf o l i acc).2 ∧
          ∀ j e', j < k → l.get? j = some e' → |o.time - e'.time| ≤ 20 * 60 →
            specMatchCount pickOf o e' < (findMatchingLoop pickOf o l i acc).2) := by
  induction l with
  | nil =>
    intro i acc
    exact ⟨le_refl _, fun e he => absurd he (List.not_mem_nil e), Or.inl rfl⟩
  | cons e rest ih =>
    intro i acc
    rw [findMatchingLoop_cons]
    by_cases hc : |o.time - e.time| ≤ 20 * 60 ∧ specMatchCount pickOf o e > acc.2
    · simp only [hc, and_self, if_true]
      obtain ⟨hA, hB, hC⟩ := ih (i + 1) (some i, specMatchCount pickOf o e)
      simp only at hA hC
      refine ⟨by omega, ?_, Or.inr ?_⟩
      · intro e' he' hw
        rcases List.mem_cons.mp he' with rfl | he'
        · exact hA
        · exact hB e' he' hw
      · rcases hC with hC | ⟨k, e', h1, h2, h3, h4, h5, h6⟩
        · refine ⟨0, e, by rw [hC]; rfl, rfl, hc.1, by rw [hC], by rw [hC]; exact hc.2, ?_⟩
          intro j e' hj
          omega
        · refine ⟨k + 1, e', by rw [h1]; congr 1; omega, h2, h3, h4, by omega, ?_⟩
          intro j e'' hj hget hw
          cases j with
          | zero =>
            simp only [List.get?_cons_zero, Option.some.injEq] at hget
            subst hget
            exact h5
          | succ j => exact h6 j e'' (by omega) hget hw
    · simp only [hc, if_false]
      obtain ⟨hA, hB, hC⟩ := ih (i + 1) acc
      have he : |o.time - e.time| ≤ 20 * 60 → specMatchCount pickOf o e ≤ acc.2 := by
        intro hw
        by_contra hcon
        exact hc ⟨hw, by omega⟩
      refine ⟨hA, ?_, ?_⟩
      · intro e' he' hw
        rcases List.mem_cons.mp he' with rfl | he'
        · exact le_trans (he hw) hA
        · exact hB e' he' hw
      · rcases hC with hC | ⟨k, e', h1, h2, h3, h4, h5, h6⟩
        · exact Or.inl hC
        · refine Or.inr ⟨k + 1, e', by rw [h1]; congr 1; omega, h2, h3, h4, h5, ?_⟩
          intro j e'' hj hget hw
          cases j with
          | zero =>
            simp only [List.get?_cons_zero, Option.some.injEq] at hget
            subst hget
            exact lt_of_le_of_lt (he hw) h5
          | succ j => exact h6 j e'' (by omega) hget hw

/-- C23: `_findMatchingOrigin(o)` returns null iff every existing origin
within 20 minutes of `o` has match count 0; otherwise it returns an existing
origin within 20 minutes whose match count is positive and maximal among the
origins within 20 minutes, the first such in the order of the set. The match
count of `e` is the number of arrivals of `e` with station information whose
pick is a pick of `o` or lies on the station of a pick of `o` at most 20 s
apart. -/
theorem findMatchingOrigin_best_match (pickOf : PickID → Pick) (s : State) (o : Origin) :
    (_findMatchingOrigin pickOf s o = none ↔
      ∀ e ∈ s._origins, |o.time - e.time| ≤ 20 * 60 → specMatchCount pickOf o e = 0) ∧
    (∀ i, _findMatchingOrigin pickOf s o = some i →
      ∃ e, s._origins.get? i = some e ∧ |o.time - e.time| ≤ 20 * 60 ∧
        0 < specMatchCount pickOf o e ∧
        (∀ e' ∈ s._origins, |o.time - e'.time| ≤ 20 * 60 →
          specMatchCount pickOf o e' ≤ specMatchCount pickOf o e) ∧
        (∀ j e', j < i → s._origins.get? j = some e' → |o.time - e'.time| ≤ 20 * 60 →
          specMatchCount pickOf o e' < specMatchCount pickOf o e)) := by
  obtain ⟨_, hB, hC⟩ := findMatchingLoop_spec pickOf o s._origins 0 (none, 0)
  unfold _findMatchingOrigin
  constructor
  · constructor
    · intro hnone
      rcases hC with hC | ⟨k, e, h1, _⟩
      · intro e he hw
        have := hB e he hw
        rw [hC] at this
        simpa using this
      · rw [hnone] at h1
        cases h1
    · intro hall
      rcases hC with hC | ⟨k, e, _, h2, h3, h4, h5, _⟩
      · rw [hC]
      · exfalso
        have hmem : e ∈ s._origins := List.get?_mem h2
        have := hall e hmem h3
        simp only at h5
        omega
  · intro i hi
    rcases hC with hC | ⟨k, e, h1, h2, h3, h4, h5, h6⟩
    · rw [hC] at hi
      cases hi
    · rw [hi] at h1
      have hik : i = k := by
        have := Option.some.inj h1
        omega
      subst hik
      simp only at h5
      refine ⟨e, h2, h3, by omega, ?_, ?_⟩
      · intro e' he' hw
        rw [h4]
        exact hB e' he' hw
      · intro j e' hj hget hw
        rw [h4]
        exact h6 j e' hj hget hw

/-- The manual origin of the worked examples matches origin 7, the second
element of the origin set. -/
theorem exManual_matches : _findMatchingOrigin exPickOf exOriginSet exManual = some 1 := by
  unfold _findMatchingOrigin
  have hs : exOriginSet._origins = [exOriginC, exOriginA] := rfl
  have hC : specMatchCount exPickOf exManual exOriginC = 0 := by
    simp [specMatchCount, exPickOf, exPick, exStation, exManual, exOriginC, exOrigin,
      exArrival]
  have hA : specMatchCount exPickOf exManual exOriginA = 1 := by
    simp [specMatchCount, exPickOf, exPick, exStation, exManual, exOriginA, exOrigin,
      exArrival, List.filter_cons]
  have hwC : |exManual.time - exOriginC.time| ≤ 20 * 60 := by
    norm_num [exManual, exOriginC, exOrigin]
  have hwA : |exManual.time - exOriginA.time| ≤ 20 * 60 := by
    norm_num [exManual, exOriginA, exOrigin]
  rw [hs, findMatchingLoop_cons, findMatchingLoop_cons, hC, hA]
  simp [hwC, hwA, findMatchingLoop]

theorem findMatchingOrigin_best_match_witness :
    ∃ e, exOriginSet._origins.get? 1 = some e ∧ |exManual.time - e.time| ≤ 20 * 60 ∧
      0 < specMatchCount exPickOf exManual e ∧
      (∀ e' ∈ exOriginSet._origins, |exManual.time - e'.time| ≤ 20 * 60 →
        specMatchCount exPickOf exManual e' ≤ specMatchCount exPickOf exManual e) ∧
      (∀ j e', j < 1 → exOriginSet._origins.get? j = some e' →
        |exManual.time - e'.time| ≤ 20 * 60 →
        specMatchCount exPickOf exManual e' < specMatchCount exPickOf exManual e) :=
  (findMatchingOrigin_best_match exPickOf exOriginSet exManual).2 1 exManual_matches


/-! ## The update of an existing origin from a manual origin -/

theorem manualMergeLoop_noop (pickOf : PickID → Pick) (l acc : List Arrival)
    (h : ∀ arr ∈ l, (pickOf arr.pick).station.isSome = true → ∃ a ∈ acc, a.pick = arr.pick) :
    l.foldl (manualMergeStep pickOf) acc = acc := by
  induction l with
  | nil => rfl
  | cons arr rest ih =>
    rw [List.foldl_cons]
    have hstep : manualMergeStep pickOf acc arr = acc := by
      unfold manualMergeStep
      by_cases hs : (pickOf arr.pick).station.isNone = true
      · simp only [hs, if_true]
      · simp only [hs, Bool.false_eq_true, if_false]
        have hsome : (pickOf arr.pick).station.isSome = true := by
          cases hst : (pickOf arr.pick).station with
          | none => rw [hst] at hs; simp at hs
          | some st => rfl
        obtain ⟨a, ha, hp⟩ := h arr (List.mem_cons_self _ _) hsome
        have hany : acc.any (fun _arr =>
            decide (_arr.pick = arr.pick) ||
              (decide ((pickOf _arr.pick).station = (pickOf arr.pick).station) &&
                decide (_arr.phase = arr.phase))) = true := by
          rw [List.any_eq_true]
          exact ⟨a, ha, by simp [hp]⟩
        simp only [hany, if_true]
    rw [hstep]
    exact ih (fun arr' h' => h arr' (List.mem_cons_of_mem _ h'))

theorem manualArrivals_eq (ext : Collaborators) (pickOf : PickID → Pick) (manualOrigin : Origin) :
    manualArrivals ext pickOf manualOrigin =
      ext.sortArrivals
        (manualOrigin.arrivals.filter (fun arr => (pickOf arr.pick).station.isSome)) := by
  unfold manualArrivals
  rw [manualMergeLoop_noop]
  intro arr harr hs
  exact ⟨arr, List.mem_filter.mpr ⟨harr, hs⟩, rfl⟩

/-- C22: the code departs from the claim. The existing origin keeps its id
and takes the other attributes of the manual origin, but its arrival list
becomes the sorted list of the manual origin's arrivals with station
information and nothing else: the loop `merge origin` runs over the arrivals
of the manual origin a second time, not over those of the existing origin,
and adds nothing. Origin 7 has arrivals for `p1` and `p2`, the manual origin
for `p1` and `p9`; after the update origin 7 has arrivals for `p1` and `p9`,
and its arrival for `p2`, whose pick, station and phase do not occur in the
manual origin, is gone. -/
theorem manual_update_drops_existing_arrivals (ext : Collaborators) (pickOf : PickID → Pick)
    (found manualOrigin : Origin) :
    (adoptManual ext pickOf found manualOrigin).id = found.id ∧
    { adoptManual ext pickOf found manualOrigin with
        id := manualOrigin.id, arrivals := manualOrigin.arrivals } = manualOrigin ∧
    (adoptManual ext pickOf found manualOrigin).arrivals =
      ext.sortArrivals
        (manualOrigin.arrivals.filter (fun arr => (pickOf arr.pick).station.isSome)) ∧
    (_findMatchingOrigin exPickOf exOriginSet exManual = some 1 ∧
      exOriginSet._origins.get? 1 = some exOriginA ∧
      exArrival "p2" ExcludeReason.NotExcluded ∈ exOriginA.arrivals ∧
      (∀ arr ∈ exManual.arrivals, arr.pick ≠ "p2" ∧
        (exPickOf arr.pick).station ≠ (exPickOf "p2").station) ∧
      (feedManualOrigins exCollab exPickOf 10 exOriginSet exManual).map
          (fun origin => (origin.id, origin.arrivals.map (fun arr => arr.pick)))
        = [(8, ["p3"]), (7, ["p1", "p9"])]) := by
  refine ⟨rfl, rfl, ?_, ?_⟩
  · unfold adoptManual
    exact manualArrivals_eq ext pickOf manualOrigin
  · have hfind := exManual_matches
    refine ⟨hfind, rfl, ?_, ?_, ?_⟩
    · simp [exOriginA, exOrigin]
    · intro arr harr
      simp only [exManual, exOrigin, List.mem_cons, List.mem_singleton, List.not_mem_nil,
        or_false] at harr
      rcases harr with rfl | rfl
      · simp [exArrival, exPickOf, exStation]
      · simp [exArrival, exPickOf, exStation]
    · unfold feedManualOrigins
      rw [hfind]
      have hlen : exManual.arrivals.length ≠ 0 := by
        simp [exManual, exOrigin]
      have hget : exOriginSet._origins.get? 1 = some exOriginA := rfl
      simp only [hlen, if_false, hget]
      simp [manualUpdated, adoptManual, manualArrivals_eq, Origin.updateFrom, exCollab,
        exOriginSet, exState, exManual, exOriginA, exOriginC, exOrigin, exArrival, exPickOf,
        exPick, exStation, List.filter_cons]

/-! ## A failed `_associate` leaves the origin as it is -/

theorem attachLoosely_true (origin : Origin) (arr : Arrival) :
    (attachLoosely origin arr).1 = true := by
  obtain ⟨a, _, _, h⟩ := attachLoosely_cases origin arr
  rw [h]

theorem adoptRelocated_false (cfg : Config) (origin : Origin) (pick : Pick) (relo : Origin)
    (h : (adoptRelocated cfg origin pick relo).1 = false) :
    (adoptRelocated cfg origin pick relo).2 = origin := by
  unfold adoptRelocated at h ⊢
  cases hf : findArrival relo pick.id with
  | none => rfl
  | some index =>
    simp only [hf] at h ⊢
    cases hg : relo.arrivals.get? index with
    | none => rfl
    | some arr =>
      simp only [hg] at h ⊢
      by_cases hr : |arr.residual| > cfg.maxResidualUse
      · simp [hr] at h
      · simp [hr] at h

theorem judgeRelocated_false (cfg : Config) (ext : Collaborators) (origin : Origin)
    (pick : Pick) (arr : Arrival) (copy relo : Origin)
    (h : (judgeRelocated cfg ext origin pick arr copy relo).1 = false) :
    (judgeRelocated cfg ext origin pick arr copy relo).2 = origin := by
  unfold judgeRelocated at h ⊢
  simp only [] at h ⊢
  by_cases hbad : _score ext relo < _score ext origin ∨
      ext.rms relo > ext.rms origin + 3 / ext.sqrt (10 + (copy.arrivals.length : ℚ))
  · simp only [hbad, if_true] at h ⊢
    cases hf : findArrival copy pick.id with
    | none => rfl
    | some index =>
      simp only [hf] at h ⊢
      cases hr : ext.relocate (some origin.hypocenter.dep)
          { copy with arrivals := setExcluded copy.arrivals index ExcludeReason.LargeResidual } with
      | none =>
        simp only [hr] at h
        rw [attachLoosely_true] at h
        cases h
      | some relo2 =>
        simp only [hr] at h ⊢
        by_cases hs : _score ext relo2 < _score ext origin
        · simp only [hs, if_true] at h
          rw [attachLoosely_true] at h
          cases h
        · simp only [hs, if_false] at h ⊢
          exact adoptRelocated_false cfg origin pick relo2 h
  · simp only [hbad, if_false] at h ⊢
    exact adoptRelocated_false cfg origin pick relo h

theorem relocateTrial_false (cfg : Config) (ext : Collaborators) (origin : Origin)
    (pick : Pick) (arr : Arrival)
    (h : (relocateTrial cfg ext origin pick arr).1 = false) :
    (relocateTrial cfg ext origin pick arr).2 = origin := by
  unfold relocateTrial at h ⊢
  cases hr1 : ext.relocate (trialDepth cfg origin) (origin.add arr) with
  | some relo =>
    simp only [hr1] at h ⊢
    exact judgeRelocated_false cfg ext origin pick arr _ relo h
  | none =>
    simp only [hr1] at h ⊢
    by_cases hfx : (trialDepth cfg origin).isSome = true
    · simp only [hfx, if_true]
    · simp only [hfx, Bool.false_eq_true, if_false] at h ⊢
      cases hr2 : ext.relocate (some origin.hypocenter.dep) (origin.add arr) with
      | none => rfl
      | some relo =>
        simp only [hr2] at h ⊢
        exact judgeRelocated_false cfg ext origin pick arr _ relo h

theorem associate_false_unchanged (cfg : Config) (ext : Collaborators) (origin : Origin)
    (pick : Pick) (phase : String)
    (h : (_associate cfg ext origin pick phase).1 = false) :
    (_associate cfg ext origin pick phase).2 = origin := by
  unfold _associate at h ⊢
  by_cases h1 : mightBeAssociated pick origin = true
  swap
  · simp [h1]
  by_cases h2 : phase = "PKP" ∧ pick.time - origin.time < 1000
  · simp [h1, h2]
  cases hst : pick.station with
  | none => simp [h1, h2]
  | some station =>
    by_cases h3 : (findArrival origin pick.id).isSome = true
    · simp [h1, h2, h3]
    by_cases h4 : phase = "P" ∨ phase = "PKP"
    swap
    · simp [h1, h2, h3, h4]
    cases htt : ext.travelTimeP origin.hypocenter station
        (ext.delazi origin.hypocenter station).1 with
    | none => simp [h1, h2, h3, h4, htt]
    | some tt =>
      by_cases h5 : _residualOK cfg ext (Arrival.new pick phase (pick.time - origin.time - tt))
          (9 / 10) (13 / 10) = true
      swap
      · simp [h1, h2, h3, h4, htt, h5]
      simp only [h1, h2, hst, h3, h4, htt, h5, Bool.not_true, Bool.false_eq_true,
        if_false, not_true_eq_false] at h ⊢
      by_cases himp : origin.imported = true
      · simp [himp] at h
      simp only [himp, Bool.false_eq_true, if_false] at h ⊢
      by_cases hx : (newArrival cfg ext origin pick phase station tt).excluded
          = ExcludeReason.UnusedPhase
      · simp only [hx, if_true] at h
        rw [attachLoosely_true] at h
        cases h
      · simp only [hx, if_false] at h ⊢
        exact relocateTrial_false cfg ext origin pick _ h

/-! ## No two arrivals of an origin reference the same pick -/

theorem add_picks (origin : Origin) (arr : Arrival) :
    (origin.add arr).arrivals.map (fun a => a.pick) = origin.arrivals.map (fun a => a.pick) ∨
    (arr.pick ∉ origin.arrivals.map (fun a => a.pick) ∧
      (origin.add arr).arrivals.map (fun a => a.pick)
        = origin.arrivals.map (fun a => a.pick) ++ [arr.pick]) := by
  unfold Origin.add
  by_cases h : (findArrival origin arr.pick).isSome = true
  · simp only [h, if_true]
    exact Or.inl trivial
  · simp only [h, Bool.false_eq_true, if_false]
    refine Or.inr ⟨fun hm => h ((findArrival_isSome_iff origin arr.pick).mpr hm), ?_⟩
    simp

theorem add_distinct (origin : Origin) (arr : Arrival) (h : DistinctPicks origin) :
    DistinctPicks (origin.add arr) := by
  unfold DistinctPicks at h ⊢
  rcases add_picks origin arr with e | ⟨hn, e⟩
  · rw [e]
    exact h
  · rw [e]
    exact List.Nodup.append h (List.nodup_singleton _)
      (by
        intro x hx hx'
        rw [List.mem_singleton] at hx'
        subst hx'
        exact hn hx)

theorem setExcluded_picks (l : List Arrival) (i : Nat) (reason : ExcludeReason) :
    (setExcluded l i reason).map (fun a => a.pick) = l.map (fun a => a.pick) := by
  induction l generalizing i with
  | nil => rfl
  | cons a rest ih =>
    cases i with
    | zero => rfl
    | succ i =>
      simp only [setExcluded, List.map_cons, ih]

theorem distinct_of_picks_eq (o o' : Origin)
    (e : o'.arrivals.map (fun a => a.pick) = o.arrivals.map (fun a => a.pick))
    (h : DistinctPicks o) : DistinctPicks o' := by
  unfold DistinctPicks at h ⊢
  rw [e]
  exact h

theorem associate_distinct (cfg : Config) (ext : Collaborators)
    (hpres : ∀ m o r, ext.relocate m o = some r →
      r.arrivals.map (fun a => a.pick) = o.arrivals.map (fun a => a.pick))
    (origin : Origin) (pick : Pick) (phase : String) (h : DistinctPicks origin) :
    DistinctPicks (_associate cfg ext origin pick phase).2 := by
  cases hres : (_associate cfg ext origin pick phase).1 with
  | false =>
    rw [associate_false_unchanged cfg ext origin pick phase hres]
    exact h
  | true =>
    by_cases himp : origin.imported = true
    · rcases associate_imported cfg ext origin pick phase himp with c | ⟨a, ha, _, c⟩
      · rw [c]
        exact h
      · have hnone : (findArrival origin a.pick).isSome = false := by
          cases hf : (findArrival origin a.pick).isSome with
          | false => rfl
          | true =>
            exfalso
            rw [ha] at hf
            have : _associate cfg ext origin pick phase = (false, origin) := by
              unfold _associate
              by_cases h1 : mightBeAssociated pick origin = true
              swap
              · simp [h1]
              by_cases h2 : phase = "PKP" ∧ pick.time - origin.time < 1000
              · simp [h1, h2]
              cases hst : pick.station with
              | none => simp [h1, h2]
              | some station => simp [h1, h2, hf]
            rw [this] at hres
            cases hres
        rw [c, ← add_of_absent origin a hnone]
        exact add_distinct origin a h
    · have himp' : origin.imported = false := by simpa using himp
      have hfull : _associate cfg ext origin pick phase
          = (true, (_associate cfg ext origin pick phase).2) := by
        rw [← hres]
      obtain ⟨_, arr, _, hcase⟩ := associate_cases cfg ext origin pick phase _ himp' hfull
      rcases hcase with ⟨a, _, _, ho⟩ | ⟨m, relo, hr, _, _, ho⟩ | ⟨index, relo2, _, hr, _, ho⟩
      · rw [ho]
        exact add_distinct origin a h
      · rw [ho]
        exact distinct_of_picks_eq (origin.add arr) _ (hpres m _ relo hr) (add_distinct origin arr h)
      · rw [ho]
        refine distinct_of_picks_eq (origin.add arr) _ ?_ (add_distinct origin arr h)
        show relo2.arrivals.map (fun a => a.pick) = _
        rw [hpres _ _ relo2 hr]
        exact setExcluded_picks _ _ _

theorem mergeStep_distinct (pickOf : PickID → Pick) (base combined : Origin) (arr2 : Arrival)
    (h : DistinctPicks combined) : DistinctPicks (mergeStep pickOf base combined arr2) := by
  unfold mergeStep
  split_ifs
  · exact h
  · exact h
  · exact add_distinct _ _ h

theorem mergeLoop_distinct (pickOf : PickID → Pick) (base : Origin) (l : List Arrival)
    (combined : Origin) (h : DistinctPicks combined) :
    DistinctPicks (l.foldl (mergeStep pickOf base) combined) := by
  induction l generalizing combined with
  | nil => exact h
  | cons arr2 rest ih =>
    rw [List.foldl_cons]
    exact ih _ (mergeStep_distinct pickOf base combined arr2 h)

theorem classifyMerged_pick (cfg : Config) (ext : Collaborators) (arr : Arrival) :
    (classifyMerged cfg ext arr).pick = arr.pick := by
  unfold classifyMerged
  split_ifs <;> rfl

theorem merge_distinct (cfg : Config) (ext : Collaborators) (pickOf : PickID → Pick)
    (hpres : ∀ m o r, ext.relocate m o = some r →
      r.arrivals.map (fun a => a.pick) = o.arrivals.map (fun a => a.pick))
    (htrim : ∀ o, (ext.trimResiduals o).arrivals.map (fun a => a.pick)
      = o.arrivals.map (fun a => a.pick))
    (a b m : Origin) (ha : DistinctPicks a) (hb : DistinctPicks b)
    (h : merge cfg ext pickOf a b = some m) : DistinctPicks m := by
  have hbase : DistinctPicks { mergeBase ext a b with id := a.id } := by
    unfold mergeBase
    split_ifs
    · exact hb
    · exact ha
  have hcomb : DistinctPicks (mergeCombined ext pickOf a b) :=
    mergeLoop_distinct pickOf _ _ _ hbase
  unfold merge mergeRelocated at h
  cases hr : ext.relocate none (mergeCombined ext pickOf a b) with
  | none => simp [hr] at h
  | some relo =>
    simp only [hr, Option.map_some', Option.some.injEq] at h
    rw [← h]
    refine distinct_of_picks_eq (mergeCombined ext pickOf a b) _ ?_ hcomb
    rw [htrim]
    simp only [Origin.updateFrom, List.map_map]
    rw [← hpres none _ relo hr]
    apply List.map_congr_left
    intro x _
    exact classifyMerged_pick cfg ext x

theorem manualUpdated_distinct (ext : Collaborators) (pickOf : PickID → Pick)
    (hpres : ∀ m o r, ext.relocate m o = some r →
      r.arrivals.map (fun a => a.pick) = o.arrivals.map (fun a => a.pick))
    (hsort : ∀ l, (ext.sortArrivals l).Perm l)
    (fixedDepth : ℚ) (found manualOrigin : Origin) (h : DistinctPicks manualOrigin) :
    DistinctPicks (manualUpdated ext pickOf fixedDepth found manualOrigin) := by
  have hadopt : DistinctPicks (adoptManual ext pickOf found manualOrigin) := by
    unfold DistinctPicks at h ⊢
    unfold adoptManual
    simp only [manualArrivals_eq]
    rw [((hsort _).map _).nodup_iff]
    exact List.Nodup.sublist ((List.filter_sublist _).map _) h
  unfold manualUpdated
  split
  · rename_i relo hr
    exact distinct_of_picks_eq _ _ (hpres _ _ relo hr) hadopt
  · exact hadopt

theorem attachOwn_distinct (cfg : Config) (ext : Collaborators)
    (hpres : ∀ m o r, ext.relocate m o = some r →
      r.arrivals.map (fun a => a.pick) = o.arrivals.map (fun a => a.pick))
    (pick : Pick) (asso : Association) (o : Origin) (h : DistinctPicks asso.origin)
    (ho : attachOwn cfg ext pick asso = some o) : DistinctPicks o := by
  unfold attachOwn at ho
  split_ifs at ho
  · rw [← Option.some.inj ho]
    exact associate_distinct cfg ext hpres _ _ _ h
  · rw [← Option.some.inj ho]
    exact add_distinct _ _ h

theorem xxlPicksStep_cases (cfg : Config) (ext : Collaborators) (newPick : Pick)
    (acc : List Pick × Pick) (oldPick : Pick) :
    xxlPicksStep cfg ext newPick acc oldPick = acc ∨
    ((xxlPicksStep cfg ext newPick acc oldPick).1 = acc.1 ++ [oldPick] ∧
      ∀ p ∈ acc.1, p.station ≠ oldPick.station) := by
  unfold xxlPicksStep
  by_cases h1 : (!oldPick.xxl) = true
  · simp only [h1, if_true]
    exact Or.inl trivial
  simp only [h1, Bool.false_eq_true, if_false]
  by_cases h2 : ignored oldPick = true
  · simp only [h2, if_true]
    exact Or.inl trivial
  simp only [h2, Bool.false_eq_true, if_false]
  by_cases h3 : newPick.station = oldPick.station
  · simp only [h3, if_true]
    exact Or.inl trivial
  simp only [h3, if_false]
  cases hso : oldPick.station with
  | none => exact Or.inl rfl
  | some oldStation =>
    cases hsn : newPick.station with
    | none => exact Or.inl rfl
    | some newStation =>
      simp only []
      by_cases h4 : |newPick.time - oldPick.time| > 10 + 137 / 10 * cfg.xxlMaxStaDist
      · simp only [h4, if_true]
        exact Or.inl trivial
      simp only [h4, if_false]
      by_cases h5 : ext.distance oldStation newStation > cfg.xxlMaxStaDist
      · simp only [h5, if_true]
        exact Or.inl trivial
      simp only [h5, if_false]
      by_cases h6 : (!cfg.useManualPicks && manual oldPick && !cfg.useManualOrigins) = true
      · simp only [h6, if_true]
        exact Or.inl trivial
      simp only [h6, Bool.false_eq_true, if_false]
      by_cases h7 : (acc.1.any fun pick => decide (pick.station = some oldStation)) = true
      · simp only [h7, if_true]
        exact Or.inl trivial
      simp only [h7, Bool.false_eq_true, if_false]
      refine Or.inr ⟨trivial, ?_⟩
      intro p hp hs
      apply h7
      rw [List.any_eq_true]
      exact ⟨p, hp, by simpa using hs⟩

theorem xxlPicksLoop_inv (cfg : Config) (ext : Collaborators) (newPick : Pick)
    (pool l : List Pick) (acc : List Pick × Pick)
    (hl : ∀ q ∈ l, q ∈ pool)
    (h1 : (acc.1.map (fun p => p.station)).Nodup)
    (h2 : ∀ p ∈ acc.1, p ∈ newPick :: pool) :
    ((l.foldl (xxlPicksStep cfg ext newPick) acc).1.map (fun p => p.station)).Nodup ∧
    ∀ p ∈ (l.foldl (xxlPicksStep cfg ext newPick) acc).1, p ∈ newPick :: pool := by
  induction l generalizing acc with
  | nil => exact ⟨h1, h2⟩
  | cons q rest ih =>
    rw [List.foldl_cons]
    apply ih _ (fun x hx => hl x (List.mem_cons_of_mem _ hx))
    · rcases xxlPicksStep_cases cfg ext newPick acc q with e | ⟨e, hne⟩
      · rw [e]
        exact h1
      · rw [e, List.map_append]
        refine List.Nodup.append h1 (List.nodup_singleton _) ?_
        intro x hx hx'
        simp only [List.map_cons, List.map_nil, List.mem_singleton] at hx'
        obtain ⟨p, hp, hps⟩ := List.mem_map.mp hx
        exact hne p hp (hps.trans hx')
    · rcases xxlPicksStep_cases cfg ext newPick acc q with e | ⟨e, _⟩
      · rw [e]
        exact h2
      · rw [e]
        intro p hp
        rcases List.mem_append.mp hp with hp | hp
        · exact h2 p hp
        · rw [List.mem_singleton] at hp
          subst hp
          exact List.mem_cons_of_mem _ (hl p (List.mem_cons_self _ _))

theorem xxlPicks_ids (cfg : Config) (ext : Collaborators) (s : State) (newPick : Pick)
    (hpool : (s.pickPool.map (fun q => q.id)).Nodup) (hnew : newPick ∈ s.pickPool) :
    ((xxlPicks cfg ext s newPick).1.map (fun p => p.id)).Nodup := by
  obtain ⟨h1, h2⟩ := xxlPicksLoop_inv cfg ext newPick s.pickPool s.pickPool ([newPick], newPick)
    (fun q hq => hq) (List.nodup_singleton _)
    (fun p hp => by
      rw [List.mem_singleton] at hp
      subst hp
      exact List.mem_cons_self _ _)
  have hin : ∀ p ∈ (xxlPicks cfg ext s newPick).1, p ∈ s.pickPool := by
    intro p hp
    rcases List.mem_cons.mp (h2 p hp) with e | e
    · rw [e]
      exact hnew
    · exact e
  have hnd : (xxlPicks cfg ext s newPick).1.Nodup := List.Nodup.of_map _ h1
  apply List.Nodup.map_on _ hnd
  intro x hx y hy hxy
  exact List.inj_on_of_nodup_map hpool (hin x hx) (hin y hy) hxy

theorem xxlArrival_pick (ext : Collaborators) (hypocenter : Hypocenter) (p : Pick) :
    (xxlArrival ext hypocenter p).pick = p.id := by
  unfold xxlArrival
  split <;> rfl

theorem depthIsResolvable_picks (cfg : Config) (ext : Collaborators)
    (hpres : ∀ m o r, ext.relocate m o = some r →
      r.arrivals.map (fun a => a.pick) = o.arrivals.map (fun a => a.pick))
    (fixedDepth : ℚ) (origin : Origin) :
    (_depthIsResolvable cfg ext fixedDepth origin).2.arrivals.map (fun a => a.pick)
      = origin.arrivals.map (fun a => a.pick) := by
  have h1 : (unmarkDefaultDepth cfg origin).arrivals = origin.arrivals := by
    unfold unmarkDefaultDepth
    split_ifs <;> rfl
  unfold _depthIsResolvable
  generalize unmarkDefaultDepth cfg origin = o1 at h1 ⊢
  by_cases hd : depthErrorSmall ext o1 = true
  · simp only [hd, if_true]
    rw [h1]
  · simp only [hd, Bool.false_eq_true, if_false]
    cases hr : ext.relocate (some fixedDepth)
        { o1 with hypocenter := { o1.hypocenter with dep := cfg.defaultDepth } } with
    | none =>
      simp only []
      rw [h1]
    | some relo =>
      simp only []
      by_cases hs : _score ext relo < 8 / 10 * _score ext o1
      · simp only [hs, if_true]
        rw [h1]
      · simp only [hs, if_false]
        show relo.arrivals.map (fun a => a.pick) = _
        rw [hpres _ _ relo hr]
        show o1.arrivals.map (fun a => a.pick) = _
        rw [h1]

theorem xxlResolveDepth_picks (cfg : Config) (ext : Collaborators)
    (hpres : ∀ m o r, ext.relocate m o = some r →
      r.arrivals.map (fun a => a.pick) = o.arrivals.map (fun a => a.pick))
    (dep : ℚ) (origin : Origin) :
    (xxlResolveDepth cfg ext dep origin).arrivals.map (fun a => a.pick)
      = origin.arrivals.map (fun a => a.pick) := by
  have hd := depthIsResolvable_picks cfg ext hpres dep origin
  unfold xxlResolveDepth
  by_cases h1 : cfg.defaultDepthStickiness < 9 / 10
  · simp only [h1, if_true]
    by_cases h2 : (_depthIsResolvable cfg ext dep origin).1 = true
    · simp only [h2, if_true]
      cases hr : ext.relocate none (_depthIsResolvable cfg ext dep origin).2 with
      | none => exact hd
      | some relo =>
        show relo.arrivals.map (fun a => a.pick) = _
        rw [hpres _ _ relo hr]
        exact hd
    · simp only [h2, Bool.false_eq_true, if_false]
      exact hd
  · simp only [h1, if_false]

theorem xxlTrial_picks (cfg : Config) (ext : Collaborators)
    (hpres : ∀ m o r, ext.relocate m o = some r →
      r.arrivals.map (fun a => a.pick) = o.arrivals.map (fun a => a.pick))
    (xxlpicks : List Pick) (lat lon : ℚ) (tim : Time) (dep : ℚ) (o : Origin)
    (h : xxlTrial cfg ext xxlpicks lat lon tim dep = some o) :
    o.arrivals.map (fun a => a.pick) = xxlpicks.map (fun p => p.id) := by
  have h0 : (xxlTrialOrigin ext xxlpicks lat lon tim dep).arrivals.map (fun a => a.pick)
      = xxlpicks.map (fun p => p.id) := by
    unfold xxlTrialOrigin
    simp only [List.map_map]
    apply List.map_congr_left
    intro p _
    exact xxlArrival_pick ext _ p
  unfold xxlTrial at h
  cases hr : ext.relocate (some dep) (xxlTrialOrigin ext xxlpicks lat lon tim dep) with
  | none => simp [hr] at h
  | some relo =>
    have hrelo := (hpres _ _ relo hr).trans h0
    simp only [hr] at h
    by_cases hig : (relo.arrivals.any fun arr => decide (arr.distance > cfg.xxlMaxStaDist)) = true ∨
        ext.rms relo > cfg.maxRMS
    · rw [if_pos hig] at h
      cases h
    · rw [if_neg hig] at h
      rw [← Option.some.inj h, xxlResolveDepth_picks cfg ext hpres]
      exact hrelo

theorem xxlTrials_picks (cfg : Config) (ext : Collaborators)
    (hpres : ∀ m o r, ext.relocate m o = some r →
      r.arrivals.map (fun a => a.pick) = o.arrivals.map (fun a => a.pick))
    (xxlpicks : List Pick) (lat lon : ℚ) (tim : Time) (depths : List ℚ) (o : Origin)
    (h : xxlTrials cfg ext xxlpicks lat lon tim depths = some o) :
    o.arrivals.map (fun a => a.pick) = xxlpicks.map (fun p => p.id) := by
  induction depths with
  | nil => simp [xxlTrials] at h
  | cons dep rest ih =>
    unfold xxlTrials at h
    cases ht : xxlTrial cfg ext xxlpicks lat lon tim dep with
    | some origin =>
      simp only [ht, Option.some.injEq] at h
      subst h
      exact xxlTrial_picks cfg ext hpres xxlpicks lat lon tim dep _ ht
    | none =>
      simp only [ht] at h
      exact ih h

theorem xxlPreliminaryOrigin_distinct (cfg : Config) (ext : Collaborators)
    (hpres : ∀ m o r, ext.relocate m o = some r →
      r.arrivals.map (fun a => a.pick) = o.arrivals.map (fun a => a.pick))
    (hsort : ∀ l, (ext.sortArrivals l).Perm l)
    (fuel : Nat) (newId : OriginID) (s : State) (newPick : Pick) (o : Origin)
    (hpool : (s.pickPool.map (fun q => q.id)).Nodup) (hnew : newPick ∈ s.pickPool)
    (h : _xxlPreliminaryOrigin cfg ext fuel newId s newPick = some o) : DistinctPicks o := by
  have hids := xxlPicks_ids cfg ext s newPick hpool hnew
  unfold _xxlPreliminaryOrigin at h
  split_ifs at h
  split at h
  · rename_i station depths _ _
    split at h
    · rename_i newOrigin ht
      rw [← Option.some.inj h]
      unfold DistinctPicks
      show ((ext.sortArrivals newOrigin.arrivals).map (fun arr => arr.pick)).Nodup
      rw [((hsort _).map _).nodup_iff, xxlTrials_picks cfg ext hpres _ _ _ _ _ _ ht]
      exact hids
    · cases h
  · cases h

theorem feedManualOrigins_distinct (ext : Collaborators) (pickOf : PickID → Pick)
    (hpres : ∀ m o r, ext.relocate m o = some r →
      r.arrivals.map (fun a => a.pick) = o.arrivals.map (fun a => a.pick))
    (hsort : ∀ l, (ext.sortArrivals l).Perm l)
    (fixedDepth : ℚ) (s : State) (manualOrigin : Origin) (h : DistinctPicks manualOrigin)
    (hs : ∀ o ∈ s._origins, DistinctPicks o) :
    ∀ o ∈ feedManualOrigins ext pickOf fixedDepth s manualOrigin, DistinctPicks o := by
  unfold feedManualOrigins
  split_ifs
  · exact hs
  · split
    · exact hs
    · split
      · exact hs
      · rename_i i _ found _
        intro o ho
        rcases List.mem_or_eq_of_mem_set ho with c | c
        · exact hs o c
        · rw [c]
          exact manualUpdated_distinct ext pickOf hpres hsort fixedDepth found manualOrigin h

/-- C21: with a relocator and a `_trimResiduals` that keep the picks of the
arrival list, and a `sort` that only reorders it, none of the operations
creates an origin with two arrivals of the same pick: `_associate` (whether
it succeeds or not), `merge` of two origins with distinct picks, the update
of an existing origin from a manual origin in `feed(Origin)` (for the
updated origin and for the whole origin set), `_xxlPreliminaryOrigin` (the
pool has one record per id and the new pick is in the pool) and the
attachment step of the second loop of `_tryAssociate`. -/
theorem operations_keep_picks_distinct (cfg : Config) (ext : Collaborators)
    (pickOf : PickID → Pick)
    (hpres : ∀ m o r, ext.relocate m o = some r →
      r.arrivals.map (fun a => a.pick) = o.arrivals.map (fun a => a.pick))
    (htrim : ∀ o, (ext.trimResiduals o).arrivals.map (fun a => a.pick)
      = o.arrivals.map (fun a => a.pick))
    (hsort : ∀ l, (ext.sortArrivals l).Perm l) :
    (∀ origin pick phase, DistinctPicks origin →
      DistinctPicks (_associate cfg ext origin pick phase).2) ∧
    (∀ a b m, DistinctPicks a → DistinctPicks b → merge cfg ext pickOf a b = some m →
      DistinctPicks m) ∧
    (∀ fixedDepth found manualOrigin, DistinctPicks manualOrigin →
      DistinctPicks (manualUpdated ext pickOf fixedDepth found manualOrigin)) ∧
    (∀ fixedDepth s manualOrigin, DistinctPicks manualOrigin →
      (∀ o ∈ s._origins, DistinctPicks o) →
      ∀ o ∈ feedManualOrigins ext pickOf fixedDepth s manualOrigin, DistinctPicks o) ∧
    (∀ fuel newId s newPick o, (s.pickPool.map (fun q => q.id)).Nodup → newPick ∈ s.pickPool →
      _xxlPreliminaryOrigin cfg ext fuel newId s newPick = some o → DistinctPicks o) ∧
    (∀ pick asso o, DistinctPicks asso.origin → attachOwn cfg ext pick asso = some o →
      DistinctPicks o) :=
  ⟨fun origin pick phase h => associate_distinct cfg ext hpres origin pick phase h,
    fun a b m ha hb h => merge_distinct cfg ext pickOf hpres htrim a b m ha hb h,
    fun fixedDepth found manualOrigin h =>
      manualUpdated_distinct ext pickOf hpres hsort fixedDepth found manualOrigin h,
    fun fixedDepth s manualOrigin h hs =>
      feedManualOrigins_distinct ext pickOf hpres hsort fixedDepth s manualOrigin h hs,
    fun fuel newId s newPick o hpool hnew h =>
      xxlPreliminaryOrigin_distinct cfg ext hpres hsort fuel newId s newPick o hpool hnew h,
    fun pick asso o h ho => attachOwn_distinct cfg ext hpres pick asso o h ho⟩

theorem operations_keep_picks_distinct_witness :
    DistinctPicks exOriginA ∧
      DistinctPicks (_associate exConfig exCollab exOriginA
        (exPick "k" 100 10 5 PickMode.Automatic) "P").2 ∧
      DistinctPicks (manualUpdated exCollab exPickOf 10 exOriginA exManual) := by
  have h := operations_keep_picks_distinct exConfig exCollab exPickOf
    (fun _ _ _ hr => by
      simp only [exCollab, Option.some.injEq] at hr
      rw [← hr])
    (fun _ => rfl) (fun _ => List.Perm.refl _)
  have hA : DistinctPicks exOriginA := by
    simp [DistinctPicks, exOriginA, exOrigin, exArrival]
  have hM : DistinctPicks exManual := by
    simp [DistinctPicks, exManual, exOrigin, exArrival]
  exact ⟨hA, h.1 exOriginA (exPick "k" 100 10 5 PickMode.Automatic) "P" hA,
    h.2.2.1 10 exOriginA exManual hM⟩


/-! ## The choice among the candidates of the nucleator -/

theorem nucleateLoop_spec (cfg : Config) (ext : Collaborators) (candidates : List Origin)
    (acc : Option Origin × ℚ) :
    ((candidates.foldl (nucleateStep cfg ext) acc).1 = none ↔
      acc.1 = none ∧ ∀ c ∈ candidates, ext.rms c > 3 * cfg.maxRMS) ∧
    (∀ c, (candidates.foldl (nucleateStep cfg ext) acc).1 = some c →
      acc.1 = some c ∨ (c ∈ candidates ∧ ext.rms c ≤ 3 * cfg.maxRMS)) := by
  induction candidates generalizing acc with
  | nil => simp
  | cons x rest ih =>
    rw [List.foldl_cons]
    obtain ⟨ih1, ih2⟩ := ih (nucleateStep cfg ext acc x)
    by_cases hx : ext.rms x > 3 * cfg.maxRMS
    · have hstep : nucleateStep cfg ext acc x = acc := by
        unfold nucleateStep
        simp only [hx, if_true]
      rw [hstep] at ih1 ih2 ⊢
      constructor
      · rw [ih1]
        constructor
        · rintro ⟨h1, h2⟩
          refine ⟨h1, ?_⟩
          intro c hc
          rcases List.mem_cons.mp hc with rfl | hc
          · exact hx
          · exact h2 c hc
        · rintro ⟨h1, h2⟩
          exact ⟨h1, fun c hc => h2 c (List.mem_cons_of_mem _ hc)⟩
      · intro c hc
        rcases ih2 c hc with h | ⟨h1, h2⟩
        · exact Or.inl h
        · exact Or.inr ⟨List.mem_cons_of_mem _ h1, h2⟩
    · have hsome : (nucleateStep cfg ext acc x).1 = some x ∨
          (nucleateStep cfg ext acc x).1 = acc.1 ∧ acc.1 ≠ none := by
        unfold nucleateStep
        simp only [hx, if_false]
        cases h : acc.1 with
        | none => exact Or.inl rfl
        | some o =>
          simp only
          split_ifs
          · exact Or.inl rfl
          · exact Or.inr ⟨h, by simp⟩
      have hne : (nucleateStep cfg ext acc x).1 ≠ none := by
        rcases hsome with h | ⟨h, h'⟩
        · rw [h]; simp
        · rw [h]; exact h'
      constructor
      · rw [ih1]
        constructor
        · rintro ⟨h1, _⟩
          exact absurd h1 hne
        · rintro ⟨_, h2⟩
          exact absurd (h2 x (List.mem_cons_self _ _)) hx
      · intro c hc
        rcases ih2 c hc with h | ⟨h1, h2⟩
        · rcases hsome with h' | ⟨h', _⟩
          · rw [h'] at h
            have : x = c := Option.some.inj h
            subst this
            exact Or.inr ⟨List.mem_cons_self _ _, not_lt.mp hx⟩
          · rw [h'] at h
            exact Or.inl h
        · exact Or.inr ⟨List.mem_cons_of_mem _ h1, h2⟩

/-- C28: the code departs from the claim. The loop of `_tryNucleate` selects
nothing iff no candidate passes the gate `rms <= 3*maxRMS`, and a selected
candidate is in the list and passes the gate; but the score of the first
candidate that passes is never stored in `bestScore`, so a later candidate
with any positive score replaces it: of two candidates with scores 2 and 1,
both within the gate, the loop selects the second. -/
theorem nucleate_forgets_first_score (cfg : Config) (ext : Collaborators)
    (candidates : List Origin) :
    (selectCandidate cfg ext candidates = none ↔
      ∀ c ∈ candidates, ext.rms c > 3 * cfg.maxRMS) ∧
    (∀ c, selectCandidate cfg ext candidates = some c →
      c ∈ candidates ∧ ext.rms c ≤ 3 * cfg.maxRMS) ∧
    (selectCandidate exConfig exCollab [exOriginA, exOriginD] = some exOriginD ∧
      exCollab.rms exOriginA ≤ 3 * exConfig.maxRMS ∧
      _score exCollab exOriginD < _score exCollab exOriginA) := by
  have h := nucleateLoop_spec cfg ext candidates (none, 0)
  refine ⟨?_, ?_, ?_, ?_, ?_⟩
  · unfold selectCandidate
    rw [h.1]
    simp
  · intro c hc
    rcases h.2 c hc with h' | h'
    · cases h'
    · exact h'
  · have h1 : nucleateStep exConfig exCollab (none, 0) exOriginA = (some exOriginA, 0) := by
      norm_num [nucleateStep, exCollab, exConfig]
    have h2 : nucleateStep exConfig exCollab (some exOriginA, 0) exOriginD
        = (some exOriginD, 1) := by
      norm_num [nucleateStep, _score, definingPhaseCount, exCollab, exConfig, exOriginD,
        exOrigin, exArrival]
    unfold selectCandidate
    rw [List.foldl_cons, h1, List.foldl_cons, h2]
    rfl
  · norm_num [exCollab, exConfig]
  · simp [_score, definingPhaseCount, exCollab, exOriginA, exOriginD, exOrigin, exArrival]

theorem nucleate_forgets_first_score_witness :
    exOriginD ∈ [exOriginA, exOriginD] ∧ exCollab.rms exOriginD ≤ 3 * exConfig.maxRMS ∧
      _score exCollab exOriginD = 1 ∧ _score exCollab exOriginA = 2 :=
  ⟨((nucleate_forgets_first_score exConfig exCollab [exOriginA, exOriginD]).2.1 exOriginD
      (nucleate_forgets_first_score exConfig exCollab [exOriginA, exOriginD]).2.2.1).1,
    ((nucleate_forgets_first_score exConfig exCollab [exOriginA, exOriginD]).2.1 exOriginD
      (nucleate_forgets_first_score exConfig exCollab [exOriginA, exOriginD]).2.2.1).2,
    by simp [_score, definingPhaseCount, exCollab, exOriginD, exOrigin, exArrival],
    by simp [_score, definingPhaseCount, exCollab, exOriginA, exOrigin, exArrival]⟩

/-! ## The affinity threshold of `_tryAssociate` -/

theorem tryAssociateOwn_cases (cfg : Config) (ext : Collaborators)
    (passedFilter : Origin → Option Origin) (pick : Pick) (assos : List Association)
    (acc : Option Origin × ℚ) (o : Origin)
    (h : tryAssociateOwn cfg ext passedFilter pick assos acc = some o) :
    acc.1 = some o ∨
    ∃ asso ∈ assos, cfg.minPickAffinity ≤ asso.affinity ∧ asso.origin.imported = false ∧
      ∃ attached, attachOwn cfg ext pick asso = some attached ∧
        passedFilter attached = some o := by
  induction assos generalizing acc with
  | nil => exact Or.inl h
  | cons asso rest ih =>
    have lift : ∀ acc', tryAssociateOwn cfg ext passedFilter pick rest acc' = some o →
        acc'.1 = acc.1 →
        acc.1 = some o ∨
        ∃ a ∈ asso :: rest, cfg.minPickAffinity ≤ a.affinity ∧ a.origin.imported = false ∧
          ∃ attached, attachOwn cfg ext pick a = some attached ∧
            passedFilter attached = some o := by
      intro acc' h' he
      rcases ih acc' h' with c | ⟨a, ha, c⟩
      · exact Or.inl (he ▸ c)
      · exact Or.inr ⟨a, List.mem_cons_of_mem _ ha, c⟩
    unfold tryAssociateOwn at h
    by_cases h1 : asso.affinity < cfg.minPickAffinity
    · simp only [h1, if_true] at h
      exact lift acc h rfl
    simp only [h1, if_false] at h
    by_cases h2 : asso.origin.imported = true
    · simp only [h2, if_true] at h
      exact Or.inl h
    simp only [h2, Bool.false_eq_true, if_false] at h
    cases h3 : attachOwn cfg ext pick asso with
    | none =>
      simp only [h3] at h
      exact lift acc h rfl
    | some attached =>
      simp only [h3] at h
      by_cases h4 : (findArrival attached pick.id).isNone = true
      · simp [h4] at h
      simp only [h4, Bool.false_eq_true, if_false] at h
      cases h5 : passedFilter attached with
      | none =>
        simp only [h5] at h
        exact lift acc h rfl
      | some filtered =>
        simp only [h5] at h
        by_cases h6 : ((definingPhaseCount filtered : Int) : ℚ) > acc.2
        · simp only [h6, if_true] at h
          rcases ih _ h with c | ⟨a, ha, c⟩
          · have : filtered = o := Option.some.inj c
            subst this
            exact Or.inr ⟨asso, List.mem_cons_self _ _, not_lt.mp h1, by simpa using h2,
              attached, h3, h5⟩
          · exact Or.inr ⟨a, List.mem_cons_of_mem _ ha, c⟩
        · simp only [h6, if_false] at h
          exact lift acc h rfl

/-- C29, as stated, fails: the imported origin is associated with pick `k`
with affinity 0, below `minPickAffinity = 0.05`, and `_tryAssociate` returns
the imported origin with the pick attached. -/
theorem imported_origin_ignores_affinity :
    exWeakAssociation.affinity < exConfig.minPickAffinity ∧
      _tryAssociate exConfig exCollab (fun o => some o) (exPick "k" 100 10 5 PickMode.Automatic)
        (some [exWeakAssociation])
        = some { exImported with
            arrivals := exImported.arrivals ++
              [(⟨"k", "P", 0, 30, 0, 0, 0, ExcludeReason.UnusedPhase⟩ : Arrival)] } := by
  constructor
  · norm_num [exWeakAssociation, exConfig]
  · have ha : _associate exConfig exCollab exImported (exPick "k" 100 10 5 PickMode.Automatic) "P"
        = (true, { exImported with
            arrivals := exImported.arrivals ++
              [(⟨"k", "P", 0, 30, 0, 0, 0, ExcludeReason.UnusedPhase⟩ : Arrival)] }) := by
      simp [_associate, mightBeAssociated, findArrival, _residualOK, is_PKP_arrival, is_P_arrival,
        Arrival.new, initialExclusion, definingPhaseCountIn, newArrival, exImported,
        Origin.add, Origin.updateFrom, exConfig,
        exCollab, exOriginA, exOrigin, exArrival, exPick, exStation,
        List.findIdx_cons, List.findIdx_nil]
      norm_num
    have ho : exWeakAssociation.origin = exImported := rfl
    have hp : exWeakAssociation.phase = "P" := rfl
    have hi : exImported.imported = true := rfl
    unfold _tryAssociate
    simp only [tryAssociateImported, ho, hp, hi, ha, Bool.not_true, Bool.false_eq_true, if_false]
    simp [findArrival, exImported, exOriginA, exOrigin, exArrival, exPick,
      List.findIdx_cons, List.findIdx_nil]

/-- C29, amended: every origin that the second loop of `_tryAssociate`
returns (the loop over the engine's own origins) was obtained by attaching
the pick through an association with `affinity >= minPickAffinity` to an
origin that is not imported. The first loop, over the imported origins, has
no affinity test: an origin that `_tryAssociate` returns is either an
imported origin to which `_associate` attached the pick, whatever the
affinity, or an origin of the second loop. -/
theorem tryAssociate_affinity (cfg : Config) (ext : Collaborators)
    (passedFilter : Origin → Option Origin) (pick : Pick) (assos : List Association)
    (o : Origin) :
    (tryAssociateOwn cfg ext passedFilter pick assos (none, 0) = some o →
      ∃ asso ∈ assos, cfg.minPickAffinity ≤ asso.affinity ∧ asso.origin.imported = false ∧
        ∃ attached, attachOwn cfg ext pick asso = some attached ∧
          passedFilter attached = some o) ∧
    (_tryAssociate cfg ext passedFilter pick (some assos) = some o →
      (∃ asso ∈ assos, asso.origin.imported = true ∧
        (_associate cfg ext asso.origin pick asso.phase).1 = true ∧
        o = (_associate cfg ext asso.origin pick asso.phase).2) ∨
      (∃ asso ∈ assos, cfg.minPickAffinity ≤ asso.affinity ∧ asso.origin.imported = false ∧
        ∃ attached, attachOwn cfg ext pick asso = some attached ∧
          passedFilter attached = some o)) := by
  have hown : tryAssociateOwn cfg ext passedFilter pick assos (none, 0) = some o →
      ∃ asso ∈ assos, cfg.minPickAffinity ≤ asso.affinity ∧ asso.origin.imported = false ∧
        ∃ attached, attachOwn cfg ext pick asso = some attached ∧
          passedFilter attached = some o := by
    intro h
    rcases tryAssociateOwn_cases cfg ext passedFilter pick assos (none, 0) o h with c | c
    · cases c
    · exact c
  refine ⟨hown, ?_⟩
  intro h
  unfold _tryAssociate at h
  simp only [] at h
  cases hi : tryAssociateImported cfg ext pick assos none with
  | some origin =>
    rw [hi] at h
    simp only [Option.some.injEq] at h
    subst h
    rcases tryAssociateImported_cases cfg ext pick assos none origin hi with c | c
    · cases c
    · exact Or.inl c
  | none =>
    rw [hi] at h
    exact Or.inr (hown h)

theorem tryAssociate_affinity_witness :
    ∃ asso ∈ [exStrongAssociation], exConfig.minPickAffinity ≤ asso.affinity ∧
      asso.origin.imported = false ∧
      ∃ attached, attachOwn exConfig exCollab (exPick "k" 100 10 5 PickMode.Automatic) asso
          = some attached ∧
        (fun o : Origin => some o) attached = some exAssociated := by
  have ha : _associate exConfig exCollab exOriginA
      (exPick "k" 100 10 5 PickMode.Automatic) "P" = (true, exAssociated) := by
    simp [_associate, mightBeAssociated, findArrival, _residualOK, is_PKP_arrival, is_P_arrival,
      Arrival.new, initialExclusion, definingPhaseCountIn, judgeRelocated, adoptRelocated,
      newArrival, trialDepth, relocateTrial, setExcluded, exAssociated,
      attachLoosely, Origin.add, Origin.updateFrom, _score, definingPhaseCount, exConfig,
      exCollab, exOriginA, exOrigin, exArrival, exPick, exStation,
      List.findIdx_cons, List.findIdx_nil]
    norm_num
  have ho : exStrongAssociation.origin = exOriginA := rfl
  have hp : exStrongAssociation.phase = "P" := rfl
  have hat : attachOwn exConfig exCollab (exPick "k" 100 10 5 PickMode.Automatic)
      exStrongAssociation = some exAssociated := by
    unfold attachOwn
    simp [ho, hp, ha]
  refine (tryAssociate_affinity exConfig exCollab (fun o => some o)
    (exPick "k" 100 10 5 PickMode.Automatic) [exStrongAssociation] exAssociated).1 ?_
  have hi : exOriginA.imported = false := rfl
  have hf : (findArrival exAssociated "k").isNone = false := by
    simp [findArrival, exAssociated, exOriginA, exOrigin, exArrival,
      List.findIdx_cons, List.findIdx_nil]
  have haff : ¬ exStrongAssociation.affinity < exConfig.minPickAffinity := by
    norm_num [exStrongAssociation, exConfig]
  have hpid : (exPick "k" 100 10 5 PickMode.Automatic).id = "k" := rfl
  have hcount : ((definingPhaseCount exAssociated : Int) : ℚ) > 0 := by
    simp [definingPhaseCount, exAssociated, exOriginA, exOrigin, exArrival]
  simp only [tryAssociateOwn, haff, if_false, ho, hi, Bool.false_eq_true, hat, hpid, hf, hcount,
    if_true]

/-- The `return nullptr` of the first loop of `_tryAssociate` is never
reached: a successful `_associate` on an imported origin leaves an arrival of
the pick. -/
theorem associate_imported_finds_pick (cfg : Config) (ext : Collaborators) (origin : Origin)
    (pick : Pick) (phase : String) (himp : origin.imported = true)
    (h : (_associate cfg ext origin pick phase).1 = true) :
    (findArrival (_associate cfg ext origin pick phase).2 pick.id).isNone = false := by
  rcases associate_imported cfg ext origin pick phase himp with c | ⟨a, ha, _, c⟩
  · rw [c] at h
    cases h
  · rw [c]
    have : (findArrival { origin with arrivals := origin.arrivals ++ [a] } pick.id).isSome
        = true := by
      rw [findArrival_isSome_iff]
      simp only [List.map_append, List.map_cons, List.map_nil, List.mem_append,
        List.mem_singleton]
      exact Or.inr ha.symm
    cases hf : findArrival { origin with arrivals := origin.arrivals ++ [a] } pick.id with
    | none => rw [hf] at this; cases this
    | some i => rfl

/-! ## The trial depths of `_xxlPreliminaryOrigin` -/

theorem trialDepthsLoop_run (cfg : Config) (n : Nat)
    (hd : 0 < cfg.defaultDepth) (hs : cfg.defaultDepthStickiness ≤ 9 / 10)
    (hn : cfg.defaultDepth * (n : ℚ) ≤ cfg.xxlMaxDepth)
    (hn' : cfg.xxlMaxDepth < cfg.defaultDepth * ((n : ℚ) + 1)) :
    ∀ (m i fuel : Nat), i + m = n + 1 → m + 1 ≤ fuel →
      trialDepthsLoop cfg fuel i (cfg.defaultDepth * (i : ℚ)) =
        some ((List.range m).map (fun (j : Nat) => cfg.defaultDepth * (1 + ((i : ℚ) + (j : ℚ))))) := by
  intro m
  induction m with
  | zero =>
    intro i fuel hi hf
    obtain ⟨f, rfl⟩ : ∃ f, fuel = f + 1 := ⟨fuel - 1, by omega⟩
    have hi' : i = n + 1 := by omega
    subst hi'
    unfold trialDepthsLoop
    have : ¬ cfg.defaultDepth * (((n + 1 : Nat)) : ℚ) ≤ cfg.xxlMaxDepth := by
      push_cast
      exact not_le.mpr hn'
    simp only [this, if_false, List.range_zero, List.map_nil]
  | succ m ih =>
    intro i fuel hi hf
    obtain ⟨f, rfl⟩ : ∃ f, fuel = f + 1 := ⟨fuel - 1, by omega⟩
    have hin : i ≤ n := by omega
    have hle : cfg.defaultDepth * (i : ℚ) ≤ cfg.xxlMaxDepth := by
      have h1 : (i : ℚ) ≤ (n : ℚ) := by exact_mod_cast hin
      exact le_trans (mul_le_mul_of_nonneg_left h1 (le_of_lt hd)) hn
    have hns : ¬ cfg.defaultDepthStickiness > 9 / 10 := not_lt.mpr hs
    unfold trialDepthsLoop
    simp only [hle, if_true, hns, if_false]
    have hrec := ih (i + 1) f (by omega) (by omega)
    have hcast : cfg.defaultDepth * (1 + (i : ℚ)) = cfg.defaultDepth * (((i + 1 : Nat)) : ℚ) := by
      push_cast
      ring
    rw [hcast, hrec]
    simp only [Option.map_some', Option.some.injEq]
    rw [List.range_succ_eq_map, List.map_cons, List.map_map]
    congr 1
    · push_cast
      ring
    · apply List.map_congr_left
      intro j _
      simp only [Function.comp]
      push_cast
      ring

/-- C30: the code departs from the claim. With `defaultDepth > 0`, a
stickiness of at most 0.9 and `defaultDepth * n <= xxlMaxDepth <
defaultDepth * (n + 1)`, the list of trial depths is `defaultDepth * 1, ...,
defaultDepth * (n + 1)`: the loop tests the depth of the previous round, so
the last trial depth exceeds `xxlMaxDepth`. With a stickiness above 0.9 the
list is the single value `defaultDepth` when `xxlMaxDepth >= 0`, and with
`xxlMaxDepth < 0` the list is empty. -/
theorem trial_depths_overshoot (cfg : Config) (fuel : Nat) :
    (∀ n : Nat, 0 < cfg.defaultDepth → cfg.defaultDepthStickiness ≤ 9 / 10 →
      cfg.defaultDepth * (n : ℚ) ≤ cfg.xxlMaxDepth →
      cfg.xxlMaxDepth < cfg.defaultDepth * ((n : ℚ) + 1) → n + 2 ≤ fuel →
      trialDepths cfg fuel =
          some ((List.range (n + 1)).map (fun (j : Nat) => cfg.defaultDepth * (1 + (j : ℚ)))) ∧
        cfg.defaultDepth * (1 + (n : ℚ)) ∈
          (List.range (n + 1)).map (fun (j : Nat) => cfg.defaultDepth * (1 + (j : ℚ))) ∧
        cfg.xxlMaxDepth < cfg.defaultDepth * (1 + (n : ℚ))) ∧
    (cfg.defaultDepthStickiness > 9 / 10 → 0 ≤ cfg.xxlMaxDepth →
      trialDepths cfg (fuel + 1) = some [cfg.defaultDepth]) ∧
    (cfg.xxlMaxDepth < 0 → trialDepths cfg (fuel + 1) = some []) := by
  refine ⟨?_, ?_, ?_⟩
  · intro n hd hs hn hn' hf
    refine ⟨?_, ?_, ?_⟩
    · have h := trialDepthsLoop_run cfg n hd hs hn hn' (n + 1) 0 fuel (by omega) (by omega)
      unfold trialDepths
      simp only [Nat.cast_zero, mul_zero, zero_add] at h
      exact h
    · exact List.mem_map.mpr ⟨n, List.mem_range.mpr (by omega), rfl⟩
    · rw [add_comm]
      exact hn'
  · intro hs hM
    unfold trialDepths trialDepthsLoop
    simp [hM, hs]
  · intro hM
    unfold trialDepths trialDepthsLoop
    simp [not_le.mpr hM]

theorem trial_depths_overshoot_witness :
    trialDepths exConfig 12 = some [10, 20, 30, 40, 50, 60, 70, 80, 90, 100, 110] ∧
      exConfig.xxlMaxDepth = 100 ∧ exConfig.defaultDepth = 10 ∧
      exConfig.defaultDepthStickiness = 1 / 2 := by
  have h := ((trial_depths_overshoot exConfig 12).1 10 (by norm_num [exConfig])
    (by norm_num [exConfig]) (by norm_num [exConfig]) (by norm_num [exConfig]) (by norm_num)).1
  refine ⟨h.trans ?_, rfl, rfl, rfl⟩
  simp [exConfig, List.range_succ]
  norm_num

/-! ## Atomicity of `_associate` -/

/-- C34: whenever `_associate` returns false, the origin is exactly as before
the call (all fields, in particular hypocenter, time, arrival list with the
excluded states, and depth type): the trial attachment and the relocations
are made on copies. -/
theorem associate_atomic (cfg : Config) (ext : Collaborators) (origin : Origin)
    (pick : Pick) (phase : String)
    (h : (_associate cfg ext origin pick phase).1 = false) :
    (_associate cfg ext origin pick phase).2 = origin :=
  associate_false_unchanged cfg ext origin pick phase h

theorem associate_atomic_witness :
    (_associate exConfig { exCollab with relocate := fun _ _ => none } exOriginA
        (exPick "k" 100 10 5 PickMode.Automatic) "P").1 = false ∧
      (_associate exConfig { exCollab with relocate := fun _ _ => none } exOriginA
        (exPick "k" 100 10 5 PickMode.Automatic) "P").2 = exOriginA := by
  have hf : (_associate exConfig { exCollab with relocate := fun _ _ => none } exOriginA
      (exPick "k" 100 10 5 PickMode.Automatic) "P").1 = false := by
    simp [_associate, mightBeAssociated, findArrival, _residualOK, is_PKP_arrival, is_P_arrival,
      Arrival.new, initialExclusion, definingPhaseCountIn, newArrival, trialDepth,
      relocateTrial, Origin.add, exConfig,
      exCollab, exOriginA, exOrigin, exArrival, exPick, exStation,
      List.findIdx_cons, List.findIdx_nil]
    norm_num
  exact ⟨hf, associate_atomic exConfig { exCollab with relocate := fun _ _ => none } exOriginA
    (exPick "k" 100 10 5 PickMode.Automatic) "P" hf⟩

/-! ## A pick in the pool counts against itself -/

theorem recentPickStep_snd_mono (cfg : Config) (newPick old : Pick) (acc : ℚ × ℚ) :
    acc.2 ≤ (recentPickStep cfg newPick acc old).2 := by
  unfold recentPickStep
  simp only []
  split_ifs with h1 h2 h3 h4 h5
  · exact le_refl _
  · exact le_refl _
  · exact le_refl _
  · exact le_refl _
  · exact le_of_lt h5.2
  · exact le_refl _

theorem recentPickLoop_snd_mono (cfg : Config) (newPick : Pick) (pool : List Pick)
    (acc : ℚ × ℚ) : acc.2 ≤ (pool.foldl (recentPickStep cfg newPick) acc).2 := by
  induction pool generalizing acc with
  | nil => exact le_refl _
  | cons old rest ih =>
    rw [List.foldl_cons]
    exact le_trans (recentPickStep_snd_mono cfg newPick old acc) (ih _)

theorem recentPickStep_self (cfg : Config) (newPick : Pick) (acc : ℚ × ℚ)
    (hauto : automatic newPick = true) (hfree : newPick.origin = none)
    (hD : 0 < cfg.dynamicPickThresholdInterval) (hX : 0 < cfg.xxlDeadTime)
    (hsnr : newPick.snr < 3) :
    3 ≤ (recentPickStep cfg newPick acc newPick).2 := by
  have hman : manual newPick = false := by
    unfold automatic at hauto
    unfold manual
    have hm : newPick.mode = PickMode.Automatic := by simpa using hauto
    rw [hm]
    decide
  have hclamp : clampSNR newPick.snr = 3 := by
    unfold clampSNR
    have h15 : ¬ newPick.snr > 15 := by
      intro h
      linarith
    simp only [h15, if_false, hsnr, if_true]
  unfold recentPickStep
  simp only [hman, hfree, sub_self, hclamp, Bool.and_false, Bool.false_and, Bool.false_eq_true,
    if_false, ne_eq, not_true_eq_false, lt_self_iff_false, false_or, Option.isSome_none,
    zero_div, sub_zero, mul_one, not_lt.mpr (le_of_lt hD)]
  have hx : cfg.xxlDeadTime ≠ 0 := ne_of_gt hX
  by_cases h : (3 : ℚ) > acc.2
  · simp [hx, h]
  · simp only [hx, not_false_eq_true, h, and_false, if_false]
    exact not_lt.mp h

theorem recentPickLoop_self (cfg : Config) (newPick : Pick) (pool : List Pick) (acc : ℚ × ℚ)
    (hauto : automatic newPick = true) (hfree : newPick.origin = none)
    (hD : 0 < cfg.dynamicPickThresholdInterval) (hX : 0 < cfg.xxlDeadTime)
    (hsnr : newPick.snr < 3) (hmem : newPick ∈ pool) :
    3 ≤ (pool.foldl (recentPickStep cfg newPick) acc).2 := by
  induction pool generalizing acc with
  | nil => cases hmem
  | cons old rest ih =>
    rw [List.foldl_cons]
    rcases List.mem_cons.mp hmem with e | e
    · subst e
      exact le_trans (recentPickStep_self cfg newPick acc hauto hfree hD hX hsnr)
        (recentPickLoop_snd_mono cfg newPick rest _)
    · exact ih _ e

/-- C35: with `dynamicPickThresholdInterval > 0` and `xxlDeadTime > 0`, an
automatic pick that is not yet associated, has `0 < snr < 3` and is in the
pool is suppressed by `_tooManyRecentPicks`, whatever else the pool holds:
the loop meets the pick itself with `dt = 0`, which raises `prevThreshold` to
the clamped snr 3 at least, above the snr of the pick. -/
theorem own_pick_suppresses_weak_pick (cfg : Config) (pool : List Pick) (newPick : Pick)
    (hauto : automatic newPick = true) (hfree : newPick.origin = none)
    (hD : 0 < cfg.dynamicPickThresholdInterval) (hX : 0 < cfg.xxlDeadTime)
    (hpos : 0 < newPick.snr) (hsnr : newPick.snr < 3) (hmem : newPick ∈ pool) :
    _tooManyRecentPicks cfg pool newPick = true ∧
      3 ≤ (pool.foldl (recentPickStep cfg newPick) (0, 0)).2 := by
  have h3 := recentPickLoop_self cfg newPick pool (0, 0) hauto hfree hD hX hsnr hmem
  refine ⟨?_, h3⟩
  unfold _tooManyRecentPicks
  have hlt : newPick.snr < (pool.foldl (recentPickStep cfg newPick) (0, 0)).2 :=
    lt_of_lt_of_le hsnr h3
  simp only [hauto, Bool.not_true, Bool.false_eq_true, if_false, not_le.mpr hD,
    not_le.mpr hpos, hlt, if_true]
  split_ifs <;> rfl

theorem own_pick_suppresses_weak_pick_witness :
    _tooManyRecentPicks exConfig [exPick "a" 0 10 2 PickMode.Automatic]
      (exPick "a" 0 10 2 PickMode.Automatic) = true :=
  (own_pick_suppresses_weak_pick exConfig [exPick "a" 0 10 2 PickMode.Automatic]
    (exPick "a" 0 10 2 PickMode.Automatic) rfl rfl (by norm_num [exConfig])
    (by norm_num [exConfig]) (by norm_num [exPick]) (by norm_num [exPick])
    (List.mem_singleton.mpr rfl)).1

/-! ## Removal of outliers -/

theorem removeOutliers_fold (cfg : Config) (arrivals : List Arrival)
    (acc : Nat × List Arrival × List PickID) :
    arrivals.foldl (removeOutliersStep cfg) acc =
      (acc.1 + (arrivals.filter (isOutlier cfg)).length,
        acc.2.1 ++ arrivals.filter (fun arr => !isOutlier cfg arr),
        acc.2.2 ++ (arrivals.filter (isOutlier cfg)).map (fun arr => arr.pick)) := by
  induction arrivals generalizing acc with
  | nil => simp
  | cons arr rest ih =>
    rw [List.foldl_cons, ih]
    by_cases h : isOutlier cfg arr = true
    · simp [removeOutliersStep, h, List.filter_cons]
      omega
    · simp [removeOutliersStep, h, List.filter_cons]

/-- C32 (counterexample): an arrival that is not excluded stays in the origin
although its residual of 10 s is above `maxResidualKeep` = 7 s; only the
excluded arrival with the same residual is erased. -/
theorem remove_outliers_keeps_defining_arrival :
    _removeOutliers exConfig
        (exOrigin 1 [exResidualArrival "a" 10 ExcludeReason.NotExcluded,
          exResidualArrival "b" 10 ExcludeReason.LargeResidual]) =
      (1, exOrigin 1 [exResidualArrival "a" 10 ExcludeReason.NotExcluded], ["b"]) := by
  simp [_removeOutliers, removeOutliersStep, isOutlier, exOrigin, exResidualArrival, exArrival,
    exConfig]
  norm_num [abs_of_nonneg]

/-- C32 (amended): `_removeOutliers` erases exactly the arrivals that are
excluded (for whatever reason) and have `|residual| > maxResidualKeep`; every
other arrival, in particular every arrival that is not excluded, is kept in
its original relative order; the returned number is the number of erased
arrivals, and the erased arrivals are those whose pick was released. -/
theorem remove_outliers_erases_excluded_only (cfg : Config) (origin : Origin) :
    (_removeOutliers cfg origin).2.1.arrivals =
        origin.arrivals.filter (fun arr =>
          !(decide (arr.excluded ≠ ExcludeReason.NotExcluded) &&
            decide (|arr.residual| > cfg.maxResidualKeep))) ∧
      (_removeOutliers cfg origin).1 =
        (origin.arrivals.filter (fun arr =>
          decide (arr.excluded ≠ ExcludeReason.NotExcluded) &&
            decide (|arr.residual| > cfg.maxResidualKeep))).length ∧
      (_removeOutliers cfg origin).2.2 =
        (origin.arrivals.filter (fun arr =>
          decide (arr.excluded ≠ ExcludeReason.NotExcluded) &&
            decide (|arr.residual| > cfg.maxResidualKeep))).map (fun arr => arr.pick) ∧
      (_removeOutliers cfg origin).1 + (_removeOutliers cfg origin).2.1.arrivals.length =
        origin.arrivals.length ∧
      (∀ arr ∈ origin.arrivals, arr.excluded = ExcludeReason.NotExcluded →
        arr ∈ (_removeOutliers cfg origin).2.1.arrivals) := by
  have h := removeOutliers_fold cfg origin.arrivals (0, [], [])
  have e1 : (_removeOutliers cfg origin).2.1.arrivals =
      origin.arrivals.filter (fun arr => !isOutlier cfg arr) := by
    unfold _removeOutliers
    simp only [h, List.nil_append]
  have e2 : (_removeOutliers cfg origin).1 = (origin.arrivals.filter (isOutlier cfg)).length := by
    unfold _removeOutliers
    simp only [h, Nat.zero_add]
  have e3 : (_removeOutliers cfg origin).2.2 =
      (origin.arrivals.filter (isOutlier cfg)).map (fun arr => arr.pick) := by
    unfold _removeOutliers
    simp only [h, List.nil_append]
  refine ⟨e1, e2, e3, ?_, ?_⟩
  · rw [e1, e2]
    have := List.length_eq_length_filter_add (l := origin.arrivals) (isOutlier cfg)
    omega
  · intro arr hmem hex
    rw [e1]
    refine List.mem_filter.mpr ⟨hmem, ?_⟩
    simp [isOutlier, hex]

/-! ## Exclusion of distant stations -/

theorem extendCutoff_mem (q : ℚ) (rest : List ℚ) (m : ℚ) :
    extendCutoff q m rest = m ∨ extendCutoff q m rest ∈ rest := by
  induction rest generalizing m with
  | nil => exact Or.inl rfl
  | cons d rest ih =>
    unfold extendCutoff
    by_cases h : d > q * m
    · rw [if_pos h]
      exact Or.inl rfl
    · rw [if_neg h]
      rcases ih d with e | e
      · rw [e]
        exact Or.inr (List.mem_cons_self _ _)
      · exact Or.inr (List.mem_cons_of_mem _ e)

theorem extendCutoff_ge (q : ℚ) (rest : List ℚ) (m : ℚ)
    (hs : List.Sorted (fun a b => a ≤ b) (m :: rest)) : m ≤ extendCutoff q m rest := by
  induction rest generalizing m with
  | nil => exact le_refl _
  | cons d rest ih =>
    unfold extendCutoff
    by_cases h : d > q * m
    · rw [if_pos h]
    · rw [if_neg h]
      have hmd : m ≤ d := List.rel_of_sorted_cons hs d (List.mem_cons_self _ _)
      exact le_trans hmd (ih d (List.Sorted.of_cons hs))

theorem distantCount_bounds (n : Nat) (hn : 4 ≤ n) :
    2 ≤ distantCount n ∧ distantCount n ≤ n := by
  unfold distantCount
  have e : (1 / 10 : ℚ) * (n : ℚ) = (n : ℚ) / ((10 : Nat) : ℚ) := by
    push_cast
    ring
  by_cases h : (1 / 10 : ℚ) * (n : ℚ) > 2
  · rw [if_pos h, e, Nat.floor_div_eq_div]
    have h20 : (20 : ℚ) < (n : ℚ) := by linarith
    have h20n : 20 < n := by exact_mod_cast h20
    omega
  · rw [if_neg h]
    omega

theorem distantCount_eq (n : Nat) : distantCount n = max 2 (n / 10) := by
  unfold distantCount
  have e : (1 / 10 : ℚ) * (n : ℚ) = (n : ℚ) / ((10 : Nat) : ℚ) := by
    push_cast
    ring
  by_cases h : (1 / 10 : ℚ) * (n : ℚ) > 2
  · rw [if_pos h, e, Nat.floor_div_eq_div]
    have h20 : (20 : ℚ) < (n : ℚ) := by linarith
    have h20n : 20 < n := by exact_mod_cast h20
    omega
  · rw [if_neg h]
    have h20 : (n : ℚ) ≤ 20 := by
      have := not_lt.mp h
      linarith
    have h20n : n ≤ 20 := by exact_mod_cast h20
    omega

theorem sortedDistances_length (origin : Origin) :
    (sortedDistances origin).length = (eligibleDistances origin).length := by
  unfold sortedDistances
  exact List.length_insertionSort _ _

theorem sortedDistances_mem (origin : Origin) (d : ℚ) :
    d ∈ sortedDistances origin ↔ d ∈ eligibleDistances origin := by
  unfold sortedDistances
  exact List.Perm.mem_iff (List.perm_insertionSort _ _)

theorem sortedDistances_sorted (origin : Origin) :
    List.Sorted (fun a b => a ≤ b) (sortedDistances origin) := by
  unfold sortedDistances
  exact List.sorted_insertionSort _ _

theorem eligibleDistances_le (origin : Origin) (d : ℚ) (h : d ∈ eligibleDistances origin) :
    d ≤ 110 := by
  unfold eligibleDistances at h
  obtain ⟨arr, harr, rfl⟩ := List.mem_map.mp h
  have := (List.mem_filter.mp harr).2
  unfold distanceEligible at this
  simp only [Bool.and_eq_true, Bool.not_eq_true', decide_eq_false_iff_not, not_lt] at this
  exact this.2

/-- The cut-off is an element of the sorted vector at position
`distanceCount - nx` or behind it, and it is not below the element at that
position. -/
theorem maxDistance_spec (origin : Origin) (hn : 4 ≤ (eligibleDistances origin).length) :
    maxDistance origin ∈ eligibleDistances origin ∧
      (sortedDistances origin).getD
        ((sortedDistances origin).length - distantCount (sortedDistances origin).length) 0
          ≤ maxDistance origin := by
  have hlen := sortedDistances_length origin
  have hb := distantCount_bounds (sortedDistances origin).length (by omega)
  have hs := sortedDistances_sorted origin
  generalize hL : sortedDistances origin = L at hlen hb hs
  have hk : L.length - distantCount L.length < L.length := by omega
  have hget : L.getD (L.length - distantCount L.length) 0
      = L.get ⟨L.length - distantCount L.length, hk⟩ := by
    rw [List.getD_eq_getElem _ _ hk]
    rfl
  have hsplit : L.drop (L.length - distantCount L.length)
      = L.get ⟨L.length - distantCount L.length, hk⟩
        :: L.drop (L.length - distantCount L.length + 1) := by
    rw [List.drop_eq_getElem_cons hk]
    rfl
  have hsd : List.Sorted (fun a b => a ≤ b) (L.drop (L.length - distantCount L.length)) :=
    List.Pairwise.sublist (List.drop_sublist _ _) hs
  rw [hsplit] at hsd
  have hmemL : maxDistance origin ∈ L := by
    unfold maxDistance
    rw [hL, hget]
    rcases extendCutoff_mem 4 (L.drop (L.length - distantCount L.length + 1))
      (L.get ⟨L.length - distantCount L.length, hk⟩) with e | e
    · rw [e]
      exact List.get_mem _ _ _
    · exact List.mem_of_mem_drop e
  constructor
  · rw [← hL] at hmemL
    exact (sortedDistances_mem origin _).mp hmemL
  · unfold maxDistance
    rw [hL, hget]
    exact extendCutoff_ge 4 _ _ hsd

theorem markDistant_far (m : ℚ) (arr : Arrival) (hm : m ≤ 110)
    (hex : arr.excluded = ExcludeReason.NotExcluded) (hd : arr.distance > 110) :
    markDistant m arr = { arr with excluded := ExcludeReason.StationDistance } := by
  unfold markDistant
  have h1 : ¬ arr.excluded ≠ ExcludeReason.NotExcluded := fun h => h hex
  have h2 : arr.distance > m := lt_of_le_of_lt hm hd
  rw [if_neg h1, if_pos h2]

theorem markDistant_near (m : ℚ) (arr : Arrival) (hd : arr.distance ≤ m) :
    markDistant m arr = arr := by
  unfold markDistant
  by_cases h1 : arr.excluded ≠ ExcludeReason.NotExcluded
  · rw [if_pos h1]
  · rw [if_neg h1, if_neg (not_lt.mpr hd)]

theorem markDistant_excluded (m : ℚ) (arr : Arrival)
    (hex : arr.excluded ≠ ExcludeReason.NotExcluded) : markDistant m arr = arr := by
  unfold markDistant
  rw [if_pos hex]

theorem excludeDistantStations_cases (ext : Collaborators) (depthMode : Option ℚ)
    (origin : Origin) (hn : 4 ≤ (eligibleDistances origin).length) :
    _excludeDistantStations ext depthMode origin = (false, markedOrigin origin) ∨
      ∃ relo, ext.relocate depthMode (markedOrigin origin) = some relo ∧
        _excludeDistantStations ext depthMode origin
          = (true, (markedOrigin origin).updateFrom relo) := by
  unfold _excludeDistantStations
  rw [if_neg (by omega)]
  by_cases h : excludedCount (maxDistance origin) origin ≠ 0
  · rw [if_pos h]
    cases hr : ext.relocate depthMode (markedOrigin origin) with
    | none => exact Or.inl rfl
    | some relo => exact Or.inr ⟨relo, rfl, rfl⟩
  · rw [if_neg h]
    exact Or.inl rfl

/-- C37: in `_excludeDistantStations`, with at least 4 eligible arrivals the
cut-off `maxDistance` is one of the eligible distances and hence at most 110
degrees; the marking loop sets every arrival that is not excluded and lies
beyond 110 degrees to `StationDistance` and leaves every arrival alone whose
distance is at most the element `distance[n - nx]` of the sorted vector
(`nx = max(2, floor(0.1 n))`), which is not below the `(n - nx)`-th smallest
eligible distance; the call leaves the marked origin or, after a successful
relocation, the relocated one. With fewer than 4 eligible arrivals the call
returns false and changes nothing. -/
theorem exclude_distant_stations (ext : Collaborators) (depthMode : Option ℚ) (origin : Origin) :
    ((eligibleDistances origin).length < 4 →
        _excludeDistantStations ext depthMode origin = (false, origin)) ∧
      (4 ≤ (eligibleDistances origin).length →
        maxDistance origin ∈ eligibleDistances origin ∧
        maxDistance origin ≤ 110 ∧
        distantCount (eligibleDistances origin).length
          = max 2 ((eligibleDistances origin).length / 10) ∧
        (_excludeDistantStations ext depthMode origin = (false, markedOrigin origin) ∨
          ∃ relo, ext.relocate depthMode (markedOrigin origin) = some relo ∧
            _excludeDistantStations ext depthMode origin
              = (true, (markedOrigin origin).updateFrom relo)) ∧
        (markedOrigin origin).arrivals.length = origin.arrivals.length ∧
        ∀ (i : Nat) (arr : Arrival), origin.arrivals.get? i = some arr →
          (arr.excluded = ExcludeReason.NotExcluded → arr.distance > 110 →
            (markedOrigin origin).arrivals.get? i
              = some { arr with excluded := ExcludeReason.StationDistance }) ∧
          (arr.distance ≤ (sortedDistances origin).getD
              ((eligibleDistances origin).length
                - distantCount (eligibleDistances origin).length) 0 →
            (markedOrigin origin).arrivals.get? i = some arr)) := by
  constructor
  · intro h
    unfold _excludeDistantStations
    rw [if_pos h]
  · intro hn
    have hspec := maxDistance_spec origin hn
    have hle := eligibleDistances_le origin _ hspec.1
    refine ⟨hspec.1, hle, distantCount_eq _, excludeDistantStations_cases ext depthMode origin hn,
      ?_, ?_⟩
    · unfold markedOrigin
      exact List.length_map _ _
    · intro i arr hi
      have hget : (markedOrigin origin).arrivals.get? i
          = some (markDistant (maxDistance origin) arr) := by
        unfold markedOrigin
        rw [List.get?_eq_getElem?] at hi ⊢
        simp only [List.getElem?_map, hi, Option.map_some']
      constructor
      · intro hex hd
        rw [hget, markDistant_far _ _ hle hex hd]
      · intro hd
        rw [hget, markDistant_near]
        rw [← sortedDistances_length origin] at hd
        exact le_trans hd hspec.2

theorem exclude_distant_stations_witness :
    4 ≤ (eligibleDistances exOriginFar).length ∧
      maxDistance exOriginFar ≤ 110 ∧
      _excludeDistantStations exCollab none
        { exOriginFar with arrivals := exOriginFar.arrivals.take 3 }
          = (false, { exOriginFar with arrivals := exOriginFar.arrivals.take 3 }) := by
  have h4 : 4 ≤ (eligibleDistances exOriginFar).length := by
    simp [eligibleDistances, distanceEligible, exOriginFar, exOrigin, exDistantArrival, exArrival,
      List.filter_cons]
    norm_num
  have h3 : (eligibleDistances
      { exOriginFar with arrivals := exOriginFar.arrivals.take 3 }).length < 4 := by
    simp [eligibleDistances, distanceEligible, exOriginFar, exOrigin, exDistantArrival, exArrival,
      List.filter_cons]
    norm_num
  exact ⟨h4, ((exclude_distant_stations exCollab none exOriginFar).2 h4).2.1,
    (exclude_distant_stations exCollab none
      { exOriginFar with arrivals := exOriginFar.arrivals.take 3 }).1 h3⟩

/-! ## Storing an origin -/

theorem associate_id (cfg : Config) (ext : Collaborators) (origin : Origin) (pick : Pick)
    (phase : String) : (_associate cfg ext origin pick phase).2.id = origin.id := by
  cases hres : (_associate cfg ext origin pick phase).1 with
  | false => rw [associate_false_unchanged cfg ext origin pick phase hres]
  | true =>
    by_cases himp : origin.imported = true
    · rcases associate_imported cfg ext origin pick phase himp with c | ⟨a, _, _, c⟩
      · rw [c]
      · rw [c]
    · have himp' : origin.imported = false := by simpa using himp
      have hfull : _associate cfg ext origin pick phase
          = (true, (_associate cfg ext origin pick phase).2) := by
        rw [← hres]
      obtain ⟨_, arr, _, hcase⟩ := associate_cases cfg ext origin pick phase _ himp' hfull
      rcases hcase with ⟨a, _, _, ho⟩ | ⟨m, relo, _, _, _, ho⟩ | ⟨index, relo2, _, _, _, ho⟩
      · rw [ho]
        exact add_id origin a
      · rw [ho]
        rfl
      · rw [ho]
        rfl

theorem addMorePicksStep_id (cfg : Config) (ext : Collaborators) (s : State)
    (have_ : List String) (acc : Origin × Nat) (pick : Pick) :
    (addMorePicksStep cfg ext s have_ acc pick).1.id = acc.1.id := by
  unfold addMorePicksStep
  cases hst : pick.station with
  | none => rfl
  | some station =>
    simp only []
    have e1 := associate_id cfg ext acc.1 pick "P"
    have e2 := associate_id cfg ext (_associate cfg ext acc.1 pick "P").2 pick "PKP"
    split_ifs
    all_goals first | rfl | exact e1 | exact e2.trans e1

theorem addMorePicksLoop_id (cfg : Config) (ext : Collaborators) (s : State)
    (have_ : List String) (pool : List Pick) :
    ∀ acc : Origin × Nat, (pool.foldl (addMorePicksStep cfg ext s have_) acc).1.id = acc.1.id := by
  induction pool with
  | nil =>
    intro acc
    rfl
  | cons q rest ih =>
    intro acc
    rw [List.foldl_cons, ih]
    exact addMorePicksStep_id cfg ext s have_ acc q

theorem addMorePicks_id (cfg : Config) (ext : Collaborators) (pickOf : PickID → Pick)
    (s : State) (origin : Origin) :
    (_addMorePicks cfg ext pickOf s origin).2.id = origin.id := by
  unfold _addMorePicks
  have := addMorePicksLoop_id cfg ext s (haveKeys pickOf origin) s.pickPool (origin, 0)
  simp only []
  split_ifs
  · exact this
  · exact this

theorem prepareStored_id (cfg : Config) (ext : Collaborators) (pickOf : PickID → Pick)
    (s : State) (origin : Origin) :
    (prepareStored cfg ext pickOf s origin).id = origin.id := by
  unfold prepareStored
  have e := addMorePicks_id cfg ext pickOf s (_rename_P_PKP pickOf origin)
  have e0 : (_rename_P_PKP pickOf origin).id = origin.id := rfl
  simp only []
  split_ifs
  all_goals first | rfl | exact e.trans e0

theorem finishStored_id (cfg : Config) (origin : Origin) :
    (finishStored cfg origin).id = origin.id := by
  unfold finishStored
  simp only []
  split_ifs <;> rfl

/-- The existing model of the stored object is the composition of the two
parts. -/
theorem storedObject_eq (cfg : Config) (ext : Collaborators) (pickOf : PickID → Pick) (s : State)
    (origin : Origin) :
    storedObject cfg ext pickOf s origin
      = finishStored cfg (prepareStored cfg ext pickOf s origin) := rfl

theorem findById_some (content : Nat → Origin) (origins : List Nat) (id : OriginID) (e : Nat)
    (h : findById content origins id = some e) : e ∈ origins ∧ (content e).id = id := by
  unfold findById at h
  have h1 := List.find?_some h
  have h2 := List.mem_of_find?_eq_some h
  exact ⟨h2, by simpa using h1⟩

theorem findById_none (content : Nat → Origin) (origins : List Nat) (id : OriginID)
    (h : findById content origins id = none) : ∀ a ∈ origins, (content a).id ≠ id := by
  unfold findById at h
  intro a ha
  have := List.find?_eq_none.mp h a ha
  simpa using this

/-- The look-up of `_store(Origin*)` depends on the ids only, and the first
part of the function leaves the ids as they are. -/
theorem findById_congr (c1 c2 : Nat → Origin) (origins : List Nat) (id : OriginID)
    (h : ∀ a, (c1 a).id = (c2 a).id) : findById c1 origins id = findById c2 origins id := by
  unfold findById
  congr 1
  funext a
  rw [h a]

theorem noteNew_origins (h : OriginStore) (a : Nat) : (noteNew h a)._origins = h._origins := by
  unfold noteNew
  split_ifs <;> rfl

theorem noteNew_content (h : OriginStore) (a : Nat) : (noteNew h a).content = h.content := by
  unfold noteNew
  split_ifs <;> rfl

theorem noteNew_new (h : OriginStore) (a : Nat) :
    ((noteNew h a)._newOrigins = h._newOrigins ∧ a ∈ h._newOrigins) ∨
      ((noteNew h a)._newOrigins = h._newOrigins ++ [a] ∧ a ∉ h._newOrigins) := by
  unfold noteNew
  by_cases hm : a ∈ h._newOrigins
  · rw [if_pos hm]
    exact Or.inl ⟨rfl, hm⟩
  · rw [if_neg hm]
    exact Or.inr ⟨rfl, hm⟩

theorem noteNew_nodup (h : OriginStore) (a : Nat) (hn : h._newOrigins.Nodup) :
    (noteNew h a)._newOrigins.Nodup ∧ List.count a (noteNew h a)._newOrigins = 1 := by
  rcases noteNew_new h a with ⟨e, hm⟩ | ⟨e, hm⟩
  · rw [e]
    exact ⟨hn, List.count_eq_one_of_mem hn hm⟩
  · rw [e]
    have hnd : (h._newOrigins ++ [a]).Nodup := by
      rw [List.nodup_append]
      refine ⟨hn, List.nodup_singleton a, ?_⟩
      intro x hx hy
      rw [List.mem_singleton] at hy
      exact hm (hy ▸ hx)
    exact ⟨hnd, List.count_eq_one_of_mem hnd (by simp)⟩

/-- The pointer that `_store(Origin*)` holds in `origin` when it returns:
`existing` when the look-up has found an origin, the argument otherwise. -/
theorem storeOrigin_existing (cfg : Config) (ext : Collaborators) (pickOf : PickID → Pick)
    (s : State) (h : OriginStore) (p : Nat) :
    existingOrigin
        { h with
          content :=
            Function.update h.content p (prepareStored cfg ext pickOf s (h.content p)) }
        (prepareStored cfg ext pickOf s (h.content p)).id
      = existingOrigin h (h.content p).id := by
  unfold existingOrigin
  rw [prepareStored_id]
  by_cases hid : (h.content p).id ≠ 0
  · rw [if_pos hid, if_pos hid]
    apply findById_congr
    intro a
    by_cases hap : a = p
    · subst hap
      simp only [Function.update_same]
      exact prepareStored_id cfg ext pickOf s (h.content a)
    · simp only [Function.update_noteq hap]
  · rw [if_neg hid, if_neg hid]

theorem storeOrigin_found (cfg : Config) (ext : Collaborators) (pickOf : PickID → Pick)
    (s : State) (h : OriginStore) (p e : Nat)
    (he : existingOrigin h (h.content p).id = some e) :
    _storeOrigin cfg ext pickOf s h p
      = noteNew
          { h with
            content :=
              Function.update
                (Function.update h.content p (prepareStored cfg ext pickOf s (h.content p))) e
                (storedObject cfg ext pickOf s (h.content p)) }
          e := by
  have hex := storeOrigin_existing cfg ext pickOf s h p
  rw [he] at hex
  have hid : (h.content e).id = (h.content p).id := by
    unfold existingOrigin at he
    by_cases h0 : (h.content p).id ≠ 0
    · rw [if_pos h0] at he
      exact (findById_some _ _ _ _ he).2
    · rw [if_neg h0] at he
      cases he
  have hval : finishStored cfg
      ((Function.update h.content p (prepareStored cfg ext pickOf s (h.content p)) e).updateFrom
        (prepareStored cfg ext pickOf s (h.content p)))
      = storedObject cfg ext pickOf s (h.content p) := by
    rw [storedObject_eq]
    congr 1
    have hide : (Function.update h.content p (prepareStored cfg ext pickOf s (h.content p)) e).id
        = (prepareStored cfg ext pickOf s (h.content p)).id := by
      by_cases hep : e = p
      · subst hep
        simp only [Function.update_same]
      · simp only [Function.update_noteq hep]
        rw [hid, prepareStored_id]
    unfold Origin.updateFrom
    rw [hide]
  unfold _storeOrigin
  simp only [hex, hval]

theorem storeOrigin_absent (cfg : Config) (ext : Collaborators) (pickOf : PickID → Pick)
    (s : State) (h : OriginStore) (p : Nat)
    (he : existingOrigin h (h.content p).id = none) :
    _storeOrigin cfg ext pickOf s h p
      = noteNew
          { h with
            _origins := h._origins ++ [p]
            content :=
              Function.update
                (Function.update h.content p (prepareStored cfg ext pickOf s (h.content p))) p
                (storedObject cfg ext pickOf s (h.content p)) }
          p := by
  have hex := storeOrigin_existing cfg ext pickOf s h p
  rw [he] at hex
  unfold _storeOrigin
  simp only [hex, storedObject_eq]

/-- C38: `_store(Origin*)` updates an existing element of `_origins` only
when the id of the origin is not 0 and `_origins` holds an origin of that id:
then `_origins` keeps its pointers and the first origin of that id takes the
stored content, while the other objects are untouched. Otherwise, and in
particular for an origin of id 0, the pointer is appended: `_origins` grows
by one and every other object, so also a previous version of the origin,
stays in `_origins` with its content. In both cases `_newOrigins` has no
pointer twice if it had none twice before, and the pointer to the stored
origin is in it exactly once. -/
theorem store_origin_updates_or_appends (cfg : Config) (ext : Collaborators)
    (pickOf : PickID → Pick) (s : State) (h : OriginStore) (p : Nat) :
    ((∃ e, existingOrigin h (h.content p).id = some e) ↔
      (h.content p).id ≠ 0 ∧ ∃ a ∈ h._origins, (h.content a).id = (h.content p).id) ∧
    (∀ e, existingOrigin h (h.content p).id = some e →
      e ∈ h._origins ∧ (h.content e).id = (h.content p).id ∧
      (_storeOrigin cfg ext pickOf s h p)._origins = h._origins ∧
      (_storeOrigin cfg ext pickOf s h p).content e
        = storedObject cfg ext pickOf s (h.content p) ∧
      (∀ a, a ≠ e → a ≠ p → (_storeOrigin cfg ext pickOf s h p).content a = h.content a) ∧
      (h._newOrigins.Nodup → (_storeOrigin cfg ext pickOf s h p)._newOrigins.Nodup ∧
        List.count e (_storeOrigin cfg ext pickOf s h p)._newOrigins = 1)) ∧
    (existingOrigin h (h.content p).id = none →
      (_storeOrigin cfg ext pickOf s h p)._origins = h._origins ++ [p] ∧
      (_storeOrigin cfg ext pickOf s h p)._origins.length = h._origins.length + 1 ∧
      (_storeOrigin cfg ext pickOf s h p).content p
        = storedObject cfg ext pickOf s (h.content p) ∧
      (∀ a, a ≠ p → (a ∈ h._origins → a ∈ (_storeOrigin cfg ext pickOf s h p)._origins) ∧
        (_storeOrigin cfg ext pickOf s h p).content a = h.content a) ∧
      (h._newOrigins.Nodup → (_storeOrigin cfg ext pickOf s h p)._newOrigins.Nodup ∧
        List.count p (_storeOrigin cfg ext pickOf s h p)._newOrigins = 1)) ∧
    ((h.content p).id = 0 → existingOrigin h (h.content p).id = none) := by
  refine ⟨?_, ?_, ?_, ?_⟩
  · unfold existingOrigin
    constructor
    · rintro ⟨e, he⟩
      by_cases h0 : (h.content p).id ≠ 0
      · rw [if_pos h0] at he
        obtain ⟨h1, h2⟩ := findById_some _ _ _ _ he
        exact ⟨h0, e, h1, h2⟩
      · rw [if_neg h0] at he
        cases he
    · rintro ⟨h0, a, ha, hid⟩
      rw [if_pos h0]
      cases hf : findById h.content h._origins (h.content p).id with
      | none => exact absurd hid (findById_none _ _ _ hf a ha)
      | some e => exact ⟨e, rfl⟩
  · intro e he
    have hmem : e ∈ h._origins ∧ (h.content e).id = (h.content p).id := by
      unfold existingOrigin at he
      by_cases h0 : (h.content p).id ≠ 0
      · rw [if_pos h0] at he
        exact findById_some _ _ _ _ he
      · rw [if_neg h0] at he
        cases he
    rw [storeOrigin_found cfg ext pickOf s h p e he]
    refine ⟨hmem.1, hmem.2, ?_, ?_, ?_, ?_⟩
    · rw [noteNew_origins]
    · rw [noteNew_content]
      simp only [Function.update_same]
    · intro a hae hap
      rw [noteNew_content]
      simp only [Function.update_noteq hae, Function.update_noteq hap]
    · intro hn
      exact noteNew_nodup _ e hn
  · intro he
    rw [storeOrigin_absent cfg ext pickOf s h p he]
    refine ⟨?_, ?_, ?_, ?_, ?_⟩
    · rw [noteNew_origins]
    · rw [noteNew_origins]
      simp
    · rw [noteNew_content]
      simp only [Function.update_same]
    · intro a hap
      rw [noteNew_origins, noteNew_content]
      refine ⟨fun ha => List.mem_append_left _ ha, ?_⟩
      simp only [Function.update_noteq hap]
    · intro hn
      exact noteNew_nodup _ p hn
  · intro h0
    unfold existingOrigin
    rw [if_neg (not_not.mpr h0)]

theorem store_origin_updates_or_appends_witness :
    (_storeOrigin exConfig exCollab exPickOf (exState 0) exStore 1)._origins = [0, 1] ∧
      (_storeOrigin exConfig exCollab exPickOf (exState 0) exStore 1).content 0 = exImported ∧
      List.count 1 (_storeOrigin exConfig exCollab exPickOf (exState 0) exStore 1)._newOrigins
        = 1 := by
  have hid : (exStore.content 1).id = 0 := rfl
  have hnone := (store_origin_updates_or_appends exConfig exCollab exPickOf (exState 0)
    exStore 1).2.2.2 hid
  obtain ⟨h1, _, _, h4, h5⟩ := (store_origin_updates_or_appends exConfig exCollab exPickOf
    (exState 0) exStore 1).2.2.1 hnone
  exact ⟨h1, (h4 0 (by decide)).2, (h5 List.nodup_nil).2⟩

/-! ## The association and nucleation stage of `_process` -/

/-- The tail of `_process` does not depend on the threshold
`minScoreBypassNucleator`. -/
theorem processTail_bypass {σ ρ : Type} (st : Stages σ ρ) (cfg : Config) (v : ℚ) (pick : Pick)
    (s : σ) :
    processTail st { cfg with minScoreBypassNucleator := v } pick s
      = processTail st cfg pick s := by
  unfold processTail
  by_cases h1 : (associateBlock st pick s).1 = true
  · rw [if_pos h1, if_pos h1]
  · rw [if_neg h1, if_neg h1]
    cases ho : (associateBlock st pick s).2.1 with
    | none =>
      simp only [bypassNucleator, Bool.false_eq_true, if_false, Option.isSome_none]
      rfl
    | some o =>
      simp only [Option.isSome_some, if_true]
      by_cases h2 : bypassNucleator st { cfg with minScoreBypassNucleator := v } (some o)
          (associateBlock st pick s).2.2 = true
      · rw [if_pos h2]
        by_cases h3 : bypassNucleator st cfg (some o) (associateBlock st pick s).2.2 = true
        · rw [if_pos h3]
        · rw [if_neg h3]
      · rw [if_neg h2]
        by_cases h3 : bypassNucleator st cfg (some o) (associateBlock st pick s).2.2 = true
        · rw [if_pos h3]
        · rw [if_neg h3]

/-- Once an association has produced an origin that passes the filter, the
tail of `_process` returns true behind `_store`, without a call of
`_tryNucleate`. -/
theorem processTail_associated {σ ρ : Type} (st : Stages σ ρ) (cfg : Config) (pick : Pick)
    (s s1 : σ) (origin : ρ) (ha : st._tryAssociate pick s = (some origin, s1))
    (himp : st.imported origin s1 = false)
    (hf : (st._passedFilter origin (st._rework origin s1)).1 = true) :
    processTail st cfg pick s
      = (true, st._store origin (st._passedFilter origin (st._rework origin s1)).2) := by
  have hb : associateBlock st pick s
      = (false, some origin,
          st._store origin (st._passedFilter origin (st._rework origin s1)).2) := by
    unfold associateBlock
    rw [ha]
    simp only [himp, Bool.false_eq_true, if_false, hf, if_true]
  unfold processTail
  rw [hb]
  simp only [Bool.false_eq_true, if_false, Option.isSome_some, if_true]
  split_ifs <;> rfl

theorem process_bypass (cfg : Config) (ext : Collaborators) (v : ℚ)
    (tail : Config → Pick → State → Bool × State)
    (htail : tail { cfg with minScoreBypassNucleator := v } = tail cfg)
    (pick : Pick) (s : State) :
    _process { cfg with minScoreBypassNucleator := v }
        { ext with locate := tail { cfg with minScoreBypassNucleator := v } } pick s
      = _process cfg { ext with locate := tail cfg } pick s := by
  rw [htail]
  rfl

/-- C36: the value of `minScoreBypassNucleator` has no influence on
`_process`: two runs on the same pick and state whose configurations differ
in this value only return the same status and leave the same state, whatever
the functions called from `_tryAssociate` on do. Once `_tryAssociate` has
produced an origin that is not imported and passes the filter, `_process`
returns true behind `_store` without a call of `_tryNucleate`, whatever the
score of the origin. -/
theorem bypass_threshold_has_no_effect {ρ : Type} (cfg : Config) (ext : Collaborators)
    (st : Stages State ρ) (v : ℚ) (pick : Pick) (s : State) :
    (_process { cfg with minScoreBypassNucleator := v }
        { ext with locate := processTail st { cfg with minScoreBypassNucleator := v } } pick s
      = _process cfg { ext with locate := processTail st cfg } pick s) ∧
    (∀ (p : Pick) (s0 s1 : State) (origin : ρ),
      st._tryAssociate p s0 = (some origin, s1) →
      st.imported origin s1 = false →
      (st._passedFilter origin (st._rework origin s1)).1 = true →
      processTail st cfg p s0
        = (true, st._store origin (st._passedFilter origin (st._rework origin s1)).2)) := by
  constructor
  · apply process_bypass cfg ext v (fun c => processTail st c)
    funext p s0
    exact processTail_bypass st cfg v p s0
  · intro p s0 s1 origin ha himp hf
    exact processTail_associated st cfg p s0 s1 origin ha himp hf

theorem bypass_threshold_has_no_effect_witness :
    processTail exStages { exConfig with minScoreBypassNucleator := 100 }
        (exPick "a" 0 10 5 PickMode.Automatic) (exState 0)
      = (true, { exState 0 with _now := 1 }) :=
  (bypass_threshold_has_no_effect { exConfig with minScoreBypassNucleator := 100 } exCollab
    exStages 0 (exPick "a" 0 10 5 PickMode.Automatic) (exState 0)).2
    (exPick "a" 0 10 5 PickMode.Automatic) (exState 0) (exState 0) 7 rfl rfl rfl

/-! ## Rounding to a double -/

theorem roundHalfEven_of_near (x : ℚ) (m : Int) (h1 : (m : ℚ) - 1 / 2 < x)
    (h2 : x < (m : ℚ) + 1 / 2) : roundHalfEven x = m := by
  unfold roundHalfEven
  by_cases hx : (m : ℚ) ≤ x
  · have hf : ⌊x⌋ = m := by
      rw [Int.floor_eq_iff]
      constructor
      · exact hx
      · linarith
    rw [hf]
    have : x - (m : ℚ) < 1 / 2 := by linarith
    rw [if_pos this]
  · have hx' : x < (m : ℚ) := not_le.mp hx
    have hf : ⌊x⌋ = m - 1 := by
      rw [Int.floor_eq_iff]
      push_cast
      constructor
      · linarith
      · linarith
    rw [hf]
    push_cast
    have h3 : ¬ x - ((m : ℚ) - 1) < 1 / 2 := by
      intro h
      linarith
    have h4 : x - ((m : ℚ) - 1) > 1 / 2 := by linarith
    rw [if_neg h3, if_pos h4]
    ring

theorem roundHalfEven_tie (x : ℚ) (m : Int) (h : x = (m : ℚ) + 1 / 2) :
    roundHalfEven x = if m % 2 = 0 then m else m + 1 := by
  unfold roundHalfEven
  have hf : ⌊x⌋ = m := by
    rw [Int.floor_eq_iff]
    constructor
    · linarith
    · linarith
  rw [hf]
  have h1 : ¬ x - (m : ℚ) < 1 / 2 := by
    rw [h]
    intro hh
    linarith
  have h2 : ¬ x - (m : ℚ) > 1 / 2 := by
    rw [h]
    intro hh
    linarith
  rw [if_neg h1, if_neg h2]

theorem ulpExponent_eq (x : ℚ) (e : Int) (hlo : (2 : ℚ) ^ (e + 52) ≤ |x|)
    (hhi : |x| < (2 : ℚ) ^ (e + 53)) (he : -1074 ≤ e) : ulpExponent x = e := by
  have hpos : (0 : ℚ) < |x| := lt_of_lt_of_le (by positivity) hlo
  have h1 : e + 52 ≤ Int.log 2 |x| := (Int.zpow_le_iff_le_log (by norm_num) hpos).mp hlo
  have h2 : Int.log 2 |x| < e + 53 := (Int.lt_zpow_iff_log_lt (by norm_num) hpos).mp hhi
  unfold ulpExponent
  have : Int.log 2 |x| = e + 52 := by omega
  rw [this]
  omega

theorem roundDouble_zero : roundDouble 0 = 0 := by
  unfold roundDouble
  simp [roundHalfEven]

/-- A real that is a multiple of the spacing at its place is a double. -/
theorem roundDouble_exact (x : ℚ) (e m : Int) (hlo : (2 : ℚ) ^ (e + 52) ≤ |x|)
    (hhi : |x| < (2 : ℚ) ^ (e + 53)) (he : -1074 ≤ e) (hm : x = (m : ℚ) * (2 : ℚ) ^ e) :
    roundDouble x = x := by
  unfold roundDouble
  rw [ulpExponent_eq x e hlo hhi he]
  have hp : (0 : ℚ) < (2 : ℚ) ^ e := by positivity
  have hq : x / (2 : ℚ) ^ e = (m : ℚ) := by
    rw [hm]
    field_simp
  rw [hq, roundHalfEven_of_near (m : ℚ) m (by linarith) (by linarith), hm]

/-- The value of `roundDouble` at a real that is not half way between two
doubles. -/
theorem roundDouble_near (x : ℚ) (e m : Int) (hlo : (2 : ℚ) ^ (e + 52) ≤ |x|)
    (hhi : |x| < (2 : ℚ) ^ (e + 53)) (he : -1074 ≤ e)
    (h1 : ((m : ℚ) - 1 / 2) * (2 : ℚ) ^ e < x) (h2 : x < ((m : ℚ) + 1 / 2) * (2 : ℚ) ^ e) :
    roundDouble x = (m : ℚ) * (2 : ℚ) ^ e := by
  unfold roundDouble
  rw [ulpExponent_eq x e hlo hhi he]
  have hp : (0 : ℚ) < (2 : ℚ) ^ e := by positivity
  have h1' : (m : ℚ) - 1 / 2 < x / (2 : ℚ) ^ e := by
    rw [lt_div_iff₀ hp]
    exact h1
  have h2' : x / (2 : ℚ) ^ e < (m : ℚ) + 1 / 2 := by
    rw [div_lt_iff₀ hp]
    exact h2
  rw [roundHalfEven_of_near _ m h1' h2']

/-- The value of `roundDouble` at a real half way between two doubles. -/
theorem roundDouble_tie (x : ℚ) (e m : Int) (hlo : (2 : ℚ) ^ (e + 52) ≤ |x|)
    (hhi : |x| < (2 : ℚ) ^ (e + 53)) (he : -1074 ≤ e)
    (h : x = ((m : ℚ) + 1 / 2) * (2 : ℚ) ^ e) :
    roundDouble x = ((if m % 2 = 0 then m else m + 1 : Int) : ℚ) * (2 : ℚ) ^ e := by
  unfold roundDouble
  rw [ulpExponent_eq x e hlo hhi he]
  have hp : (0 : ℚ) < (2 : ℚ) ^ e := by positivity
  have hq : x / (2 : ℚ) ^ e = (m : ℚ) + 1 / 2 := by
    rw [h]
    field_simp
    ring
  rw [roundHalfEven_tie _ m hq]

theorem roundDouble_nonpos (x : ℚ) (h : x ≤ 0) : roundDouble x ≤ 0 := by
  unfold roundDouble
  have hp : (0 : ℚ) < (2 : ℚ) ^ ulpExponent x := by positivity
  have hq : x / (2 : ℚ) ^ ulpExponent x ≤ 0 := div_nonpos_of_nonpos_of_nonneg h (le_of_lt hp)
  have hr : roundHalfEven (x / (2 : ℚ) ^ ulpExponent x) ≤ 0 := by
    unfold roundHalfEven
    have hfl : ⌊x / (2 : ℚ) ^ ulpExponent x⌋ ≤ 0 := by
      have := Int.floor_le (x / (2 : ℚ) ^ ulpExponent x)
      have h0 : ((⌊x / (2 : ℚ) ^ ulpExponent x⌋ : Int) : ℚ) ≤ 0 := le_trans this hq
      exact_mod_cast h0
    split_ifs with h1 h2 h3
    · exact hfl
    · by_contra hc
      have h0 : ⌊x / (2 : ℚ) ^ ulpExponent x⌋ = 0 := by omega
      rw [h0] at h2
      simp only [Int.cast_zero, sub_zero] at h2
      linarith
    · exact hfl
    · by_contra hc
      have h0 : ⌊x / (2 : ℚ) ^ ulpExponent x⌋ = 0 := by omega
      rw [h0] at h3
      simp at h3
  have : ((roundHalfEven (x / (2 : ℚ) ^ ulpExponent x) : Int) : ℚ) ≤ 0 := by exact_mod_cast hr
  exact mul_nonpos_of_nonpos_of_nonneg this (le_of_lt hp)

/-- A natural number below `2^53` is a double. -/
theorem roundDouble_natCast (n : Nat) (h2 : n < 2 ^ 53) : roundDouble (n : ℚ) = (n : ℚ) := by
  by_cases h0 : n = 0
  · subst h0
    simpa using roundDouble_zero
  have hlog : Nat.log 2 n < 53 := by
    apply Nat.log_lt_of_lt_pow h0
    exact h2
  have hlo : 2 ^ Nat.log 2 n ≤ n := Nat.pow_log_le_self 2 h0
  have hhi : n < 2 ^ (Nat.log 2 n + 1) := Nat.lt_pow_succ_log_self (by norm_num) n
  have hk : Nat.log 2 n + (52 - Nat.log 2 n) = 52 := by omega
  apply roundDouble_exact (n : ℚ) ((Nat.log 2 n : Int) - 52) ((n * 2 ^ (52 - Nat.log 2 n) : Nat) : Int)
  · have e : ((Nat.log 2 n : Int) - 52 + 52) = ((Nat.log 2 n : Nat) : Int) := by omega
    rw [e, zpow_natCast, abs_of_nonneg (by positivity)]
    exact_mod_cast hlo
  · have e : ((Nat.log 2 n : Int) - 52 + 53) = ((Nat.log 2 n + 1 : Nat) : Int) := by
      push_cast
      omega
    rw [e, zpow_natCast, abs_of_nonneg (by positivity)]
    exact_mod_cast hhi
  · omega
  · have e : ((Nat.log 2 n : Int) - 52) = -(((52 - Nat.log 2 n : Nat)) : Int) := by omega
    rw [e, zpow_neg, zpow_natCast]
    push_cast
    field_simp

/-! ## Trimming of residuals -/

theorem take_get?_some {α : Type} (l : List α) (n j : Nat) (a : α) :
    (l.take n).get? j = some a ↔ j < n ∧ l.get? j = some a := by
  induction l generalizing n j with
  | nil => simp
  | cons b rest ih =>
    cases n with
    | zero => simp
    | succ n =>
      cases j with
      | zero => simp
      | succ j =>
        simp only [List.take_succ_cons, List.get?_cons_succ, Nat.add_lt_add_iff_right]
        exact ih n j

theorem largestResidualStep_spec (cfg : Config) (acc : ℚ × Option Nat) (i : Nat) (arr : Arrival) :
    acc.1 ≤ (largestResidualStep cfg acc i arr).1 ∧
      (arr.excluded = ExcludeReason.NotExcluded →
        |normalizedResidual cfg arr| ≤ (largestResidualStep cfg acc i arr).1) ∧
      (largestResidualStep cfg acc i arr = acc ∨
        (arr.excluded = ExcludeReason.NotExcluded ∧
          largestResidualStep cfg acc i arr
            = (|normalizedResidual cfg arr|, some i))) := by
  unfold largestResidualStep
  by_cases h1 : arr.excluded ≠ ExcludeReason.NotExcluded
  · rw [if_pos h1]
    exact ⟨le_refl _, fun h => absurd h h1, Or.inl rfl⟩
  · rw [if_neg h1]
    have h1' : arr.excluded = ExcludeReason.NotExcluded := not_not.mp h1
    by_cases h2 : |normalizedResidual cfg arr| > acc.1
    · rw [if_pos h2]
      exact ⟨le_of_lt h2, fun _ => le_refl _, Or.inr ⟨h1', rfl⟩⟩
    · rw [if_neg h2]
      exact ⟨le_refl _, fun _ => not_lt.mp h2, Or.inl rfl⟩

theorem largestResidualScan_spec (cfg : Config) (l : List Arrival) :
    ∀ (i0 : Nat) (acc : ℚ × Option Nat),
      acc.1 ≤ (largestResidualScan cfg l i0 acc).1 ∧
      (∀ (j : Nat) (a : Arrival), l.get? j = some a →
        a.excluded = ExcludeReason.NotExcluded →
        |normalizedResidual cfg a| ≤ (largestResidualScan cfg l i0 acc).1) ∧
      (largestResidualScan cfg l i0 acc = acc ∨
        ∃ (j : Nat) (a : Arrival), l.get? j = some a ∧
          a.excluded = ExcludeReason.NotExcluded ∧
          largestResidualScan cfg l i0 acc
            = (|normalizedResidual cfg a|, some (i0 + j))) := by
  induction l with
  | nil =>
    intro i0 acc
    refine ⟨le_refl _, ?_, Or.inl rfl⟩
    intro j a h
    simp at h
  | cons arr rest ih =>
    intro i0 acc
    obtain ⟨s1, s2, s3⟩ := largestResidualStep_spec cfg acc i0 arr
    obtain ⟨r1, r2, r3⟩ := ih (i0 + 1) (largestResidualStep cfg acc i0 arr)
    have e : largestResidualScan cfg (arr :: rest) i0 acc
        = largestResidualScan cfg rest (i0 + 1) (largestResidualStep cfg acc i0 arr) := rfl
    rw [e]
    refine ⟨le_trans s1 r1, ?_, ?_⟩
    · intro j a hj hex
      cases j with
      | zero =>
        simp only [List.get?_cons_zero, Option.some.injEq] at hj
        subst hj
        exact le_trans (s2 hex) r1
      | succ j =>
        simp only [List.get?_cons_succ] at hj
        exact r2 j a hj hex
    · rcases r3 with r3 | ⟨j, a, hj, hex, hr⟩
      · rcases s3 with s3 | ⟨hex, s3⟩
        · exact Or.inl (by rw [r3, s3])
        · exact Or.inr ⟨0, arr, rfl, hex, by rw [r3, s3]; rfl⟩
      · refine Or.inr ⟨j + 1, a, hj, hex, ?_⟩
        rw [hr]
        have : i0 + 1 + j = i0 + (j + 1) := by omega
        rw [this]

theorem smallestResidualStep_spec (cfg : Config) (acc : ℚ × Option Nat) (i : Nat)
    (arr : Arrival) :
    (smallestResidualStep cfg acc i arr).1 ≤ acc.1 ∧
      (arr.excluded = ExcludeReason.LargeResidual →
        (smallestResidualStep cfg acc i arr).1 ≤ |normalizedResidual cfg arr|) ∧
      (smallestResidualStep cfg acc i arr = acc ∨
        (arr.excluded = ExcludeReason.LargeResidual ∧
          smallestResidualStep cfg acc i arr
            = (|normalizedResidual cfg arr|, some i))) := by
  unfold smallestResidualStep
  by_cases h1 : arr.excluded = ExcludeReason.LargeResidual
  · rw [if_pos h1]
    by_cases h2 : |normalizedResidual cfg arr| < acc.1
    · rw [if_pos h2]
      exact ⟨le_of_lt h2, fun _ => le_refl _, Or.inr ⟨h1, rfl⟩⟩
    · rw [if_neg h2]
      exact ⟨le_refl _, fun _ => not_lt.mp h2, Or.inl rfl⟩
  · rw [if_neg h1]
    exact ⟨le_refl _, fun h => absurd h h1, Or.inl rfl⟩

theorem smallestResidualScan_spec (cfg : Config) (l : List Arrival) :
    ∀ (i0 : Nat) (acc : ℚ × Option Nat),
      (smallestResidualScan cfg l i0 acc).1 ≤ acc.1 ∧
      (∀ (j : Nat) (a : Arrival), l.get? j = some a →
        a.excluded = ExcludeReason.LargeResidual →
        (smallestResidualScan cfg l i0 acc).1 ≤ |normalizedResidual cfg a|) ∧
      (smallestResidualScan cfg l i0 acc = acc ∨
        ∃ (j : Nat) (a : Arrival), l.get? j = some a ∧
          a.excluded = ExcludeReason.LargeResidual ∧
          smallestResidualScan cfg l i0 acc
            = (|normalizedResidual cfg a|, some (i0 + j))) := by
  induction l with
  | nil =>
    intro i0 acc
    refine ⟨le_refl _, ?_, Or.inl rfl⟩
    intro j a h
    simp at h
  | cons arr rest ih =>
    intro i0 acc
    obtain ⟨s1, s2, s3⟩ := smallestResidualStep_spec cfg acc i0 arr
    obtain ⟨r1, r2, r3⟩ := ih (i0 + 1) (smallestResidualStep cfg acc i0 arr)
    have e : smallestResidualScan cfg (arr :: rest) i0 acc
        = smallestResidualScan cfg rest (i0 + 1) (smallestResidualStep cfg acc i0 arr) := rfl
    rw [e]
    refine ⟨le_trans r1 s1, ?_, ?_⟩
    · intro j a hj hex
      cases j with
      | zero =>
        simp only [List.get?_cons_zero, Option.some.injEq] at hj
        subst hj
        exact le_trans r1 (s2 hex)
      | succ j =>
        simp only [List.get?_cons_succ] at hj
        exact r2 j a hj hex
    · rcases r3 with r3 | ⟨j, a, hj, hex, hr⟩
      · rcases s3 with s3 | ⟨hex, s3⟩
        · exact Or.inl (by rw [r3, s3])
        · exact Or.inr ⟨0, arr, rfl, hex, by rw [r3, s3]; rfl⟩
      · refine Or.inr ⟨j + 1, a, hj, hex, ?_⟩
        rw [hr]
        have : i0 + 1 + j = i0 + (j + 1) := by omega
        rw [this]

/-- What the scan of the first loop has found. -/
theorem largestResidual_some (cfg : Config) (n : Nat) (origin : Origin) (index : Nat)
    (h : (largestResidual cfg n origin).2 = some index) :
    ∃ arr, index < n ∧ origin.arrivals.get? index = some arr ∧
      arr.excluded = ExcludeReason.NotExcluded ∧
      (largestResidual cfg n origin).1 = |normalizedResidual cfg arr| ∧
      ∀ (j : Nat) (a : Arrival), j < n → origin.arrivals.get? j = some a →
        a.excluded = ExcludeReason.NotExcluded →
        |normalizedResidual cfg a| ≤ |normalizedResidual cfg arr| := by
  obtain ⟨_, r2, r3⟩ := largestResidualScan_spec cfg (origin.arrivals.take n) 0 (0, none)
  unfold largestResidual at h ⊢
  rcases r3 with r3 | ⟨j, a, hj, hex, hr⟩
  · rw [r3] at h
    cases h
  · rw [hr] at h
    simp only [Nat.zero_add, Option.some.injEq] at h
    subst h
    obtain ⟨hjn, hja⟩ := (take_get?_some _ _ _ _).mp hj
    refine ⟨a, hjn, hja, hex, by rw [hr], ?_⟩
    intro k b hk hkb hbex
    have := r2 k b ((take_get?_some _ _ _ _).mpr ⟨hk, hkb⟩) hbex
    rw [hr] at this
    exact this

/-- What the scan of the second loop has found. -/
theorem smallestResidual_some (cfg : Config) (n : Nat) (origin : Origin) (index : Nat)
    (h : (smallestResidual cfg n origin).2 = some index) :
    ∃ arr, index < n ∧ origin.arrivals.get? index = some arr ∧
      arr.excluded = ExcludeReason.LargeResidual ∧
      (smallestResidual cfg n origin).1 = |normalizedResidual cfg arr| ∧
      ∀ (j : Nat) (a : Arrival), j < n → origin.arrivals.get? j = some a →
        a.excluded = ExcludeReason.LargeResidual →
        |normalizedResidual cfg arr| ≤ |normalizedResidual cfg a| := by
  obtain ⟨_, r2, r3⟩ := smallestResidualScan_spec cfg (origin.arrivals.take n) 0 (1000, none)
  unfold smallestResidual at h ⊢
  rcases r3 with r3 | ⟨j, a, hj, hex, hr⟩
  · rw [r3] at h
    cases h
  · rw [hr] at h
    simp only [Nat.zero_add, Option.some.injEq] at h
    subst h
    obtain ⟨hjn, hja⟩ := (take_get?_some _ _ _ _).mp hj
    refine ⟨a, hjn, hja, hex, by rw [hr], ?_⟩
    intro k b hk hkb hbex
    have := r2 k b ((take_get?_some _ _ _ _).mpr ⟨hk, hkb⟩) hbex
    rw [hr] at this
    exact this

/-- The scan of the second loop finds an arrival as soon as one of the
`LargeResidual` arrivals has a normalised residual of at most 1. -/
theorem smallestResidual_finds (cfg : Config) (n : Nat) (origin : Origin) (index : Nat)
    (arr : Arrival) (hn : index < n) (hget : origin.arrivals.get? index = some arr)
    (hex : arr.excluded = ExcludeReason.LargeResidual)
    (hle : |normalizedResidual cfg arr| ≤ 1) :
    (smallestResidual cfg n origin).1 ≤ 1 ∧ ∃ k, (smallestResidual cfg n origin).2 = some k := by
  obtain ⟨_, r2, r3⟩ := smallestResidualScan_spec cfg (origin.arrivals.take n) 0 (1000, none)
  have h1 := r2 index arr ((take_get?_some _ _ _ _).mpr ⟨hn, hget⟩) hex
  unfold smallestResidual
  refine ⟨le_trans h1 hle, ?_⟩
  rcases r3 with r3 | ⟨j, a, _, _, hr⟩
  · rw [r3] at h1
    have : (1000 : ℚ) ≤ 1 := le_trans h1 hle
    norm_num at this
  · exact ⟨0 + j, by rw [hr]⟩

theorem excludeStep_some (cfg : Config) (ext : Collaborators) (depthMode : Option ℚ) (n : Nat)
    (origin next : Origin) (h : excludeStep cfg ext depthMode n origin = some next) :
    cfg.minPhaseCount ≤ definingPhaseCount origin ∧
      ∃ index relo, (largestResidual cfg n origin).2 = some index ∧
        1 ≤ (largestResidual cfg n origin).1 ∧
        ext.relocate depthMode
          { origin with
            arrivals := setExcluded origin.arrivals index ExcludeReason.LargeResidual }
            = some relo ∧
        next = origin.updateFrom relo := by
  unfold excludeStep at h
  by_cases hc : definingPhaseCount origin ≥ cfg.minPhaseCount
  · rw [if_pos hc] at h
    cases hi : (largestResidual cfg n origin).2 with
    | none =>
      rw [hi] at h
      cases h
    | some index =>
      rw [hi, Option.some_bind] at h
      by_cases hm : (largestResidual cfg n origin).1 < 1
      · rw [if_pos hm] at h
        cases h
      · rw [if_neg hm] at h
        cases hr : ext.relocate depthMode
            { origin with
              arrivals := setExcluded origin.arrivals index ExcludeReason.LargeResidual } with
        | none =>
          rw [hr] at h
          cases h
        | some relo =>
          rw [hr] at h
          simp only [Option.map_some', Option.some.injEq] at h
          exact ⟨hc, index, relo, rfl, not_lt.mp hm, hr, h.symm⟩
  · rw [if_neg hc] at h
    cases h

theorem includeStep_some (cfg : Config) (ext : Collaborators) (depthMode : Option ℚ) (n : Nat)
    (origin next : Origin) (h : includeStep cfg ext depthMode n origin = some next) :
    ∃ index relo, (smallestResidual cfg n origin).2 = some index ∧
      (smallestResidual cfg n origin).1 ≤ 1 ∧
      ext.relocate depthMode
        { origin with
          arrivals := setExcluded origin.arrivals index ExcludeReason.NotExcluded }
          = some relo ∧
      next = origin.updateFrom relo := by
  unfold includeStep at h
  cases hi : (smallestResidual cfg n origin).2 with
  | none =>
    rw [hi] at h
    cases h
  | some index =>
    rw [hi, Option.some_bind] at h
    by_cases hm : (smallestResidual cfg n origin).1 > 1
    · rw [if_pos hm] at h
      cases h
    · rw [if_neg hm] at h
      cases hr : ext.relocate depthMode
          { origin with
            arrivals := setExcluded origin.arrivals index ExcludeReason.NotExcluded } with
      | none =>
        rw [hr] at h
        cases h
      | some relo =>
        rw [hr] at h
        simp only [Option.map_some', Option.some.injEq] at h
        exact ⟨index, relo, rfl, not_lt.mp hm, hr, h.symm⟩

theorem residualThreshold_exConfigTrim : residualThreshold exConfigTrim = 2 := by
  have h1 : roundDouble (1 / 2 * (3 : ℚ)) = 3 / 2 := by
    have e : (1 / 2 * (3 : ℚ)) = 3 / 2 := by norm_num
    rw [e]
    exact roundDouble_exact (3 / 2) (-52) 6755399441055744 (by norm_num [abs_of_pos])
      (by norm_num [abs_of_pos]) (by norm_num) (by norm_num)
  have h2 : roundDouble ((1 : ℚ) + 3 / 2) = 5 / 2 := by
    have e : ((1 : ℚ) + 3 / 2) = 5 / 2 := by norm_num
    rw [e]
    exact roundDouble_exact (5 / 2) (-51) 5629499534213120 (by norm_num [abs_of_pos])
      (by norm_num [abs_of_pos]) (by norm_num) (by norm_num)
  have h3 : roundDouble (5 / 2 * double_0_8) = 2 := by
    have := roundDouble_near (5 / 2 * double_0_8) (-51) 4503599627370496
      (by norm_num [double_0_8, abs_of_pos]) (by norm_num [double_0_8, abs_of_pos])
      (by norm_num) (by norm_num [double_0_8]) (by norm_num [double_0_8])
    rw [this]
    norm_num
  show roundDouble (roundDouble ((1 : ℚ) + roundDouble (1 / 2 * 3)) * double_0_8) = 2
  rw [h1, h2, h3]

theorem normalizedResidual_exConfigTrim (pick : PickID) (excluded : ExcludeReason) :
    normalizedResidual exConfigTrim (exResidualArrival pick 2 excluded) = 1 := by
  have h1 : roundDouble ((2 : ℚ) / 2) = 1 := by
    have e : ((2 : ℚ) / 2) = 1 := by norm_num
    rw [e]
    exact roundDouble_exact 1 (-52) 4503599627370496 (by norm_num [abs_of_pos])
      (by norm_num [abs_of_pos]) (by norm_num) (by norm_num)
  unfold normalizedResidual
  rw [residualThreshold_exConfigTrim]
  exact h1

theorem includeStep_exOriginTrimmed :
    includeStep exConfigTrim exCollab none 1 exOriginTrimmed
      = some (exOrigin 1 [exResidualArrival "a" 2 ExcludeReason.NotExcluded]) := by
  have hs : smallestResidual exConfigTrim 1 exOriginTrimmed = (1, some 0) := by
    simp [smallestResidual, smallestResidualScan, smallestResidualStep,
      normalizedResidual_exConfigTrim, exOriginTrimmed, exOrigin]
    simp [exResidualArrival, exArrival]
  unfold includeStep
  rw [hs]
  simp [exCollab, setExcluded, Origin.updateFrom, exOriginTrimmed, exOrigin, exResidualArrival,
    exArrival]

/-- C31 (counterexample): with `goodRMS` = 1 and `maxResidualUse` = 3 the
threshold is `tau` = 2, exactly also in doubles; an arrival that is excluded
as `LargeResidual` with a residual of exactly 2 s has the normalised residual
1, it is included again by the second loop of `_trimResiduals`, and the call
returns true. -/
theorem trim_reincludes_at_threshold :
    residualThreshold exConfigTrim = 2 ∧
      normalizedResidual exConfigTrim (exResidualArrival "a" 2 ExcludeReason.LargeResidual) = 1 ∧
      _trimResiduals exConfigTrim exCollab none 3 exOriginTrimmed
        = some (true, exOrigin 1 [exResidualArrival "a" 2 ExcludeReason.NotExcluded]) := by
  refine ⟨residualThreshold_exConfigTrim, normalizedResidual_exConfigTrim _ _, ?_⟩
  have hx : excludeStep exConfigTrim exCollab none 1 exOriginTrimmed = none := by
    simp [excludeStep, definingPhaseCount, exOriginTrimmed, exOrigin, exResidualArrival, exArrival,
      exConfigTrim, exConfig]
  have hs2 : smallestResidual exConfigTrim 1
      (exOrigin 1 [exResidualArrival "a" 2 ExcludeReason.NotExcluded]) = (1000, none) := by
    simp [smallestResidual, smallestResidualScan, smallestResidualStep, exOrigin,
      exResidualArrival, exArrival]
  have hi2 : includeStep exConfigTrim exCollab none 1
      (exOrigin 1 [exResidualArrival "a" 2 ExcludeReason.NotExcluded]) = none := by
    unfold includeStep
    rw [hs2]
    rfl
  have hlen : exOriginTrimmed.arrivals.length = 1 := rfl
  unfold _trimResiduals
  rw [hlen]
  simp only [excludeLoop, hx, Option.some_bind, includeLoop, includeStep_exOriginTrimmed, hi2,
    Option.map_some']
  simp

/-- C31 (amended): with `tau = 0.8*(goodRMS + 0.5*maxResidualUse)` and the
normalised residual `residual/tau`, both as the doubles that the code
computes, a pass of the first loop of `_trimResiduals` excludes an arrival
only while `definingPhaseCount >= minPhaseCount`; the arrival is one that is
not excluded, has the largest absolute normalised residual of these, its
value is at least 1, and it is marked `LargeResidual` in the origin that is
relocated. A pass of the second loop includes a `LargeResidual` arrival with
the smallest absolute normalised residual only while that value is at most
1; and as long as an arrival is excluded as `LargeResidual` with a value of
at most 1, the value 1 included, and the relocation succeeds, the pass does
include an arrival. -/
theorem trim_residuals_steps (cfg : Config) (ext : Collaborators) (depthMode : Option ℚ)
    (arrivalCount : Nat) (origin : Origin) :
    (∀ next, excludeStep cfg ext depthMode arrivalCount origin = some next →
      cfg.minPhaseCount ≤ definingPhaseCount origin ∧
      ∃ index arr relo, index < arrivalCount ∧ origin.arrivals.get? index = some arr ∧
        arr.excluded = ExcludeReason.NotExcluded ∧
        1 ≤ |normalizedResidual cfg arr| ∧
        (∀ (j : Nat) (a : Arrival), j < arrivalCount → origin.arrivals.get? j = some a →
          a.excluded = ExcludeReason.NotExcluded →
          |normalizedResidual cfg a| ≤ |normalizedResidual cfg arr|) ∧
        ext.relocate depthMode
          { origin with
            arrivals := setExcluded origin.arrivals index ExcludeReason.LargeResidual }
            = some relo ∧
        next = origin.updateFrom relo) ∧
    (∀ next, includeStep cfg ext depthMode arrivalCount origin = some next →
      ∃ index arr relo, index < arrivalCount ∧ origin.arrivals.get? index = some arr ∧
        arr.excluded = ExcludeReason.LargeResidual ∧
        |normalizedResidual cfg arr| ≤ 1 ∧
        (∀ (j : Nat) (a : Arrival), j < arrivalCount → origin.arrivals.get? j = some a →
          a.excluded = ExcludeReason.LargeResidual →
          |normalizedResidual cfg arr| ≤ |normalizedResidual cfg a|) ∧
        ext.relocate depthMode
          { origin with
            arrivals := setExcluded origin.arrivals index ExcludeReason.NotExcluded }
            = some relo ∧
        next = origin.updateFrom relo) ∧
    (∀ (index : Nat) (arr : Arrival), index < arrivalCount →
      origin.arrivals.get? index = some arr →
      arr.excluded = ExcludeReason.LargeResidual →
      |normalizedResidual cfg arr| ≤ 1 →
      (∀ o, ext.relocate depthMode o ≠ none) →
      ∃ next, includeStep cfg ext depthMode arrivalCount origin = some next) := by
  refine ⟨?_, ?_, ?_⟩
  · intro next h
    obtain ⟨hc, index, relo, hi, hm, hr, hn⟩ :=
      excludeStep_some cfg ext depthMode arrivalCount origin next h
    obtain ⟨arr, h1, h2, h3, h4, h5⟩ := largestResidual_some cfg arrivalCount origin index hi
    exact ⟨hc, index, arr, relo, h1, h2, h3, by rw [← h4]; exact hm, h5, hr, hn⟩
  · intro next h
    obtain ⟨index, relo, hi, hm, hr, hn⟩ :=
      includeStep_some cfg ext depthMode arrivalCount origin next h
    obtain ⟨arr, h1, h2, h3, h4, h5⟩ := smallestResidual_some cfg arrivalCount origin index hi
    exact ⟨index, arr, relo, h1, h2, h3, by rw [← h4]; exact hm, h5, hr, hn⟩
  · intro index arr hn hget hex hle hrel
    obtain ⟨h1, k, hk⟩ := smallestResidual_finds cfg arrivalCount origin index arr hn hget hex hle
    unfold includeStep
    rw [hk, Option.some_bind, if_neg (not_lt.mpr h1)]
    cases hr : ext.relocate depthMode
        { origin with arrivals := setExcluded origin.arrivals k ExcludeReason.NotExcluded } with
    | none => exact absurd hr (hrel _)
    | some relo => exact ⟨origin.updateFrom relo, rfl⟩

theorem trim_residuals_steps_witness :
    includeStep exConfigTrim exCollab none 1 exOriginTrimmed
      = some (exOrigin 1 [exResidualArrival "a" 2 ExcludeReason.NotExcluded]) := by
  obtain ⟨next, hnext⟩ := (trim_residuals_steps exConfigTrim exCollab none 1 exOriginTrimmed).2.2 0
    (exResidualArrival "a" 2 ExcludeReason.LargeResidual) (by decide) rfl rfl
    (by rw [normalizedResidual_exConfigTrim]; norm_num)
    (by intro o; simp [exCollab])
  obtain ⟨index, arr, relo, h1, h2, _, _, _, h3, h4⟩ :=
    (trim_residuals_steps exConfigTrim exCollab none 1 exOriginTrimmed).2.1 next hnext
  have hi0 : index = 0 := by omega
  subst hi0
  have hrelo : relo = { exOriginTrimmed with
      arrivals := setExcluded exOriginTrimmed.arrivals 0 ExcludeReason.NotExcluded } := by
    simp only [exCollab, Option.some.injEq] at h3
    exact h3.symm
  rw [hnext, h4, hrelo]
  rfl

/-! ## Termination of the loops of `_trimResiduals` -/

theorem exclusionCount_congr (p : ExcludeReason → Bool) (l1 l2 : List Arrival)
    (h : l1.map (fun a => a.excluded) = l2.map (fun a => a.excluded)) :
    (l1.filter (fun a => p a.excluded)).length = (l2.filter (fun a => p a.excluded)).length := by
  have e : ∀ l : List Arrival, (l.filter (fun a => p a.excluded)).length
      = ((l.map (fun a => a.excluded)).filter p).length := by
    intro l
    induction l with
    | nil => rfl
    | cons a rest ih =>
      simp only [List.filter_cons, List.map_cons]
      by_cases hp : p a.excluded = true
      · simp only [hp, if_true, List.length_cons, ih]
      · simp [hp, ih]
  rw [e l1, e l2, h]

theorem setExcluded_count (p : ExcludeReason → Bool) (l : List Arrival) (i : Nat) (a : Arrival)
    (r : ExcludeReason) (hi : l.get? i = some a) :
    ((setExcluded l i r).filter (fun a => p a.excluded)).length
        + (if p a.excluded = true then 1 else 0)
      = (l.filter (fun a => p a.excluded)).length + (if p r = true then 1 else 0) := by
  induction l generalizing i with
  | nil => simp at hi
  | cons b rest ih =>
    cases i with
    | zero =>
      simp only [List.get?_cons_zero, Option.some.injEq] at hi
      subst hi
      simp only [setExcluded, List.filter_cons]
      by_cases h1 : p b.excluded = true <;> by_cases h2 : p r = true <;> simp [h1, h2]
    | succ i =>
      simp only [List.get?_cons_succ] at hi
      have := ih i hi
      simp only [setExcluded, List.filter_cons]
      by_cases h1 : p b.excluded = true
      · simp only [h1, if_true, List.length_cons]
        omega
      · simp only [h1, if_false]
        exact this

theorem setExcluded_length (l : List Arrival) (i : Nat) (r : ExcludeReason) :
    (setExcluded l i r).length = l.length := by
  have := congrArg List.length (setExcluded_picks l i r)
  simpa using this

theorem excludeStep_defining (cfg : Config) (ext : Collaborators) (depthMode : Option ℚ)
    (n : Nat) (origin next : Origin) (hrel : KeepsExclusions ext)
    (h : excludeStep cfg ext depthMode n origin = some next) :
    cfg.minPhaseCount ≤ definingPhaseCount origin ∧
      definingPhaseCount next = definingPhaseCount origin - 1 ∧
      next.arrivals.length = origin.arrivals.length := by
  obtain ⟨hc, index, relo, hi, _, hr, hn⟩ := excludeStep_some cfg ext depthMode n origin next h
  obtain ⟨arr, _, hget, hex, _, _⟩ := largestResidual_some cfg n origin index hi
  have hk := hrel _ _ _ hr
  have hnext : next.arrivals = relo.arrivals := by rw [hn]; rfl
  have hcount := setExcluded_count (fun e => decide (e = ExcludeReason.NotExcluded))
    origin.arrivals index arr ExcludeReason.LargeResidual hget
  have hcongr := exclusionCount_congr (fun e => decide (e = ExcludeReason.NotExcluded))
    relo.arrivals (setExcluded origin.arrivals index ExcludeReason.LargeResidual) hk
  have hlen := congrArg List.length hk
  simp only [List.length_map, setExcluded_length] at hlen
  refine ⟨hc, ?_, by rw [hnext]; exact hlen⟩
  unfold definingPhaseCount
  rw [hnext]
  simp only [hex, decide_True, if_true] at hcount
  have hfalse : decide (ExcludeReason.LargeResidual = ExcludeReason.NotExcluded) = false := by
    decide
  simp only [hfalse, Bool.false_eq_true, if_false, Nat.add_zero] at hcount
  have : (relo.arrivals.filter
      (fun a => decide (a.excluded = ExcludeReason.NotExcluded))).length + 1
      = (origin.arrivals.filter
        (fun a => decide (a.excluded = ExcludeReason.NotExcluded))).length := by
    rw [← hcount]
    exact congrArg (fun t => t + 1) hcongr
  omega

theorem includeStep_large (cfg : Config) (ext : Collaborators) (depthMode : Option ℚ)
    (n : Nat) (origin next : Origin) (hrel : KeepsExclusions ext)
    (h : includeStep cfg ext depthMode n origin = some next) :
    largeResidualCount next + 1 = largeResidualCount origin ∧
      next.arrivals.length = origin.arrivals.length := by
  obtain ⟨index, relo, hi, _, hr, hn⟩ := includeStep_some cfg ext depthMode n origin next h
  obtain ⟨arr, _, hget, hex, _, _⟩ := smallestResidual_some cfg n origin index hi
  have hk := hrel _ _ _ hr
  have hnext : next.arrivals = relo.arrivals := by rw [hn]; rfl
  have hcount := setExcluded_count (fun e => decide (e = ExcludeReason.LargeResidual))
    origin.arrivals index arr ExcludeReason.NotExcluded hget
  have hcongr := exclusionCount_congr (fun e => decide (e = ExcludeReason.LargeResidual))
    relo.arrivals (setExcluded origin.arrivals index ExcludeReason.NotExcluded) hk
  have hlen := congrArg List.length hk
  simp only [List.length_map, setExcluded_length] at hlen
  refine ⟨?_, by rw [hnext]; exact hlen⟩
  unfold largeResidualCount
  rw [hnext]
  simp only [hex, decide_True, if_true] at hcount
  have hfalse : decide (ExcludeReason.NotExcluded = ExcludeReason.LargeResidual) = false := by
    decide
  simp only [hfalse, Bool.false_eq_true, if_false, Nat.add_zero] at hcount
  rw [← hcount]
  exact congrArg (fun t => t + 1) hcongr

theorem excludeLoop_succ (cfg : Config) (ext : Collaborators) (depthMode : Option ℚ) (n : Nat)
    (fuel : Nat) (origin : Origin) (count : Nat) :
    excludeLoop cfg ext depthMode n (fuel + 1) origin count
      = match excludeStep cfg ext depthMode n origin with
        | none => some (origin, count)
        | some next => excludeLoop cfg ext depthMode n fuel next (count + 1) := rfl

theorem includeLoop_succ (cfg : Config) (ext : Collaborators) (depthMode : Option ℚ) (n : Nat)
    (fuel : Nat) (origin : Origin) (count : Nat) :
    includeLoop cfg ext depthMode n (fuel + 1) origin count
      = match includeStep cfg ext depthMode n origin with
        | none => some (origin, count)
        | some next => includeLoop cfg ext depthMode n fuel next (count + 1) := rfl

/-- More fuel does not change the result of the first loop. -/
theorem excludeLoop_mono (cfg : Config) (ext : Collaborators) (depthMode : Option ℚ) (n : Nat)
    (k : Nat) : ∀ (fuel : Nat) (origin : Origin) (count : Nat) (r : Origin × Nat),
      excludeLoop cfg ext depthMode n fuel origin count = some r →
      excludeLoop cfg ext depthMode n (fuel + k) origin count = some r := by
  intro fuel
  induction fuel with
  | zero =>
    intro origin count r h
    cases h
  | succ f ih =>
    intro origin count r h
    have e : f + 1 + k = (f + k) + 1 := by omega
    rw [e, excludeLoop_succ]
    rw [excludeLoop_succ] at h
    cases hs : excludeStep cfg ext depthMode n origin with
    | none =>
      rw [hs] at h
      exact h
    | some next =>
      rw [hs] at h
      exact ih next (count + 1) r h

/-- More fuel does not change the result of the second loop. -/
theorem includeLoop_mono (cfg : Config) (ext : Collaborators) (depthMode : Option ℚ) (n : Nat)
    (k : Nat) : ∀ (fuel : Nat) (origin : Origin) (count : Nat) (r : Origin × Nat),
      includeLoop cfg ext depthMode n fuel origin count = some r →
      includeLoop cfg ext depthMode n (fuel + k) origin count = some r := by
  intro fuel
  induction fuel with
  | zero =>
    intro origin count r h
    cases h
  | succ f ih =>
    intro origin count r h
    have e : f + 1 + k = (f + k) + 1 := by omega
    rw [e, includeLoop_succ]
    rw [includeLoop_succ] at h
    cases hs : includeStep cfg ext depthMode n origin with
    | none =>
      rw [hs] at h
      exact h
    | some next =>
      rw [hs] at h
      exact ih next (count + 1) r h

/-- The first loop ends after at most `definingPhaseCount + 1` passes; it
keeps the number of arrivals and does not take the defining phase count
below `minPhaseCount - 1`. -/
theorem excludeLoop_ends (cfg : Config) (ext : Collaborators) (depthMode : Option ℚ) (n : Nat)
    (hrel : KeepsExclusions ext) :
    ∀ (m fuel : Nat) (origin : Origin) (count : Nat),
      definingPhaseCount origin ≤ (m : Int) → m + 1 ≤ fuel →
      ∃ r, excludeLoop cfg ext depthMode n fuel origin count = some r ∧
        r.1.arrivals.length = origin.arrivals.length ∧
        min (definingPhaseCount origin) (cfg.minPhaseCount - 1) ≤ definingPhaseCount r.1 := by
  intro m
  induction m with
  | zero =>
    intro origin_fuel origin count hm hf
    obtain ⟨f, rfl⟩ : ∃ f, origin_fuel = f + 1 := ⟨origin_fuel - 1, by omega⟩
    rw [excludeLoop_succ]
    cases hs : excludeStep cfg ext depthMode n origin with
    | none => exact ⟨(origin, count), rfl, rfl, min_le_left _ _⟩
    | some next =>
      obtain ⟨_, h2, _⟩ := excludeStep_defining cfg ext depthMode n origin next hrel hs
      have hnn : (0 : Int) ≤ definingPhaseCount next := by
        unfold definingPhaseCount
        exact Int.natCast_nonneg _
      simp only [Nat.cast_zero] at hm
      omega
  | succ m ih =>
    intro fuel origin count hm hf
    obtain ⟨f, rfl⟩ : ∃ f, fuel = f + 1 := ⟨fuel - 1, by omega⟩
    rw [excludeLoop_succ]
    cases hs : excludeStep cfg ext depthMode n origin with
    | none => exact ⟨(origin, count), rfl, rfl, min_le_left _ _⟩
    | some next =>
      obtain ⟨h1, h2, h3⟩ := excludeStep_defining cfg ext depthMode n origin next hrel hs
      have hm' : definingPhaseCount next ≤ (m : Int) := by
        push_cast at hm
        omega
      obtain ⟨r, hr1, hr2, hr3⟩ := ih f next (count + 1) hm' (by omega)
      refine ⟨r, hr1, by rw [hr2, h3], ?_⟩
      have : min (definingPhaseCount origin) (cfg.minPhaseCount - 1)
          ≤ min (definingPhaseCount next) (cfg.minPhaseCount - 1) := by
        rw [h2]
        simp only [le_min_iff, min_le_iff]
        constructor
        · right
          omega
        · right
          exact le_refl _
      exact le_trans this hr3

/-- The second loop ends after at most `largeResidualCount + 1` passes. -/
theorem includeLoop_ends (cfg : Config) (ext : Collaborators) (depthMode : Option ℚ) (n : Nat)
    (hrel : KeepsExclusions ext) :
    ∀ (m fuel : Nat) (origin : Origin) (count : Nat),
      largeResidualCount origin ≤ m → m + 1 ≤ fuel →
      ∃ r, includeLoop cfg ext depthMode n fuel origin count = some r := by
  intro m
  induction m with
  | zero =>
    intro fuel origin count hm hf
    obtain ⟨f, rfl⟩ : ∃ f, fuel = f + 1 := ⟨fuel - 1, by omega⟩
    rw [includeLoop_succ]
    cases hs : includeStep cfg ext depthMode n origin with
    | none => exact ⟨(origin, count), rfl⟩
    | some next =>
      obtain ⟨h1, _⟩ := includeStep_large cfg ext depthMode n origin next hrel hs
      omega
  | succ m ih =>
    intro fuel origin count hm hf
    obtain ⟨f, rfl⟩ : ∃ f, fuel = f + 1 := ⟨fuel - 1, by omega⟩
    rw [includeLoop_succ]
    cases hs : includeStep cfg ext depthMode n origin with
    | none => exact ⟨(origin, count), rfl⟩
    | some next =>
      obtain ⟨h1, _⟩ := includeStep_large cfg ext depthMode n origin next hrel hs
      exact ih f next (count + 1) (by omega) (by omega)

theorem definingPhaseCount_le_length (origin : Origin) :
    definingPhaseCount origin ≤ (origin.arrivals.length : Int) := by
  unfold definingPhaseCount
  exact_mod_cast List.length_filter_le _ _

theorem largeResidualCount_le_length (origin : Origin) :
    largeResidualCount origin ≤ origin.arrivals.length := by
  unfold largeResidualCount
  exact List.length_filter_le _ _

theorem keepsExclusions_exCollab : KeepsExclusions exCollab := by
  intro depthMode origin relo h
  simp only [exCollab, Option.some.injEq] at h
  rw [h]

/-- C39: if the relocator returns an origin with as many arrivals as its
input and the same exclusion state at every position, both loops of
`_trimResiduals` end: with at least `arrivals.size() + 1` passes allowed per
loop the call returns, and its result does not depend on the allowance. A
pass of the first loop that does not leave the loop runs only with
`definingPhaseCount >= minPhaseCount` and lowers the defining phase count by
one, so the loop does not take the count below `minPhaseCount - 1`; a pass of
the second loop that does not leave the loop lowers the number of
`LargeResidual` arrivals by one. -/
theorem trim_residuals_terminates (cfg : Config) (ext : Collaborators) (depthMode : Option ℚ)
    (origin : Origin) (hrel : KeepsExclusions ext) :
    (∃ r, ∀ fuel, origin.arrivals.length + 1 ≤ fuel →
      _trimResiduals cfg ext depthMode fuel origin = some r) ∧
    (∀ (n : Nat) (o next : Origin), excludeStep cfg ext depthMode n o = some next →
      cfg.minPhaseCount ≤ definingPhaseCount o ∧
        definingPhaseCount next = definingPhaseCount o - 1) ∧
    (∀ (fuel : Nat) (r : Origin × Nat),
      excludeLoop cfg ext depthMode origin.arrivals.length fuel origin 0 = some r →
      min (definingPhaseCount origin) (cfg.minPhaseCount - 1) ≤ definingPhaseCount r.1) ∧
    (∀ (n : Nat) (o next : Origin), includeStep cfg ext depthMode n o = some next →
      largeResidualCount next + 1 = largeResidualCount o) := by
  obtain ⟨r1, hr1, hlen, hmin⟩ := excludeLoop_ends cfg ext depthMode origin.arrivals.length hrel
    origin.arrivals.length (origin.arrivals.length + 1) origin 0
    (definingPhaseCount_le_length origin) (le_refl _)
  obtain ⟨r2, hr2⟩ := includeLoop_ends cfg ext depthMode origin.arrivals.length hrel
    origin.arrivals.length (origin.arrivals.length + 1) r1.1 r1.2
    (by rw [← hlen]; exact largeResidualCount_le_length r1.1) (le_refl _)
  refine ⟨⟨(decide (r2.2 > 0), r2.1), ?_⟩, ?_, ?_, ?_⟩
  · intro fuel hf
    obtain ⟨k, rfl⟩ : ∃ k, fuel = origin.arrivals.length + 1 + k :=
      ⟨fuel - (origin.arrivals.length + 1), by omega⟩
    unfold _trimResiduals
    rw [excludeLoop_mono cfg ext depthMode _ k _ origin 0 r1 hr1, Option.some_bind,
      includeLoop_mono cfg ext depthMode _ k _ r1.1 r1.2 r2 hr2]
    rfl
  · intro n o next h
    obtain ⟨h1, h2, _⟩ := excludeStep_defining cfg ext depthMode n o next hrel h
    exact ⟨h1, h2⟩
  · intro fuel r h
    have h1 := excludeLoop_mono cfg ext depthMode origin.arrivals.length
      (origin.arrivals.length + 1) fuel origin 0 r h
    have h2 := excludeLoop_mono cfg ext depthMode origin.arrivals.length fuel
      (origin.arrivals.length + 1) origin 0 r1 hr1
    have e : fuel + (origin.arrivals.length + 1) = origin.arrivals.length + 1 + fuel := by omega
    rw [e, h2] at h1
    have : r1 = r := Option.some.inj h1
    rw [← this]
    exact hmin
  · intro n o next h
    exact (includeStep_large cfg ext depthMode n o next hrel h).1

theorem trim_residuals_terminates_witness :
    KeepsExclusions exCollab ∧
      largeResidualCount (exOrigin 1 [exResidualArrival "a" 2 ExcludeReason.NotExcluded])
        + 1 = largeResidualCount exOriginTrimmed :=
  ⟨keepsExclusions_exCollab,
    (trim_residuals_terminates exConfigTrim exCollab none exOriginTrimmed
      keepsExclusions_exCollab).2.2.2 1 exOriginTrimmed
      (exOrigin 1 [exResidualArrival "a" 2 ExcludeReason.NotExcluded])
      includeStep_exOriginTrimmed⟩

/-! ## Enhancing the score by excluding outliers -/

theorem bestExclusionStep_spec (ext : Collaborators) (fixedDepth : ℚ) (origin : Origin)
    (acc : ℚ × Option Nat) (i : Nat) (arr : Arrival) :
    acc.1 ≤ (bestExclusionStep ext fixedDepth origin acc i arr).1 ∧
      (∀ s, arr.excluded = ExcludeReason.NotExcluded →
        trialScore ext fixedDepth origin i = some s →
        s ≤ (bestExclusionStep ext fixedDepth origin acc i arr).1) ∧
      (bestExclusionStep ext fixedDepth origin acc i arr = acc ∨
        (arr.excluded = ExcludeReason.NotExcluded ∧
          acc.1 < (bestExclusionStep ext fixedDepth origin acc i arr).1 ∧
          trialScore ext fixedDepth origin i
            = some (bestExclusionStep ext fixedDepth origin acc i arr).1 ∧
          (bestExclusionStep ext fixedDepth origin acc i arr).2 = some i)) := by
  unfold bestExclusionStep
  by_cases h1 : arr.excluded ≠ ExcludeReason.NotExcluded
  · rw [if_pos h1]
    exact ⟨le_refl _, fun _ h => absurd h h1, Or.inl rfl⟩
  · rw [if_neg h1]
    have h1' : arr.excluded = ExcludeReason.NotExcluded := not_not.mp h1
    cases ht : trialScore ext fixedDepth origin i with
    | none =>
      refine ⟨le_refl _, ?_, Or.inl rfl⟩
      intro s _ hs
      cases hs
    | some score =>
      simp only []
      by_cases h2 : score > acc.1
      · rw [if_pos h2]
        refine ⟨le_of_lt h2, ?_, Or.inr ⟨h1', h2, rfl, rfl⟩⟩
        intro s _ hs
        cases hs
        exact le_refl _
      · rw [if_neg h2]
        refine ⟨le_refl _, ?_, Or.inl rfl⟩
        intro s _ hs
        cases hs
        exact not_lt.mp h2

theorem bestExclusionScan_spec (ext : Collaborators) (fixedDepth : ℚ) (origin : Origin)
    (l : List Arrival) :
    ∀ (i0 : Nat) (acc : ℚ × Option Nat),
      acc.1 ≤ (bestExclusionScan ext fixedDepth origin l i0 acc).1 ∧
      (∀ (j : Nat) (a : Arrival) (s : ℚ), l.get? j = some a →
        a.excluded = ExcludeReason.NotExcluded →
        trialScore ext fixedDepth origin (i0 + j) = some s →
        s ≤ (bestExclusionScan ext fixedDepth origin l i0 acc).1) ∧
      (bestExclusionScan ext fixedDepth origin l i0 acc = acc ∨
        ∃ (j : Nat) (a : Arrival), l.get? j = some a ∧
          a.excluded = ExcludeReason.NotExcluded ∧
          acc.1 < (bestExclusionScan ext fixedDepth origin l i0 acc).1 ∧
          trialScore ext fixedDepth origin (i0 + j)
            = some (bestExclusionScan ext fixedDepth origin l i0 acc).1 ∧
          (bestExclusionScan ext fixedDepth origin l i0 acc).2 = some (i0 + j)) := by
  induction l with
  | nil =>
    intro i0 acc
    refine ⟨le_refl _, ?_, Or.inl rfl⟩
    intro j a s h
    simp at h
  | cons arr rest ih =>
    intro i0 acc
    obtain ⟨s1, s2, s3⟩ := bestExclusionStep_spec ext fixedDepth origin acc i0 arr
    obtain ⟨r1, r2, r3⟩ := ih (i0 + 1) (bestExclusionStep ext fixedDepth origin acc i0 arr)
    have e : bestExclusionScan ext fixedDepth origin (arr :: rest) i0 acc
        = bestExclusionScan ext fixedDepth origin rest (i0 + 1)
          (bestExclusionStep ext fixedDepth origin acc i0 arr) := rfl
    rw [e]
    refine ⟨le_trans s1 r1, ?_, ?_⟩
    · intro j a s hj hex hs
      cases j with
      | zero =>
        simp only [List.get?_cons_zero, Option.some.injEq] at hj
        subst hj
        exact le_trans (s2 s hex hs) r1
      | succ j =>
        simp only [List.get?_cons_succ] at hj
        have e2 : i0 + (j + 1) = i0 + 1 + j := by omega
        rw [e2] at hs
        exact r2 j a s hj hex hs
    · rcases r3 with r3 | ⟨j, a, hj, hex, hlt, hts, hidx⟩
      · rcases s3 with s3 | ⟨hex, hlt, hts, hidx⟩
        · exact Or.inl (by rw [r3, s3])
        · refine Or.inr ⟨0, arr, rfl, hex, ?_, ?_, ?_⟩
          · rw [r3]
            exact hlt
          · rw [r3]
            exact hts
          · rw [r3]
            exact hidx
      · have e2 : i0 + 1 + j = i0 + (j + 1) := by omega
        refine Or.inr ⟨j + 1, a, hj, hex, lt_of_le_of_lt s1 hlt, ?_, ?_⟩
        · rw [← e2]
          exact hts
        · rw [← e2]
          exact hidx

/-- What the inner loop of `_enhanceScore` has found. -/
theorem bestExclusion_some (ext : Collaborators) (fixedDepth : ℚ) (origin : Origin)
    (index : Nat) (h : (bestExclusion ext fixedDepth origin).2 = some index) :
    ∃ arr, origin.arrivals.get? index = some arr ∧
      arr.excluded = ExcludeReason.NotExcluded ∧
      trialScore ext fixedDepth origin index = some (bestExclusion ext fixedDepth origin).1 ∧
      _score ext origin < (bestExclusion ext fixedDepth origin).1 ∧
      ∀ (j : Nat) (a : Arrival) (s : ℚ), origin.arrivals.get? j = some a →
        a.excluded = ExcludeReason.NotExcluded →
        trialScore ext fixedDepth origin j = some s →
        s ≤ (bestExclusion ext fixedDepth origin).1 := by
  obtain ⟨_, r2, r3⟩ := bestExclusionScan_spec ext fixedDepth origin origin.arrivals 0
    (_score ext origin, none)
  unfold bestExclusion at h ⊢
  rcases r3 with r3 | ⟨j, a, hj, hex, hlt, hts, hidx⟩
  · rw [r3] at h
    cases h
  · rw [hidx] at h
    simp only [Nat.zero_add, Option.some.injEq] at h
    subst h
    simp only [Nat.zero_add] at hts
    refine ⟨a, hj, hex, hts, hlt, ?_⟩
    intro k b s hk hbex hs
    have := r2 k b s hk hbex (by simpa using hs)
    exact this

theorem enhancePass_commit (ext : Collaborators) (fixedDepth : ℚ) (origin next : Origin) :
    enhancePass ext fixedDepth origin = EnhanceOutcome.commit next ↔
      ∃ index relo, (bestExclusion ext fixedDepth origin).2 = some index ∧
        roundDouble (_score ext origin + double_0_2) ≤ (bestExclusion ext fixedDepth origin).1 ∧
        relocateFreeOrFixed ext fixedDepth
          { origin with
            arrivals := setExcluded origin.arrivals index ExcludeReason.LargeResidual }
            = some relo ∧
        next = origin.updateFrom relo := by
  unfold enhancePass
  cases hi : (bestExclusion ext fixedDepth origin).2 with
  | none =>
    simp only []
    constructor
    · intro h
      cases h
    · rintro ⟨index, relo, h, _⟩
      cases h
  | some bestExcluded =>
    simp only []
    by_cases hm : (bestExclusion ext fixedDepth origin).1 < roundDouble (_score ext origin + double_0_2)
    · rw [if_pos hm]
      constructor
      · intro h
        cases h
      · rintro ⟨index, relo, _, h, _⟩
        exact absurd hm (not_lt.mpr h)
    · rw [if_neg hm]
      cases hr : relocateFreeOrFixed ext fixedDepth
          { origin with
            arrivals := setExcluded origin.arrivals bestExcluded ExcludeReason.LargeResidual } with
      | none =>
        simp only []
        constructor
        · intro h
          cases h
        · rintro ⟨index, relo, h1, _, h3, _⟩
          cases h1
          rw [hr] at h3
          cases h3
      | some relo =>
        simp only []
        constructor
        · intro h
          cases h
          exact ⟨bestExcluded, relo, rfl, not_lt.mp hm, hr, rfl⟩
        · rintro ⟨index, relo2, h1, _, h3, h4⟩
          cases h1
          rw [hr] at h3
          cases h3
          rw [h4]

theorem enhanceLoop_succ (ext : Collaborators) (fixedDepth : ℚ) (maxloops remaining loops : Nat)
    (origin : Origin) (count : Nat) :
    enhanceLoop ext fixedDepth maxloops (remaining + 1) loops origin count
      = if maxloops > 0 ∧ loops + 1 > maxloops then (origin, count)
        else
          match enhancePass ext fixedDepth origin with
          | EnhanceOutcome.stop => (origin, count)
          | EnhanceOutcome.skip =>
            enhanceLoop ext fixedDepth maxloops remaining (loops + 1) origin count
          | EnhanceOutcome.commit next =>
            enhanceLoop ext fixedDepth maxloops remaining (loops + 1) next (count + 1) := rfl

/-- The counter of the outer loop grows by at most one per admitted pass, and
the origin is the one at the start as long as the counter has not grown. -/
theorem enhanceLoop_count (ext : Collaborators) (fixedDepth : ℚ) (maxloops : Nat) :
    ∀ (remaining loops : Nat) (origin : Origin) (count : Nat),
      count ≤ (enhanceLoop ext fixedDepth maxloops remaining loops origin count).2 ∧
      (enhanceLoop ext fixedDepth maxloops remaining loops origin count).2 ≤ count + remaining ∧
      ((enhanceLoop ext fixedDepth maxloops remaining loops origin count).2 = count →
        (enhanceLoop ext fixedDepth maxloops remaining loops origin count).1 = origin) := by
  intro remaining
  induction remaining with
  | zero =>
    intro loops origin count
    exact ⟨le_refl _, le_refl _, fun _ => rfl⟩
  | succ n ih =>
    intro loops origin count
    rw [enhanceLoop_succ]
    by_cases hl : maxloops > 0 ∧ loops + 1 > maxloops
    · rw [if_pos hl]
      exact ⟨le_refl _, by simp, fun _ => rfl⟩
    · rw [if_neg hl]
      cases hp : enhancePass ext fixedDepth origin with
      | stop => exact ⟨le_refl _, by simp, fun _ => rfl⟩
      | skip =>
        obtain ⟨h1, h2, h3⟩ := ih (loops + 1) origin count
        exact ⟨h1, by simp only []; omega, h3⟩
      | commit next =>
        obtain ⟨h1, h2, h3⟩ := ih (loops + 1) next (count + 1)
        refine ⟨by simp only []; omega, by simp only []; omega, ?_⟩
        intro h
        simp only [] at h
        omega

theorem enhanceScore_true_iff (cfg : Config) (ext : Collaborators) (pickOf : PickID → Pick)
    (fixedDepth : ℚ) (origin : Origin) (maxloops : Nat) :
    (_enhanceScore cfg ext pickOf fixedDepth origin maxloops).1 = true ↔
      (∃ updated, enhanceXXL cfg ext pickOf fixedDepth origin = some updated) ∨
        0 < (enhanceLoop ext fixedDepth maxloops maxloops 0 origin 0).2 := by
  unfold _enhanceScore
  cases hx : enhanceXXL cfg ext pickOf fixedDepth origin with
  | some updated =>
    simp only []
    exact ⟨fun _ => Or.inl ⟨updated, rfl⟩, fun _ => trivial⟩
  | none =>
    simp only [decide_eq_true_eq]
    constructor
    · intro h
      exact Or.inr h
    · rintro (⟨updated, h⟩ | h)
      · cases h
      · exact h

theorem enhanceScore_false (cfg : Config) (ext : Collaborators) (pickOf : PickID → Pick)
    (fixedDepth : ℚ) (origin : Origin) (maxloops : Nat)
    (h : (_enhanceScore cfg ext pickOf fixedDepth origin maxloops).1 = false) :
    (_enhanceScore cfg ext pickOf fixedDepth origin maxloops).2 = origin := by
  unfold _enhanceScore at h ⊢
  cases hx : enhanceXXL cfg ext pickOf fixedDepth origin with
  | some updated =>
    rw [hx] at h
    cases h
  | none =>
    rw [hx] at h
    simp only [decide_eq_false_iff_not, not_lt, Nat.le_zero_eq] at h
    exact (enhanceLoop_count ext fixedDepth maxloops maxloops 0 origin 0).2.2 h

/-- C33 (counterexample): the origin has the score 0, and without its first
arrival the score `0.2`: the gain is exactly the double 0.2, the sum
`currentScore+0.2` is exact, and the exclusion is committed: the call returns
true and the arrival is marked `LargeResidual`. -/
theorem enhance_commits_at_exact_gain :
    _score exCollabGain exOriginA = 0 ∧
      roundDouble (_score exCollabGain exOriginA + double_0_2) = 0 + double_0_2 ∧
      bestExclusion exCollabGain 10 exOriginA = (0 + double_0_2, some 0) ∧
      _enhanceScore exConfig exCollabGain exPickOf 10 exOriginA 1
        = (true, exOrigin 7 [exArrival "p1" ExcludeReason.LargeResidual,
            exArrival "p2" ExcludeReason.NotExcluded]) := by
  have hs : _score exCollabGain exOriginA = 0 := by
    simp [_score, exCollabGain, definingPhaseCount, exOriginA, exOrigin, exArrival]
  have hsum : roundDouble ((0 : ℚ) + double_0_2) = 0 + double_0_2 := by
    rw [zero_add]
    exact roundDouble_exact double_0_2 (-55) 7205759403792794
      (by norm_num [double_0_2, abs_of_pos]) (by norm_num [double_0_2, abs_of_pos])
      (by norm_num) (by norm_num [double_0_2])
  have hpos : (0 : ℚ) < double_0_2 := by norm_num [double_0_2]
  have ht0 : trialScore exCollabGain 10 exOriginA 0 = some double_0_2 := by
    simp [trialScore, relocateFreeOrFixed, exCollabGain, exCollab, _score, definingPhaseCount,
      setExcluded, exOriginA, exOrigin, exArrival]
  have ht1 : trialScore exCollabGain 10 exOriginA 1 = some double_0_2 := by
    simp [trialScore, relocateFreeOrFixed, exCollabGain, exCollab, _score, definingPhaseCount,
      setExcluded, exOriginA, exOrigin, exArrival]
  have hb : bestExclusion exCollabGain 10 exOriginA = (0 + double_0_2, some 0) := by
    unfold bestExclusion
    rw [hs]
    have harr : exOriginA.arrivals = [exArrival "p1" ExcludeReason.NotExcluded,
        exArrival "p2" ExcludeReason.NotExcluded] := rfl
    rw [harr]
    simp only [bestExclusionScan, bestExclusionStep, exArrival, ne_eq, not_true_eq_false,
      if_false, ht0, ht1, Nat.zero_add, gt_iff_lt, hpos, if_true, lt_self_iff_false, zero_add]
  have hx : enhanceXXL exConfig exCollabGain exPickOf 10 exOriginA = none := by
    simp [enhanceXXL, earliestXXLStep, exPickOf, exPick, exOriginA, exOrigin, exArrival,
      exConfig, definingPhaseCount]
  have hr : relocateFreeOrFixed exCollabGain 10
      { exOriginA with
        arrivals := setExcluded exOriginA.arrivals 0 ExcludeReason.LargeResidual }
      = some (exOrigin 7 [exArrival "p1" ExcludeReason.LargeResidual,
          exArrival "p2" ExcludeReason.NotExcluded]) := by
    simp [relocateFreeOrFixed, exCollabGain, exCollab, setExcluded, exOriginA, exOrigin,
      exArrival]
  have hp : enhancePass exCollabGain 10 exOriginA
      = EnhanceOutcome.commit (exOrigin 7 [exArrival "p1" ExcludeReason.LargeResidual,
          exArrival "p2" ExcludeReason.NotExcluded]) := by
    unfold enhancePass
    rw [hb]
    simp only [hs, hsum, lt_self_iff_false, if_false, hr]
    rfl
  refine ⟨hs, by rw [hs]; exact hsum, hb, ?_⟩
  unfold _enhanceScore
  rw [hx]
  simp only [enhanceLoop, hp]
  simp

/-- C33 (amended): a pass of the outlier search of `_enhanceScore` commits an
exclusion iff the inner loop has found an arrival (one that is not excluded
and whose trial exclusion gives the highest relocated score, above the
current score), that score is at least the sum `currentScore+0.2` as the
code computes it in doubles, equality included, and the relocation of the
origin with this arrival marked
`LargeResidual` succeeds; the committed origin is that relocated origin. At
most `maxloops` exclusions are committed per call. The call returns true iff
at least one exclusion was committed or the branch for very early origins
with XXL picks has relocated the origin, and when it returns false the origin
is as before. -/
theorem enhance_score_commits (cfg : Config) (ext : Collaborators) (pickOf : PickID → Pick)
    (fixedDepth : ℚ) (origin : Origin) (maxloops : Nat) :
    (∀ o next, enhancePass ext fixedDepth o = EnhanceOutcome.commit next ↔
      ∃ index arr relo, o.arrivals.get? index = some arr ∧
        arr.excluded = ExcludeReason.NotExcluded ∧
        (bestExclusion ext fixedDepth o).2 = some index ∧
        trialScore ext fixedDepth o index = some (bestExclusion ext fixedDepth o).1 ∧
        (∀ (j : Nat) (a : Arrival) (s : ℚ), o.arrivals.get? j = some a →
          a.excluded = ExcludeReason.NotExcluded →
          trialScore ext fixedDepth o j = some s → s ≤ (bestExclusion ext fixedDepth o).1) ∧
        roundDouble (_score ext o + double_0_2) ≤ (bestExclusion ext fixedDepth o).1 ∧
        relocateFreeOrFixed ext fixedDepth
          { o with arrivals := setExcluded o.arrivals index ExcludeReason.LargeResidual }
            = some relo ∧
        next = o.updateFrom relo) ∧
    (enhanceLoop ext fixedDepth maxloops maxloops 0 origin 0).2 ≤ maxloops ∧
    ((_enhanceScore cfg ext pickOf fixedDepth origin maxloops).1 = true ↔
      (∃ updated, enhanceXXL cfg ext pickOf fixedDepth origin = some updated) ∨
        0 < (enhanceLoop ext fixedDepth maxloops maxloops 0 origin 0).2) ∧
    ((_enhanceScore cfg ext pickOf fixedDepth origin maxloops).1 = false →
      (_enhanceScore cfg ext pickOf fixedDepth origin maxloops).2 = origin) := by
  refine ⟨?_, ?_, enhanceScore_true_iff cfg ext pickOf fixedDepth origin maxloops,
    enhanceScore_false cfg ext pickOf fixedDepth origin maxloops⟩
  · intro o next
    rw [enhancePass_commit]
    constructor
    · rintro ⟨index, relo, h1, h2, h3, h4⟩
      obtain ⟨arr, g1, g2, g3, _, g5⟩ := bestExclusion_some ext fixedDepth o index h1
      exact ⟨index, arr, relo, g1, g2, h1, g3, g5, h2, h3, h4⟩
    · rintro ⟨index, arr, relo, _, _, h1, _, _, h2, h3, h4⟩
      exact ⟨index, relo, h1, h2, h3, h4⟩
  · have := (enhanceLoop_count ext fixedDepth maxloops maxloops 0 origin 0).2.1
    omega

theorem enhance_score_commits_witness :
    (_enhanceScore exConfig exCollab exPickOf 10 exOriginA 2).1 = false ∧
      (_enhanceScore exConfig exCollab exPickOf 10 exOriginA 2).2 = exOriginA := by
  have hs : _score exCollab exOriginA = 2 := by
    norm_num [_score, exCollab, definingPhaseCount, exOriginA, exOrigin, exArrival]
  have ht0 : trialScore exCollab 10 exOriginA 0 = some 1 := by
    simp [trialScore, relocateFreeOrFixed, exCollab, _score, definingPhaseCount,
      setExcluded, exOriginA, exOrigin, exArrival]
  have ht1 : trialScore exCollab 10 exOriginA 1 = some 1 := by
    simp [trialScore, relocateFreeOrFixed, exCollab, _score, definingPhaseCount,
      setExcluded, exOriginA, exOrigin, exArrival]
  have hb : bestExclusion exCollab 10 exOriginA = (2, none) := by
    unfold bestExclusion
    rw [hs]
    have harr : exOriginA.arrivals = [exArrival "p1" ExcludeReason.NotExcluded,
        exArrival "p2" ExcludeReason.NotExcluded] := rfl
    rw [harr]
    simp only [bestExclusionScan, bestExclusionStep, exArrival, ne_eq, not_true_eq_false,
      if_false, ht0, ht1, Nat.zero_add]
    norm_num
  have hx : enhanceXXL exConfig exCollab exPickOf 10 exOriginA = none := by
    simp [enhanceXXL, earliestXXLStep, exPickOf, exPick, exOriginA, exOrigin, exArrival,
      exConfig, definingPhaseCount]
  have hp : enhancePass exCollab 10 exOriginA = EnhanceOutcome.stop := by
    unfold enhancePass
    rw [hb]
  have hf : (_enhanceScore exConfig exCollab exPickOf 10 exOriginA 2).1 = false := by
    unfold _enhanceScore
    rw [hx]
    simp only [enhanceLoop, hp]
    simp
  exact ⟨hf, (enhance_score_commits exConfig exCollab exPickOf 10 exOriginA 2).2.2.2 hf⟩

/-! ## Termination of the loop over the trial depths -/

theorem trialDepthsRun_succ (cfg : Config) (fuel i : Nat) (dep : ℚ) :
    trialDepthsRun cfg (fuel + 1) i dep =
      if dep ≤ cfg.xxlMaxDepth then
        if 2 ^ 31 - 1 ≤ i then TrialDepthsRun.overflow
        else if cfg.defaultDepthStickiness > 9 / 10 then TrialDepthsRun.ended [depthAt cfg i]
        else
          match trialDepthsRun cfg fuel (i + 1) (depthAt cfg i) with
          | TrialDepthsRun.ended l => TrialDepthsRun.ended (depthAt cfg i :: l)
          | TrialDepthsRun.overflow => TrialDepthsRun.overflow
          | TrialDepthsRun.unfinished => TrialDepthsRun.unfinished
      else TrialDepthsRun.ended [] := rfl

theorem depthAt_nonpos (cfg : Config) (hd : cfg.defaultDepth ≤ 0) (i : Nat) :
    depthAt cfg i ≤ 0 := by
  unfold depthAt
  apply roundDouble_nonpos
  have : (0 : ℚ) ≤ 1 + (i : ℚ) := by positivity
  exact mul_nonpos_of_nonpos_of_nonneg hd this

/-- The loop ends with the first depth above `xxlMaxDepth`, if a round
within the range of the counter pushes one. -/
theorem trialDepthsRun_ends (cfg : Config) (n : Nat)
    (hs : cfg.defaultDepthStickiness ≤ 9 / 10) (hn : n < 2 ^ 31 - 1)
    (hle : ∀ k, k < n → depthAt cfg k ≤ cfg.xxlMaxDepth)
    (hgt : cfg.xxlMaxDepth < depthAt cfg n) :
    ∀ (m i fuel : Nat) (dep : ℚ), i + m = n → dep ≤ cfg.xxlMaxDepth → m + 2 ≤ fuel →
      trialDepthsRun cfg fuel i dep =
        TrialDepthsRun.ended ((List.range (m + 1)).map (fun (j : Nat) => depthAt cfg (i + j))) := by
  have hs' : ¬ cfg.defaultDepthStickiness > 9 / 10 := not_lt.mpr hs
  intro m
  induction m with
  | zero =>
    intro i fuel dep hi hdep hf
    obtain ⟨f, rfl⟩ : ∃ f, fuel = f + 2 := ⟨fuel - 2, by omega⟩
    have hin : i = n := by omega
    subst hin
    have h31 : ¬ 2 ^ 31 - 1 ≤ i := by omega
    rw [trialDepthsRun_succ, if_pos hdep, if_neg h31, if_neg hs', trialDepthsRun_succ,
      if_neg (not_le.mpr hgt)]
    rfl
  | succ m ih =>
    intro i fuel dep hi hdep hf
    obtain ⟨f, rfl⟩ : ∃ f, fuel = f + 1 := ⟨fuel - 1, by omega⟩
    have h31 : ¬ 2 ^ 31 - 1 ≤ i := by omega
    rw [trialDepthsRun_succ, if_pos hdep, if_neg h31, if_neg hs',
      ih (i + 1) f (depthAt cfg i) (by omega) (hle i (by omega)) (by omega)]
    simp only []
    congr 1
    rw [List.range_succ_eq_map (m + 1), List.map_cons, List.map_map]
    congr 1
    apply List.map_congr_left
    intro j _
    simp only [Function.comp, Nat.add_zero]
    congr 1
    omega

/-- The loop is never left when no round within the range of the counter
pushes a depth above `xxlMaxDepth`; it runs into the overflow of the
counter. -/
theorem trialDepthsRun_never (cfg : Config)
    (hs : cfg.defaultDepthStickiness ≤ 9 / 10)
    (hle : ∀ k, k < 2 ^ 31 - 1 → depthAt cfg k ≤ cfg.xxlMaxDepth) :
    ∀ (fuel i : Nat) (dep : ℚ), dep ≤ cfg.xxlMaxDepth →
      (trialDepthsRun cfg fuel i dep = TrialDepthsRun.overflow ∨
        trialDepthsRun cfg fuel i dep = TrialDepthsRun.unfinished) ∧
      (2 ^ 31 - 1 - i < fuel → trialDepthsRun cfg fuel i dep = TrialDepthsRun.overflow) := by
  have hs' : ¬ cfg.defaultDepthStickiness > 9 / 10 := not_lt.mpr hs
  intro fuel
  induction fuel with
  | zero =>
    intro i dep _
    exact ⟨Or.inr rfl, fun h => absurd h (Nat.not_lt_zero _)⟩
  | succ f ih =>
    intro i dep hdep
    rw [trialDepthsRun_succ, if_pos hdep]
    by_cases h31 : 2 ^ 31 - 1 ≤ i
    · rw [if_pos h31]
      exact ⟨Or.inl rfl, fun _ => rfl⟩
    · rw [if_neg h31, if_neg hs']
      obtain ⟨h1, h2⟩ := ih (i + 1) (depthAt cfg i) (hle i (not_le.mp h31))
      constructor
      · rcases h1 with h1 | h1
        · rw [h1]
          exact Or.inl rfl
        · rw [h1]
          exact Or.inr rfl
      · intro hf
        rw [h2 (by omega)]

/-- With products that are doubles and a counter that stays in its range,
the loop on the machine is the loop over the reals. -/
theorem trialDepthsRun_exact (cfg : Config)
    (hexact : ∀ k, k < 2 ^ 31 - 1 → depthAt cfg k = cfg.defaultDepth * (1 + (k : ℚ))) :
    ∀ (fuel i : Nat) (dep : ℚ), i + fuel ≤ 2 ^ 31 - 1 →
      trialDepthsRun cfg fuel i dep =
        match trialDepthsLoop cfg fuel i dep with
        | some l => TrialDepthsRun.ended l
        | none => TrialDepthsRun.unfinished := by
  intro fuel
  induction fuel with
  | zero =>
    intro i dep _
    rfl
  | succ f ih =>
    intro i dep hi
    have h31 : ¬ 2 ^ 31 - 1 ≤ i := by omega
    rw [trialDepthsRun_succ]
    unfold trialDepthsLoop
    by_cases hdep : dep ≤ cfg.xxlMaxDepth
    · rw [if_pos hdep, if_neg h31, if_pos hdep]
      by_cases hs : cfg.defaultDepthStickiness > 9 / 10
      · rw [if_pos hs, if_pos hs, hexact i (by omega)]
      · rw [if_neg hs, if_neg hs, ih (i + 1) (depthAt cfg i) (by omega), hexact i (by omega)]
        cases trialDepthsLoop cfg f (i + 1) (cfg.defaultDepth * (1 + (i : ℚ))) with
        | none => rfl
        | some l => rfl
    · rw [if_neg hdep, if_neg hdep]

/-- A loop that does not end although `defaultDepth > 0`: with `defaultDepth`
= 1 and `xxlMaxDepth` = 2^40 no round within the range of the counter pushes
a depth above `xxlMaxDepth`. -/
theorem depthAt_unit (k : Nat) (hk : k < 2 ^ 31 - 1) :
    depthAt { exConfig with defaultDepth := 1, xxlMaxDepth := 2 ^ 40 } k
      ≤ ({ exConfig with defaultDepth := 1, xxlMaxDepth := 2 ^ 40 } : Config).xxlMaxDepth := by
  show roundDouble ((1 : ℚ) * (1 + (k : ℚ))) ≤ 2 ^ 40
  have e : (1 : ℚ) * (1 + (k : ℚ)) = ((1 + k : Nat) : ℚ) := by
    push_cast
    ring
  rw [e, roundDouble_natCast (1 + k) (by omega)]
  have : 1 + k ≤ 2 ^ 40 := by omega
  exact_mod_cast this

theorem depthAt_exConfigDepths :
    depthAt exConfigDepths 0 = double_1_1 ∧
      depthAt exConfigDepths 1 = 2476979795053773 / 1125899906842624 ∧
      depthAt exConfigDepths 2 = 7430939385161319 / 2251799813685248 ∧
      depthAt exConfigDepths 3 = 2476979795053773 / 562949953421312 ∧
      depthAt exConfigDepths 4 = 11 / 2 ∧
      depthAt exConfigDepths 5 = 7430939385161319 / 1125899906842624 := by
  refine ⟨?_, ?_, ?_, ?_, ?_, ?_⟩
  · show roundDouble (double_1_1 * (1 + ((0 : Nat) : ℚ))) = double_1_1
    have e : double_1_1 * (1 + ((0 : Nat) : ℚ)) = double_1_1 := by norm_num
    rw [e]
    exact roundDouble_exact double_1_1 (-52) 4953959590107546
      (by norm_num [double_1_1, abs_of_pos]) (by norm_num [double_1_1, abs_of_pos])
      (by norm_num) (by norm_num [double_1_1])
  · show roundDouble (double_1_1 * (1 + ((1 : Nat) : ℚ))) = 2476979795053773 / 1125899906842624
    have e : double_1_1 * (1 + ((1 : Nat) : ℚ)) = 2476979795053773 / 1125899906842624 := by
      norm_num [double_1_1]
    rw [e]
    exact roundDouble_exact _ (-51) 4953959590107546
      (by norm_num [abs_of_pos]) (by norm_num [abs_of_pos]) (by norm_num) (by norm_num)
  · show roundDouble (double_1_1 * (1 + ((2 : Nat) : ℚ))) = 7430939385161319 / 2251799813685248
    have e : double_1_1 * (1 + ((2 : Nat) : ℚ)) = 7430939385161319 / 2251799813685248 := by
      norm_num [double_1_1]
    rw [e]
    exact roundDouble_exact _ (-51) 7430939385161319
      (by norm_num [abs_of_pos]) (by norm_num [abs_of_pos]) (by norm_num) (by norm_num)
  · show roundDouble (double_1_1 * (1 + ((3 : Nat) : ℚ))) = 2476979795053773 / 562949953421312
    have e : double_1_1 * (1 + ((3 : Nat) : ℚ)) = 2476979795053773 / 562949953421312 := by
      norm_num [double_1_1]
    rw [e]
    exact roundDouble_exact _ (-50) 4953959590107546
      (by norm_num [abs_of_pos]) (by norm_num [abs_of_pos]) (by norm_num) (by norm_num)
  · show roundDouble (double_1_1 * (1 + ((4 : Nat) : ℚ))) = 11 / 2
    have e : double_1_1 * (1 + ((4 : Nat) : ℚ)) = 12384898975268865 / 2251799813685248 := by
      norm_num [double_1_1]
    rw [e]
    have := roundDouble_tie (12384898975268865 / 2251799813685248) (-50) 6192449487634432
      (by norm_num [abs_of_pos]) (by norm_num [abs_of_pos]) (by norm_num) (by norm_num)
    rw [this]
    norm_num
  · show roundDouble (double_1_1 * (1 + ((5 : Nat) : ℚ))) = 7430939385161319 / 1125899906842624
    have e : double_1_1 * (1 + ((5 : Nat) : ℚ)) = 7430939385161319 / 1125899906842624 := by
      norm_num [double_1_1]
    rw [e]
    exact roundDouble_exact _ (-50) 7430939385161319
      (by norm_num [abs_of_pos]) (by norm_num [abs_of_pos]) (by norm_num) (by norm_num)

/-- C40 (counterexample): with `defaultDepth` = 1.1 and `xxlMaxDepth` = 5.5
the fifth product `1.1*5` is rounded to 5.5, which does not exceed
`xxlMaxDepth`, so that a sixth depth is pushed: the loop ends with 6 depths,
while `floor(xxlMaxDepth/defaultDepth) + 1` is 5. -/
theorem trial_depths_exceed_bound :
    trialDepthsRun exConfigDepths 7 0 0 =
        TrialDepthsRun.ended [double_1_1, 2476979795053773 / 1125899906842624,
          7430939385161319 / 2251799813685248, 2476979795053773 / 562949953421312, 11 / 2,
          7430939385161319 / 1125899906842624] ∧
      ⌊exConfigDepths.xxlMaxDepth / exConfigDepths.defaultDepth⌋₊ + 1 = 5 := by
  obtain ⟨d0, d1, d2, d3, d4, d5⟩ := depthAt_exConfigDepths
  have hM : exConfigDepths.xxlMaxDepth = 11 / 2 := rfl
  constructor
  · have h := trialDepthsRun_ends exConfigDepths 5 (by norm_num [exConfigDepths, exConfig])
      (by norm_num)
      (by
        intro k hk
        rw [hM]
        interval_cases k
        · rw [d0]; norm_num [double_1_1]
        · rw [d1]; norm_num
        · rw [d2]; norm_num
        · rw [d3]; norm_num
        · rw [d4])
      (by rw [hM, d5]; norm_num)
      5 0 7 0 rfl (by rw [hM]; norm_num) (by norm_num)
    rw [h]
    simp only [List.range_succ, List.range_zero, List.nil_append, List.cons_append,
      List.map_cons, List.map_nil, Nat.zero_add, d0, d1, d2, d3, d4, d5]
  · have hq : exConfigDepths.xxlMaxDepth / exConfigDepths.defaultDepth
        = 12384898975268864 / 2476979795053773 := by
      show (11 / 2 : ℚ) / double_1_1 = 12384898975268864 / 2476979795053773
      norm_num [double_1_1]
    rw [hq]
    have : ⌊(12384898975268864 / 2476979795053773 : ℚ)⌋₊ = 4 := by
      rw [Nat.floor_eq_iff (by norm_num)]
      constructor <;> norm_num
    rw [this]

/-- The products of the worked configuration, multiples of 10, are doubles. -/
theorem depthAt_exConfig (k : Nat) (hk : k < 2 ^ 31) :
    depthAt exConfig k = 10 * (1 + (k : ℚ)) := by
  show roundDouble ((10 : ℚ) * (1 + (k : ℚ))) = 10 * (1 + (k : ℚ))
  have e : (10 : ℚ) * (1 + (k : ℚ)) = ((10 * (1 + k) : Nat) : ℚ) := by
    push_cast
    ring
  rw [e, roundDouble_natCast (10 * (1 + k)) (by omega)]

/-- C40 (amended): the loop that generates the trial depths, with its `int`
counter and the rounded products `defaultDepth*(1+i)`, ends in the first
round with at most one depth when `defaultDepthStickiness > 0.9`, and without
a depth when `xxlMaxDepth < 0`. Otherwise it ends iff one of the rounds
`i < INT_MAX` pushes a depth above `xxlMaxDepth`; it then holds the depths of
the rounds up to the first such round, whatever
`floor(xxlMaxDepth/defaultDepth) + 1` is. When no such round exists, as for
every `defaultDepth <= 0` with `xxlMaxDepth >= 0`, the exit condition is
never reached and the loop runs into the overflow of its counter. -/
theorem trial_depths_termination (cfg : Config) :
    (cfg.defaultDepthStickiness > 9 / 10 →
      ∃ depths : List ℚ,
        (∀ fuel, 1 ≤ fuel → trialDepthsRun cfg fuel 0 0 = TrialDepthsRun.ended depths) ∧
          depths.length ≤ 1) ∧
    (cfg.xxlMaxDepth < 0 →
      ∀ fuel, 1 ≤ fuel → trialDepthsRun cfg fuel 0 0 = TrialDepthsRun.ended []) ∧
    (cfg.defaultDepthStickiness ≤ 9 / 10 → 0 ≤ cfg.xxlMaxDepth →
      ∀ n, n < 2 ^ 31 - 1 → (∀ k, k < n → depthAt cfg k ≤ cfg.xxlMaxDepth) →
        cfg.xxlMaxDepth < depthAt cfg n →
        ∀ fuel, n + 2 ≤ fuel →
          trialDepthsRun cfg fuel 0 0
            = TrialDepthsRun.ended ((List.range (n + 1)).map (depthAt cfg))) ∧
    (cfg.defaultDepthStickiness ≤ 9 / 10 → 0 ≤ cfg.xxlMaxDepth →
      (∀ k, k < 2 ^ 31 - 1 → depthAt cfg k ≤ cfg.xxlMaxDepth) →
      (∀ fuel depths, trialDepthsRun cfg fuel 0 0 ≠ TrialDepthsRun.ended depths) ∧
        ∀ fuel, 2 ^ 31 ≤ fuel → trialDepthsRun cfg fuel 0 0 = TrialDepthsRun.overflow) ∧
    (cfg.defaultDepth ≤ 0 → cfg.defaultDepthStickiness ≤ 9 / 10 → 0 ≤ cfg.xxlMaxDepth →
      (∀ fuel depths, trialDepthsRun cfg fuel 0 0 ≠ TrialDepthsRun.ended depths) ∧
        ∀ fuel, 2 ^ 31 ≤ fuel → trialDepthsRun cfg fuel 0 0 = TrialDepthsRun.overflow) := by
  have hnever : cfg.defaultDepthStickiness ≤ 9 / 10 → 0 ≤ cfg.xxlMaxDepth →
      (∀ k, k < 2 ^ 31 - 1 → depthAt cfg k ≤ cfg.xxlMaxDepth) →
      (∀ fuel depths, trialDepthsRun cfg fuel 0 0 ≠ TrialDepthsRun.ended depths) ∧
        ∀ fuel, 2 ^ 31 ≤ fuel → trialDepthsRun cfg fuel 0 0 = TrialDepthsRun.overflow := by
    intro hs hM hle
    constructor
    · intro fuel depths h
      rcases (trialDepthsRun_never cfg hs hle fuel 0 0 hM).1 with e | e
      · rw [e] at h
        cases h
      · rw [e] at h
        cases h
    · intro fuel hf
      exact (trialDepthsRun_never cfg hs hle fuel 0 0 hM).2 (by omega)
  refine ⟨?_, ?_, ?_, hnever, ?_⟩
  · intro hs
    by_cases hM : (0 : ℚ) ≤ cfg.xxlMaxDepth
    · refine ⟨[depthAt cfg 0], ?_, by simp⟩
      intro fuel hf
      obtain ⟨f, rfl⟩ : ∃ f, fuel = f + 1 := ⟨fuel - 1, by omega⟩
      rw [trialDepthsRun_succ, if_pos hM, if_neg (by norm_num), if_pos hs]
    · refine ⟨[], ?_, by simp⟩
      intro fuel hf
      obtain ⟨f, rfl⟩ : ∃ f, fuel = f + 1 := ⟨fuel - 1, by omega⟩
      rw [trialDepthsRun_succ, if_neg hM]
  · intro hM fuel hf
    obtain ⟨f, rfl⟩ : ∃ f, fuel = f + 1 := ⟨fuel - 1, by omega⟩
    rw [trialDepthsRun_succ, if_neg (not_le.mpr hM)]
  · intro hs hM n hn hle hgt fuel hf
    have h := trialDepthsRun_ends cfg n hs hn hle hgt n 0 fuel 0 (by omega) hM hf
    rw [h]
    congr 1
    apply List.map_congr_left
    intro j _
    simp only [Nat.zero_add]
  · intro hd hs hM
    exact hnever hs hM (fun k _ => le_trans (depthAt_nonpos cfg hd k) hM)

theorem trial_depths_termination_witness :
    trialDepthsRun { exConfig with defaultDepth := 0 } (2 ^ 31) 0 0 = TrialDepthsRun.overflow ∧
      trialDepthsRun { exConfig with defaultDepth := 1, xxlMaxDepth := 2 ^ 40 } (2 ^ 31) 0 0
        = TrialDepthsRun.overflow ∧
      trialDepthsRun exConfig 12 0 0
        = TrialDepthsRun.ended ((List.range 11).map (depthAt exConfig)) :=
  ⟨((trial_depths_termination { exConfig with defaultDepth := 0 }).2.2.2.2
      (by norm_num [exConfig]) (by norm_num [exConfig]) (by norm_num [exConfig])).2 (2 ^ 31)
      (le_refl _),
    ((trial_depths_termination
        { exConfig with defaultDepth := 1, xxlMaxDepth := 2 ^ 40 }).2.2.2.1
      (by norm_num [exConfig]) (by norm_num) depthAt_unit).2 (2 ^ 31) (le_refl _),
    (trial_depths_termination exConfig).2.2.1 (by norm_num [exConfig]) (by norm_num [exConfig])
      10 (by norm_num)
      (by
        intro k hk
        rw [depthAt_exConfig k (by omega)]
        have : (k : ℚ) ≤ 9 := by exact_mod_cast (by omega : k ≤ 9)
        show 10 * (1 + (k : ℚ)) ≤ 100
        linarith)
      (by
        rw [depthAt_exConfig 10 (by norm_num)]
        show (100 : ℚ) < 10 * (1 + ((10 : Nat) : ℚ))
        norm_num)
      12 (le_refl _)⟩

/-! ## No operation but the intake of `_process` sets the XXL flag -/

theorem mem_xxlIds (pool : List Pick) (id : PickID) :
    id ∈ xxlIds pool ↔ ∃ q ∈ pool, q.xxl = true ∧ q.id = id := by
  unfold xxlIds
  simp only [List.mem_map, List.mem_filter]
  constructor
  · rintro ⟨q, ⟨h1, h2⟩, h3⟩
    exact ⟨q, h1, h2, h3⟩
  · rintro ⟨q, h1, h2, h3⟩
    exact ⟨q, ⟨h1, h2⟩, h3⟩

theorem constTail_xxlIds (tail : ConstTail) (p : Pick) (st : State) (id : PickID)
    (h : id ∈ xxlIds (tail.locate p st).2.pickPool) : id ∈ xxlIds st.pickPool := by
  rw [mem_xxlIds] at h ⊢
  obtain ⟨q, hq, hx, hid⟩ := h
  unfold ConstTail.locate at hq
  simp only [List.mem_map] at hq
  obtain ⟨q0, hq0, rfl⟩ := hq
  exact ⟨q0, hq0, hx, hid⟩

theorem xxlIds_writePick_flag (s : State) (pick : Pick) (id : PickID)
    (h : id ∈ xxlIds (writePick s pick).pickPool) :
    (id = pick.id ∧ pick.xxl = true) ∨ id ∈ xxlIds s.pickPool := by
  rw [mem_xxlIds] at h
  obtain ⟨q', hq', hx, hid⟩ := h
  unfold writePick at hq'
  simp only [List.mem_map] at hq'
  obtain ⟨q, hq, rfl⟩ := hq'
  by_cases hc : q.id = pick.id
  · simp only [hc, if_true] at hx hid
    exact Or.inl ⟨hid.symm, hx⟩
  · simp only [hc, if_false] at hx hid
    exact Or.inr ((mem_xxlIds _ _).mpr ⟨q, hq, hx, hid⟩)

/-- The picks that carry the flag behind `_process` carried it before, the
processed pick aside, which carries it behind the tagging. -/
theorem process_xxlIds_flag (cfg : Config) (ext : Collaborators) (pick : Pick) (s : State)
    (hloc : ∀ p st id, id ∈ xxlIds (ext.locate p st).2.pickPool → id ∈ xxlIds st.pickPool)
    (id : PickID) (h : id ∈ xxlIds (_process cfg ext pick s).state.pickPool) :
    (id = pick.id ∧ (tagXXL cfg pick).xxl = true) ∨ id ∈ xxlIds s.pickPool := by
  have hw : ∀ id, id ∈ xxlIds (writePick s (normalize cfg (tagXXL cfg pick))).pickPool →
      (id = pick.id ∧ (tagXXL cfg pick).xxl = true) ∨ id ∈ xxlIds s.pickPool := by
    intro id h
    rcases xxlIds_writePick_flag _ _ _ h with ⟨h1, h2⟩ | h1
    · left
      rw [intake_pick_id] at h1
      exact ⟨h1, h2⟩
    · exact Or.inr h1
  unfold _process at h
  split at h
  · exact Or.inr h
  · split at h
    · exact Or.inr h
    · simp only at h
      split at h
      · rcases xxlIds_writePick_flag _ _ _ h with ⟨h1, h2⟩ | h1
        · left
          rw [h1]
          exact ⟨intake_pick_id cfg pick, h2⟩
        · exact hw _ h1
      · split at h
        · exact hw _ h
        · split at h
          · split at h
            · exact hw _ h
            · exact hw _ h
          · split at h
            · exact hw _ h
            · split at h
              · exact hw _ h
              · exact hw _ (hloc _ _ _ h)

theorem cleanup_xxlIds (cfg : Config) (utc : Time) (minTime : Time) (s : State) (id : PickID)
    (h : id ∈ xxlIds (cleanup cfg utc minTime s).pickPool) : id ∈ xxlIds s.pickPool := by
  have hsub : ∀ q ∈ (cleanup cfg utc minTime s).pickPool, q ∈ s.pickPool := by
    intro q hq
    unfold cleanup at hq
    split_ifs at hq
    · exact hq
    · exact hq
    · exact (List.mem_filter.mp hq).1
    · exact (List.mem_filter.mp hq).1
  rw [mem_xxlIds] at h ⊢
  obtain ⟨q, hq, hx, hid⟩ := h
  exact ⟨q, hsub q hq, hx, hid⟩

theorem addStationInfo_xxl (ext : Collaborators) (pick : Pick) :
    (_addStationInfo ext pick).2.xxl = pick.xxl := by
  unfold _addStationInfo
  split_ifs
  · rfl
  · split <;> rfl

theorem store_xxlIds (cfg : Config) (ext : Collaborators) (utc : Time) (s : State) (pick : Pick)
    (hx : pick.xxl = false) (id : PickID)
    (h : id ∈ xxlIds (_store cfg ext utc s pick).2.2.pickPool) : id ∈ xxlIds s.pickPool := by
  rw [store_eq] at h
  split_ifs at h
  · rw [storeAccepted_pool] at h
    split_ifs at h
    · rw [mem_xxlIds] at h ⊢
      obtain ⟨q, hq, hqx, hid⟩ := h
      have hq' := (poolInsert_perm s.pickPool (_addStationInfo ext pick).2).mem_iff.mp hq
      rcases List.mem_cons.mp hq' with e | e
      · rw [e, addStationInfo_xxl, hx] at hqx
        cases hqx
      · exact ⟨q, e, hqx, hid⟩
    · exact h
  · exact h

/-- C8: a pick that enters `_process` with `xxl = false` and leaves it with
`xxl = true` has `amp >= xxlMinAmplitude` and `snr >= xxlMinSNR`, and XXL mode
is enabled. No other operation sets the flag: `_flush`, `report` and
`_setBlacklisted` leave the pick pool as it is; `cleanup` only erases pool
records; `_store` inserts the fed pick with the flag it comes with; the
functions that `_process` calls behind the intake reach a pool record through
`setOrigin` only (`ConstTail`), so that behind `_process` the flagged pool
picks are the previously flagged ones and possibly the processed pick; and
behind `feed` of a pick that comes without the flag, a pool pick that carries
the flag carried it before, or it is the fed pick, XXL mode is enabled and the
pool record of the pick meets the two thresholds. -/
theorem xxl_flag_implies_thresholds (cfg : Config) (ext : Collaborators) (utc : Time)
    (pick : Pick) (s : State) (tail : ConstTail) :
    (pick.xxl = false → (_process cfg ext pick s).pick.xxl = true →
      cfg.xxlEnabled = true ∧ cfg.xxlMinAmplitude ≤ pick.amp ∧ cfg.xxlMinSNR ≤ pick.snr) ∧
    (_flush cfg ext utc s).pickPool = s.pickPool ∧
    (report cfg ext utc s).pickPool = s.pickPool ∧
    (∀ yes, (_setBlacklisted s pick yes).pickPool = s.pickPool) ∧
    (∀ minTime, ∀ id ∈ xxlIds (cleanup cfg utc minTime s).pickPool, id ∈ xxlIds s.pickPool) ∧
    (pick.xxl = false →
      ∀ id ∈ xxlIds (_store cfg ext utc s pick).2.2.pickPool, id ∈ xxlIds s.pickPool) ∧
    (∀ id ∈ xxlIds (_process cfg { ext with locate := tail.locate } pick s).state.pickPool,
      id = pick.id ∨ id ∈ xxlIds s.pickPool) ∧
    (pick.xxl = false →
      ∀ id ∈ xxlIds (feed cfg { ext with locate := tail.locate } utc pick s).2.pickPool,
        id ∈ xxlIds s.pickPool ∨
          (id = pick.id ∧ cfg.xxlEnabled = true ∧
            ∃ record,
              Autoloc.pick (_store cfg { ext with locate := tail.locate } utc
                { s with _newOrigins := [] } pick).2.2 pick.id = some record ∧
              cfg.xxlMinAmplitude ≤ record.amp ∧ cfg.xxlMinSNR ≤ record.snr)) := by
  have hloc : ∀ p st id,
      id ∈ xxlIds (({ ext with locate := tail.locate } : Collaborators).locate p st).2.pickPool →
      id ∈ xxlIds st.pickPool := fun p st id h => constTail_xxlIds tail p st id h
  refine ⟨?_, flush_pickPool cfg ext utc s, report_pickPool cfg ext utc s, ?_, ?_, ?_, ?_, ?_⟩
  · intro hx hafter
    cases hv : valid ext pick with
    | false =>
      rw [process_of_invalid _ _ _ _ hv] at hafter
      rw [hx] at hafter
      cases hafter
    | true =>
      cases hs : (automatic pick && _tooLowSNR cfg pick) with
      | true =>
        have hp : _process cfg ext pick s = ⟨false, pick, s⟩ := by
          simp [_process, hv, hs]
        rw [hp] at hafter
        rw [hx] at hafter
        cases hafter
      | false =>
        rw [process_pick_xxl _ _ _ _ hv hs, tagXXL_xxl, hx] at hafter
        rcases hafter with h | ⟨h1, h2, h3⟩
        · cases h
        · exact ⟨h1, h2, le_of_lt h3⟩
  · intro yes
    unfold _setBlacklisted
    split <;> rfl
  · intro minTime id h
    exact cleanup_xxlIds cfg utc minTime s id h
  · intro hx id h
    exact store_xxlIds cfg ext utc s pick hx id h
  · intro id h
    rcases process_xxlIds_flag cfg _ pick s hloc id h with ⟨h1, _⟩ | h1
    · exact Or.inl h1
    · exact Or.inr h1
  · intro hx id h
    have hstore : ∀ id, id ∈ xxlIds (_store cfg { ext with locate := tail.locate } utc
        { s with _newOrigins := [] } pick).2.2.pickPool → id ∈ xxlIds s.pickPool :=
      fun id h => store_xxlIds cfg _ utc { s with _newOrigins := [] } pick hx id h
    unfold feed at h
    simp only [] at h
    split_ifs at h with c1 c2
    · exact Or.inl (hstore id h)
    · exact Or.inl (hstore id h)
    · cases hrec : Autoloc.pick (_store cfg { ext with locate := tail.locate } utc
          { s with _newOrigins := [] } pick).2.2 pick.id with
      | none =>
        rw [hrec] at h
        exact Or.inl (hstore id h)
      | some record =>
        rw [hrec] at h
        simp only [] at h
        have hproc : id ∈ xxlIds (_process cfg { ext with locate := tail.locate } record
            (_store cfg { ext with locate := tail.locate } utc
              { s with _newOrigins := [] } pick).2.2).state.pickPool := by
          split_ifs at h
          · exact cleanup_xxlIds _ _ _ _ _ h
          · rw [report_pickPool] at h
            exact cleanup_xxlIds _ _ _ _ _ h
        have hrid : record.id = pick.id := by
          unfold Autoloc.pick at hrec
          have := List.find?_some hrec
          simpa using this
        have hrmem : record ∈ (_store cfg { ext with locate := tail.locate } utc
            { s with _newOrigins := [] } pick).2.2.pickPool := by
          unfold Autoloc.pick at hrec
          exact List.mem_of_find?_eq_some hrec
        rcases process_xxlIds_flag cfg _ record _ hloc id hproc with ⟨h1, h2⟩ | h1
        · rw [tagXXL_xxl] at h2
          rcases h2 with h2 | ⟨e1, e2, e3⟩
          · left
            apply hstore
            rw [mem_xxlIds]
            exact ⟨record, hrmem, h2, h1.symm⟩
          · right
            exact ⟨h1.trans hrid, e1, record, rfl, e2, le_of_lt e3⟩
        · exact Or.inl (hstore id h1)

/-- C8, at a concrete pick: amplitude 5000 and snr 9 set the flag, and the
thresholds 1000 and 8 are met. -/
theorem xxl_flag_implies_thresholds_witness :
    exConfig.xxlEnabled = true ∧
      exConfig.xxlMinAmplitude ≤ (exPick "p1" 0 5000 9 PickMode.Automatic).amp ∧
      exConfig.xxlMinSNR ≤ (exPick "p1" 0 5000 9 PickMode.Automatic).snr :=
  (xxl_flag_implies_thresholds exConfig exCollab 0 (exPick "p1" 0 5000 9 PickMode.Automatic)
    (exState 0) ⟨fun _ s => (true, s), fun _ _ q => q.origin⟩).1 rfl
    (by
      rw [process_pick_xxl _ _ _ _ (by norm_num [valid, automatic, exCollab, exPick])
        (by norm_num [_tooLowSNR, automatic, exConfig, exPick])]
      norm_num [tagXXL, exConfig, exPick])


/-! ## The association test of the recent-pick-rate gate -/

theorem recentPickStep_associated (cfg : Config) (newPick old : Pick) (acc : ℚ × ℚ)
    (hassoc : newPick.origin.isSome = true) : recentPickStep cfg newPick acc old = acc := by
  unfold recentPickStep
  simp only [hassoc, if_true]
  split_ifs <;> rfl

theorem recentPickLoop_associated (cfg : Config) (newPick : Pick) (pool : List Pick)
    (acc : ℚ × ℚ) (hassoc : newPick.origin.isSome = true) :
    pool.foldl (recentPickStep cfg newPick) acc = acc := by
  induction pool generalizing acc with
  | nil => rfl
  | cons old rest ih =>
    rw [List.foldl_cons, recentPickStep_associated cfg newPick old acc hassoc]
    exact ih acc

/-- C9: the test `newPick->origin()` inside the loop of `_tooManyRecentPicks`
looks at the new pick, not at the old pick of the iteration. When the new
pick is associated to an origin, every pool pick is skipped, the weighted sum
and `prevThreshold` stay 0, and the gate lets the pick pass whatever the
recent picks on its station are; when it is not, no pool pick is skipped by
this test, associated or not. -/
theorem gate_tests_the_new_pick (cfg : Config) (pool : List Pick) (newPick : Pick) :
    (newPick.origin.isSome = true → 0 < newPick.snr →
      pool.foldl (recentPickStep cfg newPick) (0, 0) = (0, 0) ∧
        _tooManyRecentPicks cfg pool newPick = false) ∧
    (newPick.origin = none → ∀ (old : Pick) (owner : Option OriginID) (acc : ℚ × ℚ),
      recentPickStep cfg newPick acc { old with origin := owner }
        = recentPickStep cfg newPick acc old) := by
  constructor
  · intro hassoc hpos
    have hfold := recentPickLoop_associated cfg newPick pool (0, 0) hassoc
    refine ⟨hfold, ?_⟩
    unfold _tooManyRecentPicks recentPickWeight
    rw [hfold]
    simp only [zero_mul, not_le.mpr hpos, not_lt.mpr (le_of_lt hpos), if_false]
    split_ifs <;> rfl
  · intro hfree old owner acc
    unfold recentPickStep manual
    rfl

/-- C9, at the failing input: the new pick of snr 4 is associated to origin
7 and two picks of snr 15 that are not associated precede it on the station.
The weight of the specification is `0.14 * (15 + 15) = 4.2 > 4`, yet the gate
returns false, and `_process` returns true and leaves the mode of the pick as
it is. -/
theorem gate_tests_the_new_pick_witness :
    ({ exPick "n" 0 10 4 PickMode.Automatic with origin := some 7 } : Pick).snr <
        specRecentPickWeight exConfig
          [exPick "a1" 0 10 15 PickMode.Automatic, exPick "a2" 0 10 15 PickMode.Automatic,
            { exPick "n" 0 10 4 PickMode.Automatic with origin := some 7 }]
          { exPick "n" 0 10 4 PickMode.Automatic with origin := some 7 } ∧
      _tooManyRecentPicks exConfig
          [exPick "a1" 0 10 15 PickMode.Automatic, exPick "a2" 0 10 15 PickMode.Automatic,
            { exPick "n" 0 10 4 PickMode.Automatic with origin := some 7 }]
          { exPick "n" 0 10 4 PickMode.Automatic with origin := some 7 } = false ∧
      (_process exConfig exCollab { exPick "n" 0 10 4 PickMode.Automatic with origin := some 7 }
        (exPool [exPick "a1" 0 10 15 PickMode.Automatic, exPick "a2" 0 10 15 PickMode.Automatic,
          { exPick "n" 0 10 4 PickMode.Automatic with origin := some 7 }])).status = true ∧
      (_process exConfig exCollab { exPick "n" 0 10 4 PickMode.Automatic with origin := some 7 }
        (exPool [exPick "a1" 0 10 15 PickMode.Automatic, exPick "a2" 0 10 15 PickMode.Automatic,
          { exPick "n" 0 10 4 PickMode.Automatic with origin := some 7 }])).pick.mode
        = PickMode.Automatic := by
  have e3 : ¬ ("a1" : String) = "n" := by decide
  have e4 : ¬ ("a2" : String) = "n" := by decide
  have e5 : ¬ PickMode.Automatic = PickMode.Manual := by decide
  refine ⟨?_, ?_, ?_, ?_⟩
  · norm_num [specRecentPickWeight, windowSum, inWindow, pickWeight, exConfig, exPick]
  · exact ((gate_tests_the_new_pick exConfig
      [exPick "a1" 0 10 15 PickMode.Automatic, exPick "a2" 0 10 15 PickMode.Automatic,
        { exPick "n" 0 10 4 PickMode.Automatic with origin := some 7 }]
      { exPick "n" 0 10 4 PickMode.Automatic with origin := some 7 }).1 rfl
      (by norm_num [exPick])).2
  · norm_num [_process, valid, automatic, manual, _tooLowSNR, tagXXL, normalize, writePick,
      _tooManyRecentPicks, recentPickWeight, recentPickStep, clampSNR, _blacklisted,
      _followsBiggerPick, exConfig, exCollab, exPool, exState, exPick, e3, e4, e5]
  · norm_num [_process, valid, automatic, manual, _tooLowSNR, tagXXL, normalize, writePick,
      _tooManyRecentPicks, recentPickWeight, recentPickStep, clampSNR, _blacklisted,
      _followsBiggerPick, exConfig, exCollab, exPool, exState, exPick, e3, e4, e5]

end Autoloc
